import Mathlib

/-!
# AIR to AIE lowering

A shallow embedding of `mlir/lib/Conversion/AIRToAIEPass.cpp`: the resource
allocators (physical tiles, shim tiles, shim DMA channels, tile DMA channels
and locks), the outlining of herds into cores, the rewrite patterns of the
core bodies (`affine.if`, loop-carried tokens, pipeline handoffs, channels and
channel bundles), the descriptor chains and the metadata table, and the loop
of the pass over the devices, with theorems about them.

Conventions of the embedding.

* An MLIR operation handle (`AIE::TileOp`, `AIE::LockOp`, ...) is a record
  carrying a `uid`, which stands for the address of the operation, together
  with the attributes the pass reads.  Creating an operation takes the uid
  from the counter `DeviceOp.nextUid`.
* The body of an `AIE::DeviceOp` is the ordered list of its operations.
* C++ `int`, `int32_t` and `int64_t` values are `Int`; the places where the
  source converts to an unsigned or narrower type are modelled by `toSizeT`,
  `toUInt32` and `toInt32`.
* A function that can read a `std::vector` past its end, fail an `assert` or
  reach `llvm_unreachable` returns `Except Fault _`.
-/

set_option autoImplicit false

namespace AIRToAIE

/-! ## Data model -/

/-- Ways in which the embedded code can leave defined behaviour. None of them
is an error that the code reports: they are what the C++ does when a
precondition is broken. -/
inductive Fault where
  /-- A read `std::vector::operator[]` with an index that is not below `size()`. -/
  | indexOutOfRange
  /-- A failed `assert`. -/
  | assertionFailed
  /-- An `llvm_unreachable` that is reached. -/
  | unreachableReached
  /-- An integer division or remainder by zero. -/
  | divisionByZero
  /-- A use of a null operation handle or of the missing defining operation of
  a block argument. -/
  | nullDereference
  deriving DecidableEq, Repr

/-- Architecture of a target model (`AIE::AIEArch`). -/
inductive AIEArch where
  | AIE1
  | AIE2
  deriving DecidableEq, Repr

/-- The part of `AIE::AIETargetModel` the allocators read. -/
structure AIETargetModel where
  arch : AIEArch
  columns : Int
  isShimNOCTile : Int → Int → Bool

/-- Handle of an `AIE::TileOp`: physical tile at `(col, row)`. -/
structure TileOp where
  uid : Nat
  col : Int
  row : Int
  deriving DecidableEq, Repr

/-- Handle of an `AIE::LockOp`. The lock id is the dialect's non-negative
integer attribute, hence a natural number; `init` is the initial value. -/
structure LockOp where
  uid : Nat
  tile : TileOp
  lockID : Nat
  init : Int
  deriving DecidableEq, Repr

/-- Handle of an `AIE::BufferOp`, a buffer owned by `tile`. -/
structure BufferOp where
  uid : Nat
  tile : TileOp
  deriving DecidableEq, Repr

/-- Direction of a DMA channel (`AIE::DMAChannelDir`). -/
inductive DMAChannelDir where
  | S2MM
  | MM2S
  deriving DecidableEq, Repr

/-- A DMA channel (`AIE::DMAChannel`), a pair of direction and index. -/
abbrev DMAChannel := DMAChannelDir × Int

/-- Wire bundles (`AIE::WireBundle`); the pass only routes DMA bundles here. -/
inductive WireBundle where
  | DMA
  deriving DecidableEq, Repr

/-- Handle of an `AIE::FlowOp`. -/
structure FlowOp where
  uid : Nat
  source : TileOp
  sourceBundle : WireBundle
  sourceChannel : Nat
  dest : TileOp
  destBundle : WireBundle
  destChannel : Nat
  deriving DecidableEq, Repr

/-- Types of values, as far as the pass tells them apart. -/
inductive Ty where
  | index
  | asyncToken
  | memref (memorySpace : Int)
  | rankedTensor
  | other
  deriving DecidableEq, Repr

/-- What `getDefiningOp` of a value gives the pass: an `arith::ConstantIndexOp`
with its value, a `memref::AllocOp`, another operation, or nothing for a block
argument. The number is the `uid` of the defining operation. -/
inductive Definer where
  | constantIndex (value : Int)
  | alloc (uid : Nat)
  | operation (uid : Nat)
  | blockArgument
  deriving DecidableEq, Repr

/-- An SSA value: its identity, its type and its defining operation. -/
structure Value where
  id : Nat
  ty : Ty
  definer : Definer
  deriving DecidableEq, Repr

/-- Actions of `AIE::UseLockOp` (`AIE::LockAction`). -/
inductive LockAction where
  | Acquire
  | AcquireGreaterEqual
  | Release
  deriving DecidableEq, Repr

/-- Ports of an object fifo (`AIE::ObjectFifoPort`). -/
inductive ObjectFifoPort where
  | Produce
  | Consume
  deriving DecidableEq, Repr

/-- The operations of a block that the pass creates or inspects, each with the
values it uses. `other` stands for every other operation; its `operands` are
all values it uses, those used inside its regions included, so that replacing
the uses of a value reaches them. -/
inductive OpKind where
  | constantIndex (value : Int)
  | getGlobal (sym_name : String)
  | useLock (lock : LockOp) (value : Int) (action : LockAction)
  | tensorStore (tensor : Value) (buffer : BufferOp)
  | toTensor (buffer : BufferOp)
  | br (dest : Nat)
  | aieEnd
  | herdTerminator
  | call (callee : String) (operands : List Value)
  | alloc
  | dealloc (memref : Value)
  | channelPut (chan_name : String) (async_dependencies indices : List Value) (src : Value)
      (src_offsets src_sizes src_strides : List Value)
  | channelGet (chan_name : String) (async_dependencies indices : List Value) (dst : Value)
      (dst_offsets dst_sizes dst_strides : List Value)
  | pipelinePut (dst0 dst1 : Value) (opers : List Value)
  | pipelineGet
  | objectFifoAcquire (port : ObjectFifoPort) (fifo : String) (size : Int)
  | objectFifoSubviewAccess (subview : Value) (index : Int)
  | objectFifoRelease (port : ObjectFifoPort) (fifo : String) (size : Int)
  | waitAll (async_dependencies : List Value)
  | dmaMemcpyNd (id : Int) (async_dependencies : List Value) (dst src : Value)
  | dmaBd (buffer : BufferOp) (offset len ab : Int)
  | nextBd (dest : Nat)
  | other (name : String) (operands : List Value)
  deriving DecidableEq, Repr

/-- An operation of a block: its identity, its kind with the values it uses,
and its results. -/
structure Operation where
  uid : Nat
  kind : OpKind
  results : List Value
  deriving DecidableEq, Repr

/-- A block: its identity (the target of branches) and its operations. -/
structure Block where
  uid : Nat
  ops : List Operation
  deriving DecidableEq, Repr

/-- Handle of an `AIE::CoreOp` with its body. -/
structure CoreOp where
  uid : Nat
  tile : TileOp
  elf_file : String
  link_with : Option String
  body : List Block
  deriving DecidableEq, Repr

/-- Handle of an `air::ChannelOp` declaration: its symbol name, the bundle
shape `getSize()`, whether it carries the attributes `broadcast_pattern` and
`broadcast_shape`, and the count `getBufferResources()` returns. -/
structure ChannelOp where
  uid : Nat
  sym_name : String
  size : List Int
  broadcast_pattern : Bool
  broadcast_shape : Bool
  buffer_resources : Int
  deriving DecidableEq, Repr

/-- Handle of an `AIE::ObjectFifoCreateOp`: the element type is the memref
type the fifo was made for. -/
structure ObjectFifoCreateOp where
  uid : Nat
  sym_name : String
  datatype : Ty
  producerTile : TileOp
  consumerTiles : List TileOp
  depth : Int
  deriving DecidableEq, Repr

/-- Handle of a `memref::GlobalOp`. -/
structure GlobalOp where
  uid : Nat
  sym_name : String
  ty : Ty
  deriving DecidableEq, Repr

/-- Handle of a `func::FuncOp` declaration. -/
structure FuncOp where
  uid : Nat
  sym_name : String
  deriving DecidableEq, Repr

/-- An operation in the body of a device. `other` stands for every operation
kind that the pass never inspects (memories, ...). -/
inductive Op where
  | tile (t : TileOp)
  | lock (l : LockOp)
  | buffer (b : BufferOp)
  | flow (f : FlowOp)
  | other (uid : Nat)
  | core (c : CoreOp)
  | channel (c : ChannelOp)
  | objectFifo (f : ObjectFifoCreateOp)
  | global (g : GlobalOp)
  | func (f : FuncOp)
  deriving DecidableEq, Repr

/-- An `AIE::DeviceOp`: the architecture of its target model, its body, and
the counter that names the next created operation. -/
structure DeviceOp where
  arch : AIEArch
  body : List Op
  nextUid : Nat
  deriving DecidableEq, Repr

/-- What the allocators read of an `air::DmaMemcpyInterface` operation: its
id, the memory spaces of source and destination, and the `AIE::BufferOp`
defining each memref (`none` when the memref is not defined by a buffer). -/
structure DmaMemcpy where
  id : Int
  srcMemorySpace : Int
  dstMemorySpace : Int
  srcBuffer : Option BufferOp
  dstBuffer : Option BufferOp
  deriving DecidableEq, Repr

/-- Values of `air::MemorySpace`. -/
def MemorySpace.L3 : Int := 0

/-- Values of `air::MemorySpace`. -/
def MemorySpace.L2 : Int := 1

/-- Values of `air::MemorySpace`. -/
def MemorySpace.L1 : Int := 2

/-- Conversion of a signed value to `size_t` / `uint64_t`. -/
def toSizeT (x : Int) : Nat := (x % 2 ^ 64).toNat

/-- Conversion of a signed value to `uint32_t`. -/
def toUInt32 (x : Int) : Nat := (x % 2 ^ 32).toNat

/-- Conversion `(int)x` of an `int64_t` to a 32-bit `int`. -/
def toInt32 (x : Int) : Int := (x + 2 ^ 31) % 2 ^ 32 - 2 ^ 31

/-- The tile operations of a device, in body order. -/
def DeviceOp.tiles (d : DeviceOp) : List TileOp :=
  d.body.filterMap (fun o => match o with
    | Op.tile t => some t
    | _ => none)

/-- The lock operations of a device, in walk order. -/
def DeviceOp.locks (d : DeviceOp) : List LockOp :=
  d.body.filterMap (fun o => match o with
    | Op.lock l => some l
    | _ => none)

/-- The flow operations of a device, in walk order. -/
def DeviceOp.flows (d : DeviceOp) : List FlowOp :=
  d.body.filterMap (fun o => match o with
    | Op.flow f => some f
    | _ => none)

/-! ## Physical tiles -/

/-- Source function `getPhysTileOpOrNull`: the first tile of the device at `(col, row)`. -/
def getPhysTileOpOrNull (aie_device : DeviceOp) (col row : Int) : Option TileOp :=
  aie_device.tiles.find? (fun t => decide (t.col = col ∧ t.row = row))

/-- Insert `new` behind the run of tile operations that starts the list: the
insertion point `getPhysTileOp` computes, and the tail of the one
`allocateLockOp` computes. -/
def insertAfterTiles (new : Op) : List Op → List Op
  | Op.tile t :: rest => Op.tile t :: insertAfterTiles new rest
  | rest => new :: rest

/-- Source function `getPhysTileOp`: the tile at `(col, row)`, created behind the leading
tiles of the body when the device has none. -/
def getPhysTileOp (aie_device : DeviceOp) (col row : Int) : TileOp × DeviceOp :=
  match getPhysTileOpOrNull aie_device col row with
  | some t => (t, aie_device)
  | none =>
    let t : TileOp := { uid := aie_device.nextUid, col := col, row := row }
    (t, { aie_device with
            body := insertAfterTiles (Op.tile t) aie_device.body
            nextUid := aie_device.nextUid + 1 })

/-! ## Shim tile allocator -/

/-- The columns `i` in `[0, columns)` with `isShimNOCTile(i, 0)`, in
increasing order: the loop of both allocator constructors. -/
def shimNOCColumns (target : AIETargetModel) : List Int :=
  ((List.range target.columns.toNat).map Int.ofNat).filter
    (fun i => target.isShimNOCTile i 0)

/-- Source struct `ShimTileAllocator::shim_allocation_info_t`. -/
structure shim_allocation_info_t where
  shim_tile : TileOp
  available_channels : Int
  deriving DecidableEq, Repr

/-- State of a `ShimTileAllocator`. -/
structure ShimTileAllocator where
  shim_columns : List Int
  shim_dma_channels : Int
  mm2s_allocs : List shim_allocation_info_t
  s2mm_allocs : List shim_allocation_info_t
  deriving DecidableEq, Repr

/-- The constructor `ShimTileAllocator(target)`. -/
def ShimTileAllocator.new (target : AIETargetModel) : ShimTileAllocator :=
  { shim_columns := shimNOCColumns target
    shim_dma_channels := 2
    mm2s_allocs := []
    s2mm_allocs := [] }

/-- The pool selected by `isMM2S ? &mm2s_allocs : &s2mm_allocs`. -/
def ShimTileAllocator.allocs (a : ShimTileAllocator) (isMM2S : Bool) :
    List shim_allocation_info_t :=
  if isMM2S then a.mm2s_allocs else a.s2mm_allocs

/-- Store `l` into the pool selected by `isMM2S`. -/
def ShimTileAllocator.setAllocs (a : ShimTileAllocator) (isMM2S : Bool)
    (l : List shim_allocation_info_t) : ShimTileAllocator :=
  if isMM2S then { a with mm2s_allocs := l } else { a with s2mm_allocs := l }

/-- The first loop of `getShimTile`: the first entry with a free channel gives
its tile and loses one channel; `none` when no entry has a free channel. -/
def takeFirstAvailable :
    List shim_allocation_info_t → Option (TileOp × List shim_allocation_info_t)
  | [] => none
  | t :: ts =>
    if t.available_channels > 0 then
      some (t.shim_tile, { t with available_channels := t.available_channels - 1 } :: ts)
    else
      match takeFirstAvailable ts with
      | some (tile, ts') => some (tile, t :: ts')
      | none => none

/-- Source function `ShimTileAllocator::getShimTile`. -/
def ShimTileAllocator.getShimTile (a : ShimTileAllocator) (aie_device : DeviceOp)
    (src_memory_space dst_memory_space : Int) :
    Except Fault (TileOp × ShimTileAllocator × DeviceOp) :=
  let isMM2S : Bool := decide (src_memory_space < dst_memory_space)
  let allocs := a.allocs isMM2S
  match takeFirstAvailable allocs with
  | some (tile, allocs') => .ok (tile, a.setAllocs isMM2S allocs', aie_device)
  | none =>
    match a.shim_columns[allocs.length]? with
    | none => .error Fault.indexOutOfRange
    | some shim_col =>
      let (shim_tile, dev') := getPhysTileOp aie_device shim_col 0
      .ok (shim_tile,
           a.setAllocs isMM2S
             (allocs ++ [{ shim_tile := shim_tile
                           available_channels := a.shim_dma_channels - 1 }]),
           dev')

/-- A sequence of `getShimTile` requests `(src, dst)`, in order; the returned
tiles are collected. The run stops at the first fault. -/
def ShimTileAllocator.getShimTiles (a : ShimTileAllocator) (aie_device : DeviceOp) :
    List (Int × Int) → Except Fault (List TileOp × ShimTileAllocator × DeviceOp)
  | [] => .ok ([], a, aie_device)
  | (src, dst) :: rest =>
    match a.getShimTile aie_device src dst with
    | .error e => .error e
    | .ok (t, a', dev') =>
      match ShimTileAllocator.getShimTiles a' dev' rest with
      | .error e => .error e
      | .ok (ts, a'', dev'') => .ok (t :: ts, a'', dev'')

/-! ## Shim DMA allocator -/

/-- Source struct `DMAAllocator::allocation_info_t`. -/
structure allocation_info_t where
  dma_tile : TileOp
  col : Int
  row : Int
  dma_channel : Int
  tile_channel : Int
  dma_id : List Int
  deriving DecidableEq, Repr

/-- State of a `DMAAllocator`. -/
structure DMAAllocator where
  dma_columns : List Int
  dma_channels : Int
  mm2s_allocs : List allocation_info_t
  s2mm_allocs : List allocation_info_t
  deriving DecidableEq, Repr

/-- The constructor `DMAAllocator(target)`. -/
def DMAAllocator.new (target : AIETargetModel) : DMAAllocator :=
  { dma_columns := shimNOCColumns target
    dma_channels := 2
    mm2s_allocs := []
    s2mm_allocs := [] }

/-- The list selected by `isMM2S ? &mm2s_allocs : &s2mm_allocs`. -/
def DMAAllocator.allocs (a : DMAAllocator) (isMM2S : Bool) : List allocation_info_t :=
  if isMM2S then a.mm2s_allocs else a.s2mm_allocs

/-- Store `l` into the list selected by `isMM2S`. -/
def DMAAllocator.setAllocs (a : DMAAllocator) (isMM2S : Bool)
    (l : List allocation_info_t) : DMAAllocator :=
  if isMM2S then { a with mm2s_allocs := l } else { a with s2mm_allocs := l }

/-- The search loop of `DMAAllocator::getTile`: the first entry at `(col, row)`
that holds `id`, or whose `tile_channel` is the requested one (the id is then
added to it). `none` when the loop falls through. -/
def findDmaTile (id tile_channel col row : Int) :
    List allocation_info_t → Option (TileOp × List allocation_info_t)
  | [] => none
  | t :: ts =>
    if col = t.col ∧ row = t.row then
      if id ∈ t.dma_id then
        some (t.dma_tile, t :: ts)
      else if tile_channel = t.tile_channel then
        some (t.dma_tile, { t with dma_id := t.dma_id ++ [id] } :: ts)
      else
        match findDmaTile id tile_channel col row ts with
        | some (tile, ts') => some (tile, t :: ts')
        | none => none
    else
      match findDmaTile id tile_channel col row ts with
      | some (tile, ts') => some (tile, t :: ts')
      | none => none

/-- Source function `DMAAllocator::getTile`. -/
def DMAAllocator.getTile (a : DMAAllocator) (aie_device : DeviceOp) (dmaOp : DmaMemcpy)
    (tile_channel col row : Int) : Except Fault (TileOp × DMAAllocator × DeviceOp) :=
  if dmaOp.srcMemorySpace = dmaOp.dstMemorySpace then
    .error Fault.assertionFailed
  else
    let isMM2S : Bool := decide (dmaOp.srcMemorySpace < dmaOp.dstMemorySpace)
    let allocs := a.allocs isMM2S
    match findDmaTile dmaOp.id tile_channel col row allocs with
    | some (tile, allocs') => .ok (tile, a.setAllocs isMM2S allocs', aie_device)
    | none =>
      if toSizeT a.dma_channels = 0 then
        .error Fault.divisionByZero
      else
        match a.dma_columns[allocs.length / toSizeT a.dma_channels]? with
        | none => .error Fault.indexOutOfRange
        | some dma_col =>
          let dma_channel : Nat := allocs.length % toSizeT a.dma_channels
          let (dma_tile, dev') := getPhysTileOp aie_device dma_col 0
          .ok (dma_tile,
               a.setAllocs isMM2S
                 (allocs ++ [{ dma_tile := dma_tile
                               col := col
                               row := row
                               dma_channel := (dma_channel : Int)
                               tile_channel := tile_channel
                               dma_id := [dmaOp.id] }]),
               dev')

/-- One iteration of the loop of `DMAAllocator::getChannel`. -/
def channelStep (id tile_channel col row : Int) (chan : Int) (t : allocation_info_t) : Int :=
  if col = t.col ∧ row = t.row then
    let chan1 := if id ∈ t.dma_id then t.dma_channel else chan
    if tile_channel = t.tile_channel then t.dma_channel else chan1
  else chan

/-- Source function `DMAAllocator::getChannel`. The allocator is not modified. -/
def DMAAllocator.getChannel (a : DMAAllocator) (dmaOp : DmaMemcpy)
    (tile_channel : DMAChannel) (col row : Int) : Except Fault DMAChannel :=
  if dmaOp.srcMemorySpace = dmaOp.dstMemorySpace then
    .error Fault.assertionFailed
  else
    let isMM2S : Bool := decide (dmaOp.srcMemorySpace < dmaOp.dstMemorySpace)
    let chan := (a.allocs isMM2S).foldl (channelStep dmaOp.id tile_channel.2 col row) (-1)
    if chan = -1 then
      .error Fault.assertionFailed
    else if isMM2S then
      .ok (DMAChannelDir.MM2S, toInt32 chan)
    else
      .ok (DMAChannelDir.S2MM, toInt32 chan)

/-- A shim request as `getDmaSchedules` issues it: `getTile` followed by
`getChannel` for the same transfer, tile channel and coordinates. -/
def DMAAllocator.request (a : DMAAllocator) (aie_device : DeviceOp) (dmaOp : DmaMemcpy)
    (tile_channel : DMAChannel) (col row : Int) :
    Except Fault ((TileOp × DMAChannel) × DMAAllocator × DeviceOp) :=
  match a.getTile aie_device dmaOp tile_channel.2 col row with
  | .error e => .error e
  | .ok (tile, a', dev') =>
    match a'.getChannel dmaOp tile_channel col row with
    | .error e => .error e
    | .ok chan => .ok ((tile, chan), a', dev')

/-- A `getTile` request: the transfer, the tile channel and the coordinates. -/
structure TileRequest where
  dmaOp : DmaMemcpy
  tile_channel : Int
  col : Int
  row : Int
  deriving DecidableEq, Repr

/-- The `(col, row, tile_channel)` triple of a request. -/
def TileRequest.triple (r : TileRequest) : Int × Int × Int :=
  (r.col, r.row, r.tile_channel)

/-- The `(col, row, tile_channel)` triple of an allocation entry. -/
def allocation_info_t.triple (t : allocation_info_t) : Int × Int × Int :=
  (t.col, t.row, t.tile_channel)

/-- A sequence of `getTile` requests, in order; the returned tiles are
collected. The run stops at the first fault. -/
def DMAAllocator.getTiles (a : DMAAllocator) (aie_device : DeviceOp) :
    List TileRequest → Except Fault (List TileOp × DMAAllocator × DeviceOp)
  | [] => .ok ([], a, aie_device)
  | r :: rest =>
    match a.getTile aie_device r.dmaOp r.tile_channel r.col r.row with
    | .error e => .error e
    | .ok (t, a', dev') =>
      match DMAAllocator.getTiles a' dev' rest with
      | .error e => .error e
      | .ok (ts, a'', dev'') => .ok (t :: ts, a'', dev'')

/-- The distinct triples of a request sequence, in order of first occurrence. -/
def distinctTriples (reqs : List TileRequest) : List (Int × Int × Int) :=
  reqs.foldl (fun acc r => if r.triple ∈ acc then acc else acc ++ [r.triple]) []

/-! ## Locks -/

/-- One visit of the walk in `allocateLockOp`: a lock of `tile` records its id
in `ids`, and becomes the found lock when its id is the requested one. -/
def lockWalkStep (tile : TileOp) (id : Int) (acc : Option LockOp × List Nat)
    (l : LockOp) : Option LockOp × List Nat :=
  if l.tile = tile then
    (if (l.lockID : Int) = id then some l else acc.1, acc.2 ++ [l.lockID])
  else acc

/-- The loop `while (ids.count(new_id)) new_id++`, started at `n`, with at
most `fuel` increments. `allocateLockOp` runs it with more fuel than there are
ids, which `firstUnusedFrom_least` shows to be enough. The 32-bit range of
`new_id` is not modelled: it would take `2 ^ 31` locks on one tile to leave
it. -/
def firstUnusedFrom (ids : List Nat) : Nat → Nat → Nat
  | 0, n => n
  | fuel + 1, n => if n ∈ ids then firstUnusedFrom ids fuel (n + 1) else n

/-- The insertion point of `allocateLockOp`: behind the run of tile operations
that starts at `tile`. When `tile` is not an operation of this body the created
operation lands next to the tile, outside this body, which stays as it is. -/
def insertAfterTileRun (new : Op) (tile : TileOp) : List Op → List Op
  | [] => []
  | o :: rest =>
    if o = Op.tile tile then o :: insertAfterTiles new rest
    else o :: insertAfterTileRun new tile rest

/-- Source function `allocateLockOp` (the defaults of the source are `init = 0`, `id = -1`). -/
def allocateLockOp (aie_device : DeviceOp) (tile : TileOp) (init id : Int) :
    LockOp × DeviceOp :=
  let found := aie_device.locks.foldl (lockWalkStep tile id) (none, [])
  match found.1 with
  | some lock => (lock, aie_device)
  | none =>
    let ids := found.2
    let new_id : Nat := if id > 0 then id.toNat else firstUnusedFrom ids (ids.length + 1) 0
    let lock : LockOp :=
      { uid := aie_device.nextUid, tile := tile, lockID := new_id, init := init }
    (lock, { aie_device with
               body := insertAfterTileRun (Op.lock lock) tile aie_device.body
               nextUid := aie_device.nextUid + 1 })

/-- A sequence of `allocateLockOp` calls `(tile, init, id)`, in order. -/
def allocateLockOps (aie_device : DeviceOp) : List (TileOp × Int × Int) → DeviceOp
  | [] => aie_device
  | (tile, init, id) :: rest => allocateLockOps (allocateLockOp aie_device tile init id).2 rest

/-! ## Tile DMA channels and lock pairs of the pass -/

/-- The allocation state of `AIRToAIEPass`: entries `(id, col, row, chan)`. -/
structure AIRToAIEPass where
  tile_dma_S2MM_allocs : List (Int × Int × Int × Int)
  tile_dma_MM2S_allocs : List (Int × Int × Int × Int)
  deriving DecidableEq, Repr

/-- The constant `tile_dma_channels`. -/
def tile_dma_channels : Int := 2

/-- One iteration of the loop of `getTileDMAChannel` over entries
`(id, col, row, chan)`; the state is `(chan, num_allocs)`. The counter
`num_allocs` is an `unsigned`; its wrap at `2 ^ 32` entries is not modelled. -/
def tileChannelStep (id col row : Int) (acc : Int × Nat) (t : Int × Int × Int × Int) :
    Int × Nat :=
  if col = t.2.1 ∧ row = t.2.2.1 then
    (if id = t.1 then t.2.2.2 else acc.1, acc.2 + 1)
  else acc

/-- Source function `AIRToAIEPass::getTileDMAChannel`. -/
def AIRToAIEPass.getTileDMAChannel (p : AIRToAIEPass) (dmaOp : DmaMemcpy) (col row : Int) :
    DMAChannel × AIRToAIEPass :=
  let isMM2S : Bool := decide (dmaOp.srcMemorySpace > dmaOp.dstMemorySpace)
  let all_tile_dma_allocs := if isMM2S then p.tile_dma_MM2S_allocs else p.tile_dma_S2MM_allocs
  let found := all_tile_dma_allocs.foldl (tileChannelStep dmaOp.id col row) (-1, 0)
  let chan : Int := if found.1 = -1 then ((found.2 % toUInt32 tile_dma_channels : Nat) : Int)
                    else found.1
  let allocs' := if found.1 = -1 then all_tile_dma_allocs ++ [(dmaOp.id, col, row, chan)]
                 else all_tile_dma_allocs
  let p' : AIRToAIEPass :=
    if isMM2S then { p with tile_dma_MM2S_allocs := allocs' }
    else { p with tile_dma_S2MM_allocs := allocs' }
  if isMM2S then ((DMAChannelDir.MM2S, toInt32 chan), p')
  else ((DMAChannelDir.S2MM, toInt32 chan), p')

/-- The free function `isMM2S(channel)`. -/
def isMM2S (channel : DMAChannel) : Bool := decide (channel.1 = DMAChannelDir.MM2S)

/-- Source function `AIRToAIEPass::getBufferForTileDMA`; `none` is the null buffer. -/
def AIRToAIEPass.getBufferForTileDMA (p : AIRToAIEPass) (dmaOp : DmaMemcpy) (col row : Int) :
    Option BufferOp × AIRToAIEPass :=
  let r := p.getTileDMAChannel dmaOp col row
  (if isMM2S r.1 then dmaOp.srcBuffer else dmaOp.dstBuffer, r.2)

/-- An entry of `lock_allocation_list`: buffer, channel, reader lock and
writer lock. -/
abbrev LockAllocation := BufferOp × DMAChannel × LockOp × LockOp

/-- The search loop of `getLockForTileDMA`: the locks of the first entry for
`(bufferOp, channel)`. -/
def findLockPair (bufferOp : BufferOp) (channel : DMAChannel) :
    List LockAllocation → Option (LockOp × LockOp)
  | [] => none
  | e :: es =>
    if e.1 = bufferOp ∧ e.2.1 = channel then some (e.2.2.1, e.2.2.2)
    else findLockPair bufferOp channel es

/-- Source function `AIRToAIEPass::getLockForTileDMA`: the pair `(reader lock, writer lock)`. -/
def AIRToAIEPass.getLockForTileDMA (p : AIRToAIEPass) (device : DeviceOp)
    (dmaOp : DmaMemcpy) (info : List LockAllocation) (col row : Int) :
    Except Fault ((LockOp × LockOp) × AIRToAIEPass × DeviceOp × List LockAllocation) :=
  let rb := p.getBufferForTileDMA dmaOp col row
  let rc := rb.2.getTileDMAChannel dmaOp col row
  let channel := rc.1
  match rb.1 with
  | none => .error Fault.assertionFailed
  | some bufferOp =>
    match findLockPair bufferOp channel info with
    | some locks => .ok (locks, rc.2, device, info)
    | none =>
      let isAIE2 : Bool := decide (device.arch = AIEArch.AIE2)
      let init : Int := if isAIE2 then 1 else 0
      let r := allocateLockOp device bufferOp.tile 0 (-1)
      let w := if isAIE2 then allocateLockOp r.2 bufferOp.tile init (-1) else r
      .ok ((r.1, w.1), rc.2, w.2, info ++ [(bufferOp, channel, r.1, w.1)])

/-! ## Routing a copy through a shim DMA -/

/-- Source function `AIRToAIEPass::getFlowOp`: the last flow of the walk with these endpoints,
created at the end of the body when there is none. -/
def getFlowOp (aie_device : DeviceOp) (source : TileOp) (sourceBundle : WireBundle)
    (sourceChannel : Nat) (dest : TileOp) (destBundle : WireBundle) (destChannel : Nat) :
    FlowOp × DeviceOp :=
  let flowOp := aie_device.flows.foldl
    (fun acc fop =>
      if source = fop.source ∧ dest = fop.dest ∧ sourceBundle = fop.sourceBundle ∧
          destBundle = fop.destBundle ∧ sourceChannel = fop.sourceChannel ∧
          destChannel = fop.destChannel then some fop else acc)
    (none : Option FlowOp)
  match flowOp with
  | some f => (f, aie_device)
  | none =>
    let f : FlowOp :=
      { uid := aie_device.nextUid, source := source, sourceBundle := sourceBundle
        sourceChannel := sourceChannel, dest := dest, destBundle := destBundle
        destChannel := destChannel }
    (f, { aie_device with
            body := aie_device.body ++ [Op.flow f]
            nextUid := aie_device.nextUid + 1 })

/-- The channel bindings one iteration of the loop of `getDmaSchedules` fixes
for a copy between L1 and L3. -/
structure DmaRoute where
  tile_channel : DMAChannel
  shim_tile : TileOp
  shim_channel : DMAChannel
  deriving DecidableEq, Repr

/-- One iteration of the loop of `AIRToAIEPass::getDmaSchedules`, for the copy
`dmaOpIf` in the core of `tile`, with `(x, y)` the coordinates passed by the
caller. The result is `none` when the copy is erased (a copy between L2 and
L3 or between L1 and L2); otherwise the copy is filed under `tile_channel`. -/
def AIRToAIEPass.routeDmaCopy (p : AIRToAIEPass) (shim_dma_alloc : DMAAllocator)
    (aie_device : DeviceOp) (tile : TileOp) (dmaOpIf : DmaMemcpy) (x y : Int) :
    Except Fault (Option DmaRoute × AIRToAIEPass × DMAAllocator × DeviceOp) :=
  let src_space := dmaOpIf.srcMemorySpace
  let dst_space := dmaOpIf.dstMemorySpace
  if (src_space = MemorySpace.L2 ∧ dst_space = MemorySpace.L3) ∨
      (src_space = MemorySpace.L3 ∧ dst_space = MemorySpace.L2) ∨
      (src_space = MemorySpace.L1 ∧ dst_space = MemorySpace.L2) ∨
      (src_space = MemorySpace.L2 ∧ dst_space = MemorySpace.L1) then
    .ok (none, p, shim_dma_alloc, aie_device)
  else
    let r1 := p.getTileDMAChannel dmaOpIf x y
    if (src_space = MemorySpace.L3 ∧ dst_space = MemorySpace.L1) ∨
        (src_space = MemorySpace.L1 ∧ dst_space = MemorySpace.L3) then
      let r2 := r1.2.getTileDMAChannel dmaOpIf x y
      let tile_channel := r2.1
      match shim_dma_alloc.getTile aie_device dmaOpIf tile_channel.2 x y with
      | .error e => .error e
      | .ok (shim_tile, alloc', dev') =>
        match alloc'.getChannel dmaOpIf tile_channel x y with
        | .error e => .error e
        | .ok shim_channel =>
          if toUInt32 alloc'.dma_channels = 0 then
            .error Fault.divisionByZero
          else
            let shimIdx : Nat := toUInt32 shim_channel.2 % toUInt32 alloc'.dma_channels
            let dev'' :=
              if shim_channel.1 = DMAChannelDir.S2MM ∧
                  toSizeT shim_channel.2 < toSizeT alloc'.dma_channels then
                (getFlowOp dev' tile WireBundle.DMA (toUInt32 tile_channel.2)
                  shim_tile WireBundle.DMA shimIdx).2
              else
                (getFlowOp dev' shim_tile WireBundle.DMA shimIdx
                  tile WireBundle.DMA (toUInt32 tile_channel.2)).2
            .ok (some { tile_channel := tile_channel
                        shim_tile := shim_tile
                        shim_channel := shim_channel },
                 r2.2, alloc', dev'')
    else
      .error Fault.unreachableReached

/-! ## Lock handshakes and descriptor blocks of `lowerAirDmaMemcpy` -/

/-- What `lowerAirDmaMemcpy` reads of a copy besides what the allocators read:
the value `getLength()` returns (`none`, the null value, for an N-dimensional
copy) and the size operands of both sides. -/
structure DmaMemcpyNdOp where
  dma : DmaMemcpy
  length : Option Value
  src_sizes : List Value
  dst_sizes : List Value
  deriving DecidableEq, Repr

/-- The operands of the two `AIE::UseLockOp` created around an access to a
buffer: the acquire with its lock, value and action, and the release with its
lock and value (its action is `Release`). -/
structure LockHandshake where
  acqLockOp : LockOp
  lockAqValue : Int
  acqAction : LockAction
  relLockOp : LockOp
  lockRelValue : Int
  deriving DecidableEq, Repr

/-- The acquire action both sides use: `isAIE2 ? AcquireGreaterEqual : Acquire`. -/
def acquireAction (isAIE2 : Bool) : LockAction :=
  if isAIE2 then LockAction.AcquireGreaterEqual else LockAction.Acquire

/-- Core side of `lowerAirDmaMemcpy`, for one copy of a tile: the tile channel,
the lock pair and the operands of the acquire and release created in the core
body. Where in the core body the two operations are placed is not part of the
model. -/
def AIRToAIEPass.coreLockHandshake (p : AIRToAIEPass) (device : DeviceOp)
    (dmaOpIf : DmaMemcpy) (lock_allocs : List LockAllocation) (x y : Int) :
    Except Fault
      ((DMAChannel × LockHandshake) × AIRToAIEPass × DeviceOp × List LockAllocation) :=
  let isAIE2 : Bool := decide (device.arch = AIEArch.AIE2)
  let r := p.getTileDMAChannel dmaOpIf x y
  let tile_channel := r.1
  match r.2.getLockForTileDMA device dmaOpIf lock_allocs x y with
  | .error e => .error e
  | .ok (locks, p1, device1, lock_allocs1) =>
    let acqLockOp := if isMM2S tile_channel then locks.2 else locks.1
    let relLockOp := if isMM2S tile_channel then locks.1 else locks.2
    let lockAqValue : Int :=
      if !isMM2S tile_channel then (if isAIE2 then 1 else 1) else (if isAIE2 then 1 else 0)
    let lockRelValue : Int :=
      if !isMM2S tile_channel then (if isAIE2 then 1 else 0) else (if isAIE2 then 1 else 1)
    .ok ((tile_channel,
          { acqLockOp := acqLockOp, lockAqValue := lockAqValue
            acqAction := acquireAction isAIE2
            relLockOp := relLockOp, lockRelValue := lockRelValue }),
         p1, device1, lock_allocs1)

/-- DMA side of `lowerAirDmaMemcpy`, for one copy of the group of `channel`:
the buffer, the lock pair and the operands of the acquire and release created
in the descriptor block. -/
def AIRToAIEPass.bdLockHandshake (p : AIRToAIEPass) (device : DeviceOp)
    (dmaOp : DmaMemcpy) (lock_allocs : List LockAllocation) (x y : Int)
    (channel : DMAChannel) :
    Except Fault
      ((Option BufferOp × LockHandshake) × AIRToAIEPass × DeviceOp × List LockAllocation) :=
  let isAIE2 : Bool := decide (device.arch = AIEArch.AIE2)
  let rb := p.getBufferForTileDMA dmaOp x y
  match rb.2.getLockForTileDMA device dmaOp lock_allocs x y with
  | .error e => .error e
  | .ok (locks, p1, device1, lock_allocs1) =>
    let acqLockOp := if isMM2S channel then locks.1 else locks.2
    let relLockOp := if isMM2S channel then locks.2 else locks.1
    let lockAqValue : Int :=
      if !isMM2S channel then (if isAIE2 then 1 else 0) else (if isAIE2 then 1 else 1)
    let lockRelValue : Int :=
      if !isMM2S channel then (if isAIE2 then 1 else 1) else (if isAIE2 then 1 else 0)
    .ok ((rb.1,
          { acqLockOp := acqLockOp, lockAqValue := lockAqValue
            acqAction := acquireAction isAIE2
            relLockOp := relLockOp, lockRelValue := lockRelValue }),
         p1, device1, lock_allocs1)

/-- Conversion of a value to `int64_t` by wrapping, as the multiplication of
two `int64_t` does on the targets of the compiler. -/
def toInt64 (x : Int) : Int := (x + 2 ^ 63) % 2 ^ 64 - 2 ^ 63

/-- The loop `for (auto s : sizes)` of `lowerAirDmaMemcpy`, started with
`size`: the product of the constants, or `-1` at the first size that is not
defined by an `arith::ConstantIndexOp`. A size that is a block argument has no
defining operation, and the `dyn_cast` of the null pointer is a fault. -/
def ndSize : List Value → Int → Except Fault Int
  | [], size => .ok size
  | s :: rest, size =>
    match s.definer with
    | Definer.blockArgument => .error Fault.nullDereference
    | Definer.constantIndex v => ndSize rest (toInt64 (size * v))
    | _ => .ok (-1)

/-- The length operand of the `AIE::DMABDOp` of a copy, and whether an
`arith::ConstantIndexOp` is created for it: the constant behind `getLength()`,
or for a copy without length the result of the loop over the sizes of the side
with the smaller memory space number. -/
def bdLength (dmaOp : DmaMemcpyNdOp) : Except Fault (Int × Bool) :=
  match dmaOp.length with
  | some length =>
    match length.definer with
    | Definer.constantIndex v => .ok (v, false)
    | Definer.blockArgument => .error Fault.nullDereference
    | _ => .error Fault.assertionFailed
  | none =>
    let sizes := if dmaOp.dma.srcMemorySpace > dmaOp.dma.dstMemorySpace
      then dmaOp.dst_sizes else dmaOp.src_sizes
    match ndSize sizes 1 with
    | .error e => .error e
    | .ok size => .ok (size, true)

/-- Take the next uid of the device: the identity of a created block or
operation. -/
def DeviceOp.fresh (d : DeviceOp) : Nat × DeviceOp :=
  (d.nextUid, { d with nextUid := d.nextUid + 1 })

/-- One iteration of the loop over the copies of a channel in
`lowerAirDmaMemcpy`: the block `bd` receives its `AIE::NextBDOp` to `next`,
and in front of it the constant of the length (when one is created), the
acquire, the `AIE::DMABDOp` of the buffer and the release. -/
def AIRToAIEPass.bdBlock (p : AIRToAIEPass) (device : DeviceOp)
    (lock_allocs : List LockAllocation) (x y : Int) (channel : DMAChannel) (bd next : Nat)
    (dmaOp : DmaMemcpyNdOp) :
    Except Fault (Block × AIRToAIEPass × DeviceOp × List LockAllocation) :=
  let f0 := device.fresh
  let nextBdOp : Operation := { uid := f0.1, kind := OpKind.nextBd next, results := [] }
  match p.bdLockHandshake f0.2 dmaOp.dma lock_allocs x y channel with
  | .error e => .error e
  | .ok ((bufferOp, hs), p1, device1, lock_allocs1) =>
    match bdLength dmaOp with
    | .error e => .error e
    | .ok (len, created) =>
      match bufferOp with
      | none => .error Fault.nullDereference
      | some buffer =>
        let fc := device1.fresh
        let constOps : List Operation :=
          if created then
            [{ uid := fc.1, kind := OpKind.constantIndex len
               results := [{ id := fc.1, ty := Ty.index
                             definer := Definer.constantIndex len }] }]
          else []
        let device2 := if created then fc.2 else device1
        let f1 := device2.fresh
        let f2 := f1.2.fresh
        let f3 := f2.2.fresh
        .ok ({ uid := bd
               ops := constOps ++
                 [{ uid := f1.1
                    kind := OpKind.useLock hs.acqLockOp hs.lockAqValue hs.acqAction
                    results := [] },
                  { uid := f2.1, kind := OpKind.dmaBd buffer 0 len 0, results := [] },
                  { uid := f3.1
                    kind := OpKind.useLock hs.relLockOp hs.lockRelValue LockAction.Release
                    results := [] },
                  nextBdOp] },
             p1, f3.2, lock_allocs1)

/-- The loop over the copies `dmaOps` of a channel, from the iteration that
fills block `bd`: the last copy branches back to `first_bd`, every other one
to a new block, which the next iteration fills. The blocks come in the order
in which they are pushed to the body of the `AIE.mem`. -/
def AIRToAIEPass.bdChain (x y : Int) (channel : DMAChannel) (first_bd : Nat) :
    AIRToAIEPass → DeviceOp → List LockAllocation → Nat → List DmaMemcpyNdOp →
      Except Fault (List Block × AIRToAIEPass × DeviceOp × List LockAllocation)
  | p, device, lock_allocs, _, [] => .ok ([], p, device, lock_allocs)
  | p, device, lock_allocs, bd, dmaOp :: rest =>
    let n := if rest.isEmpty then (first_bd, device) else device.fresh
    match p.bdBlock n.2 lock_allocs x y channel bd n.1 dmaOp with
    | .error e => .error e
    | .ok (b, p1, device1, lock_allocs1) =>
      match AIRToAIEPass.bdChain x y channel first_bd p1 device1 lock_allocs1 n.1 rest with
      | .error e => .error e
      | .ok (bs, st) => .ok (b :: bs, st)

/-- The descriptor blocks `lowerAirDmaMemcpy` builds for the copies `dmaOps`
of a channel of the tile at `(x, y)`: `start_bb` and `first_bd` are created,
then the loop fills `first_bd` and the blocks it creates. The result is the
uid of `start_bb` and the descriptor blocks. The `AIE::DMAStartOp` that the
pass puts into `start_bb` afterwards is not part of the model. -/
def AIRToAIEPass.channelBdBlocks (p : AIRToAIEPass) (device : DeviceOp)
    (lock_allocs : List LockAllocation) (x y : Int) (channel : DMAChannel)
    (dmaOps : List DmaMemcpyNdOp) :
    Except Fault ((Nat × List Block) × AIRToAIEPass × DeviceOp × List LockAllocation) :=
  let start_bb := device.fresh
  let first_bd := start_bb.2.fresh
  match dmaOps with
  | [] => .ok ((start_bb.1, [{ uid := first_bd.1, ops := [] }]), p, first_bd.2, lock_allocs)
  | _ :: _ =>
    match AIRToAIEPass.bdChain x y channel first_bd.1 p first_bd.2 lock_allocs first_bd.1
        dmaOps with
    | .error e => .error e
    | .ok (bs, st) => .ok ((start_bb.1, bs), st)

/-! ## Uses of values -/

/-- Apply `f` to every value an operation uses. -/
def OpKind.mapValues (f : Value → Value) : OpKind → OpKind
  | OpKind.tensorStore t b => OpKind.tensorStore (f t) b
  | OpKind.call c os => OpKind.call c (os.map f)
  | OpKind.dealloc m => OpKind.dealloc (f m)
  | OpKind.channelPut n d i s o z st =>
    OpKind.channelPut n (d.map f) (i.map f) (f s) (o.map f) (z.map f) (st.map f)
  | OpKind.channelGet n d i s o z st =>
    OpKind.channelGet n (d.map f) (i.map f) (f s) (o.map f) (z.map f) (st.map f)
  | OpKind.pipelinePut a b os => OpKind.pipelinePut (f a) (f b) (os.map f)
  | OpKind.objectFifoSubviewAccess s i => OpKind.objectFifoSubviewAccess (f s) i
  | OpKind.waitAll d => OpKind.waitAll (d.map f)
  | OpKind.dmaMemcpyNd id d dst src => OpKind.dmaMemcpyNd id (d.map f) (f dst) (f src)
  | OpKind.other n os => OpKind.other n (os.map f)
  | k => k

/-- The values an operation uses, in the order of its operands. -/
def OpKind.operands : OpKind → List Value
  | OpKind.tensorStore t _ => [t]
  | OpKind.call _ os => os
  | OpKind.dealloc m => [m]
  | OpKind.channelPut _ d i s o z st => d ++ i ++ [s] ++ o ++ z ++ st
  | OpKind.channelGet _ d i s o z st => d ++ i ++ [s] ++ o ++ z ++ st
  | OpKind.pipelinePut a b os => a :: b :: os
  | OpKind.objectFifoSubviewAccess s _ => [s]
  | OpKind.waitAll d => d
  | OpKind.dmaMemcpyNd _ d dst src => d ++ [dst, src]
  | OpKind.other _ os => os
  | _ => []

/-- The value a use of `v` becomes when the uses of `old` are replaced by
`new`. Values are identified by their `id`. -/
def Value.replace (old new v : Value) : Value :=
  if v.id = old.id then new else v

/-- Source call `old.replaceAllUsesWith(new)`, on the operations `ops`. -/
def replaceAllUsesWith (old new : Value) (ops : List Operation) : List Operation :=
  ops.map (fun o => { o with kind := o.kind.mapValues (Value.replace old new) })

/-- A sequence of `replaceAllUsesWith` calls, in order. -/
def replaceAllUses (pairs : List (Value × Value)) (ops : List Operation) : List Operation :=
  pairs.foldl (fun acc pr => replaceAllUsesWith pr.1 pr.2 acc) ops

/-! ## Specialization of `affine.if` -/

/-- Affine expressions (`mlir::AffineExpr`). -/
inductive AffineExpr where
  | const (value : Int)
  | dim (position : Nat)
  | symbol (position : Nat)
  | add (lhs rhs : AffineExpr)
  | mul (lhs rhs : AffineExpr)
  | mod (lhs rhs : AffineExpr)
  | floorDiv (lhs rhs : AffineExpr)
  | ceilDiv (lhs rhs : AffineExpr)
  deriving DecidableEq, Repr

/-- An integer set (`mlir::IntegerSet`): every constraint comes with its flag
in `getEqFlags()`, `true` for `expr == 0` and `false` for `expr >= 0`. -/
structure IntegerSet where
  numDims : Nat
  numSymbols : Nat
  constraints : List (AffineExpr × Bool)
  deriving DecidableEq, Repr

/-- The MLIR function `AffineExpr::replaceDimsAndSymbols`: a dim or symbol
whose position is below the length of its replacement list is replaced, any
other is left as it is. -/
def AffineExpr.replaceDimsAndSymbols (dimReplacements symReplacements : List AffineExpr) :
    AffineExpr → AffineExpr
  | AffineExpr.const v => AffineExpr.const v
  | AffineExpr.dim i => (dimReplacements[i]?).getD (AffineExpr.dim i)
  | AffineExpr.symbol i => (symReplacements[i]?).getD (AffineExpr.symbol i)
  | AffineExpr.add a b =>
    AffineExpr.add (a.replaceDimsAndSymbols dimReplacements symReplacements)
      (b.replaceDimsAndSymbols dimReplacements symReplacements)
  | AffineExpr.mul a b =>
    AffineExpr.mul (a.replaceDimsAndSymbols dimReplacements symReplacements)
      (b.replaceDimsAndSymbols dimReplacements symReplacements)
  | AffineExpr.mod a b =>
    AffineExpr.mod (a.replaceDimsAndSymbols dimReplacements symReplacements)
      (b.replaceDimsAndSymbols dimReplacements symReplacements)
  | AffineExpr.floorDiv a b =>
    AffineExpr.floorDiv (a.replaceDimsAndSymbols dimReplacements symReplacements)
      (b.replaceDimsAndSymbols dimReplacements symReplacements)
  | AffineExpr.ceilDiv a b =>
    AffineExpr.ceilDiv (a.replaceDimsAndSymbols dimReplacements symReplacements)
      (b.replaceDimsAndSymbols dimReplacements symReplacements)

/-- The MLIR function `IntegerSet::replaceDimsAndSymbols`. -/
def IntegerSet.replaceDimsAndSymbols (is : IntegerSet)
    (dimReplacements symReplacements : List AffineExpr) (numResultDims numResultSyms : Nat) :
    IntegerSet :=
  { numDims := numResultDims
    numSymbols := numResultSyms
    constraints := is.constraints.map (fun c =>
      (c.1.replaceDimsAndSymbols dimReplacements symReplacements, c.2)) }

/-- The constant `simplifyAffineExpr(c, 0, 1).dyn_cast<AffineConstantExpr>()`
gives, `none` for the null result: an expression without dims and symbols
folds to its value, a division or remainder by a constant that is not positive
does not fold. An expression that mentions a dim or a symbol is taken not to
fold (MLIR folds a few of these, such as a product with 0). -/
def AffineExpr.constantValue : AffineExpr → Option Int
  | AffineExpr.const v => some v
  | AffineExpr.dim _ => none
  | AffineExpr.symbol _ => none
  | AffineExpr.add a b =>
    match a.constantValue, b.constantValue with
    | some x, some y => some (x + y)
    | _, _ => none
  | AffineExpr.mul a b =>
    match a.constantValue, b.constantValue with
    | some x, some y => some (x * y)
    | _, _ => none
  | AffineExpr.mod a b =>
    match a.constantValue, b.constantValue with
    | some x, some y => if 0 < y then some (x % y) else none
    | _, _ => none
  | AffineExpr.floorDiv a b =>
    match a.constantValue, b.constantValue with
    | some x, some y => if 0 < y then some (x / y) else none
    | _, _ => none
  | AffineExpr.ceilDiv a b =>
    match a.constantValue, b.constantValue with
    | some x, some y => if 0 < y then some (-((-x) / y)) else none
    | _, _ => none

/-- Source function `isInSet(IntegerSet is)`. -/
def isInSet (is : IntegerSet) : Bool :=
  is.constraints.all (fun c =>
    match c.1.constantValue with
    | none => false
    | some v => if c.2 then decide (v = 0) else decide (0 ≤ v))

/-- Source function `isInSet(int64_t x, int64_t y, AffineIfOp aif)`, on the integer set of
the operation. -/
def isInSetXY (x y : Int) (is : IntegerSet) : Bool :=
  if is.constraints.length ≠ 2 then false
  else
    let dims := [AffineExpr.const x, AffineExpr.const y]
    isInSet (is.replaceDimsAndSymbols [] dims 0 2)

/-- An `affine.if` operation: its integer set, its operands, the operations
of the then block in front of the terminator and the operands of the
terminator, the same for the else block when there is one, and its results. -/
structure AffineIfOp where
  uid : Nat
  integerSet : IntegerSet
  operands : List Value
  thenOps : List Operation
  thenYield : List Value
  elseBlock : Option (List Operation × List Value)
  results : List Value
  deriving DecidableEq, Repr

/-- The loop of `SpecializeAffineIfPattern` over the two operands: their
constants, `none` (the pattern returns `failure()`) at the first operand whose
defining operation is not an `arith::ConstantIndexOp`. A block argument has no
defining operation, and the `dyn_cast` of the null pointer is a fault. -/
def constantOperands : List Value → Except Fault (Option (List Int))
  | [] => .ok (some [])
  | o :: rest =>
    match o.definer with
    | Definer.blockArgument => .error Fault.nullDereference
    | Definer.constantIndex v =>
      match constantOperands rest with
      | .error e => .error e
      | .ok none => .ok none
      | .ok (some vs) => .ok (some (v :: vs))
    | _ => .ok none

/-- The part of `SpecializeAffineIfPattern::matchAndRewrite` that decides `in_set`;
`none` when the pattern returns `failure()`. -/
def SpecializeAffineIfPattern.inSet (op : AffineIfOp) : Except Fault (Option Bool) :=
  if op.operands.length = 2 then
    match constantOperands op.operands with
    | .error e => .error e
    | .ok none => .ok none
    | .ok (some operands) =>
      match operands with
      | [x, y] => .ok (some (isInSetXY x y op.integerSet))
      | _ => .error Fault.indexOutOfRange
  else
    .ok (some (isInSet op.integerSet))

/-- Source function `SpecializeAffineIfPattern::matchAndRewrite`, for an `affine.if` that
sits between the operations `before` and `after` of its block; `inCore` tells
whether it has a parent `AIE::CoreOp`. The result is `none` when the pattern
returns `failure()`, and otherwise the operations of the block after the
rewrite. -/
def SpecializeAffineIfPattern.matchAndRewrite (inCore : Bool) (before : List Operation)
    (op : AffineIfOp) (after : List Operation) :
    Except Fault (Option (List Operation)) :=
  if !inCore then .ok none
  else
    match SpecializeAffineIfPattern.inSet op with
    | .error e => .error e
    | .ok none => .ok none
    | .ok (some in_set) =>
      let bb : Option (List Operation × List Value) :=
        if in_set then some (op.thenOps, op.thenYield) else op.elseBlock
      match bb with
      | some (ops, yielded) =>
        if yielded.length < op.results.length then .error Fault.indexOutOfRange
        else
          .ok (some (before ++ ops ++ replaceAllUses (op.results.zip yielded) after))
      | none => .ok (some (before ++ after))

/-! ## Cloning -/

/-- An `IRMapping`: the values mapped so far, as pairs of the id of the
original value and its image, the latest entry first. -/
abbrev IRMapping := List (Nat × Value)

/-- The MLIR function `IRMapping::lookupOrDefault`. -/
def IRMapping.lookupOrDefault (remap : IRMapping) (v : Value) : Value :=
  match remap.find? (fun e => decide (e.1 = v.id)) with
  | some e => e.2
  | none => v

/-- The MLIR function `IRMapping::map`. -/
def IRMapping.map (remap : IRMapping) (old new : Value) : IRMapping :=
  (old.id, new) :: remap

/-- The defining operation of the clone of a result: the clone of the defining
operation, whose uid is `uid`. -/
def Definer.cloned (uid : Nat) : Definer → Definer
  | Definer.constantIndex v => Definer.constantIndex v
  | Definer.alloc _ => Definer.alloc uid
  | Definer.operation _ => Definer.operation uid
  | Definer.blockArgument => Definer.blockArgument

/-- New values with the types of `vs`, their ids taken upwards from `next`. -/
def freshValues (definer : Definer → Definer) : List Value → Nat → List Value
  | [], _ => []
  | v :: vs, next =>
    { id := next, ty := v.ty, definer := definer v.definer } ::
      freshValues definer vs (next + 1)

/-- Map every value of `olds` to the value of `news` at its position. -/
def IRMapping.mapAll (remap : IRMapping) (olds news : List Value) : IRMapping :=
  (olds.zip news).foldl (fun m pr => m.map pr.1 pr.2) remap

/-- The clone of an operation under `remap`: a new operation that uses the
images of the values the original uses, with new results, which become the
images of the results of the original. Uids and value ids are taken from
`next`. -/
def cloneOp (remap : IRMapping) (next : Nat) (o : Operation) :
    Operation × IRMapping × Nat :=
  let results := freshValues (Definer.cloned next) o.results (next + 1)
  ({ uid := next, kind := o.kind.mapValues remap.lookupOrDefault, results := results },
   remap.mapAll o.results results,
   next + 1 + o.results.length)

/-- The clones of the operations of a block, in order (MLIR `cloneInto`). -/
def cloneOps (remap : IRMapping) (next : Nat) :
    List Operation → List Operation × IRMapping × Nat
  | [] => ([], remap, next)
  | o :: rest =>
    let c := cloneOp remap next o
    let cs := cloneOps c.2.1 c.2.2 rest
    (c.1 :: cs.1, cs.2)

/-! ## Dependency tokens carried by loops -/

/-- An `scf.for` operation: its bounds and step, its iter operands with the
block arguments of the body that stand for them, the induction variable, the
operations of the body in front of the terminator, the operands of the
`scf.yield`, its results, and whether it carries the attributes `isolated` and
`unroll`. -/
structure ForOp where
  uid : Nat
  lowerBound : Value
  upperBound : Value
  step : Value
  iterOperands : List Value
  regionIterArgs : List Value
  inductionVar : Value
  body : List Operation
  yieldOperands : List Value
  results : List Value
  isolated : Option String
  unroll : Option String
  deriving DecidableEq, Repr

/-- Whether a value has the type `air::AsyncTokenType`. -/
def Value.isAsyncToken (v : Value) : Bool := decide (v.ty = Ty.asyncToken)

/-- The first loop of `LowerScfTokenPattern`, over the iter operands with
their block arguments: the operands that are not tokens, in order, and for
every token the replacement of its block argument by the operand. -/
def tokenIterArgs : List (Value × Value) → List Value × List (Value × Value)
  | [] => ([], [])
  | (v, block_arg) :: rest =>
    let r := tokenIterArgs rest
    if v.isAsyncToken then (r.1, (block_arg, v) :: r.2) else (v :: r.1, r.2)

/-- The loop of `LowerScfTokenPattern` over the results of the old loop, with
`idx` the number of results of the new loop used so far: for every result the
value that replaces it, and the `air.wait_all` operations created for the
tokens. A result of the new loop that does not exist is a fault. -/
def resultReplacements (new_results : List Value) :
    List Value → Nat → Nat → Except Fault (List (Value × Value) × List Operation × Nat)
  | [], _, next => .ok ([], [], next)
  | r :: rest, idx, next =>
    if r.isAsyncToken then
      let w : Value := { id := next + 1, ty := Ty.asyncToken, definer := Definer.operation next }
      let wait_all : Operation := { uid := next, kind := OpKind.waitAll [], results := [w] }
      match resultReplacements new_results rest idx (next + 2) with
      | .error e => .error e
      | .ok (pairs, ops, next1) => .ok ((r, w) :: pairs, wait_all :: ops, next1)
    else
      match new_results[idx]? with
      | none => .error Fault.indexOutOfRange
      | some n =>
        match resultReplacements new_results rest (idx + 1) next with
        | .error e => .error e
        | .ok (pairs, ops, next1) => .ok ((r, n) :: pairs, ops, next1)

/-- What `LowerScfTokenPattern` leaves in place of a loop: the new loop, the
`air.wait_all` operations created behind it for the token results, the
replacement of every result of the old loop, and the operations that followed
the old loop, with their uses of its results replaced. -/
structure ForRewrite where
  new_fop : ForOp
  wait_alls : List Operation
  replaced : List (Value × Value)
  after : List Operation
  deriving DecidableEq, Repr

/-- Source function `LowerScfTokenPattern::matchAndRewrite`, for a loop followed by the
operations `after` in its block; uids and value ids of created operations are
taken from `next`. The result is `none` when the pattern returns `failure()`:
nothing has been changed then. -/
def LowerScfTokenPattern.matchAndRewrite (fop : ForOp) (after : List Operation) (next : Nat) :
    Except Fault (Option (ForRewrite × Nat)) :=
  if fop.iterOperands.length = 0 then .ok none
  else
    let split := tokenIterArgs (fop.iterOperands.zip fop.regionIterArgs)
    let iter_args := split.1
    if iter_args.length = fop.iterOperands.length then .ok none
    else
      -- the body of the old loop after the uses of the token arguments are replaced
      let body := replaceAllUses split.2 fop.body
      let yielded := split.2.foldl (fun acc pr => acc.map (Value.replace pr.1 pr.2))
        fop.yieldOperands
      -- the new loop: its uid, its results, and the clone of the region
      let new_uid := next
      let new_results := freshValues (fun _ => Definer.operation new_uid) iter_args (next + 1)
      let next1 := next + 1 + iter_args.length
      let new_iv : Value := { id := next1, ty := fop.inductionVar.ty
                              definer := Definer.blockArgument }
      let new_args := freshValues (fun _ => Definer.blockArgument) fop.regionIterArgs (next1 + 1)
      let next2 := next1 + 1 + fop.regionIterArgs.length
      let remap := (IRMapping.map [] fop.inductionVar new_iv).mapAll fop.regionIterArgs new_args
      let cloned := cloneOps remap next2 body
      let new_yielded := yielded.map cloned.2.1.lookupOrDefault
      let kept_args := ((fop.iterOperands.zip new_args).filter
        (fun pr => !pr.1.isAsyncToken)).map (fun pr => pr.2)
      -- the results of the old loop
      match resultReplacements new_results fop.results 0 cloned.2.2 with
      | .error e => .error e
      | .ok (pairs, wait_alls, next3) =>
        -- the terminator of the new loop
        let token_operands := new_yielded.filter (fun o => o.isAsyncToken)
        let yield_operands := new_yielded.filter (fun o => !o.isAsyncToken)
        let wait_all : Operation :=
          { uid := next3, kind := OpKind.waitAll token_operands, results := [] }
        .ok (some
          ({ new_fop :=
               { uid := new_uid
                 lowerBound := fop.lowerBound
                 upperBound := fop.upperBound
                 step := fop.step
                 iterOperands := iter_args
                 regionIterArgs := kept_args
                 inductionVar := new_iv
                 body := cloned.1 ++ [wait_all]
                 yieldOperands := yield_operands
                 results := new_results
                 isolated := fop.isolated
                 unroll := fop.unroll }
             wait_alls := wait_alls
             replaced := pairs
             after := replaceAllUses pairs after },
           next3 + 2))

/-! ## Lowering of channels to object fifos -/

/-- The core operations of a device, in body order. -/
def DeviceOp.cores (d : DeviceOp) : List CoreOp :=
  d.body.filterMap (fun o => match o with
    | Op.core c => some c
    | _ => none)

/-- The object fifo operations of a device, in body order. -/
def DeviceOp.objectFifos (d : DeviceOp) : List ObjectFifoCreateOp :=
  d.body.filterMap (fun o => match o with
    | Op.objectFifo f => some f
    | _ => none)

/-- The channel declarations of a device, in body order. -/
def DeviceOp.channels (d : DeviceOp) : List ChannelOp :=
  d.body.filterMap (fun o => match o with
    | Op.channel c => some c
    | _ => none)

/-- Apply `f` to every block of every core of the device. -/
def DeviceOp.mapBlocks (d : DeviceOp) (f : Block → Block) : DeviceOp :=
  { d with body := d.body.map (fun o => match o with
      | Op.core c => Op.core { c with body := c.body.map f }
      | o => o) }

/-- The operations in the cores of the device, in walk order, each with its
parent core. -/
def DeviceOp.walkOps (d : DeviceOp) : List (CoreOp × Operation) :=
  d.cores.flatMap (fun c => c.body.flatMap (fun b => b.ops.map (fun o => (c, o))))

/-- Whether the operation is an `air.channel.put` on the channel `name`. -/
def Operation.isPutOf (name : String) (o : Operation) : Bool :=
  match o.kind with
  | OpKind.channelPut n _ _ _ _ _ _ => decide (n = name)
  | _ => false

/-- Whether the operation is an `air.channel.get` on the channel `name`. -/
def Operation.isGetOf (name : String) (o : Operation) : Bool :=
  match o.kind with
  | OpKind.channelGet n _ _ _ _ _ _ => decide (n = name)
  | _ => false

/-- The memref of a put (its source) or of a get (its destination):
`getMemref()`. -/
def Operation.getMemref (o : Operation) : Option Value :=
  match o.kind with
  | OpKind.channelPut _ _ _ src _ _ _ => some src
  | OpKind.channelGet _ _ _ dst _ _ _ => some dst
  | _ => none

/-- Modelled from the spec: `getChannelPutOpThroughSymbol`, a helper of the
dialect utilities: the put operations in the device that refer to the channel
by its symbol, each with its parent core. -/
def getChannelPutOpThroughSymbol (channel : ChannelOp) (device : DeviceOp) :
    List (CoreOp × Operation) :=
  device.walkOps.filter (fun x => x.2.isPutOf channel.sym_name)

/-- Modelled from the spec: `getChannelGetOpThroughSymbol`, a helper of the
dialect utilities: the get operations in the device that refer to the channel
by its symbol, each with its parent core. -/
def getChannelGetOpThroughSymbol (channel : ChannelOp) (device : DeviceOp) :
    List (CoreOp × Operation) :=
  device.walkOps.filter (fun x => x.2.isGetOf channel.sym_name)

/-- Modelled from the spec: `ChannelOp::getBundleSize`, a method of the dialect: the
product of the sizes of the bundle shape (the total size `K`). -/
def ChannelOp.getBundleSize (channel : ChannelOp) : Int :=
  channel.size.foldl (fun acc s => acc * s) 1

/-- The body of the loops `for (auto put : channelPuts)` and
`for (auto get : channelGets)` of `LowerAIRChannelsPattern`: the tile of the
core for an endpoint in L1, `none` (the pattern returns `failure()`) for any
other memory space. The `cast` of a type that is not a memref is a fault. -/
def channelEndpointTile (core : CoreOp) (memref : Value) : Except Fault (Option TileOp) :=
  match memref.ty with
  | Ty.memref space => if space = MemorySpace.L1 then .ok (some core.tile) else .ok none
  | _ => .error Fault.assertionFailed

/-- Insert `new` in front of the first core of the body; `none` when the body
has no core. -/
def insertBeforeFirstCore (new : Op) : List Op → Option (List Op)
  | [] => none
  | Op.core c :: rest => some (new :: Op.core c :: rest)
  | o :: rest =>
    match insertBeforeFirstCore new rest with
    | some r => some (o :: r)
    | none => none

/-- Insert `new` in front of the last operation of a block. -/
def insertBeforeLast (new : Operation) : List Operation → List Operation
  | [] => [new]
  | [t] => [new, t]
  | o :: rest => o :: insertBeforeLast new rest

/-- Whether the block holds the operation with uid `u`. -/
def Block.holds (b : Block) (u : Nat) : Bool := b.ops.any (fun o => decide (o.uid = u))

/-- Remove the value `token` from the async dependencies of an operation
(`air::eraseAsyncDependencyFromAsyncOp`). -/
def OpKind.eraseAsyncDependency (token : Value) : OpKind → OpKind
  | OpKind.channelPut n d i s o z st =>
    OpKind.channelPut n (d.filter (fun v => decide (v.id ≠ token.id))) i s o z st
  | OpKind.channelGet n d i s o z st =>
    OpKind.channelGet n (d.filter (fun v => decide (v.id ≠ token.id))) i s o z st
  | OpKind.waitAll d => OpKind.waitAll (d.filter (fun v => decide (v.id ≠ token.id)))
  | OpKind.dmaMemcpyNd id d dst src =>
    OpKind.dmaMemcpyNd id (d.filter (fun v => decide (v.id ≠ token.id))) dst src
  | k => k

/-- Source function `rewriteChannelAllocs` for the put or get `op`: an acquire on the fifo
and an access to its subview are created at the front of the block of `op`,
and when the memref of `op` is defined by a `memref.alloc`, the alloc is
replaced by the accessed element. The result is the device and `op` as it is
afterwards. A memref that is a block argument has no defining operation, which
is a fault. -/
def rewriteChannelAllocs (device : DeviceOp) (op : Operation)
    (objFifo : ObjectFifoCreateOp) (port : ObjectFifoPort) :
    Except Fault (DeviceOp × Operation) :=
  match op.getMemref with
  | none => .error Fault.assertionFailed
  | some memref =>
    let u := device.nextUid
    let subview : Value := { id := u + 1, ty := Ty.other, definer := Definer.operation u }
    let producerAcq : Operation :=
      { uid := u, kind := OpKind.objectFifoAcquire port objFifo.sym_name 1
        results := [subview] }
    let output : Value :=
      { id := u + 3, ty := objFifo.datatype, definer := Definer.operation (u + 2) }
    let producerAccess : Operation :=
      { uid := u + 2, kind := OpKind.objectFifoSubviewAccess subview 0, results := [output] }
    let device1 : DeviceOp :=
      { (device.mapBlocks (fun b =>
          if b.holds op.uid then { b with ops := producerAcq :: producerAccess :: b.ops }
          else b)) with nextUid := u + 4 }
    match memref.definer with
    | Definer.blockArgument => .error Fault.nullDereference
    | Definer.alloc a =>
      .ok (device1.mapBlocks (fun b =>
             { b with ops := List.filter (fun o => decide (o.uid ≠ a))
                               (replaceAllUsesWith memref output b.ops) }),
           { op with kind := op.kind.mapValues (Value.replace memref output) })
    | _ => .ok (device1, op)

/-- Source function `rewriteChannelDeallocs` for the put or get `op`: for every
`memref.dealloc` among the users of the operation that defines the memref of
`op`, a release on the fifo is created in front of the last operation of the
block of `op`, and the dealloc is noted in `erased_deallocs`. -/
def rewriteChannelDeallocs (device : DeviceOp) (op : Operation)
    (objFifo : ObjectFifoCreateOp) (port : ObjectFifoPort) (erased_deallocs : List Nat) :
    Except Fault (DeviceOp × List Nat) :=
  match op.getMemref with
  | none => .error Fault.assertionFailed
  | some memref =>
    match memref.definer with
    | Definer.blockArgument => .error Fault.nullDereference
    | definer =>
      let deallocs := device.walkOps.filter (fun x =>
        match x.2.kind with
        | OpKind.dealloc m => decide (m.definer = definer)
        | _ => false)
      .ok (deallocs.foldl
        (fun acc x =>
          let release : Operation :=
            { uid := acc.1.nextUid, kind := OpKind.objectFifoRelease port objFifo.sym_name 1
              results := [] }
          ({ (acc.1.mapBlocks (fun b =>
               if b.holds op.uid then { b with ops := insertBeforeLast release b.ops }
               else b)) with nextUid := acc.1.nextUid + 1 },
           if x.2.uid ∈ acc.2 then acc.2 else acc.2 ++ [x.2.uid]))
        (device, erased_deallocs))

/-- The part of `LowerAIRChannelsPattern` that clears the dependences on the
async token of a put or get: the token is removed from the async dependencies
of its users. -/
def clearAsyncDependence (device : DeviceOp) (op : Operation) : DeviceOp :=
  match op.results.find? (fun r => r.isAsyncToken) with
  | none => device
  | some token =>
    device.mapBlocks (fun b =>
      { b with ops := b.ops.map (fun o => { o with kind := o.kind.eraseAsyncDependency token }) })

/-- The body of the loops of `LowerAIRChannelsPattern` that replace the puts
and the gets of the channel. -/
def rewriteChannelEndpoints (objFifo : ObjectFifoCreateOp) (port : ObjectFifoPort) :
    DeviceOp → List Nat → List (CoreOp × Operation) → Except Fault (DeviceOp × List Nat)
  | device, erased_deallocs, [] => .ok (device, erased_deallocs)
  | device, erased_deallocs, (_, op) :: rest =>
    match rewriteChannelAllocs device op objFifo port with
    | .error e => .error e
    | .ok (device1, op1) =>
      match rewriteChannelDeallocs device1 op1 objFifo port erased_deallocs with
      | .error e => .error e
      | .ok (device2, erased1) =>
        rewriteChannelEndpoints objFifo port (clearAsyncDependence device2 op1) erased1 rest

/-- Erase the operations with the uids `uids` from the cores of the device. -/
def DeviceOp.eraseOps (d : DeviceOp) (uids : List Nat) : DeviceOp :=
  d.mapBlocks (fun b => { b with ops := b.ops.filter (fun o => decide (o.uid ∉ uids)) })

/-- Erase a channel declaration from the device. -/
def DeviceOp.eraseChannel (d : DeviceOp) (channel : ChannelOp) : DeviceOp :=
  { d with body := d.body.filter (fun o => decide (o ≠ Op.channel channel)) }

/-- Source function `LowerAIRChannelsPattern::matchAndRewrite` for a channel whose parent
device is `device`. The result tells whether the pattern returns `success()`,
and gives the shim tile allocator and the device afterwards. -/
def LowerAIRChannelsPattern.matchAndRewrite (shimTileAlloc : ShimTileAllocator)
    (channel : ChannelOp) (device : DeviceOp) :
    Except Fault (Bool × ShimTileAllocator × DeviceOp) :=
  if channel.broadcast_pattern || channel.broadcast_shape then
    .ok (false, shimTileAlloc, device)
  else if channel.getBundleSize > 1 then .ok (false, shimTileAlloc, device)
  else
    let channelPuts := getChannelPutOpThroughSymbol channel device
    let channelGets := getChannelGetOpThroughSymbol channel device
    -- the producer tile; `none` stands for `return failure()`
    let producer : Except Fault (Option TileOp × ShimTileAllocator × DeviceOp) :=
      match channelPuts with
      | [] =>
        match shimTileAlloc.getShimTile device MemorySpace.L3 MemorySpace.L1 with
        | .error e => .error e
        | .ok (t, a, d) => .ok (some t, a, d)
      | [(core, put)] =>
        match put.getMemref with
        | none => .error Fault.assertionFailed
        | some src =>
          match channelEndpointTile core src with
          | .error e => .error e
          | .ok t => .ok (t, shimTileAlloc, device)
      | _ => .ok (none, shimTileAlloc, device)
    match producer with
    | .error e => .error e
    | .ok (none, a1, d1) => .ok (false, a1, d1)
    | .ok (some producerTile, a1, d1) =>
      let consumer : Except Fault (Option TileOp × ShimTileAllocator × DeviceOp) :=
        match channelGets with
        | [] =>
          match a1.getShimTile d1 MemorySpace.L1 MemorySpace.L3 with
          | .error e => .error e
          | .ok (t, a, d) => .ok (some t, a, d)
        | [(core, get)] =>
          match get.getMemref with
          | none => .error Fault.assertionFailed
          | some dst =>
            match channelEndpointTile core dst with
            | .error e => .error e
            | .ok t => .ok (t, a1, d1)
        | _ => .ok (none, a1, d1)
      match consumer with
      | .error e => .error e
      | .ok (none, a2, d2) => .ok (false, a2, d2)
      | .ok (some consumerTile, a2, d2) =>
        let datatype : Option Ty :=
          match channelPuts, channelGets with
          | (_, put) :: _, _ => put.getMemref.map (fun v => v.ty)
          | [], (_, get) :: _ => get.getMemref.map (fun v => v.ty)
          | [], [] => none
        let objFifo (ty : Ty) : ObjectFifoCreateOp :=
          { uid := d2.nextUid
            sym_name := "air_" ++ channel.sym_name
            datatype := ty
            producerTile := producerTile
            consumerTiles := [consumerTile]
            depth := channel.buffer_resources }
        -- the insertion point is taken in front of the first core
        match d2.cores with
        | [] => .error Fault.nullDereference
        | _ :: _ =>
          match datatype with
          | none => .ok (false, a2, d2)
          | some ty =>
            match insertBeforeFirstCore (Op.objectFifo (objFifo ty)) d2.body with
            | none => .error Fault.nullDereference
            | some body =>
              let d3 : DeviceOp := { d2 with body := body, nextUid := d2.nextUid + 1 }
              match rewriteChannelEndpoints (objFifo ty) ObjectFifoPort.Produce d3 []
                  channelPuts with
              | .error e => .error e
              | .ok (d4, erased1) =>
                match rewriteChannelEndpoints (objFifo ty) ObjectFifoPort.Consume d4 erased1
                    channelGets with
                | .error e => .error e
                | .ok (d5, erased2) =>
                  let d6 := d5.eraseOps erased2
                  let d7 := d6.eraseOps (channelGets.map (fun x => x.2.uid))
                  let d8 := d7.eraseOps (channelPuts.map (fun x => x.2.uid))
                  .ok (true, a2, d8.eraseChannel channel)

/-! ## Specialization of channel bundles -/

/-- Modelled from the spec: `getMDVectorFromIterator`, a helper of the dialect
utilities: the multi-index of the `iter`-th element of a bundle of shape
`dims`, the first dimension running fastest. -/
def getMDVectorFromIterator : List Nat → Nat → List Nat
  | [], _ => []
  | d :: dims, iter => (iter % d) :: getMDVectorFromIterator dims (iter / d)

/-- Modelled from the spec: `convertVecOfConstIndexToVecOfUInt`, a helper of
the dialect utilities: the constants behind the index operands, and the empty
vector when one of them is not defined by an `arith::ConstantIndexOp`. -/
def convertVecOfConstIndexToVecOfUInt (indices : List Value) : List Nat :=
  if indices.all (fun v => match v.definer with
      | Definer.constantIndex _ => true
      | _ => false)
  then indices.filterMap (fun v => match v.definer with
      | Definer.constantIndex c => some (toUInt32 c)
      | _ => none)
  else []

/-- Source function `SpecializeChannelBundlePattern::areIdenticalVectors`. -/
def areIdenticalVectors (a b : List Nat) : Bool :=
  if a.isEmpty then false
  else if b.isEmpty then false
  else if a.length ≠ b.length then false
  else decide (a = b)

/-- Source function `SpecializeChannelBundlePattern::convertToStdVec`. -/
def convertToStdVec (vec : List Int) : List Nat := vec.map toUInt32

/-- The symbols of the device: the names of its channels, object fifos,
globals and functions. -/
def DeviceOp.symbols (d : DeviceOp) : List String :=
  d.body.filterMap (fun o => match o with
    | Op.channel c => some c.sym_name
    | Op.objectFifo f => some f.sym_name
    | Op.global g => some g.sym_name
    | Op.func f => some f.sym_name
    | _ => none)

/-- The loop of `createChannelName` from the try `which_try`, with at most
`fuel` further tries: the first of the names `channel_N` that is not a symbol. -/
def channelNameFrom (symbols : List String) : Nat → Nat → String
  | 0, which_try => "channel_" ++ toString which_try
  | fuel + 1, which_try =>
    if "channel_" ++ toString which_try ∈ symbols then
      channelNameFrom symbols fuel (which_try + 1)
    else "channel_" ++ toString which_try

/-- Source function `SpecializeChannelBundlePattern::createChannelName`: the loop runs with
one more try than there are symbols. -/
def createChannelName (scope : DeviceOp) : String :=
  channelNameFrom scope.symbols scope.symbols.length 0

/-- Insert `new` in front of the operation `target` of a device body. -/
def insertBeforeOp (new target : Op) : List Op → List Op
  | [] => []
  | o :: rest => if o = target then new :: o :: rest else o :: insertBeforeOp new target rest

/-- Insert `new` in front of the operation with uid `u` of a block. -/
def insertBeforeUid (new : Operation) (u : Nat) : List Operation → List Operation
  | [] => []
  | o :: rest => if o.uid = u then new :: o :: rest else o :: insertBeforeUid new u rest

/-- Source function `createChannelPutGetWithoutBundle`, for a put or a get: the operation on
`chan` without indices, with the async dependencies and a token of its own
when the original has a token. `none` for any other operation. -/
def createChannelPutGetWithoutBundle (uid : Nat) (chan : ChannelOp) (op : Operation) :
    Option Operation :=
  let token : Option Value :=
    (op.results.find? (fun r => r.isAsyncToken)).map (fun _ =>
      { id := uid + 1, ty := Ty.asyncToken, definer := Definer.operation uid })
  match op.kind with
  | OpKind.channelPut _ deps _ src offsets sizes strides =>
    some { uid := uid
           kind := OpKind.channelPut chan.sym_name (if token.isSome then deps else []) [] src
             offsets sizes strides
           results := token.toList }
  | OpKind.channelGet _ deps _ dst offsets sizes strides =>
    some { uid := uid
           kind := OpKind.channelGet chan.sym_name (if token.isSome then deps else []) [] dst
             offsets sizes strides
           results := token.toList }
  | _ => none

/-- The indices of a put or get (`getIndices()`). -/
def Operation.getIndices (o : Operation) : List Value :=
  match o.kind with
  | OpKind.channelPut _ _ indices _ _ _ _ => indices
  | OpKind.channelGet _ _ indices _ _ _ _ => indices
  | _ => []

/-- The body of the loops over the puts and over the gets in one iteration of
`SpecializeChannelBundlePattern`: every operation of `ops` (looked up in the
device by its uid) whose indices are `position` gets a copy on `new_chan` in
front of it, and the uses of its token become uses of the token of the copy. -/
def specializeEndpoints (new_chan : ChannelOp) (position : List Nat) :
    DeviceOp → List Nat → DeviceOp
  | device, [] => device
  | device, u :: rest =>
    match (device.walkOps.find? (fun x => decide (x.2.uid = u))).map (fun x => x.2) with
    | none => specializeEndpoints new_chan position device rest
    | some op =>
      if areIdenticalVectors (convertVecOfConstIndexToVecOfUInt op.getIndices) position then
        match createChannelPutGetWithoutBundle device.nextUid new_chan op with
        | none => specializeEndpoints new_chan position device rest
        | some new_op =>
          let device1 : DeviceOp :=
            { (device.mapBlocks (fun b => { b with ops := insertBeforeUid new_op u b.ops })) with
              nextUid := device.nextUid + 2 }
          let device2 : DeviceOp :=
            match op.results.find? (fun r => r.isAsyncToken), new_op.results.head? with
            | some old, some new =>
              device1.mapBlocks (fun b => { b with ops := replaceAllUsesWith old new b.ops })
            | _, _ => device1
          specializeEndpoints new_chan position device2 rest
      else specializeEndpoints new_chan position device rest

/-- The loop `for (iter = 0; iter < getBundleSize(); iter++)` of
`SpecializeChannelBundlePattern`, from `iter` on for `n` iterations. -/
def specializeBundleLoop (channel : ChannelOp) (puts gets : List Nat) :
    Nat → Nat → DeviceOp → DeviceOp
  | 0, _, device => device
  | n + 1, iter, device =>
    let cname := createChannelName device
    let new_chan : ChannelOp :=
      { uid := device.nextUid, sym_name := cname, size := [1, 1], broadcast_pattern := false
        broadcast_shape := false, buffer_resources := 1 }
    let device1 : DeviceOp :=
      { device with
          body := insertBeforeOp (Op.channel new_chan) (Op.channel channel) device.body
          nextUid := device.nextUid + 1 }
    let position := getMDVectorFromIterator (convertToStdVec channel.size) iter
    let device2 := specializeEndpoints new_chan position device1 puts
    let device3 := specializeEndpoints new_chan position device2 gets
    specializeBundleLoop channel puts gets n (iter + 1) device3

/-- Source function `SpecializeChannelBundlePattern::matchAndRewrite` for a channel declared in
`device`; `none` when the pattern returns `failure()`. -/
def SpecializeChannelBundlePattern.matchAndRewrite (channel : ChannelOp) (device : DeviceOp) :
    Option DeviceOp :=
  if channel.getBundleSize ≤ 1 then none
  else
    let channelPuts := (getChannelPutOpThroughSymbol channel device).map (fun x => x.2.uid)
    let channelGets := (getChannelGetOpThroughSymbol channel device).map (fun x => x.2.uid)
    let device1 := specializeBundleLoop channel channelPuts channelGets
      (toUInt32 channel.getBundleSize) 0 device
    some (((device1.eraseOps channelPuts).eraseOps channelGets).eraseChannel channel)

/-! ## Herds -/

/-- Handle of an `air::HerdOp`: its optional symbol name, its size
(`getNumCols`, `getNumRows`), the optional offset attributes, the optional
attribute `link_with`, the block arguments `getIds()` and `getSize()`, the
kernel arguments, and the operations of the single block of its body, the
terminator included. -/
structure HerdOp where
  uid : Nat
  sym_name : Option String
  numCols : Int
  numRows : Int
  colOffset : Option Int
  rowOffset : Option Int
  link_with : Option String
  ids : Value × Value
  size : Value × Value
  kernelArguments : List Value
  body : List Operation
  deriving DecidableEq, Repr

/-- The map `tileToHerdMap` of the pass, from the tile of an outlined core to
its herd, the latest entry first. -/
abbrev TileToHerdMap := List (TileOp × HerdOp)

/-- The herd `tileToHerdMap[tile]` holds, `none` when the tile has no entry
(`operator[]` then gives a null handle). -/
def TileToHerdMap.lookup (m : TileToHerdMap) (tile : TileOp) : Option HerdOp :=
  (m.find? (fun e => decide (e.1 = tile))).map (fun e => e.2)

/-! ## Lowering of pipeline handoffs -/

/-- The buffer operations of a device, in body order. -/
def DeviceOp.buffers (d : DeviceOp) : List BufferOp :=
  d.body.filterMap (fun o => match o with
    | Op.buffer b => some b
    | _ => none)

/-- Source function `allocateBufferOp`: a new buffer of `tile`, behind the run of tile
operations that starts at `tile`. The symbol name of the buffer (the given
name and the static counter `BufferId`) is not part of the buffer handle. -/
def allocateBufferOp (aie_device : DeviceOp) (tile : TileOp) : BufferOp × DeviceOp :=
  let buf : BufferOp := { uid := aie_device.nextUid, tile := tile }
  (buf, { aie_device with
            body := insertAfterTileRun (Op.buffer buf) tile aie_device.body
            nextUid := aie_device.nextUid + 1 })

/-- The method `TileOp::getCoreOp`: the core of the tile, `none` when the tile has no
core. -/
def TileOp.getCoreOp (tile : TileOp) (aie_device : DeviceOp) : Option CoreOp :=
  aie_device.cores.find? (fun c => decide (c.tile = tile))

/-- The `air.pipeline.get` that `other_core.walk` leaves in `get`: the last
one of the core. -/
def lastPipelineGet (core : CoreOp) : Option Operation :=
  ((core.body.flatMap (fun b => b.ops)).filter
    (fun o => decide (o.kind = OpKind.pipelineGet))).getLast?

/-- Insert the operations `news`, in order, in front of the operation with
uid `u` of a block: creations at one insertion point. -/
def insertAllBeforeUid (news : List Operation) (u : Nat) : List Operation → List Operation
  | [] => []
  | o :: rest =>
    if o.uid = u then news ++ o :: rest else o :: insertAllBeforeUid news u rest

/-- The value of `cast<arith::ConstantIndexOp>(v.getDefiningOp())`; the cast
of anything else is a fault. -/
def constantIndexValue (v : Value) : Except Fault Int :=
  match v.definer with
  | Definer.constantIndex c => .ok c
  | Definer.blockArgument => .error Fault.nullDereference
  | _ => .error Fault.assertionFailed

/-- The operations `LowerPipeGetPutPattern` creates in front of the put for
one payload: acquire with value 0, store to the buffer, release with value 1.
Their uids are taken from `n`. -/
def pipePutOps (n : Nat) (lockOp : LockOp) (buf : BufferOp) (o : Value) : List Operation :=
  [{ uid := n, kind := OpKind.useLock lockOp 0 LockAction.Acquire, results := [] },
   { uid := n + 1, kind := OpKind.tensorStore o buf, results := [] },
   { uid := n + 2, kind := OpKind.useLock lockOp 1 LockAction.Release, results := [] }]

/-- The result of the `bufferization.to_tensor` created for one payload. -/
def pipeLoadValue (n : Nat) : Value :=
  { id := n + 5, ty := Ty.rankedTensor, definer := Definer.operation (n + 4) }

/-- The operations `LowerPipeGetPutPattern` creates in front of the get for
one payload: acquire with value 1, load from the buffer, release with value 0.
Their uids follow those of `pipePutOps`. -/
def pipeGetOps (n : Nat) (lockOp : LockOp) (buf : BufferOp) : List Operation :=
  [{ uid := n + 3, kind := OpKind.useLock lockOp 1 LockAction.Acquire, results := [] },
   { uid := n + 4, kind := OpKind.toTensor buf, results := [pipeLoadValue n] },
   { uid := n + 6, kind := OpKind.useLock lockOp 0 LockAction.Release, results := [] }]

/-- The body of the loop of `LowerPipeGetPutPattern` for a ranked tensor `o`
put by the core on `tile` and the result `r` of the get: the buffer and the
lock on `tile`, the operations in front of the put and of the get, and the
uses of `r` replaced by the loaded value. Gives the device and the loaded
value. -/
def lowerPipePayload (put get : Operation) (tile : TileOp) (o r : Value) (d : DeviceOp) :
    DeviceOp × Value :=
  let b := allocateBufferOp d tile
  let l := allocateLockOp b.2 tile 0 (-1)
  let n := l.2.nextUid
  let rewrite : List Operation → List Operation := fun ops =>
    replaceAllUsesWith r (pipeLoadValue n)
      (insertAllBeforeUid (pipeGetOps n l.1 b.1) get.uid
        (insertAllBeforeUid (pipePutOps n l.1 b.1 o) put.uid ops))
  let d1 := l.2.mapBlocks (fun blk => { blk with ops := rewrite blk.ops })
  ({ d1 with nextUid := n + 7 }, pipeLoadValue n)

/-- The loop of `LowerPipeGetPutPattern` over the payloads of the put, zipped
with the results of the get. The operands still to visit are those of the put
in the device, so they follow the replacements made so far. A payload that is
not a ranked tensor ends the loop: `assert(0)` with assertions enabled,
`return failure()` (the result `false`) without. -/
def lowerPipePayloads (ndebug : Bool) (put get : Operation) (tile : TileOp) :
    List Value → List Value → DeviceOp → Except Fault (Bool × DeviceOp)
  | o :: os, r :: rs, d =>
    if o.ty = Ty.rankedTensor then
      let s := lowerPipePayload put get tile o r d
      lowerPipePayloads ndebug put get tile (os.map (Value.replace r s.2)) rs s.1
    else if ndebug then .ok (false, d)
    else .error Fault.assertionFailed
  | _, _, d => .ok (true, d)

/-- Source function `LowerPipeGetPutPattern::matchAndRewrite` for the operation `put` in the
core `core` of the device. `ndebug` tells whether assertions are compiled out.
The result tells whether the pattern returns `success()`, and gives the device
afterwards. -/
def LowerPipeGetPutPattern.matchAndRewrite (ndebug : Bool) (tileToHerdMap : TileToHerdMap)
    (core : CoreOp) (put : Operation) (aie_device : DeviceOp) :
    Except Fault (Bool × DeviceOp) :=
  match put.kind with
  | OpKind.pipelinePut dst0 dst1 opers =>
    match tileToHerdMap.lookup core.tile with
    | none => .error Fault.nullDereference
    | some herd =>
      let col_offset := herd.colOffset.getD 0
      let row_offset := herd.rowOffset.getD 0
      match constantIndexValue dst0 with
      | .error e => .error e
      | .ok other_x =>
        match constantIndexValue dst1 with
        | .error e => .error e
        | .ok other_y =>
          let t := getPhysTileOp aie_device (toInt32 (other_x + col_offset))
            (toInt32 (other_y + row_offset))
          match t.1.getCoreOp t.2 with
          | none => .error (if ndebug then Fault.nullDereference else Fault.assertionFailed)
          | some other_core =>
            match lastPipelineGet other_core with
            | none => .error (if ndebug then Fault.nullDereference else Fault.assertionFailed)
            | some get =>
              if ndebug = false ∧ get.results.length ≠ opers.length then
                .error Fault.assertionFailed
              else
                match lowerPipePayloads ndebug put get core.tile opers get.results t.2 with
                | .error e => .error e
                | .ok (false, d) => .ok (false, d)
                | .ok (true, d) => .ok (true, d.eraseOps [get.uid, put.uid])
  | _ => .ok (false, aie_device)

/-- The puts of the device offered to the pattern one after the other, each as
it is in the device at that moment; the result of the pattern is dropped. -/
def offerPipelinePuts (ndebug : Bool) (tileToHerdMap : TileToHerdMap) :
    List Nat → DeviceOp → Except Fault DeviceOp
  | [], d => .ok d
  | u :: rest, d =>
    match d.walkOps.find? (fun x => decide (x.2.uid = u)) with
    | none => offerPipelinePuts ndebug tileToHerdMap rest d
    | some x =>
      match LowerPipeGetPutPattern.matchAndRewrite ndebug tileToHerdMap x.1 x.2 d with
      | .error e => .error e
      | .ok r => offerPipelinePuts ndebug tileToHerdMap rest r.2

/-- Source function `lowerPipelineGetPut`: the pattern is applied by the greedy driver, and
the result of the driver is cast to `void`, so the function gives the device
and no indication of a failed rewrite. The driver is modelled as one offer of
every `air.pipeline.put` of the device, in walk order; its folding and its
removal of dead operations are not modelled. -/
def lowerPipelineGetPut (ndebug : Bool) (m : DeviceOp) (tileToHerdMap : TileToHerdMap) :
    Except Fault DeviceOp :=
  offerPipelinePuts ndebug tileToHerdMap
    ((m.walkOps.filter (fun x => match x.2.kind with
        | OpKind.pipelinePut _ _ _ => true
        | _ => false)).map (fun x => x.2.uid)) m

/-! ## Outlining of herds into cores -/

/-- The options of the pass that `outlineAIECores` reads (`AIRToAIEOptions`). -/
structure AIRToAIEOptions where
  col_offset : Int
  row_offset : Int
  emit_while : Bool
  emit_herd_lock : Bool
  deriving DecidableEq, Repr

/-- The name of the channel a put or a get refers to (`getChanName`), `none`
for any other operation. -/
def Operation.getChanName (o : Operation) : Option String :=
  match o.kind with
  | OpKind.channelPut n _ _ _ _ _ _ => some n
  | OpKind.channelGet n _ _ _ _ _ _ => some n
  | _ => none

/-- The walk of `outlineAIECores` over the channel operations of the herd: the
declaration of a channel whose name is no symbol of the device is cloned to
the insertion point of the builder, which starts at the start of the body and
stays behind the clone; `k` clones are in the body so far. The declaration is
looked up among the channel declarations of the module; a channel without
declaration is a null handle that is dereferenced. -/
def cloneChannelDeclarations (moduleChannels : List ChannelOp) :
    List Operation → Nat → DeviceOp → Except Fault DeviceOp
  | [], _, d => .ok d
  | op :: rest, k, d =>
    match op.getChanName with
    | none => cloneChannelDeclarations moduleChannels rest k d
    | some name =>
      if name ∈ d.symbols then cloneChannelDeclarations moduleChannels rest k d
      else
        match moduleChannels.find? (fun ch => decide (ch.sym_name = name)) with
        | none => .error Fault.nullDereference
        | some ch =>
          let clone : ChannelOp := { ch with uid := d.nextUid }
          cloneChannelDeclarations moduleChannels rest (k + 1)
            { d with
                body := d.body.take k ++ Op.channel clone :: d.body.drop k
                nextUid := d.nextUid + 1 }

/-- Insert `new` in front of the core with uid `u` of a device body. -/
def insertBeforeCore (new : Op) (u : Nat) : List Op → List Op
  | [] => []
  | Op.core c :: rest =>
    if c.uid = u then new :: Op.core c :: rest
    else Op.core c :: insertBeforeCore new u rest
  | o :: rest => o :: insertBeforeCore new u rest

/-- The loop of `outlineAIECores` that names a global from the try
`which_try`, with at most `fuel` further tries: the first of the names
`__air_herd_arg_N` that is not a symbol. -/
def herdArgNameFrom (symbols : List String) : Nat → Nat → String
  | 0, which_try => "__air_herd_arg_" ++ toString which_try
  | fuel + 1, which_try =>
    if "__air_herd_arg_" ++ toString which_try ∈ symbols then
      herdArgNameFrom symbols fuel (which_try + 1)
    else "__air_herd_arg_" ++ toString which_try

/-- Whether the type is a memref type. -/
def Ty.isMemRef : Ty → Bool
  | Ty.memref _ => true
  | _ => false

/-- The loop of `outlineAIECores` over the kernel arguments of the herd: an
argument of memref type gets a `memref.global` in front of the core with uid
`core` and a `memref.get_global` in the block `core_bb`, whose result the
argument is mapped to. The state is the device, the operations added to
`core_bb`, and the mapping. The name loop runs with one more try than there
are symbols. -/
def outlineKernelArguments (core : Nat) :
    List Value → DeviceOp × List Operation × IRMapping → DeviceOp × List Operation × IRMapping
  | [], st => st
  | a :: rest, (d, ops, remap) =>
    if a.ty.isMemRef then
      let sym_name := herdArgNameFrom d.symbols d.symbols.length 0
      let global : GlobalOp := { uid := d.nextUid, sym_name := sym_name, ty := a.ty }
      let m : Value :=
        { id := d.nextUid + 2, ty := a.ty, definer := Definer.operation (d.nextUid + 1) }
      let get : Operation :=
        { uid := d.nextUid + 1, kind := OpKind.getGlobal sym_name, results := [m] }
      outlineKernelArguments core rest
        ({ d with
             body := insertBeforeCore (Op.global global) core d.body
             nextUid := d.nextUid + 3 },
         ops ++ [get], remap.map a m)
    else outlineKernelArguments core rest (d, ops, remap)

/-- An `arith.constant` of type `index` with the value `v`; `uid` names the
operation and `uid + 1` its result. -/
def constantIndexOp (uid : Nat) (v : Int) : Operation :=
  { uid := uid, kind := OpKind.constantIndex v
    results := [{ id := uid + 1, ty := Ty.index, definer := Definer.constantIndex v }] }

/-- The result of `constantIndexOp uid v`. -/
def constantIndexResult (uid : Nat) (v : Int) : Value :=
  { id := uid + 1, ty := Ty.index, definer := Definer.constantIndex v }

/-- The end of the block `launch_bb`: in front of the terminator of the cloned
body come the release of the herd lock, when there is one, and the branch back
to `core_bb` (`emit_while`) or the `AIE.end`; then the `air.herd_terminator`
operations of the block are erased. Uids are taken from `n`. -/
def finishLaunch (emit_while : Bool) (herd_lock : Option LockOp) (core_bb : Nat) (n : Nat)
    (cloned : List Operation) : List Operation :=
  let released : List Operation :=
    match herd_lock with
    | some l =>
      insertBeforeLast
        { uid := n, kind := OpKind.useLock l 0 LockAction.Release, results := [] } cloned
    | none => cloned
  let ended : List Operation :=
    insertBeforeLast
      { uid := n + 1, kind := if emit_while then OpKind.br core_bb else OpKind.aieEnd
        results := [] } released
  ended.filter (fun o => decide (o.kind ≠ OpKind.herdTerminator))

/-- The walk of `outlineAIECores` over the calls of the core: a callee that is
no function of the device gets a private declaration at the end of the
device. -/
def declareCallees : List Operation → DeviceOp → DeviceOp
  | [], d => d
  | o :: rest, d =>
    match o.kind with
    | OpKind.call callee _ =>
      if d.body.any (fun x => match x with
          | Op.func f => decide (f.sym_name = callee)
          | _ => false) then declareCallees rest d
      else
        declareCallees rest
          { d with
              body := d.body ++ [Op.func { uid := d.nextUid, sym_name := callee }]
              nextUid := d.nextUid + 1 }
    | _ => declareCallees rest d

/-- Append blocks to the body of the core with uid `u`. -/
def DeviceOp.appendBlocks (d : DeviceOp) (u : Nat) (blocks : List Block) : DeviceOp :=
  { d with body := d.body.map (fun o => match o with
      | Op.core c => if c.uid = u then Op.core { c with body := c.body ++ blocks } else Op.core c
      | o => o) }

/-- The operations of the core with uid `u`, in walk order. -/
def DeviceOp.coreOps (d : DeviceOp) (u : Nat) : List Operation :=
  (d.cores.filter (fun c => decide (c.uid = u))).flatMap
    (fun c => c.body.flatMap (fun b => b.ops))

/-- The herd lock of `outlineAIECores`: `allocateLockOp` with `init = 0` and
`id = 0` when the option `emit_herd_lock` is set, no lock otherwise. -/
def herdLock (options : AIRToAIEOptions) (tile : TileOp) (d : DeviceOp) :
    Option LockOp × DeviceOp :=
  if options.emit_herd_lock then
    let r := allocateLockOp d tile 0 0
    (some r.1, r.2)
  else (none, d)

/-- The part of the body of the loops of `outlineAIECores` that generates the
body of the core with uid `core`, for the position `(x, y)` of the herd `h`,
the herd lock `l.1` and the device `l.2`: the blocks `entry_bb`, `core_bb` and
the clone `launch_bb` of the body of the herd come at the end of the body of
the core, with the ids and the size of the herd mapped to constants and the
kernel arguments of memref type to globals; then the callees are declared.
Values of the body that are not mapped stay as they are. -/
def outlineCoreBlocks (h : HerdOp) (options : AIRToAIEOptions) (x y : Int) (core : Nat)
    (l : Option LockOp × DeviceOp) : DeviceOp :=
  let n := l.2.nextUid
  let core_bb := n
  let entry_bb : Block :=
    { uid := n + 1, ops := [{ uid := n + 2, kind := OpKind.br core_bb, results := [] }] }
  let remap : IRMapping :=
    (((IRMapping.map [] h.ids.1 (constantIndexResult (n + 3) x)).map h.ids.2
      (constantIndexResult (n + 5) y)).map h.size.1
      (constantIndexResult (n + 7) h.numCols)).map h.size.2
      (constantIndexResult (n + 9) h.numRows)
  let constants : List Operation :=
    [constantIndexOp (n + 3) x, constantIndexOp (n + 5) y, constantIndexOp (n + 7) h.numCols,
     constantIndexOp (n + 9) h.numRows]
  let a := outlineKernelArguments core h.kernelArguments
    ({ l.2 with nextUid := n + 11 }, constants, remap)
  let n1 := a.1.nextUid
  let acquire : List Operation :=
    match l.1 with
    | some lock => [{ uid := n1, kind := OpKind.useLock lock 0 LockAction.Acquire, results := [] }]
    | none => []
  let launch_bb := n1 + 1
  let cloned := cloneOps a.2.2 (n1 + 2) h.body
  let n2 := cloned.2.2
  let blocks : List Block :=
    [entry_bb,
     { uid := core_bb
       ops := a.2.1 ++ acquire ++ [{ uid := n2, kind := OpKind.br launch_bb, results := [] }] },
     { uid := launch_bb, ops := finishLaunch options.emit_while l.1 core_bb (n2 + 1) cloned.1 }]
  let d1 := DeviceOp.appendBlocks { a.1 with nextUid := n2 + 3 } core blocks
  declareCallees (d1.coreOps core) d1

/-- The part of the body of the loops of `outlineAIECores` behind the creation
of the core, for the tile `tile` and its core, whose uid is `core`: the herd
lock, then the body of the core. -/
def outlineCoreBody (h : HerdOp) (options : AIRToAIEOptions) (x y : Int) (tile : TileOp)
    (core : Nat) (d : DeviceOp) : DeviceOp :=
  outlineCoreBlocks h options x y core (herdLock options tile d)

/-- The body of the loops of `outlineAIECores` for the position `(x, y)` of
the herd `h`, whose offset is `(col_offset, row_offset)`, in the device with
the symbol name `segment_name`: the tile at the physical position, which is
passed to `getPhysTileOp` as 32-bit `int`, its core (created behind the run of
tiles with its `elf_file` when the tile has none, and then entered in
`tileToHerdMap`), and the body of the core (`outlineCoreBody`). -/
def outlineCore (segment_name : String) (h : HerdOp) (options : AIRToAIEOptions)
    (col_offset row_offset : Int) (x y : Int) (st : DeviceOp × TileToHerdMap) :
    DeviceOp × TileToHerdMap :=
  let phys_x := x + col_offset
  let phys_y := y + row_offset
  let t := getPhysTileOp st.1 (toInt32 phys_x) (toInt32 phys_y)
  let tile := t.1
  match tile.getCoreOp t.2 with
  | some core => (outlineCoreBody h options x y tile core.uid t.2, st.2)
  | none =>
    let core : CoreOp :=
      { uid := t.2.nextUid, tile := tile
        elf_file := segment_name ++ "_core_" ++ toString phys_x ++ "_" ++ toString phys_y
          ++ ".elf"
        link_with := h.link_with, body := [] }
    (outlineCoreBody h options x y tile core.uid
       { t.2 with
           body := insertAfterTileRun (Op.core core) tile t.2.body
           nextUid := t.2.nextUid + 1 },
     (tile, h) :: st.2)

/-- Source function `outlineAIECores` for the herd `h` and the device with the symbol name
`segment_name`: the declarations of the channels of the herd are cloned, the
offset is that of the herd when it has the attributes and that of the options
otherwise (the herd then gets the attributes), and the loops visit the
positions of the herd, `y` outside and `x` inside. Gives the device, the map
`tileToHerdMap` and the herd. -/
def outlineAIECores (segment_name : String) (moduleChannels : List ChannelOp)
    (aie_device : DeviceOp) (h : HerdOp) (tileToHerdMap : TileToHerdMap)
    (options : AIRToAIEOptions) : Except Fault (DeviceOp × TileToHerdMap × HerdOp) :=
  match cloneChannelDeclarations moduleChannels h.body 0 aie_device with
  | .error e => .error e
  | .ok d =>
    let col_offset := h.colOffset.getD options.col_offset
    let row_offset := h.rowOffset.getD options.row_offset
    let h1 : HerdOp := { h with colOffset := some col_offset, rowOffset := some row_offset }
    let r := (List.range h.numRows.toNat).foldl (fun st (y : Nat) =>
      (List.range h.numCols.toNat).foldl (fun st (x : Nat) =>
        outlineCore segment_name h1 options col_offset row_offset x y st) st) (d, tileToHerdMap)
    .ok (r.1, r.2, h1)

/-! ## Example inputs -/

/-- A target model with `n` columns, all of them shim-capable in row 0. -/
def exampleTarget (n : Int) : AIETargetModel :=
  { arch := AIEArch.AIE1, columns := n, isShimNOCTile := fun _ r => decide (r = 0) }

/-- A device without operations. -/
def emptyDevice (arch : AIEArch) : DeviceOp :=
  { arch := arch, body := [], nextUid := 0 }

/-- A copy from L3 to L1 with the given id, its destination in `buf`. -/
def copyL3toL1 (id : Int) (buf : Option BufferOp) : DmaMemcpy :=
  { id := id, srcMemorySpace := MemorySpace.L3, dstMemorySpace := MemorySpace.L1
    srcBuffer := none, dstBuffer := buf }

/-! ## Vocabulary of the statements -/

/-- Shape of a pool that has served `k` requests since it was empty: one entry
per started pair of requests, all channels used except that an odd `k` leaves
one channel in the last entry; entry `i` sits in the `i`-th shim column. -/
def PoolAt (cols : List Int) (k : Nat) (l : List shim_allocation_info_t) : Prop :=
  l.map (fun t => t.available_channels)
      = List.replicate (k / 2) 0 ++ (if k % 2 = 1 then [1] else []) ∧
  l.map (fun t => t.shim_tile.col) = cols.take l.length

/-- An entry answers a request when it sits at the requested coordinates and
holds the id or has the requested tile channel: the test of both loops. -/
def Answers (id tile_channel col row : Int) (t : allocation_info_t) : Prop :=
  col = t.col ∧ row = t.row ∧ (id ∈ t.dma_id ∨ tile_channel = t.tile_channel)

/-- The entry after it has answered a request for `id`: the id is added
unless it is already there. -/
def absorb (id : Int) (t : allocation_info_t) : allocation_info_t :=
  if id ∈ t.dma_id then t else { t with dma_id := t.dma_id ++ [id] }

/-- The entry `getTile` appends when its search falls through. -/
def newAllocation (a : DMAAllocator) (dev : DeviceOp) (dmaOp : DmaMemcpy)
    (tile_channel col row : Int) (n : Nat) (dma_col : Int) : allocation_info_t :=
  { dma_tile := (getPhysTileOp dev dma_col 0).1
    col := col
    row := row
    dma_channel := ((n % toSizeT a.dma_channels : Nat) : Int)
    tile_channel := tile_channel
    dma_id := [dmaOp.id] }

/-- The id `n` is the smallest one that no lock of `tile` in the device uses. -/
def IsSmallestUnusedId (d : DeviceOp) (tile : TileOp) (n : Nat) : Prop :=
  (∀ l ∈ d.locks, l.tile = tile → l.lockID ≠ n) ∧
  ∀ m, m < n → ∃ l ∈ d.locks, l.tile = tile ∧ l.lockID = m

/-- No two lock operations of the device sit on the same tile with the same
id. -/
def LockIdsUnique (d : DeviceOp) : Prop :=
  d.locks.Pairwise (fun a b => a.tile = b.tile → a.lockID ≠ b.lockID)

/-- The body of `getTileDMAChannel` on the allocation list of one direction:
the channel of the transfer and the list afterwards. -/
def tileChannelOn (l : List (Int × Int × Int × Int)) (id col row : Int) :
    Int × List (Int × Int × Int × Int) :=
  let found := l.foldl (tileChannelStep id col row) (-1, 0)
  if found.1 = -1 then
    (((found.2 % toUInt32 tile_dma_channels : Nat) : Int),
      l ++ [(id, col, row, ((found.2 % toUInt32 tile_dma_channels : Nat) : Int))])
  else (found.1, l)

/-- The iterations of the loop of `getDmaSchedules` for a sequence of copies,
each in the core of the tile it is paired with, in the order in which
`lowerAirDmaMemcpy` meets them; `(x, y)` are the coordinates of that tile. The
run stops at the first fault. -/
def AIRToAIEPass.routeDmaCopies (p : AIRToAIEPass) (shim_dma_alloc : DMAAllocator)
    (aie_device : DeviceOp) :
    List (TileOp × DmaMemcpy) →
      Except Fault (List (Option DmaRoute) × AIRToAIEPass × DMAAllocator × DeviceOp)
  | [] => .ok ([], p, shim_dma_alloc, aie_device)
  | (tile, dmaOpIf) :: rest =>
    match p.routeDmaCopy shim_dma_alloc aie_device tile dmaOpIf tile.col tile.row with
    | .error e => .error e
    | .ok (r, p', a', dev') =>
      match AIRToAIEPass.routeDmaCopies p' a' dev' rest with
      | .error e => .error e
      | .ok (rs, p'', a'', dev'') => .ok (r :: rs, p'', a'', dev'')

/-- State of a `DMAAllocator` over the column table `cols` after it has
answered the requests `reqs` of direction `dir` with the tiles `tiles`: the
entries of that direction are the distinct triples of the requests in order
of first occurrence, entry `N` has channel `N % 2` and its tile in row 0 of
column `cols[N / 2]`, every recorded id was requested with the triple of its
entry, and every request was answered with the tile of the entry of its
triple. -/
structure RoundRobin (cols : List Int) (dir : Bool) (reqs : List TileRequest)
    (tiles : List TileOp) (a : DMAAllocator) : Prop where
  cols_eq : a.dma_columns = cols
  chans : a.dma_channels = 2
  triples : (a.allocs dir).map allocation_info_t.triple = distinctTriples reqs
  ids : ∀ e ∈ a.allocs dir, ∀ id ∈ e.dma_id,
    ∃ r ∈ reqs, r.dmaOp.id = id ∧ r.triple = e.triple
  channel : (a.allocs dir).map (fun e => e.dma_channel)
    = (List.range (a.allocs dir).length).map (fun N => ((N % 2 : Nat) : Int))
  place : (a.allocs dir).map (fun e => (some e.dma_tile.col, e.dma_tile.row))
    = (List.range (a.allocs dir).length).map (fun N => (cols[N / 2]?, (0 : Int)))
  answered : List.Forall₂
    (fun t r => ∃ e ∈ a.allocs dir, e.triple = r.triple ∧ e.dma_tile = t) tiles reqs

/-- Every transfer id is presented with one tile channel at given
coordinates. -/
def IdsConsistent (reqs : List TileRequest) : Prop :=
  ∀ r1 ∈ reqs, ∀ r2 ∈ reqs, r1.dmaOp.id = r2.dmaOp.id → r1.col = r2.col → r1.row = r2.row →
    r1.tile_channel = r2.tile_channel

/-- No two tile operations of the device have the same coordinates. -/
def TileCoordsUnique (d : DeviceOp) : Prop :=
  d.tiles.Pairwise (fun a b => ¬ (a.col = b.col ∧ a.row = b.row))

/-- A sequence of `getPhysTileOp` calls `(col, row)`, in order. -/
def getPhysTileOps (aie_device : DeviceOp) : List (Int × Int) → DeviceOp
  | [] => aie_device
  | (col, row) :: rest => getPhysTileOps (getPhysTileOp aie_device col row).2 rest

/-- A record of the `dma_allocations` table that `runOnOperation` attaches to
the metadata of a herd. -/
structure DmaAllocationRecord where
  id : Int
  row : Int
  col : Int
  channel : Int
  location : Int
  deriving DecidableEq, Repr

/-- The loop of `runOnOperation` over `shimDmaAlloc.s2mm_allocs`: one record
for every id of every entry that is in `dma_ids`, the ids of the herd. -/
def s2mmRecords (dma_ids : List Int) (col_offset row_offset : Int)
    (shimDmaAlloc : DMAAllocator) : List DmaAllocationRecord :=
  shimDmaAlloc.s2mm_allocs.flatMap (fun t =>
    (t.dma_id.filter (fun id => decide (id ∈ dma_ids))).map (fun id =>
      { id := id
        row := t.row - row_offset
        col := t.col - col_offset
        channel := t.dma_channel
        location := t.dma_tile.col }))

/-- The loop of `runOnOperation` over `shimDmaAlloc.mm2s_allocs`: as for the
other direction, with `chan + 2` as channel. -/
def mm2sRecords (dma_ids : List Int) (col_offset row_offset : Int)
    (shimDmaAlloc : DMAAllocator) : List DmaAllocationRecord :=
  shimDmaAlloc.mm2s_allocs.flatMap (fun t =>
    (t.dma_id.filter (fun id => decide (id ∈ dma_ids))).map (fun id =>
      { id := id
        row := t.row - row_offset
        col := t.col - col_offset
        channel := t.dma_channel + 2
        location := t.dma_tile.col }))

/-- The table `dma_allocations` of a herd whose transfer ids are `dma_ids` and
whose offsets are `herdColOffset` and `herdRowOffset` (`none` when the herd
has no such attribute, which counts as 0). -/
def dmaAllocations (dma_ids : List Int) (herdColOffset herdRowOffset : Option Int)
    (shimDmaAlloc : DMAAllocator) : List DmaAllocationRecord :=
  let col_offset : Int := herdColOffset.getD 0
  let row_offset : Int := herdRowOffset.getD 0
  s2mmRecords dma_ids col_offset row_offset shimDmaAlloc ++
    mm2sRecords dma_ids col_offset row_offset shimDmaAlloc

/-- Every entry of both lists has a shim channel below the two channels of a
shim tile. -/
def ShimChannelsInRange (a : DMAAllocator) : Prop :=
  a.dma_channels = 2 ∧
  (∀ e ∈ a.s2mm_allocs, e.dma_channel = 0 ∨ e.dma_channel = 1) ∧
  (∀ e ∈ a.mm2s_allocs, e.dma_channel = 0 ∨ e.dma_channel = 1)

/-- The direction `getTile` and `getChannel` select for a request: `true` for
MM2S (`src < dst`). -/
def TileRequest.isMM2S (r : TileRequest) : Bool :=
  decide (r.dmaOp.srcMemorySpace < r.dmaOp.dstMemorySpace)

/-- Every transfer id is presented with one tile channel at given coordinates
and direction. -/
def IdsConsistentPerDirection (reqs : List TileRequest) : Prop :=
  ∀ r1 ∈ reqs, ∀ r2 ∈ reqs, r1.isMM2S = r2.isMM2S → r1.dmaOp.id = r2.dmaOp.id →
    r1.col = r2.col → r1.row = r2.row → r1.tile_channel = r2.tile_channel

/-- State of a `DMAAllocator` that has answered the requests `reqs`: in each
direction no two entries have the same `(col, row, tile_channel)`, and every
id an entry holds was requested in that direction with the triple of the
entry. -/
structure EntriesTrack (reqs : List TileRequest) (a : DMAAllocator) : Prop where
  nodup : ∀ d : Bool, ((a.allocs d).map allocation_info_t.triple).Nodup
  ids : ∀ d : Bool, ∀ e ∈ a.allocs d, ∀ id ∈ e.dma_id,
    ∃ r ∈ reqs, r.isMM2S = d ∧ r.dmaOp.id = id ∧ r.triple = e.triple

/-- The direction `getTileDMAChannel` selects for a transfer: `true` for MM2S
(`src > dst`). -/
def tileIsMM2S (dmaOp : DmaMemcpy) : Bool :=
  decide (dmaOp.srcMemorySpace > dmaOp.dstMemorySpace)

/-- The allocation list of the pass for a direction. -/
def AIRToAIEPass.tileAllocs (p : AIRToAIEPass) (d : Bool) : List (Int × Int × Int × Int) :=
  if d then p.tile_dma_MM2S_allocs else p.tile_dma_S2MM_allocs

/-- The direction of a tile channel as a `DMAChannelDir`. -/
def tileChannelDir (d : Bool) : DMAChannelDir :=
  if d then DMAChannelDir.MM2S else DMAChannelDir.S2MM

/-- A sequence of `getTileDMAChannel` requests `(dmaOp, col, row)`, in order;
the returned channels are collected. -/
def AIRToAIEPass.getTileDMAChannels (p : AIRToAIEPass) :
    List (DmaMemcpy × Int × Int) → List DMAChannel × AIRToAIEPass
  | [] => ([], p)
  | (dmaOp, col, row) :: rest =>
    let r := p.getTileDMAChannel dmaOp col row
    let rs := AIRToAIEPass.getTileDMAChannels r.2 rest
    (r.1 :: rs.1, rs.2)

/-- The distinct transfer ids requested at `(col, row)` in direction `d`, in
order of first request. -/
def distinctIdsAt (reqs : List (DmaMemcpy × Int × Int)) (d : Bool) (col row : Int) :
    List Int :=
  reqs.foldl (fun acc q =>
    if tileIsMM2S q.1 = d ∧ col = q.2.1 ∧ row = q.2.2 ∧ q.1.id ∉ acc then acc ++ [q.1.id]
    else acc) []

/-- The entries `(id, col, row, chan)` of an allocation list at `(col, row)`. -/
def entriesAt (l : List (Int × Int × Int × Int)) (col row : Int) :
    List (Int × Int × Int × Int) :=
  l.filter (fun t => decide (col = t.2.1 ∧ row = t.2.2.1))

/-- Shape of an allocation list of `getTileDMAChannel`: at every tile the ids
of the entries are distinct and the `k`-th entry (from 0) has channel
`k % 2`. -/
def TileChannelsAlternate (l : List (Int × Int × Int × Int)) : Prop :=
  ∀ col row : Int,
    ((entriesAt l col row).map (fun t => t.1)).Nodup ∧
    (entriesAt l col row).map (fun t => t.2.2.2)
      = (List.range (entriesAt l col row).length).map (fun k => ((k % 2 : Nat) : Int))

/-- State of the pass after it has answered the `getTileDMAChannel` requests
`reqs` with the channels `results`: in both directions the channels alternate
at every tile, the ids of the entries at a tile are the distinct ids requested
there in order of first request, and every request has an entry with the
channel it was answered with. -/
structure TileChannelsTrack (reqs : List (DmaMemcpy × Int × Int)) (results : List DMAChannel)
    (p : AIRToAIEPass) : Prop where
  alternate : ∀ d : Bool, TileChannelsAlternate (p.tileAllocs d)
  ids : ∀ (d : Bool) (col row : Int),
    (entriesAt (p.tileAllocs d) col row).map (fun t => t.1) = distinctIdsAt reqs d col row
  served : List.Forall₂
    (fun (res : DMAChannel) (q : DmaMemcpy × Int × Int) =>
      res.1 = tileChannelDir (tileIsMM2S q.1) ∧ (res.2 = 0 ∨ res.2 = 1) ∧
      (q.1.id, q.2.1, q.2.2, res.2) ∈ p.tileAllocs (tileIsMM2S q.1))
    results reqs

/-- The pairs of an allocation entry and a transfer id it holds for which the
loops of `runOnOperation` write a record, in the order of the loops: the
entries of `s2mm_allocs` (flag `false`), then those of `mm2s_allocs` (flag
`true`), each with its ids that are in `dma_ids`. -/
def recordPairs (dma_ids : List Int) (shimDmaAlloc : DMAAllocator) :
    List (Bool × allocation_info_t × Int) :=
  shimDmaAlloc.s2mm_allocs.flatMap (fun t =>
    (t.dma_id.filter (fun id => decide (id ∈ dma_ids))).map (fun id => (false, t, id))) ++
  shimDmaAlloc.mm2s_allocs.flatMap (fun t =>
    (t.dma_id.filter (fun id => decide (id ∈ dma_ids))).map (fun id => (true, t, id)))

/-- The record written for an entry and an id: the coordinates of the entry
relative to the offsets of the herd, the shim channel (plus 2 for MM2S) and
the column of the shim tile. -/
def recordOf (col_offset row_offset : Int) (x : Bool × allocation_info_t × Int) :
    DmaAllocationRecord :=
  { id := x.2.2
    row := x.2.1.row - row_offset
    col := x.2.1.col - col_offset
    channel := if x.1 then x.2.1.dma_channel + 2 else x.2.1.dma_channel
    location := x.2.1.dma_tile.col }

/-- No entry of the allocator holds an id twice. -/
def IdsNodup (a : DMAAllocator) : Prop :=
  ∀ d : Bool, ∀ e ∈ a.allocs d, e.dma_id.Nodup

/-- A device with the tile `(1, 1)`, a declaration of the channel `chan` and a
core on the tile whose block holds the operations `ops` and an `AIE.end`. -/
def channelDevice (chan : ChannelOp) (ops : List Operation) : DeviceOp :=
  { arch := AIEArch.AIE1
    body := [Op.tile { uid := 0, col := 1, row := 1 },
             Op.channel chan,
             Op.core { uid := 2, tile := { uid := 0, col := 1, row := 1 }, elf_file := "core.elf"
                       link_with := none
                       body := [{ uid := 3
                                  ops := ops ++ [{ uid := 4, kind := OpKind.aieEnd
                                                   results := [] }] }] }]
    nextUid := 50 }

/-- A channel declaration without bundle shape and broadcast attributes. -/
def plainChannel (name : String) (buffer_resources : Int) : ChannelOp :=
  { uid := 1, sym_name := name, size := [], broadcast_pattern := false
    broadcast_shape := false, buffer_resources := buffer_resources }

/-- An `air.channel.get` on the channel `name` into a memref in L1 that is
defined by the `memref.alloc` with uid `a`. -/
def getIntoL1 (uid : Nat) (name : String) (a : Nat) : Operation :=
  { uid := uid
    kind := OpKind.channelGet name [] []
      { id := a + 1, ty := Ty.memref MemorySpace.L1, definer := Definer.alloc a } [] [] []
    results := [] }

/-- A `memref.alloc` of a memref in L1. -/
def allocL1 (a : Nat) : Operation :=
  { uid := a, kind := OpKind.alloc
    results := [{ id := a + 1, ty := Ty.memref MemorySpace.L1, definer := Definer.alloc a }] }

/-- The operations of a device other than its tiles, in body order. -/
def DeviceOp.nonTiles (d : DeviceOp) : List Op :=
  d.body.filter (fun o => match o with
    | Op.tile _ => false
    | _ => true)

/-- An operation of a device without the contents of its regions: a core
without its body, any other operation as it is. -/
def Op.skeleton : Op → Op
  | Op.core c => Op.core { c with body := [] }
  | o => o

/-- A declaration of a channel bundle of the shape `size`. -/
def bundleChannel (name : String) (size : List Int) : ChannelOp :=
  { uid := 1, sym_name := name, size := size, broadcast_pattern := false
    broadcast_shape := false, buffer_resources := 1 }

/-- An `air.channel.put` on the channel `name` at the indices `indices`, from
a memref in L1. -/
def putAt (uid : Nat) (name : String) (indices : List Value) : Operation :=
  { uid := uid
    kind := OpKind.channelPut name [] indices
      { id := 90, ty := Ty.memref MemorySpace.L1, definer := Definer.operation 89 } [] [] []
    results := [] }

/-- The number of puts in the cores of a device. -/
def DeviceOp.numPuts (d : DeviceOp) : Nat :=
  (d.walkOps.filter (fun x => match x.2.kind with
    | OpKind.channelPut _ _ _ _ _ _ _ => true
    | _ => false)).length

/-- A herd of the size `numCols` by `numRows` with the offset attributes
`colOffset`, `rowOffset`, without kernel arguments and with the body `body`. -/
def plainHerd (numCols numRows : Int) (colOffset rowOffset : Option Int)
    (body : List Operation) : HerdOp :=
  { uid := 100, sym_name := some "herd_0", numCols := numCols, numRows := numRows
    colOffset := colOffset, rowOffset := rowOffset, link_with := none
    ids := ({ id := 101, ty := Ty.index, definer := Definer.blockArgument },
            { id := 102, ty := Ty.index, definer := Definer.blockArgument })
    size := ({ id := 103, ty := Ty.index, definer := Definer.blockArgument },
             { id := 104, ty := Ty.index, definer := Definer.blockArgument })
    kernelArguments := [], body := body }

/-- The `air.pipeline.put` of `pipelineDevice`: to the stage at `(1, 0)` of the
herd, with the payloads `opers`. -/
def examplePut (opers : List Value) : Operation :=
  { uid := 20
    kind := OpKind.pipelinePut
      { id := 11, ty := Ty.index, definer := Definer.constantIndex 1 }
      { id := 13, ty := Ty.index, definer := Definer.constantIndex 0 } opers
    results := [] }

/-- The core of `pipelineDevice` that puts, on the tile `(1, 1)`. -/
def putCore (opers : List Value) : CoreOp :=
  { uid := 2, tile := { uid := 0, col := 1, row := 1 }, elf_file := "core_1_1.elf"
    link_with := none
    body := [{ uid := 3
               ops := [{ uid := 14, kind := OpKind.other "produce" [], results := opers },
                       examplePut opers,
                       { uid := 21, kind := OpKind.aieEnd, results := [] }] }] }

/-- The core of `pipelineDevice` that gets, on the tile `(2, 1)`. -/
def getCore (results : List Value) : CoreOp :=
  { uid := 4, tile := { uid := 1, col := 2, row := 1 }, elf_file := "core_2_1.elf"
    link_with := none
    body := [{ uid := 5
               ops := [{ uid := 30, kind := OpKind.pipelineGet, results := results },
                       { uid := 31, kind := OpKind.other "consume" results, results := [] },
                       { uid := 32, kind := OpKind.aieEnd, results := [] }] }] }

/-- A device with two cores of one herd at the offset `(1, 1)`: the core on
the tile `(1, 1)` puts the values `opers` to the stage `(1, 0)`, the core on
the tile `(2, 1)` gets them as `results` and uses them. -/
def pipelineDevice (opers results : List Value) : DeviceOp :=
  { arch := AIEArch.AIE1
    body := [Op.tile { uid := 0, col := 1, row := 1 }, Op.tile { uid := 1, col := 2, row := 1 },
             Op.core (putCore opers), Op.core (getCore results)]
    nextUid := 50 }

/-- The map from the tiles of `pipelineDevice` to their herd. -/
def pipelineHerds : TileToHerdMap :=
  [({ uid := 0, col := 1, row := 1 }, plainHerd 2 1 (some 1) (some 1) []),
   ({ uid := 1, col := 2, row := 1 }, plainHerd 2 1 (some 1) (some 1) [])]

/-- The number of `AIE.useLock` operations in the cores of a device. -/
def DeviceOp.numUseLocks (d : DeviceOp) : Nat :=
  (d.walkOps.filter (fun x => match x.2.kind with
    | OpKind.useLock _ _ _ => true
    | _ => false)).length

/-- The number of `air.pipeline.put` operations in the cores of a device. -/
def DeviceOp.numPipelinePuts (d : DeviceOp) : Nat :=
  (d.walkOps.filter (fun x => match x.2.kind with
    | OpKind.pipelinePut _ _ _ => true
    | _ => false)).length

/-- A ranked tensor that is a result of the operation with uid `uid`. -/
def tensorValue (id uid : Nat) : Value :=
  { id := id, ty := Ty.rankedTensor, definer := Definer.operation uid }

/-- A value of type `index` that is a result of the operation with uid `uid`. -/
def indexValue (id uid : Nat) : Value :=
  { id := id, ty := Ty.index, definer := Definer.operation uid }

/-- A device like `pipelineDevice` whose handoff carries a ranked tensor and a
value of type `index`. -/
def mixedPipelineDevice : DeviceOp :=
  pipelineDevice [tensorValue 15 14, indexValue 16 14] [tensorValue 33 30, indexValue 34 30]

/-- What becomes of an operation of a core when the handoff of `put` and `get`
with the payload `o` is lowered on the buffer `buf` and the lock `lockOp`: the
put becomes acquire with value 0, store of `o` to the buffer, release with
value 1; the get becomes acquire with value 1, load from the buffer, release
with value 0; every other operation stays. The uids of the new operations are
taken from `n`. -/
def handoffOps (n : Nat) (lockOp : LockOp) (buf : BufferOp) (o : Value) (put get : Operation)
    (op : Operation) : List Operation :=
  if op.uid = put.uid then pipePutOps n lockOp buf o
  else if op.uid = get.uid then pipeGetOps n lockOp buf
  else [op]

/-- A core after the lowering of a handoff: every operation of every block is
replaced as `handoffOps` tells, and the uses of the result `r` of the get are
replaced by the loaded value. -/
def CoreOp.handoffLowered (n : Nat) (lockOp : LockOp) (buf : BufferOp) (o r : Value)
    (put get : Operation) (c : CoreOp) : CoreOp :=
  let lowered : Block → Block := fun b =>
    { uid := b.uid
      ops := replaceAllUsesWith r (pipeLoadValue n)
        (b.ops.flatMap (handoffOps n lockOp buf o put get)) }
  { c with body := c.body.map lowered }

/-! ## The loop of `runOnOperation` over the devices -/

/-- The stages of `runOnOperation` that rewrite a device. The loop over the
devices is embedded with the stages as they are called; what a stage does to
the device is left open, so a statement about the loop holds for any
behaviour of the stages. -/
structure LoweringStages where
  specializeHerdAffineIf : DeviceOp → DeviceOp
  lowerAirExecute : DeviceOp → DeviceOp
  lowerScfAirTokens : DeviceOp → DeviceOp
  allocL1Buffers : DeviceOp → TileToHerdMap → DeviceOp
  lowerAirDmaMemcpy :
    AIRToAIEPass → DeviceOp → DMAAllocator → AIRToAIEPass × DeviceOp × DMAAllocator
  lowerPipelineGetPut : DeviceOp → TileToHerdMap → DeviceOp
  specializeChannelBundle : DeviceOp → DeviceOp
  LowerAIRPingPong : DeviceOp → DeviceOp
  lowerAIRChannels : DeviceOp → ShimTileAllocator → DeviceOp × ShimTileAllocator
  canonicalizeWaitAll : DeviceOp → DeviceOp

/-- An entry of `aie_devices`: the device, as its position among the devices
of the module, and a herd outlined into it, with the herds of the parent
segment of the herd (`none` for a herd outside any segment). -/
structure DeviceEntry where
  device : Nat
  herd : HerdOp
  segmentHerds : Option (List HerdOp)

/-- A herd entry of the metadata the pass emits: the name of the segment, the
name of the herd, and its table `dma_allocations`. -/
structure HerdMetadata where
  segment_name : String
  herd_name : String
  dma_allocations : List DmaAllocationRecord
  deriving DecidableEq, Repr

/-- What `runOnOperation` has made so far: the state of the pass, the devices
of the module with their symbol names, the herd entries of the metadata, and
whether `signalPassFailure` was called. -/
structure PassRun where
  pass : AIRToAIEPass
  devices : List (String × DeviceOp)
  metadata : List HerdMetadata
  signalledFailure : Bool

/-- The walk of `runOnOperation` that sets `hasDma`: whether the device holds
an operation with the interface `air::DmaMemcpyInterface`. -/
def hasDma (device : DeviceOp) : Bool :=
  device.walkOps.any (fun x => match x.2.kind with
    | OpKind.dmaMemcpyNd _ _ _ _ => true
    | _ => false)

/-- The walk of `runOnOperation` that sets `hasChan`: whether the device holds
an operation with the interface `air::ChannelInterface`. -/
def hasChan (device : DeviceOp) : Bool :=
  device.walkOps.any (fun x => match x.2.kind with
    | OpKind.channelPut _ _ _ _ _ _ _ => true
    | OpKind.channelGet _ _ _ _ _ _ _ => true
    | _ => false)

/-- The ids of the copies of a herd (`dma_ids`). -/
def HerdOp.dmaIds (herd : HerdOp) : List Int :=
  herd.body.filterMap (fun o => match o.kind with
    | OpKind.dmaMemcpyNd id _ _ _ => some id
    | _ => none)

/-- The stages of `runOnOperation` in front of the test for a mix of copies
and channels. -/
def LoweringStages.beforeCheck (stages : LoweringStages) (tileToHerdMap : TileToHerdMap)
    (device : DeviceOp) : DeviceOp :=
  stages.allocL1Buffers
    (stages.lowerScfAirTokens (stages.lowerAirExecute (stages.specializeHerdAffineIf device)))
    tileToHerdMap

/-- The herd entries `runOnOperation` emits for a lowered device. -/
def herdMetadata (segment_name : String) (shimDmaAlloc : DMAAllocator)
    (herds : List HerdOp) : List HerdMetadata :=
  herds.map (fun herd =>
    { segment_name := segment_name
      herd_name := herd.sym_name.getD "herd"
      dma_allocations := dmaAllocations herd.dmaIds herd.colOffset herd.rowOffset shimDmaAlloc })

/-- The loop of `runOnOperation` over `aie_devices`, from the entries still to
visit, the devices seen, and what was made so far. A device that holds both a
copy and a channel operation after the stages in front of the test makes the
pass signal failure and return. -/
def runOnDevices (stages : LoweringStages) (target : AIETargetModel)
    (tileToHerdMap : TileToHerdMap) : List DeviceEntry → List Nat → PassRun → PassRun
  | [], _, run => run
  | p :: rest, seen, run =>
    if p.device ∈ seen then runOnDevices stages target tileToHerdMap rest seen run
    else
      match run.devices[p.device]? with
      | none => runOnDevices stages target tileToHerdMap rest (p.device :: seen) run
      | some (segment_name, device0) =>
        let device1 := stages.beforeCheck tileToHerdMap device0
        if hasDma device1 && hasChan device1 then
          { run with
              devices := run.devices.set p.device (segment_name, device1)
              signalledFailure := true }
        else
          let dma := stages.lowerAirDmaMemcpy run.pass device1 (DMAAllocator.new target)
          let device2 := stages.lowerPipelineGetPut dma.2.1 tileToHerdMap
          let device3 := stages.specializeChannelBundle device2
          let device4 := stages.LowerAIRPingPong device3
          let chan := stages.lowerAIRChannels device4 (ShimTileAllocator.new target)
          let herds := p.segmentHerds.getD [p.herd]
          let device5 := stages.canonicalizeWaitAll chan.1
          runOnDevices stages target tileToHerdMap rest (p.device :: seen)
            { pass := { tile_dma_S2MM_allocs := [], tile_dma_MM2S_allocs := [] }
              devices := run.devices.set p.device (segment_name, device5)
              metadata := run.metadata ++ herdMetadata segment_name dma.2.2 herds
              signalledFailure := run.signalledFailure }

/-- Stages that leave the device as it is. -/
def idleStages : LoweringStages :=
  { specializeHerdAffineIf := fun d => d
    lowerAirExecute := fun d => d
    lowerScfAirTokens := fun d => d
    allocL1Buffers := fun d _ => d
    lowerAirDmaMemcpy := fun p d a => (p, d, a)
    lowerPipelineGetPut := fun d _ => d
    specializeChannelBundle := fun d => d
    LowerAIRPingPong := fun d => d
    lowerAIRChannels := fun d a => (d, a)
    canonicalizeWaitAll := fun d => d }

/-- An `air.dma_memcpy_nd` with the id `id` from a memref in L3 to a memref in
L1. -/
def copyIntoL1 (uid : Nat) (id : Int) : Operation :=
  { uid := uid
    kind := OpKind.dmaMemcpyNd id []
      { id := 92, ty := Ty.memref MemorySpace.L1, definer := Definer.operation 91 }
      { id := 94, ty := Ty.memref MemorySpace.L3, definer := Definer.blockArgument }
    results := [] }

/-- A device with one core that holds a copy and a put on the channel `c`. -/
def mixedStyleDevice : DeviceOp :=
  channelDevice (plainChannel "c" 1) [copyIntoL1 10 1, putAt 11 "c" []]

/-- The positions `(x, y)` of a herd in the order of the loops of
`outlineAIECores`: `y` outside, `x` inside. -/
def herdPositions (numCols numRows : Nat) : List (Nat × Nat) :=
  (List.range numRows).flatMap (fun y => (List.range numCols).map (fun x => (x, y)))

/-- The operation `c` of a core stands for the operation `o` of the body of
the herd `h`, where `cx`, `cy`, `csx` and `csy` are the results of the
constants of the core: `c` is the same operation as `o` but for its operands,
it has as many results, and its operands are those of `o` under a
substitution of values that sends the two ids of the herd to `cx` and `cy` and
its two sizes to `csx` and `csy`. -/
def IsBoundClone (h : HerdOp) (cx cy csx csy : Value) (o c : Operation) : Prop :=
  c.results.length = o.results.length ∧
  c.kind.mapValues (fun _ => cx) = o.kind.mapValues (fun _ => cx) ∧
  ∃ σ : Value → Value,
    σ h.ids.1 = cx ∧ σ h.ids.2 = cy ∧ σ h.size.1 = csx ∧ σ h.size.2 = csy ∧
    c.kind.operands = o.kind.operands.map σ

/-- The blocks are the body of the herd `h` outlined for the position
`(x, y)`, with the herd lock `herd_lock` when there is one. The first block
branches to the second. The second block starts with the constants `x`, `y`,
`numCols` and `numRows`, whose results are `cx`, `cy`, `csx` and `csy`, holds
the acquire of the herd lock, and ends with the branch to the third. The
third block holds, for every operation of the body of the herd in front of
its terminator, in order, an operation that stands for it with the ids and
sizes of the herd bound to these constants (`IsBoundClone`), then the release
of the herd lock, then the branch back to the second block (`emit_while`) or
the `AIE.end`. -/
def OutlinedBlocks (h : HerdOp) (options : AIRToAIEOptions) (herd_lock : Option LockOp)
    (x y : Int) (blocks : List Block) : Prop :=
  ∃ (n n1 n2 : Nat) (cx cy csx csy : Value) (more clones : List Operation),
    cx.definer = Definer.constantIndex x ∧ cy.definer = Definer.constantIndex y ∧
    csx.definer = Definer.constantIndex h.numCols ∧
    csy.definer = Definer.constantIndex h.numRows ∧
    blocks =
      [{ uid := n + 1, ops := [{ uid := n + 2, kind := OpKind.br n, results := [] }] },
       { uid := n
         ops :=
           { uid := n + 3, kind := OpKind.constantIndex x, results := [cx] } ::
           { uid := n + 5, kind := OpKind.constantIndex y, results := [cy] } ::
           { uid := n + 7, kind := OpKind.constantIndex h.numCols, results := [csx] } ::
           { uid := n + 9, kind := OpKind.constantIndex h.numRows, results := [csy] } ::
           (more ++
             (match herd_lock with
              | some l =>
                [{ uid := n1, kind := OpKind.useLock l 0 LockAction.Acquire, results := [] }]
              | none => []) ++
             [{ uid := n2, kind := OpKind.br (n1 + 1), results := [] }]) },
       { uid := n1 + 1
         ops := clones ++
           (match herd_lock with
            | some l =>
              [{ uid := n2 + 1, kind := OpKind.useLock l 0 LockAction.Release, results := [] }]
            | none => []) ++
           [{ uid := n2 + 2
              kind := if options.emit_while = true then OpKind.br n else OpKind.aieEnd
              results := [] }] }] ∧
    List.Forall₂ (IsBoundClone h cx cy csx csy) h.body.dropLast clones

/-- The core `c` is on the tile `(col, row)` and its body is the body of the
herd `h` outlined for the position `(x, y)`; it has a herd lock, on its tile,
exactly when the option `emit_herd_lock` is set. -/
def CoreOp.Outlines (c : CoreOp) (h : HerdOp) (options : AIRToAIEOptions) (col row : Int)
    (x y : Int) : Prop :=
  c.tile.col = col ∧ c.tile.row = row ∧
  ∃ herd_lock : Option LockOp,
    herd_lock.isSome = options.emit_herd_lock ∧ (∀ l ∈ herd_lock, l.tile = c.tile) ∧
    OutlinedBlocks h options herd_lock x y c.body

/-- The ids of the block arguments of a herd: its two ids, its two sizes and
its kernel arguments. -/
def HerdOp.argumentIds (h : HerdOp) : List Nat :=
  ([h.ids.1, h.ids.2, h.size.1, h.size.2] ++ h.kernelArguments).map (fun v => v.id)

/-- A body of a herd: an operation that uses the two ids of `plainHerd`, a
call with its result and the first size, and the terminator. -/
def exampleHerdBody : List Operation :=
  [{ uid := 110
     kind := OpKind.other "arith.addi"
       [{ id := 101, ty := Ty.index, definer := Definer.blockArgument },
        { id := 102, ty := Ty.index, definer := Definer.blockArgument }]
     results := [{ id := 111, ty := Ty.index, definer := Definer.operation 110 }] },
   { uid := 112
     kind := OpKind.call "f"
       [{ id := 111, ty := Ty.index, definer := Definer.operation 110 },
        { id := 103, ty := Ty.index, definer := Definer.blockArgument }]
     results := [] },
   { uid := 113, kind := OpKind.herdTerminator, results := [] }]

/-- The values of the two constants that start the second block of the body
of a core: the ids of an outlined core. -/
def CoreOp.idConstants (c : CoreOp) : List Int :=
  match c.body with
  | _ :: b :: _ =>
    (b.ops.take 2).filterMap (fun o => match o.kind with
      | OpKind.constantIndex v => some v
      | _ => none)
  | _ => []

/-- What defines the operands of each operation of the third block of the body
of a core: for an outlined core, the uses that stand for the uses of the
operations of the body of the herd. -/
def CoreOp.bodyUses (c : CoreOp) : List (List Definer) :=
  match c.body with
  | _ :: _ :: b :: _ => b.ops.map (fun o => o.kind.operands.map (fun v => v.definer))
  | _ => []

/-- The tile positions, the id constants and the uses of the body of the cores
of the device that `outlineAIECores` gives, in body order; empty when it
faults. -/
def outlinedCores (r : Except Fault (DeviceOp × TileToHerdMap × HerdOp)) :
    List ((Int × Int) × List Int × List (List Definer)) :=
  match r with
  | .ok x => x.1.cores.map (fun c => ((c.tile.col, c.tile.row), c.idConstants, c.bodyUses))
  | .error _ => []

/-- The operation `o1` is the operation `o` with its uses of the value `old`
replaced by `new`: the same uid and results, every operand that is `old`
(values are identified by their id) replaced by `new` and every other operand
kept, and the very same operation when `old` is no operand of it. -/
def UseReplaced (old new : Value) (o o1 : Operation) : Prop :=
  o1.uid = o.uid ∧ o1.results = o.results ∧
  o1.kind.operands = o.kind.operands.map (fun v => if v.id = old.id then new else v) ∧
  ((∀ v ∈ o.kind.operands, v.id ≠ old.id) → o1.kind = o.kind)

/-- The operations that stand in a core for an operation `op` after the
handoff of `put` and `get` with the payload `o` is lowered on the buffer `buf`
and the lock `lockOp`. In place of the put: the acquire of the lock with the
value 0, the store of `o` to the buffer, the release of the lock with the
value 1. In place of the get: the acquire of the lock with the value 1, the
load from the buffer, whose result is `load`, the release of the lock with the
value 0. Every other operation stays. The new operations have the uids `uids`. -/
def handoffOperations (uids : Nat → Nat) (lockOp : LockOp) (buf : BufferOp) (o load : Value)
    (put get : Operation) (op : Operation) : List Operation :=
  if op.uid = put.uid then
    [{ uid := uids 0, kind := OpKind.useLock lockOp 0 LockAction.Acquire, results := [] },
     { uid := uids 1, kind := OpKind.tensorStore o buf, results := [] },
     { uid := uids 2, kind := OpKind.useLock lockOp 1 LockAction.Release, results := [] }]
  else if op.uid = get.uid then
    [{ uid := uids 3, kind := OpKind.useLock lockOp 1 LockAction.Acquire, results := [] },
     { uid := uids 4, kind := OpKind.toTensor buf, results := [load] },
     { uid := uids 5, kind := OpKind.useLock lockOp 0 LockAction.Release, results := [] }]
  else [op]

/-- The core `c1` is the core `c` after the lowering of the handoff: the same
core operation, with as many blocks, and the operations of every block are
those `handoffOperations` gives for the operations of the block of `c`, with
the uses of the result `r` of the get replaced by the loaded value `load`. -/
def HandoffLowered (uids : Nat → Nat) (lockOp : LockOp) (buf : BufferOp) (o r load : Value)
    (put get : Operation) (c c1 : CoreOp) : Prop :=
  c1.uid = c.uid ∧ c1.tile = c.tile ∧ c1.elf_file = c.elf_file ∧ c1.link_with = c.link_with ∧
  List.Forall₂ (fun (b b1 : Block) =>
    b1.uid = b.uid ∧
    List.Forall₂ (UseReplaced r load)
      (b.ops.flatMap (handoffOperations uids lockOp buf o load put get)) b1.ops)
    c.body c1.body

/-- The kinds of the operations in the cores of the device a pattern gives,
core by core and block by block; empty when the pattern faults. -/
def coreOpKinds (r : Except Fault (Bool × DeviceOp)) : List (List (List OpKind)) :=
  match r with
  | .ok x => x.2.cores.map (fun c => c.body.map (fun b => b.ops.map (fun o => o.kind)))
  | .error _ => []

/-- The handshake `hs` is that of a descriptor block for the buffer `b` in the
group of `channel` on a device of the architecture `arch`, given the lock
allocations `la`: the two locks are the reader and the writer lock of an
entry of `la` for `b`; a block that sends (MM2S) acquires the reader lock with
the value 1 and releases the writer lock, one that receives (S2MM) acquires
the writer lock and releases the reader lock with the value 1; the other
value is 1 on AIE2 and 0 otherwise; and the acquire is `AcquireGreaterEqual`
on AIE2 and `Acquire` otherwise. -/
def IsBdHandshake (arch : AIEArch) (channel : DMAChannel) (la : List LockAllocation)
    (b : BufferOp) (hs : LockHandshake) : Prop :=
  ∃ (c : DMAChannel) (r w : LockOp), (b, c, r, w) ∈ la ∧
    hs.acqLockOp = (if channel.1 = DMAChannelDir.MM2S then r else w) ∧
    hs.relLockOp = (if channel.1 = DMAChannelDir.MM2S then w else r) ∧
    hs.lockAqValue =
      (if channel.1 = DMAChannelDir.MM2S then 1 else if arch = AIEArch.AIE2 then 1 else 0) ∧
    hs.lockRelValue =
      (if channel.1 = DMAChannelDir.MM2S then (if arch = AIEArch.AIE2 then 1 else 0) else 1) ∧
    hs.acqAction =
      (if arch = AIEArch.AIE2 then LockAction.AcquireGreaterEqual else LockAction.Acquire)

/-- The descriptor blocks the schedule builder gives, each as its uid and the
kinds of its operations; empty when the builder faults. -/
def bdBlockKinds
    (r : Except Fault ((Nat × List Block) × AIRToAIEPass × DeviceOp × List LockAllocation)) :
    List (Nat × List OpKind) :=
  match r with
  | .ok x => x.1.2.map (fun b => (b.uid, b.ops.map (fun o => o.kind)))
  | .error _ => []

/-- The ids of the block arguments of the body of a loop: its induction
variable and its region iter args. -/
def ForOp.argumentIds (fop : ForOp) : List Nat :=
  fop.inductionVar.id :: fop.regionIterArgs.map (fun v => v.id)

/-- A herd of one position whose body holds a copy and a put on the channel
`c`. -/
def mixedStyleHerd : HerdOp :=
  plainHerd 1 1 (some 1) (some 1)
    [copyIntoL1 110 1, putAt 111 "c" [],
     { uid := 112, kind := OpKind.herdTerminator, results := [] }]

/-- The state of `runOnOperation` in front of the loop over the devices, for a
module of one segment whose device is `d`. -/
def firstRun (d : DeviceOp) : PassRun :=
  { pass := { tile_dma_S2MM_allocs := [], tile_dma_MM2S_allocs := [] }
    devices := [("segment_0", d)], metadata := [], signalledFailure := false }

/-! ## Lemmas: physical tiles -/

theorem getPhysTileOp_coords (d : DeviceOp) (c r : Int) :
    (getPhysTileOp d c r).1.col = c ∧ (getPhysTileOp d c r).1.row = r := by
  unfold getPhysTileOp
  cases h : getPhysTileOpOrNull d c r with
  | none => simp
  | some t =>
    have := List.find?_some h
    simpa using this

/-! ## Lemmas: shim tile allocator -/

theorem PoolAt.length {cols : List Int} {k : Nat} {l : List shim_allocation_info_t}
    (h : PoolAt cols k l) : l.length = (k + 1) / 2 := by
  have := congrArg List.length h.1
  simp only [List.length_map, List.length_append, List.length_replicate] at this
  rw [this]
  split <;> simp <;> omega

theorem takeFirstAvailable_zeros (l : List shim_allocation_info_t)
    (h : ∀ t ∈ l, t.available_channels = 0) : takeFirstAvailable l = none := by
  induction l with
  | nil => rfl
  | cons t ts ih =>
    have h0 : t.available_channels = 0 := h t (List.mem_cons_self _ _)
    have hts := ih (fun u hu => h u (List.mem_cons_of_mem _ hu))
    simp [takeFirstAvailable, h0, hts]

theorem takeFirstAvailable_last (l : List shim_allocation_info_t) (t : shim_allocation_info_t)
    (h : ∀ u ∈ l, u.available_channels = 0) (ht : t.available_channels = 1) :
    takeFirstAvailable (l ++ [t])
      = some (t.shim_tile, l ++ [{ t with available_channels := 0 }]) := by
  induction l with
  | nil => simp [takeFirstAvailable, ht]
  | cons u us ih =>
    have h0 : u.available_channels = 0 := h u (List.mem_cons_self _ _)
    have hus := ih (fun v hv => h v (List.mem_cons_of_mem _ hv))
    simp [takeFirstAvailable, h0, hus]

@[simp] theorem ShimTileAllocator.shim_allocs_setAllocs (a : ShimTileAllocator) (d : Bool)
    (l : List shim_allocation_info_t) : (a.setAllocs d l).allocs d = l := by
  cases d <;> simp [ShimTileAllocator.allocs, ShimTileAllocator.setAllocs]

@[simp] theorem ShimTileAllocator.shim_allocs_setAllocs_not (a : ShimTileAllocator) (d : Bool)
    (l : List shim_allocation_info_t) : (a.setAllocs d l).allocs (!d) = a.allocs (!d) := by
  cases d <;> simp [ShimTileAllocator.allocs, ShimTileAllocator.setAllocs]

@[simp] theorem ShimTileAllocator.shim_columns_setAllocs (a : ShimTileAllocator) (d : Bool)
    (l : List shim_allocation_info_t) : (a.setAllocs d l).shim_columns = a.shim_columns := by
  cases d <;> simp [ShimTileAllocator.setAllocs]

@[simp] theorem ShimTileAllocator.shim_dma_channels_setAllocs (a : ShimTileAllocator)
    (d : Bool) (l : List shim_allocation_info_t) :
    (a.setAllocs d l).shim_dma_channels = a.shim_dma_channels := by
  cases d <;> simp [ShimTileAllocator.setAllocs]

/-- A request on a pool that has served an odd number of requests takes the
channel left in the last entry. -/
theorem getShimTile_odd (a : ShimTileAllocator) (dev : DeviceOp) (src dst : Int) (k : Nat)
    (hp : PoolAt a.shim_columns k (a.allocs (decide (src < dst)))) (hk : k % 2 = 1) :
    ∃ t a', a.getShimTile dev src dst = .ok (t, a', dev) ∧
      a'.shim_dma_channels = a.shim_dma_channels ∧ a'.shim_columns = a.shim_columns ∧
      PoolAt a.shim_columns (k + 1) (a'.allocs (decide (src < dst))) := by
  obtain ⟨hav, hcol⟩ := hp
  simp only [hk, if_true] at hav
  rcases List.eq_nil_or_concat (a.allocs (decide (src < dst))) with hnil | ⟨l0, t, hl⟩
  · rw [hnil] at hav; simp at hav
  · rw [hl] at hav hcol
    simp only [List.concat_eq_append, List.map_append, List.map_cons, List.map_nil] at hav hcol
    obtain ⟨h0, h1⟩ := List.append_inj' hav rfl
    have hz : ∀ u ∈ l0, u.available_channels = 0 := by
      intro u hu
      have : u.available_channels ∈ List.replicate (k / 2) (0 : Int) := by
        rw [← h0]; exact List.mem_map_of_mem _ hu
      exact (List.mem_replicate.mp this).2
    have h1' : t.available_channels = 1 := by simpa using h1
    refine ⟨t.shim_tile, a.setAllocs (decide (src < dst))
      (l0 ++ [{ t with available_channels := 0 }]), ?_, by simp, by simp, ?_⟩
    · simp only [ShimTileAllocator.getShimTile, hl, List.concat_eq_append,
        takeFirstAvailable_last l0 t hz h1']
    · constructor
      · simp only [ShimTileAllocator.shim_allocs_setAllocs, List.map_append, List.map_cons,
          List.map_nil, h0]
        have e1 : (k + 1) / 2 = k / 2 + 1 := by omega
        have e2 : ¬ ((k + 1) % 2 = 1) := by omega
        simp [e1, e2, List.replicate_succ']
      · simpa using hcol

/-- A request on a pool that has served an even number of requests opens the
next shim column, and reads past the column table when there is none. -/
theorem getShimTile_even (a : ShimTileAllocator) (dev : DeviceOp) (src dst : Int) (k : Nat)
    (hch : a.shim_dma_channels = 2)
    (hp : PoolAt a.shim_columns k (a.allocs (decide (src < dst)))) (hk : k % 2 = 0) :
    (k / 2 < a.shim_columns.length →
      ∃ t a' dev', a.getShimTile dev src dst = .ok (t, a', dev') ∧
        a'.shim_dma_channels = a.shim_dma_channels ∧ a'.shim_columns = a.shim_columns ∧
        PoolAt a.shim_columns (k + 1) (a'.allocs (decide (src < dst)))) ∧
    (a.shim_columns.length ≤ k / 2 →
      a.getShimTile dev src dst = .error Fault.indexOutOfRange) := by
  have hlen := hp.length
  obtain ⟨hav, hcol⟩ := hp
  have hk' : ¬ (k % 2 = 1) := by omega
  simp only [hk', if_false, List.append_nil] at hav
  have hlen' : (a.allocs (decide (src < dst))).length = k / 2 := by omega
  have hz : ∀ u ∈ a.allocs (decide (src < dst)), u.available_channels = 0 := by
    intro u hu
    have : u.available_channels ∈ List.replicate (k / 2) (0 : Int) := by
      rw [← hav]; exact List.mem_map_of_mem _ hu
    exact (List.mem_replicate.mp this).2
  have hnone := takeFirstAvailable_zeros _ hz
  constructor
  · intro hroom
    have hget : a.shim_columns[k / 2]? = some (a.shim_columns[k / 2]) :=
      List.getElem?_eq_getElem hroom
    refine ⟨(getPhysTileOp dev a.shim_columns[k / 2] 0).1,
      a.setAllocs (decide (src < dst)) (a.allocs (decide (src < dst)) ++
        [{ shim_tile := (getPhysTileOp dev a.shim_columns[k / 2] 0).1
           available_channels := a.shim_dma_channels - 1 }]),
      (getPhysTileOp dev a.shim_columns[k / 2] 0).2, ?_, by simp, by simp, ?_⟩
    · simp only [ShimTileAllocator.getShimTile, hnone, hlen', hget]
    · constructor
      · have e1 : (k + 1) / 2 = k / 2 := by omega
        have e2 : (k + 1) % 2 = 1 := by omega
        simp [e1, e2, hav, hch]
      · simp only [ShimTileAllocator.shim_allocs_setAllocs, List.map_append, List.map_cons,
          List.map_nil, List.length_append, List.length_singleton, hcol, hlen',
          (getPhysTileOp_coords dev a.shim_columns[k / 2] 0).1]
        rw [List.take_succ, hget]
        rfl
  · intro hfull
    have hget : a.shim_columns[k / 2]? = none := List.getElem?_eq_none hfull
    simp only [ShimTileAllocator.getShimTile, hnone, hlen', hget]

/-- A run of same-direction requests on a pool that has served `k` requests:
it goes through exactly when the total stays within two requests per shim
column, and then the pool has the shape for the total. -/
theorem getShimTiles_run (d : Bool) (reqs : List (Int × Int)) :
    ∀ (a : ShimTileAllocator) (dev : DeviceOp) (k : Nat),
      a.shim_dma_channels = 2 → PoolAt a.shim_columns k (a.allocs d) →
      k ≤ 2 * a.shim_columns.length → (∀ r ∈ reqs, decide (r.1 < r.2) = d) →
      (k + reqs.length ≤ 2 * a.shim_columns.length →
        ∃ ts a' dev', a.getShimTiles dev reqs = .ok (ts, a', dev') ∧
          PoolAt a.shim_columns (k + reqs.length) (a'.allocs d)) ∧
      (2 * a.shim_columns.length < k + reqs.length →
        ∃ e, a.getShimTiles dev reqs = .error e) := by
  induction reqs with
  | nil =>
    intro a dev k _ hp hk _
    refine ⟨fun _ => ⟨[], a, dev, rfl, by simpa using hp⟩, fun h => ?_⟩
    simp at h; omega
  | cons r rest ih =>
    intro a dev k hch hp hk hdir
    obtain ⟨src, dst⟩ := r
    have hd : decide (src < dst) = d := hdir (src, dst) (List.mem_cons_self _ _)
    have hrest : ∀ r ∈ rest, decide (r.1 < r.2) = d :=
      fun r hr => hdir r (List.mem_cons_of_mem _ hr)
    subst hd
    have hstep : (k < 2 * a.shim_columns.length →
        ∃ t a' dev', a.getShimTile dev src dst = .ok (t, a', dev') ∧
          a'.shim_dma_channels = a.shim_dma_channels ∧ a'.shim_columns = a.shim_columns ∧
          PoolAt a.shim_columns (k + 1) (a'.allocs (decide (src < dst)))) ∧
        (k = 2 * a.shim_columns.length →
          a.getShimTile dev src dst = .error Fault.indexOutOfRange) := by
      rcases Nat.mod_two_eq_zero_or_one k with h0 | h1
      · have := getShimTile_even a dev src dst k hch hp h0
        exact ⟨fun hlt => this.1 (by omega), fun he => this.2 (by omega)⟩
      · obtain ⟨t, a', h⟩ := getShimTile_odd a dev src dst k hp h1
        exact ⟨fun _ => ⟨t, a', dev, h⟩, fun he => by omega⟩
    simp only [List.length_cons]
    constructor
    · intro hroom
      obtain ⟨t, a', dev', hget, hch', hcols', hp'⟩ := hstep.1 (by omega)
      have := (ih a' dev' (k + 1) (by rw [hch', hch]) (by rw [hcols']; exact hp')
        (by rw [hcols']; omega) hrest).1 (by rw [hcols']; omega)
      obtain ⟨ts, a'', dev'', hrun, hp''⟩ := this
      refine ⟨t :: ts, a'', dev'', ?_, ?_⟩
      · simp only [ShimTileAllocator.getShimTiles, hget, hrun]
      · rw [hcols'] at hp''
        have e : k + (rest.length + 1) = k + 1 + rest.length := by omega
        rw [e]; exact hp''
    · intro hover
      by_cases hlt : k < 2 * a.shim_columns.length
      · obtain ⟨t, a', dev', hget, hch', hcols', hp'⟩ := hstep.1 hlt
        have := (ih a' dev' (k + 1) (by rw [hch', hch]) (by rw [hcols']; exact hp')
          (by rw [hcols']; omega) hrest).2 (by rw [hcols']; omega)
        obtain ⟨e, hrun⟩ := this
        exact ⟨e, by simp only [ShimTileAllocator.getShimTiles, hget, hrun]⟩
      · have hget := hstep.2 (by omega)
        exact ⟨Fault.indexOutOfRange, by simp only [ShimTileAllocator.getShimTiles, hget]⟩

/-! ## Theorems: shim tile allocator -/

/-- C1. Shim capacity conservation. `N` requests in one transfer direction,
issued to a freshly constructed `ShimTileAllocator` (two channels per shim
tile) over a target with `T` shim-capable columns, all return a tile if and
only if `N ≤ 2 * T`; and when they do, the pool of that direction holds exactly
`ceil(N / 2)` entries, which sit in the first `ceil(N / 2)` shim columns. -/
theorem getShimTiles_capacity (target : AIETargetModel) (dev : DeviceOp)
    (reqs : List (Int × Int)) (dir : Bool)
    (hdir : ∀ r ∈ reqs, decide (r.1 < r.2) = dir) :
    ((∃ res, (ShimTileAllocator.new target).getShimTiles dev reqs = .ok res) ↔
      reqs.length ≤ 2 * (shimNOCColumns target).length) ∧
    (∀ ts a dev', (ShimTileAllocator.new target).getShimTiles dev reqs = .ok (ts, a, dev') →
      (a.allocs dir).length = (reqs.length + 1) / 2 ∧
      (a.allocs dir).map (fun t => t.shim_tile.col)
        = (shimNOCColumns target).take ((reqs.length + 1) / 2)) := by
  have h0 : PoolAt (ShimTileAllocator.new target).shim_columns 0
      ((ShimTileAllocator.new target).allocs dir) := by
    cases dir <;> simp [PoolAt, ShimTileAllocator.new, ShimTileAllocator.allocs]
  have hrun := getShimTiles_run dir reqs (ShimTileAllocator.new target) dev 0 rfl h0
    (Nat.zero_le _) hdir
  simp only [Nat.zero_add] at hrun
  have hcols : (ShimTileAllocator.new target).shim_columns = shimNOCColumns target := rfl
  rw [hcols] at hrun
  constructor
  · constructor
    · rintro ⟨res, hres⟩
      by_contra hnot
      obtain ⟨e, he⟩ := hrun.2 (by omega)
      rw [hres] at he
      cases he
    · intro hle
      obtain ⟨ts, a, dev', h, _⟩ := hrun.1 hle
      exact ⟨_, h⟩
  · intro ts a dev' hres
    by_cases hle : reqs.length ≤ 2 * (shimNOCColumns target).length
    · obtain ⟨ts', a', dev'', h, hp⟩ := hrun.1 hle
      rw [hres] at h
      injection h with h
      injection h with _ h
      injection h with h _
      subst h
      refine ⟨hp.length, ?_⟩
      rw [hp.2, hp.length]
    · obtain ⟨e, he⟩ := hrun.2 (by omega)
      rw [hres] at he
      cases he

/-- Witness for C1: three outbound requests on a target with two shim columns
succeed and fill two pool entries, in columns 0 and 1. -/
theorem getShimTiles_capacity_witness :
    ((∃ res, (ShimTileAllocator.new (exampleTarget 2)).getShimTiles
        (emptyDevice AIEArch.AIE1) [(0, 2), (0, 2), (0, 2)] = .ok res) ↔
      [((0 : Int), (2 : Int)), (0, 2), (0, 2)].length
        ≤ 2 * (shimNOCColumns (exampleTarget 2)).length) ∧
    (∀ ts a dev', (ShimTileAllocator.new (exampleTarget 2)).getShimTiles
        (emptyDevice AIEArch.AIE1) [(0, 2), (0, 2), (0, 2)] = .ok (ts, a, dev') →
      (a.allocs true).length = ([((0 : Int), (2 : Int)), (0, 2), (0, 2)].length + 1) / 2 ∧
      (a.allocs true).map (fun t => t.shim_tile.col)
        = (shimNOCColumns (exampleTarget 2)).take
            (([((0 : Int), (2 : Int)), (0, 2), (0, 2)].length + 1) / 2)) :=
  getShimTiles_capacity (exampleTarget 2) (emptyDevice AIEArch.AIE1)
    [(0, 2), (0, 2), (0, 2)] true (by decide)

/-- C2. Exhaustion is not reported. On a target with one shim-capable column
the third same-direction `getShimTile` request, and the third `getTile`
request for a new tile channel, find their pool full: both read the column
table at an index that is not below its size, and no error path exists. -/
theorem exhausted_allocators_index_past_table :
    (ShimTileAllocator.new (exampleTarget 1)).getShimTiles (emptyDevice AIEArch.AIE1)
        [(0, 2), (0, 2), (0, 2)] = .error Fault.indexOutOfRange ∧
    (DMAAllocator.new (exampleTarget 1)).getTiles (emptyDevice AIEArch.AIE1)
        [{ dmaOp := copyL3toL1 1 none, tile_channel := 0, col := 0, row := 1 },
         { dmaOp := copyL3toL1 2 none, tile_channel := 0, col := 0, row := 2 },
         { dmaOp := copyL3toL1 3 none, tile_channel := 0, col := 0, row := 3 }]
      = .error Fault.indexOutOfRange := by
  constructor <;> rfl

/-! ## Lemmas: shim DMA allocator -/

@[simp] theorem DMAAllocator.dma_allocs_setAllocs (a : DMAAllocator) (d : Bool)
    (l : List allocation_info_t) : (a.setAllocs d l).allocs d = l := by
  cases d <;> simp [DMAAllocator.allocs, DMAAllocator.setAllocs]

@[simp] theorem DMAAllocator.dma_setAllocs_setAllocs (a : DMAAllocator) (d : Bool)
    (l l' : List allocation_info_t) : (a.setAllocs d l).setAllocs d l' = a.setAllocs d l' := by
  cases d <;> simp [DMAAllocator.setAllocs]

@[simp] theorem DMAAllocator.dma_columns_setAllocs (a : DMAAllocator) (d : Bool)
    (l : List allocation_info_t) : (a.setAllocs d l).dma_columns = a.dma_columns := by
  cases d <;> simp [DMAAllocator.setAllocs]

@[simp] theorem DMAAllocator.dma_channels_setAllocs (a : DMAAllocator) (d : Bool)
    (l : List allocation_info_t) : (a.setAllocs d l).dma_channels = a.dma_channels := by
  cases d <;> simp [DMAAllocator.setAllocs]

theorem findDmaTile_none_iff (id tc col row : Int) (l : List allocation_info_t) :
    findDmaTile id tc col row l = none ↔ ∀ t ∈ l, ¬ Answers id tc col row t := by
  induction l with
  | nil => simp [findDmaTile]
  | cons e es ih =>
    have hrec : (match findDmaTile id tc col row es with
        | some (tile, ts') => some (tile, e :: ts')
        | none => none) = none ↔ ∀ t ∈ es, ¬ Answers id tc col row t := by
      rw [← ih]
      cases findDmaTile id tc col row es <;> simp
    rw [findDmaTile]
    by_cases hc : col = e.col ∧ row = e.row
    · rw [if_pos hc]
      by_cases hid : id ∈ e.dma_id
      · rw [if_pos hid]
        simp only [List.mem_cons, forall_eq_or_imp, false_iff, not_and, reduceCtorEq]
        intro h
        exact absurd ⟨hc.1, hc.2, Or.inl hid⟩ h
      · rw [if_neg hid]
        by_cases htc : tc = e.tile_channel
        · rw [if_pos htc]
          simp only [List.mem_cons, forall_eq_or_imp, false_iff, not_and, reduceCtorEq]
          intro h
          exact absurd ⟨hc.1, hc.2, Or.inr htc⟩ h
        · rw [if_neg htc, hrec]
          simp only [List.mem_cons, forall_eq_or_imp]
          constructor
          · intro h
            exact ⟨fun ha => ha.2.2.elim hid htc, h⟩
          · intro h; exact h.2
    · rw [if_neg hc, hrec]
      simp only [List.mem_cons, forall_eq_or_imp]
      constructor
      · intro h
        exact ⟨fun ha => hc ⟨ha.1, ha.2.1⟩, h⟩
      · intro h; exact h.2

theorem absorb_mem (id : Int) (t : allocation_info_t) : id ∈ (absorb id t).dma_id := by
  unfold absorb
  split <;> simp [*]

@[simp] theorem absorb_fields (id : Int) (t : allocation_info_t) :
    (absorb id t).dma_tile = t.dma_tile ∧ (absorb id t).col = t.col ∧
    (absorb id t).row = t.row ∧ (absorb id t).dma_channel = t.dma_channel ∧
    (absorb id t).tile_channel = t.tile_channel := by
  unfold absorb
  split <;> simp

theorem absorb_triple (id : Int) (t : allocation_info_t) : (absorb id t).triple = t.triple := by
  simp [allocation_info_t.triple]

theorem absorb_of_mem {id : Int} {t : allocation_info_t} (h : id ∈ t.dma_id) :
    absorb id t = t := by
  unfold absorb
  rw [if_pos h]

theorem absorb_absorb (id : Int) (t : allocation_info_t) :
    absorb id (absorb id t) = absorb id t :=
  absorb_of_mem (absorb_mem id t)

theorem mem_absorb_dma_id {id j : Int} {t : allocation_info_t}
    (h : j ∈ (absorb id t).dma_id) : j ∈ t.dma_id ∨ j = id := by
  unfold absorb at h
  split at h
  · exact Or.inl h
  · simpa using h

/-- The search loop stops at the first entry that answers the request. -/
theorem findDmaTile_split (id tc col row : Int) (pre post : List allocation_info_t)
    (e : allocation_info_t) (hpre : ∀ t ∈ pre, ¬ Answers id tc col row t)
    (he : Answers id tc col row e) :
    findDmaTile id tc col row (pre ++ e :: post)
      = some (e.dma_tile, pre ++ absorb id e :: post) := by
  induction pre with
  | nil =>
    rw [List.nil_append, findDmaTile, if_pos ⟨he.1, he.2.1⟩]
    by_cases hid : id ∈ e.dma_id
    · rw [if_pos hid]; simp [absorb, hid]
    · rw [if_neg hid, if_pos (he.2.2.resolve_left hid)]; simp [absorb, hid]
  | cons u us ih =>
    have hu : ¬ Answers id tc col row u := hpre u (List.mem_cons_self _ _)
    have hus := ih (fun t ht => hpre t (List.mem_cons_of_mem _ ht))
    rw [List.cons_append, findDmaTile]
    by_cases hc : col = u.col ∧ row = u.row
    · have hid : id ∉ u.dma_id := fun h => hu ⟨hc.1, hc.2, Or.inl h⟩
      have htc : tc ≠ u.tile_channel := fun h => hu ⟨hc.1, hc.2, Or.inr h⟩
      rw [if_pos hc, if_neg hid, if_neg htc, hus]; rfl
    · rw [if_neg hc, hus]; rfl

theorem findDmaTile_some (id tc col row : Int) (l l' : List allocation_info_t) (tile : TileOp)
    (h : findDmaTile id tc col row l = some (tile, l')) :
    ∃ pre e post, l = pre ++ e :: post ∧ (∀ t ∈ pre, ¬ Answers id tc col row t) ∧
      Answers id tc col row e ∧ tile = e.dma_tile ∧ l' = pre ++ absorb id e :: post := by
  have hex : ∃ t ∈ l, Answers id tc col row t := by
    by_contra hno
    push_neg at hno
    rw [(findDmaTile_none_iff id tc col row l).mpr hno] at h
    cases h
  induction l generalizing l' tile with
  | nil => simp at hex
  | cons u us ih =>
    by_cases hu : Answers id tc col row u
    · have := findDmaTile_split id tc col row [] us u (by simp) hu
      rw [List.nil_append] at this
      rw [this] at h
      injection h with h
      injection h with h1 h2
      exact ⟨[], u, us, rfl, by simp, hu, h1.symm, by simpa using h2.symm⟩
    · have hex' : ∃ t ∈ us, Answers id tc col row t := by
        obtain ⟨t, ht, hta⟩ := hex
        rcases List.mem_cons.mp ht with rfl | ht
        · exact absurd hta hu
        · exact ⟨t, ht, hta⟩
      cases hf : findDmaTile id tc col row us with
      | none =>
        obtain ⟨t, ht, hta⟩ := hex'
        exact absurd hta ((findDmaTile_none_iff id tc col row us).mp hf t ht)
      | some p =>
        obtain ⟨tile', us'⟩ := p
        obtain ⟨pre, e, post, hl, hpre, he, htile, hl'⟩ := ih us' tile' hf hex'
        have := findDmaTile_split id tc col row (u :: pre) post e
          (by
            intro t ht
            rcases List.mem_cons.mp ht with rfl | ht
            · exact hu
            · exact hpre t ht) he
        rw [List.cons_append, ← hl, h] at this
        injection this with this
        injection this with h1 h2
        exact ⟨u :: pre, e, post, by rw [hl]; rfl, by
            intro t ht
            rcases List.mem_cons.mp ht with rfl | ht
            · exact hu
            · exact hpre t ht, he, h1, h2⟩

/-- After a successful search the same search finds the same tile and changes
nothing. -/
theorem findDmaTile_idem (id tc col row : Int) (l l' : List allocation_info_t) (tile : TileOp)
    (h : findDmaTile id tc col row l = some (tile, l')) :
    findDmaTile id tc col row l' = some (tile, l') := by
  obtain ⟨pre, e, post, _, hpre, he, htile, hl'⟩ := findDmaTile_some id tc col row l l' tile h
  have hf := absorb_fields id e
  have he' : Answers id tc col row (absorb id e) :=
    ⟨by rw [hf.2.1]; exact he.1, by rw [hf.2.2.1]; exact he.2.1, Or.inl (absorb_mem id e)⟩
  have := findDmaTile_split id tc col row pre post (absorb id e) hpre he'
  rw [absorb_absorb, hf.1] at this
  rw [hl', htile]; exact this

/-- The two ways in which `getTile` returns a tile: its search finds an entry,
or it appends `newAllocation` for the next shim column slot. -/
theorem getTile_ok_iff (a : DMAAllocator) (dev : DeviceOp) (op : DmaMemcpy)
    (tc col row : Int) (t : TileOp) (a1 : DMAAllocator) (dev1 : DeviceOp) :
    a.getTile dev op tc col row = .ok (t, a1, dev1) ↔
      op.srcMemorySpace ≠ op.dstMemorySpace ∧
      ((∃ l', findDmaTile op.id tc col row
            (a.allocs (decide (op.srcMemorySpace < op.dstMemorySpace))) = some (t, l') ∧
          a1 = a.setAllocs (decide (op.srcMemorySpace < op.dstMemorySpace)) l' ∧ dev1 = dev) ∨
       (findDmaTile op.id tc col row
            (a.allocs (decide (op.srcMemorySpace < op.dstMemorySpace))) = none ∧
          toSizeT a.dma_channels ≠ 0 ∧
          ∃ c, a.dma_columns[(a.allocs (decide (op.srcMemorySpace < op.dstMemorySpace))).length
                  / toSizeT a.dma_channels]? = some c ∧
            t = (getPhysTileOp dev c 0).1 ∧
            a1 = a.setAllocs (decide (op.srcMemorySpace < op.dstMemorySpace))
              (a.allocs (decide (op.srcMemorySpace < op.dstMemorySpace)) ++
                [newAllocation a dev op tc col row
                  (a.allocs (decide (op.srcMemorySpace < op.dstMemorySpace))).length c]) ∧
            dev1 = (getPhysTileOp dev c 0).2)) := by
  unfold DMAAllocator.getTile
  by_cases hs : op.srcMemorySpace = op.dstMemorySpace
  · rw [if_pos hs]
    simp [hs]
  · rw [if_neg hs]
    simp only [ne_eq, hs, not_false_eq_true, true_and]
    cases hf : findDmaTile op.id tc col row
        (a.allocs (decide (op.srcMemorySpace < op.dstMemorySpace))) with
    | some p =>
      obtain ⟨tile, l'⟩ := p
      simp only [Except.ok.injEq, Prod.mk.injEq, Option.some.injEq, reduceCtorEq, false_and,
        or_false]
      constructor
      · rintro ⟨rfl, rfl, rfl⟩
        exact ⟨l', ⟨rfl, rfl⟩, rfl, rfl⟩
      · rintro ⟨l'', ⟨rfl, rfl⟩, rfl, rfl⟩
        exact ⟨rfl, rfl, rfl⟩
    | none =>
      simp only [reduceCtorEq, false_and, exists_false, false_or, true_and]
      by_cases hz : toSizeT a.dma_channels = 0
      · rw [if_pos hz]
        simp [hz]
      · rw [if_neg hz]
        simp only [ne_eq, hz, not_false_eq_true, true_and]
        cases hc : a.dma_columns[(a.allocs (decide (op.srcMemorySpace < op.dstMemorySpace))).length
            / toSizeT a.dma_channels]? with
        | none => simp
        | some c =>
          simp only [Except.ok.injEq, Prod.mk.injEq, Option.some.injEq, exists_eq_left',
            newAllocation]
          constructor
          · rintro ⟨rfl, rfl, rfl⟩
            exact ⟨rfl, rfl, rfl⟩
          · rintro ⟨rfl, rfl, rfl⟩
            exact ⟨rfl, rfl, rfl⟩

theorem newAllocation_answers (a : DMAAllocator) (dev : DeviceOp) (op : DmaMemcpy)
    (tc col row : Int) (n : Nat) (c : Int) :
    Answers op.id tc col row (newAllocation a dev op tc col row n c) :=
  ⟨rfl, rfl, Or.inl (by simp [newAllocation])⟩

/-- A successful `getTile` is repeatable: asked again, it returns the same tile
and leaves allocator and device as they are. -/
theorem getTile_idem (a : DMAAllocator) (dev : DeviceOp) (op : DmaMemcpy)
    (tc col row : Int) (t : TileOp) (a1 : DMAAllocator) (dev1 : DeviceOp)
    (h : a.getTile dev op tc col row = .ok (t, a1, dev1)) :
    a1.getTile dev1 op tc col row = .ok (t, a1, dev1) := by
  obtain ⟨hs, hcase⟩ := (getTile_ok_iff a dev op tc col row t a1 dev1).mp h
  rw [getTile_ok_iff]
  refine ⟨hs, Or.inl ?_⟩
  rcases hcase with ⟨l', hf, rfl, rfl⟩ | ⟨hf, _, c, _, rfl, rfl, rfl⟩
  · refine ⟨l', ?_, by simp, rfl⟩
    rw [DMAAllocator.dma_allocs_setAllocs]
    exact findDmaTile_idem _ _ _ _ _ _ _ hf
  · refine ⟨a.allocs (decide (op.srcMemorySpace < op.dstMemorySpace)) ++
      [newAllocation a dev op tc col row
        (a.allocs (decide (op.srcMemorySpace < op.dstMemorySpace))).length c], ?_, by simp, rfl⟩
    rw [DMAAllocator.dma_allocs_setAllocs]
    have := findDmaTile_split op.id tc col row
      (a.allocs (decide (op.srcMemorySpace < op.dstMemorySpace))) []
      (newAllocation a dev op tc col row
        (a.allocs (decide (op.srcMemorySpace < op.dstMemorySpace))).length c)
      ((findDmaTile_none_iff _ _ _ _ _).mp hf) (newAllocation_answers _ _ _ _ _ _ _ _)
    rw [absorb_of_mem (by simp [newAllocation])] at this
    exact this

theorem channelStep_answers {id tc col row : Int} {t : allocation_info_t} (chan : Int)
    (h : Answers id tc col row t) : channelStep id tc col row chan t = t.dma_channel := by
  unfold channelStep
  rw [if_pos ⟨h.1, h.2.1⟩]
  by_cases htc : tc = t.tile_channel
  · simp [htc]
  · simp [htc, h.2.2.resolve_right htc]

theorem channelStep_not_answers {id tc col row : Int} {t : allocation_info_t} (chan : Int)
    (h : ¬ Answers id tc col row t) : channelStep id tc col row chan t = chan := by
  unfold channelStep
  by_cases hc : col = t.col ∧ row = t.row
  · have hid : id ∉ t.dma_id := fun hh => h ⟨hc.1, hc.2, Or.inl hh⟩
    have htc : tc ≠ t.tile_channel := fun hh => h ⟨hc.1, hc.2, Or.inr hh⟩
    simp [hc, hid, htc]
  · rw [if_neg hc]

theorem channel_foldl_not_answers (id tc col row : Int) (l : List allocation_info_t)
    (init : Int) (h : ∀ t ∈ l, ¬ Answers id tc col row t) :
    l.foldl (channelStep id tc col row) init = init := by
  induction l generalizing init with
  | nil => rfl
  | cons u us ih =>
    rw [List.foldl_cons, channelStep_not_answers init (h u (List.mem_cons_self _ _))]
    exact ih init (fun t ht => h t (List.mem_cons_of_mem _ ht))

/-- The loop of `getChannel` ends with the channel of the last entry that
answers the request. -/
theorem channel_foldl_last (id tc col row : Int) (pre post : List allocation_info_t)
    (e : allocation_info_t) (init : Int) (he : Answers id tc col row e)
    (hpost : ∀ t ∈ post, ¬ Answers id tc col row t) :
    (pre ++ e :: post).foldl (channelStep id tc col row) init = e.dma_channel := by
  rw [List.foldl_append, List.foldl_cons, channelStep_answers _ he]
  exact channel_foldl_not_answers id tc col row post _ hpost

/-- When some entry answers the request, the loop of `getChannel` ends with
the channel of an answering entry. -/
theorem channel_foldl_mem (id tc col row : Int) (l : List allocation_info_t) (init : Int)
    (h : ∃ t ∈ l, Answers id tc col row t) :
    ∃ t ∈ l, Answers id tc col row t ∧
      l.foldl (channelStep id tc col row) init = t.dma_channel := by
  induction l generalizing init with
  | nil => simp at h
  | cons u us ih =>
    by_cases hus : ∃ t ∈ us, Answers id tc col row t
    · obtain ⟨t, ht, hta, hfold⟩ := ih (channelStep id tc col row init u) hus
      exact ⟨t, List.mem_cons_of_mem _ ht, hta, by rw [List.foldl_cons, hfold]⟩
    · push_neg at hus
      obtain ⟨t, ht, hta⟩ := h
      rcases List.mem_cons.mp ht with rfl | ht
      · refine ⟨t, List.mem_cons_self _ _, hta, ?_⟩
        rw [List.foldl_cons, channelStep_answers _ hta]
        exact channel_foldl_not_answers id tc col row us _ hus
      · exact absurd hta (hus t ht)

/-- After `getTile` has returned a tile, the allocation list of the transfer
direction holds an entry at the requested coordinates with the transfer id and
that tile, and the channels of the other entries are those from before or the
channel of the appended entry. -/
theorem getTile_ok_entry (a : DMAAllocator) (dev : DeviceOp) (op : DmaMemcpy)
    (tc col row : Int) (t : TileOp) (a1 : DMAAllocator) (dev1 : DeviceOp)
    (h : a.getTile dev op tc col row = .ok (t, a1, dev1)) :
    (∃ e ∈ a1.allocs (decide (op.srcMemorySpace < op.dstMemorySpace)),
      Answers op.id tc col row e ∧ op.id ∈ e.dma_id ∧ e.dma_tile = t) ∧
    (∀ e ∈ a1.allocs (decide (op.srcMemorySpace < op.dstMemorySpace)),
      (∃ e0 ∈ a.allocs (decide (op.srcMemorySpace < op.dstMemorySpace)),
        e.dma_channel = e0.dma_channel) ∨
      e.dma_channel = (((a.allocs (decide (op.srcMemorySpace < op.dstMemorySpace))).length
        % toSizeT a.dma_channels : Nat) : Int)) := by
  obtain ⟨_, hcase⟩ := (getTile_ok_iff a dev op tc col row t a1 dev1).mp h
  rcases hcase with ⟨l', hf, rfl, rfl⟩ | ⟨hf, _, c, _, rfl, rfl, rfl⟩
  · obtain ⟨pre, e, post, hl, _, he, rfl, rfl⟩ := findDmaTile_some _ _ _ _ _ _ _ hf
    have hfl := absorb_fields op.id e
    rw [DMAAllocator.dma_allocs_setAllocs]
    constructor
    · refine ⟨absorb op.id e, by simp, ⟨?_, ?_, Or.inl (absorb_mem _ _)⟩, absorb_mem _ _, hfl.1⟩
      · rw [hfl.2.1]; exact he.1
      · rw [hfl.2.2.1]; exact he.2.1
    · intro x hx
      left
      rw [hl]
      simp only [List.mem_append, List.mem_cons] at hx ⊢
      rcases hx with hx | rfl | hx
      · exact ⟨x, Or.inl hx, rfl⟩
      · exact ⟨e, Or.inr (Or.inl rfl), hfl.2.2.2.1⟩
      · exact ⟨x, Or.inr (Or.inr hx), rfl⟩
  · rw [DMAAllocator.dma_allocs_setAllocs]
    constructor
    · exact ⟨newAllocation a dev op tc col row
        (a.allocs (decide (op.srcMemorySpace < op.dstMemorySpace))).length c, by simp,
        newAllocation_answers _ _ _ _ _ _ _ _, by simp [newAllocation], rfl⟩
    · intro x hx
      simp only [List.mem_append, List.mem_singleton] at hx
      rcases hx with hx | rfl
      · exact Or.inl ⟨x, hx, rfl⟩
      · exact Or.inr rfl

theorem toSizeT_two : toSizeT 2 = 2 := by
  simp [toSizeT]

theorem toUInt32_two : toUInt32 2 = 2 := by
  simp [toUInt32]

/-- When a request finds an answering entry or a free shim column slot, and no
recorded channel is the sentinel `-1`, `getTile` and `getChannel` both return. -/
theorem request_ok (a : DMAAllocator) (dev : DeviceOp) (op : DmaMemcpy)
    (tc : DMAChannel) (col row : Int)
    (hs : op.srcMemorySpace ≠ op.dstMemorySpace) (hch : a.dma_channels = 2)
    (hvalid : ∀ e ∈ a.allocs (decide (op.srcMemorySpace < op.dstMemorySpace)),
      e.dma_channel ≠ -1)
    (hroom : (a.allocs (decide (op.srcMemorySpace < op.dstMemorySpace))).length / 2
      < a.dma_columns.length) :
    ∃ r a1 dev1, a.request dev op tc col row = .ok (r, a1, dev1) := by
  have hget : ∃ t a1 dev1, a.getTile dev op tc.2 col row = .ok (t, a1, dev1) := by
    cases hf : findDmaTile op.id tc.2 col row
        (a.allocs (decide (op.srcMemorySpace < op.dstMemorySpace))) with
    | some p =>
      obtain ⟨t, l'⟩ := p
      exact ⟨t, _, dev, (getTile_ok_iff _ _ _ _ _ _ _ _ _).mpr
        ⟨hs, Or.inl ⟨l', hf, rfl, rfl⟩⟩⟩
    | none =>
      have hz : toSizeT a.dma_channels = 2 := by rw [hch]; exact toSizeT_two
      obtain ⟨c, hc⟩ : ∃ c, a.dma_columns[(a.allocs
          (decide (op.srcMemorySpace < op.dstMemorySpace))).length / toSizeT a.dma_channels]?
            = some c := by
        rw [hz]
        exact ⟨_, List.getElem?_eq_getElem hroom⟩
      exact ⟨(getPhysTileOp dev c 0).1, _, (getPhysTileOp dev c 0).2,
        (getTile_ok_iff _ _ _ _ _ _ _ _ _).mpr
          ⟨hs, Or.inr ⟨hf, by rw [hz]; decide, c, hc, rfl, rfl, rfl⟩⟩⟩
  obtain ⟨t, a1, dev1, hget⟩ := hget
  obtain ⟨⟨e, he, hans, _, _⟩, hchans⟩ := getTile_ok_entry a dev op tc.2 col row t a1 dev1 hget
  obtain ⟨u, hu, _, hfold⟩ := channel_foldl_mem op.id tc.2 col row _ (-1) ⟨e, he, hans⟩
  have hne : u.dma_channel ≠ -1 := by
    rcases hchans u hu with ⟨e0, he0, h0⟩ | h1
    · rw [h0]; exact hvalid e0 he0
    · rw [h1]; omega
  have hchan : ∃ c, a1.getChannel op tc col row = .ok c := by
    unfold DMAAllocator.getChannel
    rw [if_neg hs]
    simp only [hfold, hne, if_false]
    split <;> exact ⟨_, rfl⟩
  obtain ⟨c, hc⟩ := hchan
  exact ⟨(t, c), a1, dev1, by simp only [DMAAllocator.request, hget, hc]⟩

/-! ## Theorems: shim DMA allocator -/

/-- C3. Repeated-transfer-id stability. In every `DMAAllocator` state, when a
request for a transfer (`getTile` then `getChannel`) at `(col, row)` returns a
shim tile and a channel, the same request issued again returns the identical
tile and the identical channel and leaves the allocator, hence its allocation
lists, and the device unchanged. The first request does return whenever the
memory spaces differ, no recorded channel is `-1`, and a shim column slot is
free. -/
theorem request_twice_stable (a : DMAAllocator) (dev : DeviceOp) (op : DmaMemcpy)
    (tc : DMAChannel) (col row : Int) :
    (∀ r a1 dev1, a.request dev op tc col row = .ok (r, a1, dev1) →
      a1.request dev1 op tc col row = .ok (r, a1, dev1)) ∧
    (op.srcMemorySpace ≠ op.dstMemorySpace → a.dma_channels = 2 →
      (∀ e ∈ a.allocs (decide (op.srcMemorySpace < op.dstMemorySpace)), e.dma_channel ≠ -1) →
      (a.allocs (decide (op.srcMemorySpace < op.dstMemorySpace))).length / 2
        < a.dma_columns.length →
      ∃ r a1 dev1, a.request dev op tc col row = .ok (r, a1, dev1) ∧
        a1.request dev1 op tc col row = .ok (r, a1, dev1)) := by
  have hA : ∀ r a1 dev1, a.request dev op tc col row = .ok (r, a1, dev1) →
      a1.request dev1 op tc col row = .ok (r, a1, dev1) := by
    intro r a1 dev1 h
    unfold DMAAllocator.request at h
    cases hg : a.getTile dev op tc.2 col row with
    | error e => rw [hg] at h; cases h
    | ok p =>
      obtain ⟨t, a', dev'⟩ := p
      rw [hg] at h
      cases hc : a'.getChannel op tc col row with
      | error e => simp only [hc, reduceCtorEq] at h
      | ok c =>
        simp only [hc, Except.ok.injEq, Prod.mk.injEq] at h
        obtain ⟨rfl, rfl, rfl⟩ := h
        simp only [DMAAllocator.request, getTile_idem a dev op tc.2 col row t a' dev' hg, hc]
  refine ⟨hA, fun hs hch hvalid hroom => ?_⟩
  obtain ⟨r, a1, dev1, h⟩ := request_ok a dev op tc col row hs hch hvalid hroom
  exact ⟨r, a1, dev1, h, hA r a1 dev1 h⟩

/-- Witness for C3: a first outbound request on a fresh allocator over a target
with one shim column. -/
theorem request_twice_stable_witness :
    ∃ r a1 dev1,
      (DMAAllocator.new (exampleTarget 1)).request (emptyDevice AIEArch.AIE1)
        (copyL3toL1 7 none) (DMAChannelDir.S2MM, 0) 3 4 = .ok (r, a1, dev1) ∧
      a1.request dev1 (copyL3toL1 7 none) (DMAChannelDir.S2MM, 0) 3 4 = .ok (r, a1, dev1) :=
  (request_twice_stable (DMAAllocator.new (exampleTarget 1)) (emptyDevice AIEArch.AIE1)
    (copyL3toL1 7 none) (DMAChannelDir.S2MM, 0) 3 4).2
    (by decide) rfl (by intro e he; cases he) (by decide)

/-! ## Lemmas: locks -/

theorem lockWalk_ids (tile : TileOp) (id : Int) (l : List LockOp)
    (acc : Option LockOp × List Nat) (n : Nat) :
    n ∈ (l.foldl (lockWalkStep tile id) acc).2 ↔
      n ∈ acc.2 ∨ ∃ x ∈ l, x.tile = tile ∧ x.lockID = n := by
  induction l generalizing acc with
  | nil => simp
  | cons u us ih =>
    rw [List.foldl_cons, ih]
    unfold lockWalkStep
    by_cases hu : u.tile = tile
    · rw [if_pos hu]
      simp only [List.mem_append, List.mem_cons, List.not_mem_nil, or_false,
        exists_eq_or_imp, hu, true_and]
      constructor
      · rintro ((h | h) | h)
        · exact Or.inl h
        · exact Or.inr (Or.inl h.symm)
        · exact Or.inr (Or.inr h)
      · rintro (h | h | h)
        · exact Or.inl (Or.inl h)
        · exact Or.inl (Or.inr h.symm)
        · exact Or.inr h
    · rw [if_neg hu]
      simp only [List.mem_cons, exists_eq_or_imp, hu, false_and, false_or]

theorem lockWalk_none (tile : TileOp) (id : Int) (l : List LockOp)
    (acc : Option LockOp × List Nat) :
    (l.foldl (lockWalkStep tile id) acc).1 = none ↔
      acc.1 = none ∧ ∀ x ∈ l, x.tile = tile → (x.lockID : Int) ≠ id := by
  induction l generalizing acc with
  | nil => simp
  | cons u us ih =>
    rw [List.foldl_cons, ih]
    unfold lockWalkStep
    by_cases hu : u.tile = tile
    · rw [if_pos hu]
      by_cases hid : (u.lockID : Int) = id
      · simp [hu, hid]
      · simp [hu, hid]
    · rw [if_neg hu]
      simp [hu]

theorem lockWalk_some (tile : TileOp) (id : Int) (l : List LockOp)
    (acc : Option LockOp × List Nat) (y : LockOp)
    (h : (l.foldl (lockWalkStep tile id) acc).1 = some y) :
    acc.1 = some y ∨ (y ∈ l ∧ y.tile = tile ∧ (y.lockID : Int) = id) := by
  induction l generalizing acc with
  | nil => exact Or.inl h
  | cons u us ih =>
    rw [List.foldl_cons] at h
    rcases ih _ h with h1 | ⟨hm, ht, hi⟩
    · unfold lockWalkStep at h1
      by_cases hu : u.tile = tile
      · rw [if_pos hu] at h1
        by_cases hid : (u.lockID : Int) = id
        · simp only [hid, if_true, Option.some.injEq] at h1
          subst h1
          exact Or.inr ⟨List.mem_cons_self _ _, hu, hid⟩
        · simp only [hid, if_false] at h1
          exact Or.inl h1
      · rw [if_neg hu] at h1
        exact Or.inl h1
    · exact Or.inr ⟨List.mem_cons_of_mem _ hm, ht, hi⟩

/-- The counting loop stays below its start plus the fuel, passes only used
ids, and stops on an unused id unless the fuel runs out. -/
theorem firstUnusedFrom_spec (ids : List Nat) (fuel n : Nat) :
    n ≤ firstUnusedFrom ids fuel n ∧
    (∀ m, n ≤ m → m < firstUnusedFrom ids fuel n → m ∈ ids) ∧
    (firstUnusedFrom ids fuel n ∉ ids ∨ firstUnusedFrom ids fuel n = n + fuel) := by
  induction fuel generalizing n with
  | zero =>
    refine ⟨le_refl _, fun m h1 h2 => ?_, Or.inr rfl⟩
    simp only [firstUnusedFrom] at h2
    omega
  | succ f ih =>
    unfold firstUnusedFrom
    by_cases hn : n ∈ ids
    · rw [if_pos hn]
      obtain ⟨h1, h2, h3⟩ := ih (n + 1)
      refine ⟨by omega, fun m hm1 hm2 => ?_, ?_⟩
      · by_cases hmn : m = n
        · rw [hmn]; exact hn
        · exact h2 m (by omega) hm2
      · rcases h3 with h3 | h3
        · exact Or.inl h3
        · exact Or.inr (by omega)
    · rw [if_neg hn]
      exact ⟨le_refl _, fun m h1 h2 => by omega, Or.inl hn⟩

/-- With one unit of fuel more than there are ids, the counting loop from `0`
ends on the smallest unused id. -/
theorem firstUnusedFrom_least (ids : List Nat) :
    firstUnusedFrom ids (ids.length + 1) 0 ∉ ids ∧
    ∀ m, m < firstUnusedFrom ids (ids.length + 1) 0 → m ∈ ids := by
  obtain ⟨_, h2, h3⟩ := firstUnusedFrom_spec ids (ids.length + 1) 0
  refine ⟨?_, fun m hm => h2 m (Nat.zero_le _) hm⟩
  rcases h3 with h3 | h3
  · exact h3
  · exfalso
    have hsub : List.range (ids.length + 1) ⊆ ids := by
      intro m hm
      rw [List.mem_range] at hm
      exact h2 m (Nat.zero_le _) (by omega)
    have := (List.subperm_of_subset (List.nodup_range _) hsub).length_le
    simp at this

theorem insertAfterTiles_perm (new : Op) (body : List Op) :
    (insertAfterTiles new body).Perm (new :: body) := by
  induction body with
  | nil => simp [insertAfterTiles]
  | cons o rest ih =>
    by_cases ht : ∃ t, o = Op.tile t
    · obtain ⟨t, rfl⟩ := ht
      simp only [insertAfterTiles]
      exact (List.Perm.cons _ ih).trans (List.Perm.swap _ _ _)
    · have h : insertAfterTiles new (o :: rest) = new :: o :: rest := by
        cases o <;> first | rfl | exact absurd ⟨_, rfl⟩ ht
      rw [h]

theorem insertAfterTileRun_perm (new : Op) (tile : TileOp) (body : List Op)
    (h : Op.tile tile ∈ body) : (insertAfterTileRun new tile body).Perm (new :: body) := by
  induction body with
  | nil => simp at h
  | cons o rest ih =>
    unfold insertAfterTileRun
    by_cases ho : o = Op.tile tile
    · rw [if_pos ho]
      exact (List.Perm.cons _ (insertAfterTiles_perm new rest)).trans (List.Perm.swap _ _ _)
    · rw [if_neg ho]
      have hr : Op.tile tile ∈ rest := by
        rcases List.mem_cons.mp h with h | h
        · exact absurd h.symm ho
        · exact h
      exact (List.Perm.cons _ (ih hr)).trans (List.Perm.swap _ _ _)

theorem insertAfterTileRun_absent (new : Op) (tile : TileOp) (body : List Op)
    (h : Op.tile tile ∉ body) : insertAfterTileRun new tile body = body := by
  induction body with
  | nil => rfl
  | cons o rest ih =>
    unfold insertAfterTileRun
    have ho : o ≠ Op.tile tile := fun e => h (by rw [e]; exact List.mem_cons_self _ _)
    rw [if_neg ho, ih (fun hr => h (List.mem_cons_of_mem _ hr))]

/-- The two outcomes of `allocateLockOp`. Either the tile has a lock with the
requested id: such a lock is returned and the device is unchanged. Or it has
none: a lock is created next to the tile, with the requested id when that is
positive and the smallest unused id otherwise; no lock of the tile has that
id. -/
theorem allocateLockOp_cases (d : DeviceOp) (tile : TileOp) (init id : Int) :
    (∃ l, l ∈ d.locks ∧ l.tile = tile ∧ (l.lockID : Int) = id ∧
      allocateLockOp d tile init id = (l, d)) ∨
    ((∀ x ∈ d.locks, x.tile = tile → (x.lockID : Int) ≠ id) ∧
      ∃ n : Nat, (0 < id → (n : Int) = id) ∧ (id ≤ 0 → IsSmallestUnusedId d tile n) ∧
        (∀ x ∈ d.locks, x.tile = tile → x.lockID ≠ n) ∧
        allocateLockOp d tile init id =
          ({ uid := d.nextUid, tile := tile, lockID := n, init := init },
           { d with
               body := insertAfterTileRun
                 (Op.lock { uid := d.nextUid, tile := tile, lockID := n, init := init })
                 tile d.body
               nextUid := d.nextUid + 1 })) := by
  cases hfound : (d.locks.foldl (lockWalkStep tile id) (none, [])).1 with
  | some l =>
    left
    rcases lockWalk_some tile id d.locks (none, []) l hfound with h | ⟨hm, ht, hi⟩
    · cases h
    · refine ⟨l, hm, ht, hi, ?_⟩
      simp only [allocateLockOp, hfound]
  | none =>
    right
    have hnone := ((lockWalk_none tile id d.locks (none, [])).mp hfound).2
    refine ⟨hnone, ?_⟩
    have hids : ∀ n, n ∈ (d.locks.foldl (lockWalkStep tile id) (none, [])).2 ↔
        ∃ x ∈ d.locks, x.tile = tile ∧ x.lockID = n := by
      intro n
      rw [lockWalk_ids]
      simp
    by_cases hid : 0 < id
    · refine ⟨id.toNat, fun _ => Int.toNat_of_nonneg (le_of_lt hid), fun h => by omega, ?_, ?_⟩
      · intro x hx ht he
        exact hnone x hx ht (by rw [he]; exact Int.toNat_of_nonneg (le_of_lt hid))
      · simp only [allocateLockOp, hfound, gt_iff_lt, hid, if_true]
    · obtain ⟨h1, h2⟩ :=
        firstUnusedFrom_least (d.locks.foldl (lockWalkStep tile id) (none, [])).2
      refine ⟨firstUnusedFrom (d.locks.foldl (lockWalkStep tile id) (none, [])).2
        ((d.locks.foldl (lockWalkStep tile id) (none, [])).2.length + 1) 0,
        fun h => absurd h hid, fun _ => ⟨?_, ?_⟩, ?_, ?_⟩
      · intro x hx ht he
        exact h1 ((hids _).mpr ⟨x, hx, ht, he⟩)
      · intro m hm
        exact (hids m).mp (h2 m hm)
      · intro x hx ht he
        exact h1 ((hids _).mpr ⟨x, hx, ht, he⟩)
      · simp only [allocateLockOp, hfound, gt_iff_lt, hid, if_false]

theorem locks_insertAfterTileRun (d : DeviceOp) (tile : TileOp) (l : LockOp) :
    (List.filterMap (fun o => match o with
        | Op.lock l => some l
        | _ => none) (insertAfterTileRun (Op.lock l) tile d.body)).Perm (l :: d.locks) ∨
    List.filterMap (fun o => match o with
        | Op.lock l => some l
        | _ => none) (insertAfterTileRun (Op.lock l) tile d.body) = d.locks := by
  by_cases h : Op.tile tile ∈ d.body
  · left
    have := (insertAfterTileRun_perm (Op.lock l) tile d.body h).filterMap (fun o => match o with
        | Op.lock l => some l
        | _ => none)
    simpa [DeviceOp.locks] using this
  · right
    rw [insertAfterTileRun_absent _ _ _ h]
    rfl

/-! ## Theorems: locks -/

/-- C6. When the tile already owns a lock with the requested id,
`allocateLockOp` returns a lock of the device that sits on this tile and has
this id, and the device (so its set of locks, with ids and initial values) is
unchanged: nothing is created. When that lock is the only one of the tile
with this id, it is the lock returned. -/
theorem allocateLockOp_existing (d : DeviceOp) (tile : TileOp) (init id : Int) (l : LockOp)
    (hl : l ∈ d.locks) (ht : l.tile = tile) (hid : (l.lockID : Int) = id) :
    (allocateLockOp d tile init id).2 = d ∧
    (allocateLockOp d tile init id).1 ∈ d.locks ∧
    (allocateLockOp d tile init id).1.tile = tile ∧
    ((allocateLockOp d tile init id).1.lockID : Int) = id ∧
    ((∀ l2 ∈ d.locks, l2.tile = tile → l2.lockID = l.lockID → l2 = l) →
      (allocateLockOp d tile init id).1 = l) := by
  rcases allocateLockOp_cases d tile init id with ⟨x, hx, hxt, hxi, heq⟩ | ⟨hno, _⟩
  · rw [heq]
    refine ⟨rfl, hx, hxt, hxi, fun huniq => huniq x hx hxt ?_⟩
    have : (x.lockID : Int) = (l.lockID : Int) := by rw [hxi, hid]
    exact_mod_cast this
  · exact absurd hid (hno l hl ht)

/-- Witness for C6: tile `(1, 1)` owns lock 3; a request for id 3 returns it. -/
theorem allocateLockOp_existing_witness :
    (allocateLockOp
        { arch := AIEArch.AIE1
          body := [Op.tile ⟨0, 1, 1⟩, Op.lock ⟨1, ⟨0, 1, 1⟩, 3, 0⟩]
          nextUid := 2 } ⟨0, 1, 1⟩ 0 3).1 = ⟨1, ⟨0, 1, 1⟩, 3, 0⟩ :=
  (allocateLockOp_existing
    { arch := AIEArch.AIE1
      body := [Op.tile ⟨0, 1, 1⟩, Op.lock ⟨1, ⟨0, 1, 1⟩, 3, 0⟩]
      nextUid := 2 } ⟨0, 1, 1⟩ 0 3 ⟨1, ⟨0, 1, 1⟩, 3, 0⟩
    (by decide) rfl rfl).2.2.2.2
    (by
      intro l2 h2 _ _
      have : l2 ∈ [(⟨1, ⟨0, 1, 1⟩, 3, 0⟩ : LockOp)] := h2
      simpa using this)

/-- C7, as stated, fails. A device holds tile `(1, 1)` and no lock; a request
for the explicit id 5 creates lock 5, while the smallest id unused on the tile
is 0. -/
theorem allocateLockOp_explicit_id_not_smallest :
    (∀ x ∈ (DeviceOp.mk AIEArch.AIE1 [Op.tile ⟨0, 1, 1⟩] 1).locks,
      x.tile = ⟨0, 1, 1⟩ → (x.lockID : Int) ≠ 5) ∧
    (allocateLockOp (DeviceOp.mk AIEArch.AIE1 [Op.tile ⟨0, 1, 1⟩] 1) ⟨0, 1, 1⟩ 0 5).1.lockID = 5 ∧
    ¬ IsSmallestUnusedId (DeviceOp.mk AIEArch.AIE1 [Op.tile ⟨0, 1, 1⟩] 1) ⟨0, 1, 1⟩
        (allocateLockOp (DeviceOp.mk AIEArch.AIE1 [Op.tile ⟨0, 1, 1⟩] 1) ⟨0, 1, 1⟩ 0 5).1.lockID := by
  refine ⟨fun x hx => ?_, rfl, ?_⟩
  · simp [DeviceOp.locks] at hx
  rintro ⟨_, h⟩
  have h0 := h 0 (by decide)
  simp [DeviceOp.locks] at h0

/-- What `allocateLockOp` creates when the tile has no lock with the requested
id. -/
theorem allocateLockOp_new_lock (d : DeviceOp) (tile : TileOp) (init id : Int)
    (h : ∀ x ∈ d.locks, x.tile = tile → (x.lockID : Int) ≠ id) :
    (allocateLockOp d tile init id).1.tile = tile ∧
    (allocateLockOp d tile init id).1.init = init ∧
    (allocateLockOp d tile init id).1.uid = d.nextUid ∧
    (0 < id → ((allocateLockOp d tile init id).1.lockID : Int) = id) ∧
    (id ≤ 0 → IsSmallestUnusedId d tile (allocateLockOp d tile init id).1.lockID) ∧
    (Op.tile tile ∈ d.body →
      (allocateLockOp d tile init id).2.locks.Perm
        ((allocateLockOp d tile init id).1 :: d.locks)) := by
  rcases allocateLockOp_cases d tile init id with ⟨x, hx, hxt, hxi, _⟩ | ⟨_, n, hpos, hsm, _, heq⟩
  · exact absurd hxi (h x hx hxt)
  · rw [heq]
    refine ⟨rfl, rfl, rfl, hpos, hsm, fun hin => ?_⟩
    have := (insertAfterTileRun_perm
      (Op.lock { uid := d.nextUid, tile := tile, lockID := n, init := init })
      tile d.body hin).filterMap (fun o => match o with
        | Op.lock l => some l
        | _ => none)
    simpa [DeviceOp.locks] using this

/-- C7, amended. When the tile owns no lock with the requested id,
`allocateLockOp` creates a lock on that tile with the given initial value.
Its id is the requested id when that is positive, and the smallest id unused
by the locks of the tile otherwise (automatic `-1`, or `0`). When the tile is
an operation of the device, the locks of the device afterwards are the new
lock and those from before. -/
theorem allocateLockOp_creates (d : DeviceOp) (tile : TileOp) (init id : Int)
    (h : ∀ x ∈ d.locks, x.tile = tile → (x.lockID : Int) ≠ id) :
    (allocateLockOp d tile init id).1.tile = tile ∧
    (allocateLockOp d tile init id).1.init = init ∧
    (allocateLockOp d tile init id).1.uid = d.nextUid ∧
    (0 < id → ((allocateLockOp d tile init id).1.lockID : Int) = id) ∧
    (id ≤ 0 → IsSmallestUnusedId d tile (allocateLockOp d tile init id).1.lockID) ∧
    (Op.tile tile ∈ d.body →
      (allocateLockOp d tile init id).2.locks.Perm
        ((allocateLockOp d tile init id).1 :: d.locks)) :=
  allocateLockOp_new_lock d tile init id h

/-- Witness for C7 (amended): an automatic request on a tile that owns locks 0
and 1. -/
theorem allocateLockOp_creates_witness :
    IsSmallestUnusedId
      { arch := AIEArch.AIE1
        body := [Op.tile ⟨0, 1, 1⟩, Op.lock ⟨1, ⟨0, 1, 1⟩, 0, 0⟩, Op.lock ⟨2, ⟨0, 1, 1⟩, 1, 0⟩]
        nextUid := 3 } ⟨0, 1, 1⟩
      (allocateLockOp
        { arch := AIEArch.AIE1
          body := [Op.tile ⟨0, 1, 1⟩, Op.lock ⟨1, ⟨0, 1, 1⟩, 0, 0⟩, Op.lock ⟨2, ⟨0, 1, 1⟩, 1, 0⟩]
          nextUid := 3 } ⟨0, 1, 1⟩ 0 (-1)).1.lockID :=
  (allocateLockOp_creates
    { arch := AIEArch.AIE1
      body := [Op.tile ⟨0, 1, 1⟩, Op.lock ⟨1, ⟨0, 1, 1⟩, 0, 0⟩, Op.lock ⟨2, ⟨0, 1, 1⟩, 1, 0⟩]
      nextUid := 3 } ⟨0, 1, 1⟩ 0 (-1)
    (by
      intro x _ _ hx
      have : (0 : Int) ≤ (x.lockID : Int) := Int.ofNat_nonneg _
      omega)).2.2.2.2.1 (by decide)

theorem allocateLockOp_unique (d : DeviceOp) (tile : TileOp) (init id : Int)
    (h : LockIdsUnique d) : LockIdsUnique (allocateLockOp d tile init id).2 := by
  rcases allocateLockOp_cases d tile init id with ⟨x, _, _, _, heq⟩ | ⟨_, n, _, _, hfree, heq⟩
  · rw [heq]; exact h
  · rw [heq]
    have hsymm : ∀ {a b : LockOp}, (a.tile = b.tile → a.lockID ≠ b.lockID) →
        (b.tile = a.tile → b.lockID ≠ a.lockID) :=
      fun hab hba e => hab hba.symm e.symm
    rcases locks_insertAfterTileRun d tile
      { uid := d.nextUid, tile := tile, lockID := n, init := init } with hp | he
    · unfold LockIdsUnique DeviceOp.locks
      rw [List.Perm.pairwise_iff hsymm hp]
      refine List.pairwise_cons.mpr ⟨fun x hx ht => ?_, h⟩
      exact fun e => hfree x hx ht.symm e.symm
    · unfold LockIdsUnique DeviceOp.locks
      rw [he]
      exact h

theorem allocateLockOps_unique (reqs : List (TileOp × Int × Int)) :
    ∀ d : DeviceOp, LockIdsUnique d → LockIdsUnique (allocateLockOps d reqs) := by
  induction reqs with
  | nil => intro d h; exact h
  | cons r rest ih =>
    intro d h
    obtain ⟨tile, init, id⟩ := r
    exact ih _ (allocateLockOp_unique d tile init id h)

/-- C8. Lock ids are unique per tile. If no two locks of the same tile share
an id before a call of `allocateLockOp`, for any tile, initial value and id,
then none do after it; hence the same holds after every sequence of calls that
starts from a device without locks. -/
theorem allocateLockOp_ids_unique (d : DeviceOp) (tile : TileOp) (init id : Int)
    (reqs : List (TileOp × Int × Int)) :
    (LockIdsUnique d → LockIdsUnique (allocateLockOp d tile init id).2) ∧
    (d.locks = [] → LockIdsUnique (allocateLockOps d reqs)) := by
  refine ⟨allocateLockOp_unique d tile init id, fun h => allocateLockOps_unique reqs d ?_⟩
  unfold LockIdsUnique
  rw [h]
  exact List.Pairwise.nil

/-- Witness for C8: a device with two tiles and no locks, before a call and
before a sequence of four calls. -/
theorem allocateLockOp_ids_unique_witness :
    LockIdsUnique
      (allocateLockOp (DeviceOp.mk AIEArch.AIE2 [Op.tile ⟨0, 1, 1⟩, Op.tile ⟨1, 1, 2⟩] 2)
        ⟨0, 1, 1⟩ 0 (-1)).2 ∧
    LockIdsUnique
      (allocateLockOps (DeviceOp.mk AIEArch.AIE2 [Op.tile ⟨0, 1, 1⟩, Op.tile ⟨1, 1, 2⟩] 2)
        [(⟨0, 1, 1⟩, 0, -1), (⟨0, 1, 1⟩, 1, 4), (⟨1, 1, 2⟩, 0, 0), (⟨0, 1, 1⟩, 1, -1)]) :=
  ⟨(allocateLockOp_ids_unique
      (DeviceOp.mk AIEArch.AIE2 [Op.tile ⟨0, 1, 1⟩, Op.tile ⟨1, 1, 2⟩] 2) ⟨0, 1, 1⟩ 0 (-1)
      []).1 List.Pairwise.nil,
   (allocateLockOp_ids_unique
      (DeviceOp.mk AIEArch.AIE2 [Op.tile ⟨0, 1, 1⟩, Op.tile ⟨1, 1, 2⟩] 2) ⟨0, 1, 1⟩ 0 (-1)
      [(⟨0, 1, 1⟩, 0, -1), (⟨0, 1, 1⟩, 1, 4), (⟨1, 1, 2⟩, 0, 0), (⟨0, 1, 1⟩, 1, -1)]).2 rfl⟩

/-! ## Lemmas: tile DMA channels and lock pairs -/

theorem getTileDMAChannel_eq (p : AIRToAIEPass) (op : DmaMemcpy) (col row : Int) :
    p.getTileDMAChannel op col row =
      if op.srcMemorySpace > op.dstMemorySpace then
        ((DMAChannelDir.MM2S, toInt32 (tileChannelOn p.tile_dma_MM2S_allocs op.id col row).1),
          { p with tile_dma_MM2S_allocs :=
              (tileChannelOn p.tile_dma_MM2S_allocs op.id col row).2 })
      else
        ((DMAChannelDir.S2MM, toInt32 (tileChannelOn p.tile_dma_S2MM_allocs op.id col row).1),
          { p with tile_dma_S2MM_allocs :=
              (tileChannelOn p.tile_dma_S2MM_allocs op.id col row).2 }) := by
  unfold AIRToAIEPass.getTileDMAChannel tileChannelOn
  by_cases hd : op.srcMemorySpace > op.dstMemorySpace
  · simp only [hd, decide_True, if_true]
    split <;> rfl
  · simp only [hd, decide_False, if_false, Bool.false_eq_true]
    split <;> rfl

/-- Asked again for the same transfer at the same coordinates, the channel
search answers the same and changes nothing. -/
theorem tileChannelOn_idem (l : List (Int × Int × Int × Int)) (id col row : Int) :
    tileChannelOn (tileChannelOn l id col row).2 id col row = tileChannelOn l id col row := by
  by_cases h : (l.foldl (tileChannelStep id col row) (-1, 0)).1 = -1
  · have h1 : tileChannelOn l id col row
        = ((((l.foldl (tileChannelStep id col row) (-1, 0)).2
              % toUInt32 tile_dma_channels : Nat) : Int),
            l ++ [(id, col, row, (((l.foldl (tileChannelStep id col row) (-1, 0)).2
              % toUInt32 tile_dma_channels : Nat) : Int))]) := by
      unfold tileChannelOn
      simp only [h, if_true]
    rw [h1]
    unfold tileChannelOn
    simp only [List.foldl_append, List.foldl_cons, List.foldl_nil, tileChannelStep, and_self,
      if_true]
    have hne : ¬ ((((l.foldl (tileChannelStep id col row) (-1, 0)).2
        % toUInt32 tile_dma_channels : Nat) : Int) = -1) := by omega
    simp only [hne, if_false]
  · have h1 : tileChannelOn l id col row
        = ((l.foldl (tileChannelStep id col row) (-1, 0)).1, l) := by
      unfold tileChannelOn
      simp only [h, if_false]
    rw [h1]
    exact h1

theorem getTileDMAChannel_idem (p : AIRToAIEPass) (op : DmaMemcpy) (col row : Int) :
    (p.getTileDMAChannel op col row).2.getTileDMAChannel op col row
      = p.getTileDMAChannel op col row := by
  rw [getTileDMAChannel_eq p]
  by_cases hd : op.srcMemorySpace > op.dstMemorySpace
  · simp only [hd, if_true]
    rw [getTileDMAChannel_eq]
    simp only [hd, if_true, tileChannelOn_idem]
  · simp only [hd, if_false]
    rw [getTileDMAChannel_eq]
    simp only [hd, if_false, tileChannelOn_idem]

theorem findLockPair_append (b : BufferOp) (c : DMAChannel) (info : List LockAllocation)
    (r w : LockOp) (h : findLockPair b c info = none) :
    findLockPair b c (info ++ [(b, c, r, w)]) = some (r, w) := by
  induction info with
  | nil => simp [findLockPair]
  | cons e es ih =>
    unfold findLockPair at h
    by_cases he : e.1 = b ∧ e.2.1 = c
    · rw [if_pos he] at h; cases h
    · rw [if_neg he] at h
      rw [List.cons_append, findLockPair, if_neg he]
      exact ih h

/-- An automatic request (`id = -1`) always creates a lock, with the smallest
id unused on the tile. -/
theorem allocateLockOp_auto (d : DeviceOp) (tile : TileOp) (init : Int) :
    ∃ n : Nat, IsSmallestUnusedId d tile n ∧
      allocateLockOp d tile init (-1) =
        ({ uid := d.nextUid, tile := tile, lockID := n, init := init },
         { d with
             body := insertAfterTileRun
               (Op.lock { uid := d.nextUid, tile := tile, lockID := n, init := init })
               tile d.body
             nextUid := d.nextUid + 1 }) := by
  rcases allocateLockOp_cases d tile init (-1) with ⟨x, _, _, hxi, _⟩ | ⟨_, n, _, hsm, _, heq⟩
  · have : (0 : Int) ≤ (x.lockID : Int) := Int.ofNat_nonneg _
    omega
  · exact ⟨n, hsm (by decide), heq⟩

/-- The result of `getLockForTileDMA` when the buffer is known and the memo
list is searched for `(b, channel)`. -/
theorem getLockForTileDMA_eq (p : AIRToAIEPass) (d : DeviceOp) (op : DmaMemcpy)
    (info : List LockAllocation) (col row : Int) (b : BufferOp)
    (hb : (p.getBufferForTileDMA op col row).1 = some b) :
    p.getLockForTileDMA d op info col row =
      match findLockPair b
          ((p.getBufferForTileDMA op col row).2.getTileDMAChannel op col row).1 info with
      | some locks =>
        .ok (locks, ((p.getBufferForTileDMA op col row).2.getTileDMAChannel op col row).2,
          d, info)
      | none =>
        .ok (((allocateLockOp d b.tile 0 (-1)).1,
              (if d.arch = AIEArch.AIE2 then
                allocateLockOp (allocateLockOp d b.tile 0 (-1)).2 b.tile 1 (-1)
               else allocateLockOp d b.tile 0 (-1)).1),
             ((p.getBufferForTileDMA op col row).2.getTileDMAChannel op col row).2,
             (if d.arch = AIEArch.AIE2 then
                allocateLockOp (allocateLockOp d b.tile 0 (-1)).2 b.tile 1 (-1)
              else allocateLockOp d b.tile 0 (-1)).2,
             info ++ [(b,
               ((p.getBufferForTileDMA op col row).2.getTileDMAChannel op col row).1,
               (allocateLockOp d b.tile 0 (-1)).1,
               (if d.arch = AIEArch.AIE2 then
                 allocateLockOp (allocateLockOp d b.tile 0 (-1)).2 b.tile 1 (-1)
                else allocateLockOp d b.tile 0 (-1)).1)]) := by
  unfold AIRToAIEPass.getLockForTileDMA
  simp only [hb]
  cases findLockPair b
      ((p.getBufferForTileDMA op col row).2.getTileDMAChannel op col row).1 info with
  | some locks => rfl
  | none =>
    by_cases ha : d.arch = AIEArch.AIE2
    · simp [ha]
    · simp [ha]

/-! ## Theorems: lock pairs -/

/-- C9. Lock-pair invariant. On a first request for a (buffer, channel) pair,
that is when the memo list has no entry for the buffer and the tile DMA
channel of the transfer, `getLockForTileDMA` returns a reader lock on the
buffer tile with initial value 0. On a device whose architecture is not AIE2
the writer lock is that same lock. On an AIE2 device the writer lock is another
lock object on the buffer tile, with initial value 1, and, the tile being an
operation of the device, with another lock id. -/
theorem getLockForTileDMA_first_request (p : AIRToAIEPass) (d : DeviceOp) (op : DmaMemcpy)
    (info : List LockAllocation) (col row : Int) (b : BufferOp)
    (hb : (p.getBufferForTileDMA op col row).1 = some b)
    (hfirst : findLockPair b
      ((p.getBufferForTileDMA op col row).2.getTileDMAChannel op col row).1 info = none) :
    ∃ r w p' d' info', p.getLockForTileDMA d op info col row = .ok ((r, w), p', d', info') ∧
      r.tile = b.tile ∧ r.init = 0 ∧
      (d.arch ≠ AIEArch.AIE2 → w = r) ∧
      (d.arch = AIEArch.AIE2 →
        w ≠ r ∧ w.uid ≠ r.uid ∧ w.tile = b.tile ∧ w.init = 1 ∧
        (Op.tile b.tile ∈ d.body → w.lockID ≠ r.lockID)) := by
  rw [getLockForTileDMA_eq p d op info col row b hb, hfirst]
  obtain ⟨n, _, hr⟩ := allocateLockOp_auto d b.tile 0
  obtain ⟨m, hm, hw⟩ := allocateLockOp_auto (allocateLockOp d b.tile 0 (-1)).2 b.tile 1
  refine ⟨_, _, _, _, _, rfl, ?_, ?_, ?_, ?_⟩
  · rw [hr]
  · rw [hr]
  · intro ha
    rw [if_neg ha]
  · intro ha
    rw [if_pos ha, hw]
    refine ⟨?_, ?_, rfl, rfl, ?_⟩
    · intro h
      have := congrArg LockOp.init h
      rw [hr] at this
      simp at this
    · rw [hr]; simp
    · intro hin
      have hperm := (allocateLockOp_new_lock d b.tile 0 (-1) (by
        intro x _ _ hx
        have : (0 : Int) ≤ (x.lockID : Int) := Int.ofNat_nonneg _
        omega)).2.2.2.2.2 hin
      have hmem : (allocateLockOp d b.tile 0 (-1)).1 ∈ (allocateLockOp d b.tile 0 (-1)).2.locks :=
        hperm.symm.subset (List.mem_cons_self _ _)
      have := hm.1 _ hmem (by rw [hr])
      exact fun e => this e.symm

/-- Witness for C9: a first request on an AIE2 device for a copy into a buffer
of tile `(1, 1)`. -/
theorem getLockForTileDMA_first_request_witness :
    ∃ r w p' d' info',
      (AIRToAIEPass.mk [] []).getLockForTileDMA
        (DeviceOp.mk AIEArch.AIE2 [Op.tile ⟨0, 1, 1⟩, Op.buffer ⟨1, ⟨0, 1, 1⟩⟩] 2)
        (copyL3toL1 7 (some ⟨1, ⟨0, 1, 1⟩⟩)) [] 1 1 = .ok ((r, w), p', d', info') ∧
      r.tile = (⟨1, ⟨0, 1, 1⟩⟩ : BufferOp).tile ∧ r.init = 0 ∧
      (AIEArch.AIE2 ≠ AIEArch.AIE2 → w = r) ∧
      (AIEArch.AIE2 = AIEArch.AIE2 →
        w ≠ r ∧ w.uid ≠ r.uid ∧ w.tile = (⟨1, ⟨0, 1, 1⟩⟩ : BufferOp).tile ∧ w.init = 1 ∧
        (Op.tile (⟨1, ⟨0, 1, 1⟩⟩ : BufferOp).tile ∈ [Op.tile ⟨0, 1, 1⟩, Op.buffer ⟨1, ⟨0, 1, 1⟩⟩] →
          w.lockID ≠ r.lockID)) :=
  getLockForTileDMA_first_request (AIRToAIEPass.mk [] [])
    (DeviceOp.mk AIEArch.AIE2 [Op.tile ⟨0, 1, 1⟩, Op.buffer ⟨1, ⟨0, 1, 1⟩⟩] 2)
    (copyL3toL1 7 (some ⟨1, ⟨0, 1, 1⟩⟩)) [] 1 1 ⟨1, ⟨0, 1, 1⟩⟩ rfl rfl

/-- C10. Memoization by (buffer, channel). A lookup for a transfer whose
buffer is known returns a lock pair; the same lookup made again returns the
same pair and leaves pass state, device (no lock is created) and memo list
unchanged; and so does, up to the pass state, every later lookup that resolves
to the same buffer and the same channel, for whatever transfer and
coordinates. -/
theorem getLockForTileDMA_memoized (p : AIRToAIEPass) (d : DeviceOp) (op : DmaMemcpy)
    (info : List LockAllocation) (col row : Int) (b : BufferOp)
    (hb : (p.getBufferForTileDMA op col row).1 = some b) :
    ∃ r w p1 d1 info1,
      p.getLockForTileDMA d op info col row = .ok ((r, w), p1, d1, info1) ∧
      p1.getLockForTileDMA d1 op info1 col row = .ok ((r, w), p1, d1, info1) ∧
      ∀ (p2 : AIRToAIEPass) (op2 : DmaMemcpy) (col2 row2 : Int),
        (p2.getBufferForTileDMA op2 col2 row2).1 = some b →
        ((p2.getBufferForTileDMA op2 col2 row2).2.getTileDMAChannel op2 col2 row2).1
          = ((p.getBufferForTileDMA op col row).2.getTileDMAChannel op col row).1 →
        ∃ p3, p2.getLockForTileDMA d1 op2 info1 col2 row2 = .ok ((r, w), p3, d1, info1) := by
  have hkey : ∃ r w d1 info1,
      p.getLockForTileDMA d op info col row
        = .ok ((r, w), ((p.getBufferForTileDMA op col row).2.getTileDMAChannel op col row).2,
            d1, info1) ∧
      findLockPair b ((p.getBufferForTileDMA op col row).2.getTileDMAChannel op col row).1 info1
        = some (r, w) := by
    rw [getLockForTileDMA_eq p d op info col row b hb]
    cases hf : findLockPair b
        ((p.getBufferForTileDMA op col row).2.getTileDMAChannel op col row).1 info with
    | some locks => exact ⟨locks.1, locks.2, d, info, rfl, hf⟩
    | none => exact ⟨_, _, _, _, rfl, findLockPair_append _ _ _ _ _ hf⟩
  obtain ⟨r, w, d1, info1, hfirst, hfound⟩ := hkey
  have hgen : ∀ (p2 : AIRToAIEPass) (op2 : DmaMemcpy) (col2 row2 : Int),
      (p2.getBufferForTileDMA op2 col2 row2).1 = some b →
      ((p2.getBufferForTileDMA op2 col2 row2).2.getTileDMAChannel op2 col2 row2).1
        = ((p.getBufferForTileDMA op col row).2.getTileDMAChannel op col row).1 →
      p2.getLockForTileDMA d1 op2 info1 col2 row2
        = .ok ((r, w),
            ((p2.getBufferForTileDMA op2 col2 row2).2.getTileDMAChannel op2 col2 row2).2,
            d1, info1) := by
    intro p2 op2 col2 row2 hb2 hc2
    rw [getLockForTileDMA_eq p2 d1 op2 info1 col2 row2 b hb2, hc2, hfound]
  have hstate : (p.getBufferForTileDMA op col row).2.getTileDMAChannel op col row
      = p.getTileDMAChannel op col row := getTileDMAChannel_idem p op col row
  have hbuf : ∀ q : AIRToAIEPass, q.getTileDMAChannel op col row = p.getTileDMAChannel op col row →
      q.getBufferForTileDMA op col row = p.getBufferForTileDMA op col row := by
    intro q hq
    unfold AIRToAIEPass.getBufferForTileDMA
    rw [hq]
  have hp1 : ((p.getBufferForTileDMA op col row).2.getTileDMAChannel op col row).2.getTileDMAChannel
      op col row = p.getTileDMAChannel op col row := by
    rw [hstate]; exact getTileDMAChannel_idem p op col row
  refine ⟨r, w, _, d1, info1, hfirst, ?_, fun p2 op2 col2 row2 hb2 hc2 =>
    ⟨_, hgen p2 op2 col2 row2 hb2 hc2⟩⟩
  have := hgen ((p.getBufferForTileDMA op col row).2.getTileDMAChannel op col row).2 op col row
    (by rw [hbuf _ hp1]; exact hb) (by rw [hbuf _ hp1])
  rw [this, hbuf _ hp1]

/-- Witness for C10: two lookups for a copy into a buffer of tile `(1, 1)`. -/
theorem getLockForTileDMA_memoized_witness :
    ∃ r w p1 d1 info1,
      (AIRToAIEPass.mk [] []).getLockForTileDMA
        (DeviceOp.mk AIEArch.AIE2 [Op.tile ⟨0, 1, 1⟩, Op.buffer ⟨1, ⟨0, 1, 1⟩⟩] 2)
        (copyL3toL1 7 (some ⟨1, ⟨0, 1, 1⟩⟩)) [] 1 1 = .ok ((r, w), p1, d1, info1) ∧
      p1.getLockForTileDMA d1 (copyL3toL1 7 (some ⟨1, ⟨0, 1, 1⟩⟩)) info1 1 1
        = .ok ((r, w), p1, d1, info1) :=
  let ⟨r, w, p1, d1, info1, h1, h2, _⟩ :=
    getLockForTileDMA_memoized (AIRToAIEPass.mk [] [])
      (DeviceOp.mk AIEArch.AIE2 [Op.tile ⟨0, 1, 1⟩, Op.buffer ⟨1, ⟨0, 1, 1⟩⟩] 2)
      (copyL3toL1 7 (some ⟨1, ⟨0, 1, 1⟩⟩)) [] 1 1 ⟨1, ⟨0, 1, 1⟩⟩ rfl
  ⟨r, w, p1, d1, info1, h1, h2⟩

/-! ## Lemmas: round-robin placement -/

theorem distinctTriples_snoc (reqs : List TileRequest) (r : TileRequest) :
    distinctTriples (reqs ++ [r]) =
      if r.triple ∈ distinctTriples reqs then distinctTriples reqs
      else distinctTriples reqs ++ [r.triple] := by
  simp [distinctTriples, List.foldl_append]

theorem distinctTriples_nodup (reqs : List TileRequest) : (distinctTriples reqs).Nodup := by
  induction reqs using List.reverseRecOn with
  | nil => simp [distinctTriples]
  | append_singleton l r ih =>
    rw [distinctTriples_snoc]
    split
    · exact ih
    · rename_i h
      exact List.Nodup.append ih (List.nodup_singleton _) (by simpa using h)

theorem getTiles_snoc (l : List TileRequest) (r : TileRequest) :
    ∀ (a : DMAAllocator) (dev : DeviceOp),
    a.getTiles dev (l ++ [r]) =
      match a.getTiles dev l with
      | .error e => .error e
      | .ok (ts, a1, d1) =>
        match a1.getTile d1 r.dmaOp r.tile_channel r.col r.row with
        | .error e => .error e
        | .ok (t, a2, d2) => .ok (ts ++ [t], a2, d2) := by
  induction l with
  | nil =>
    intro a dev
    rw [List.nil_append]
    cases h : a.getTile dev r.dmaOp r.tile_channel r.col r.row with
    | error e => simp [DMAAllocator.getTiles, h]
    | ok p =>
      obtain ⟨t, a', d'⟩ := p
      simp [DMAAllocator.getTiles, h]
  | cons x xs ih =>
    intro a dev
    rw [List.cons_append, DMAAllocator.getTiles, DMAAllocator.getTiles]
    cases a.getTile dev x.dmaOp x.tile_channel x.col x.row with
    | error e => rfl
    | ok p =>
      obtain ⟨t, a', dev'⟩ := p
      simp only [ih a' dev']
      cases DMAAllocator.getTiles a' dev' xs with
      | error e => rfl
      | ok q =>
        obtain ⟨ts, a1, d1⟩ := q
        simp only
        cases a1.getTile d1 r.dmaOp r.tile_channel r.col r.row with
        | error e => rfl
        | ok p => rfl

theorem map_absorb_split {β : Type} (f : allocation_info_t → β) (id : Int)
    (hf : ∀ e, f (absorb id e) = f e) (pre post : List allocation_info_t)
    (e : allocation_info_t) :
    (pre ++ absorb id e :: post).map f = (pre ++ e :: post).map f := by
  simp [hf]


theorem answers_of_triple {r : TileRequest} {e : allocation_info_t}
    (h : e.triple = r.triple) : Answers r.dmaOp.id r.tile_channel r.col r.row e := by
  simp only [allocation_info_t.triple, TileRequest.triple, Prod.mk.injEq] at h
  exact ⟨h.1.symm, h.2.1.symm, Or.inr h.2.2.symm⟩

theorem triple_of_answers {cols : List Int} {dir : Bool} {reqs : List TileRequest}
    {tiles : List TileOp} {a : DMAAllocator} (h : RoundRobin cols dir reqs tiles a)
    {r : TileRequest} (hcons : IdsConsistent (reqs ++ [r])) {e : allocation_info_t}
    (he : e ∈ a.allocs dir) (hans : Answers r.dmaOp.id r.tile_channel r.col r.row e) :
    e.triple = r.triple := by
  obtain ⟨hc, hr, hor⟩ := hans
  have htc : r.tile_channel = e.tile_channel := by
    rcases hor with hid | htc
    · obtain ⟨r', hr', hid', htr'⟩ := h.ids e he _ hid
      simp only [allocation_info_t.triple, TileRequest.triple, Prod.mk.injEq] at htr'
      have := hcons r' (List.mem_append_left _ hr') r (by simp) hid'
        (by rw [htr'.1, hc]) (by rw [htr'.2.1, hr])
      rw [← this, htr'.2.2]
    · exact htc
  simp only [allocation_info_t.triple, TileRequest.triple, Prod.mk.injEq]
  exact ⟨hc.symm, hr.symm, htc.symm⟩

theorem roundRobin_step (cols : List Int) (dir : Bool) (reqs : List TileRequest)
    (tiles : List TileOp) (a : DMAAllocator) (dev : DeviceOp) (r : TileRequest)
    (h : RoundRobin cols dir reqs tiles a)
    (hs : r.dmaOp.srcMemorySpace ≠ r.dmaOp.dstMemorySpace)
    (hd : decide (r.dmaOp.srcMemorySpace < r.dmaOp.dstMemorySpace) = dir)
    (hcons : IdsConsistent (reqs ++ [r]))
    (hroom : (distinctTriples (reqs ++ [r])).length ≤ 2 * cols.length) :
    ∃ t a2 d2, a.getTile dev r.dmaOp r.tile_channel r.col r.row = .ok (t, a2, d2) ∧
      RoundRobin cols dir (reqs ++ [r]) (tiles ++ [t]) a2 := by
  subst hd
  by_cases hmem : r.triple ∈ distinctTriples reqs
  · -- the triple has an entry: the search stops at it
    have hsnoc : distinctTriples (reqs ++ [r]) = distinctTriples reqs := by
      rw [distinctTriples_snoc, if_pos hmem]
    rw [← h.triples, List.mem_map] at hmem
    obtain ⟨e0, he0, he0t⟩ := hmem
    cases hf : findDmaTile r.dmaOp.id r.tile_channel r.col r.row
        (a.allocs (decide (r.dmaOp.srcMemorySpace < r.dmaOp.dstMemorySpace))) with
    | none =>
      exact absurd (answers_of_triple he0t) ((findDmaTile_none_iff _ _ _ _ _).mp hf e0 he0)
    | some p =>
      obtain ⟨t, l'⟩ := p
      obtain ⟨pre, e, post, hl, _, he, rfl, rfl⟩ := findDmaTile_some _ _ _ _ _ _ _ hf
      have hein : e ∈ a.allocs (decide (r.dmaOp.srcMemorySpace < r.dmaOp.dstMemorySpace)) := by
        rw [hl]; simp
      have het : e.triple = r.triple := triple_of_answers h hcons hein he
      have hfl := absorb_fields r.dmaOp.id e
      refine ⟨e.dma_tile, _, dev, (getTile_ok_iff _ _ _ _ _ _ _ _ _).mpr
        ⟨hs, Or.inl ⟨_, hf, rfl, rfl⟩⟩, ?_⟩
      have hlen : (pre ++ absorb r.dmaOp.id e :: post).length
          = (a.allocs (decide (r.dmaOp.srcMemorySpace < r.dmaOp.dstMemorySpace))).length := by
        rw [hl]; simp
      have hmove : ∀ x ∈ a.allocs (decide (r.dmaOp.srcMemorySpace < r.dmaOp.dstMemorySpace)),
          ∃ y ∈ pre ++ absorb r.dmaOp.id e :: post, y.triple = x.triple ∧
            y.dma_tile = x.dma_tile := by
        intro x hx
        rw [hl] at hx
        simp only [List.mem_append, List.mem_cons] at hx ⊢
        rcases hx with hx | rfl | hx
        · exact ⟨x, Or.inl hx, rfl, rfl⟩
        · exact ⟨absorb r.dmaOp.id x, Or.inr (Or.inl rfl), absorb_triple _ _, hfl.1⟩
        · exact ⟨x, Or.inr (Or.inr hx), rfl, rfl⟩
      constructor
      · rw [DMAAllocator.dma_columns_setAllocs]; exact h.cols_eq
      · rw [DMAAllocator.dma_channels_setAllocs]; exact h.chans
      · rw [DMAAllocator.dma_allocs_setAllocs, hsnoc, ← h.triples, hl]
        simp [absorb_triple]
      · rw [DMAAllocator.dma_allocs_setAllocs]
        intro x hx id hid
        simp only [List.mem_append, List.mem_cons] at hx
        have hold : ∀ y ∈ a.allocs (decide (r.dmaOp.srcMemorySpace < r.dmaOp.dstMemorySpace)),
            id ∈ y.dma_id → ∃ r' ∈ reqs ++ [r], r'.dmaOp.id = id ∧ r'.triple = y.triple := by
          intro y hy hidy
          obtain ⟨r', hr', h1, h2⟩ := h.ids y hy id hidy
          exact ⟨r', List.mem_append_left _ hr', h1, h2⟩
        rcases hx with hx | rfl | hx
        · exact hold x (by rw [hl]; simp [hx]) hid
        · rw [absorb_triple]
          rcases mem_absorb_dma_id hid with hid | rfl
          · exact hold e hein hid
          · exact ⟨r, by simp, rfl, het.symm⟩
        · exact hold x (by rw [hl]; simp [hx]) hid
      · rw [DMAAllocator.dma_allocs_setAllocs, hlen, ← h.channel, hl]
        simp [hfl.2.2.2.1]
      · rw [DMAAllocator.dma_allocs_setAllocs, hlen, ← h.place, hl]
        simp [hfl.1]
      · rw [DMAAllocator.dma_allocs_setAllocs]
        refine List.rel_append (h.answered.imp ?_) ?_
        · rintro t' r' ⟨x, hx, hxt, hxtile⟩
          obtain ⟨y, hy, hyt, hytile⟩ := hmove x hx
          exact ⟨y, hy, by rw [hyt, hxt], by rw [hytile, hxtile]⟩
        · refine List.Forall₂.cons ?_ List.Forall₂.nil
          exact ⟨absorb r.dmaOp.id e, by simp, by rw [absorb_triple]; exact het, hfl.1⟩
  · -- a new triple: the search falls through and an entry is appended
    have hsnoc : distinctTriples (reqs ++ [r]) = distinctTriples reqs ++ [r.triple] := by
      rw [distinctTriples_snoc, if_neg hmem]
    have hnone : findDmaTile r.dmaOp.id r.tile_channel r.col r.row
        (a.allocs (decide (r.dmaOp.srcMemorySpace < r.dmaOp.dstMemorySpace))) = none := by
      rw [findDmaTile_none_iff]
      intro e he hans
      apply hmem
      rw [← h.triples, List.mem_map]
      exact ⟨e, he, triple_of_answers h hcons he hans⟩
    have hz : toSizeT a.dma_channels = 2 := by rw [h.chans]; exact toSizeT_two
    have hlen : (a.allocs (decide (r.dmaOp.srcMemorySpace < r.dmaOp.dstMemorySpace))).length
        = (distinctTriples reqs).length := by
      rw [← h.triples, List.length_map]
    have hidx : (a.allocs (decide (r.dmaOp.srcMemorySpace < r.dmaOp.dstMemorySpace))).length / 2
        < cols.length := by
      rw [hsnoc, List.length_append, List.length_singleton] at hroom
      omega
    obtain ⟨c, hc⟩ : ∃ c, cols[(a.allocs
        (decide (r.dmaOp.srcMemorySpace < r.dmaOp.dstMemorySpace))).length / 2]? = some c :=
      ⟨_, List.getElem?_eq_getElem hidx⟩
    refine ⟨(getPhysTileOp dev c 0).1, _, (getPhysTileOp dev c 0).2,
      (getTile_ok_iff _ _ _ _ _ _ _ _ _).mpr
        ⟨hs, Or.inr ⟨hnone, by rw [hz]; decide, c, by rw [hz, h.cols_eq]; exact hc,
          rfl, rfl, rfl⟩⟩, ?_⟩
    have hcoords := getPhysTileOp_coords dev c 0
    constructor
    · rw [DMAAllocator.dma_columns_setAllocs]; exact h.cols_eq
    · rw [DMAAllocator.dma_channels_setAllocs]; exact h.chans
    · rw [DMAAllocator.dma_allocs_setAllocs, hsnoc, List.map_append, h.triples]
      rfl
    · rw [DMAAllocator.dma_allocs_setAllocs]
      intro x hx id hid
      simp only [List.mem_append, List.mem_singleton] at hx
      rcases hx with hx | rfl
      · obtain ⟨r', hr', h1, h2⟩ := h.ids x hx id hid
        exact ⟨r', List.mem_append_left _ hr', h1, h2⟩
      · simp only [newAllocation, List.mem_singleton] at hid
        exact ⟨r, by simp, hid.symm, rfl⟩
    · rw [DMAAllocator.dma_allocs_setAllocs, List.length_append, List.length_singleton,
        List.range_succ, List.map_append, List.map_append, h.channel]
      simp [newAllocation, hz]
    · rw [DMAAllocator.dma_allocs_setAllocs, List.length_append, List.length_singleton,
        List.range_succ, List.map_append, List.map_append, h.place]
      simp [newAllocation, hc, hcoords.1, hcoords.2]
    · rw [DMAAllocator.dma_allocs_setAllocs]
      refine List.rel_append (h.answered.imp ?_) ?_
      · rintro t' r' ⟨x, hx, hxt, hxtile⟩
        exact ⟨x, List.mem_append_left _ hx, hxt, hxtile⟩
      · refine List.Forall₂.cons ?_ List.Forall₂.nil
        exact ⟨newAllocation a dev r.dmaOp r.tile_channel r.col r.row
          (a.allocs (decide (r.dmaOp.srcMemorySpace < r.dmaOp.dstMemorySpace))).length c,
          by simp, rfl, rfl⟩


theorem roundRobin_run (target : AIETargetModel) (dev : DeviceOp) (dir : Bool)
    (reqs : List TileRequest) :
    (∀ r ∈ reqs, r.dmaOp.srcMemorySpace ≠ r.dmaOp.dstMemorySpace ∧
      decide (r.dmaOp.srcMemorySpace < r.dmaOp.dstMemorySpace) = dir) →
    IdsConsistent reqs →
    (distinctTriples reqs).length ≤ 2 * (shimNOCColumns target).length →
    ∃ tiles a dev', (DMAAllocator.new target).getTiles dev reqs = .ok (tiles, a, dev') ∧
      RoundRobin (shimNOCColumns target) dir reqs tiles a := by
  induction reqs using List.reverseRecOn with
  | nil =>
    intro _ _ _
    refine ⟨[], DMAAllocator.new target, dev, rfl, ?_⟩
    have hnil : (DMAAllocator.new target).allocs dir = [] := by
      cases dir <;> rfl
    constructor
    · rfl
    · rfl
    · rw [hnil]; rfl
    · rw [hnil]; intro e he; cases he
    · rw [hnil]; rfl
    · rw [hnil]; rfl
    · exact List.Forall₂.nil
  | append_singleton l r ih =>
    intro hdir hcons hroom
    have hroom' : (distinctTriples l).length ≤ 2 * (shimNOCColumns target).length := by
      rw [distinctTriples_snoc] at hroom
      split at hroom
      · exact hroom
      · rw [List.length_append, List.length_singleton] at hroom; omega
    obtain ⟨tiles, a, dev', hrun, hinv⟩ := ih
      (fun x hx => hdir x (List.mem_append_left _ hx))
      (fun x hx y hy => hcons x (List.mem_append_left _ hx) y (List.mem_append_left _ hy))
      hroom'
    obtain ⟨hs, hd⟩ := hdir r (by simp)
    obtain ⟨t, a2, d2, hget, hinv2⟩ :=
      roundRobin_step _ dir l tiles a dev' r hinv hs hd hcons hroom
    exact ⟨tiles ++ [t], a2, d2, by rw [getTiles_snoc, hrun]; simp only [hget], hinv2⟩

theorem forall₂_getElem? {α β : Type} {R : α → β → Prop} {l1 : List α} {l2 : List β}
    (h : List.Forall₂ R l1 l2) (i : Nat) (b : β) (hb : l2[i]? = some b) :
    ∃ a, l1[i]? = some a ∧ R a b := by
  induction h generalizing i with
  | nil => simp at hb
  | cons hab _ ih =>
    cases i with
    | zero =>
      simp only [List.getElem?_cons_zero, Option.some.injEq] at hb
      subst hb
      exact ⟨_, by simp, hab⟩
    | succ j =>
      simp only [List.getElem?_cons_succ] at hb ⊢
      exact ih j hb

/-! ## Theorems: round-robin placement -/

/-- C4, amended. Round-robin placement of new allocations. A freshly
constructed `DMAAllocator` answers a sequence of `getTile` requests of one
direction in which every transfer id comes with one tile channel at given
coordinates, and whose distinct `(col, row, tile_channel)` triples number at
most two per shim-capable column. Then every request returns a tile, and for
the `N`-th distinct triple (from 0, in order of first occurrence) the `N`-th
allocation entry is the entry of that triple: its channel is `N % 2`, its tile
sits in row 0 of the shim column `dma_columns[N / 2]`, and every request with
that triple is answered with that tile. -/
theorem getTile_round_robin (target : AIETargetModel) (dev : DeviceOp)
    (reqs : List TileRequest) (dir : Bool)
    (hdir : ∀ r ∈ reqs, r.dmaOp.srcMemorySpace ≠ r.dmaOp.dstMemorySpace ∧
      decide (r.dmaOp.srcMemorySpace < r.dmaOp.dstMemorySpace) = dir)
    (hcons : IdsConsistent reqs)
    (hroom : (distinctTriples reqs).length ≤ 2 * (shimNOCColumns target).length) :
    ∃ tiles a dev', (DMAAllocator.new target).getTiles dev reqs = .ok (tiles, a, dev') ∧
      tiles.length = reqs.length ∧
      (a.allocs dir).map allocation_info_t.triple = distinctTriples reqs ∧
      ∀ (N : Nat) (τ : Int × Int × Int), (distinctTriples reqs)[N]? = some τ →
        ∃ e c, (a.allocs dir)[N]? = some e ∧ e.triple = τ ∧
          e.dma_channel = ((N % 2 : Nat) : Int) ∧
          (shimNOCColumns target)[N / 2]? = some c ∧
          e.dma_tile.col = c ∧ e.dma_tile.row = 0 ∧
          ∀ (i : Nat) (r : TileRequest), reqs[i]? = some r → r.triple = τ →
            tiles[i]? = some e.dma_tile := by
  obtain ⟨tiles, a, dev', hrun, hinv⟩ := roundRobin_run target dev dir reqs hdir hcons hroom
  refine ⟨tiles, a, dev', hrun, hinv.answered.length_eq, hinv.triples, ?_⟩
  intro N τ hN
  have hmap : ((a.allocs dir).map allocation_info_t.triple)[N]? = some τ := by
    rw [hinv.triples]; exact hN
  rw [List.getElem?_map] at hmap
  cases he : (a.allocs dir)[N]? with
  | none => rw [he] at hmap; cases hmap
  | some e =>
    rw [he] at hmap
    simp only [Option.map_some', Option.some.injEq] at hmap
    have hlt : N < (a.allocs dir).length := by
      by_contra hge
      rw [List.getElem?_eq_none (by omega)] at he
      cases he
    have hch := congrArg (fun l => l[N]?) hinv.channel
    have hpl := congrArg (fun l => l[N]?) hinv.place
    simp only [List.getElem?_map, he, Option.map_some', List.getElem?_range hlt,
      Option.some.injEq, Prod.mk.injEq] at hch hpl
    cases hc : (shimNOCColumns target)[N / 2]? with
    | none => rw [hc] at hpl; cases hpl.1
    | some c =>
      rw [hc] at hpl
      refine ⟨e, c, rfl, hmap, hch, rfl, Option.some.inj hpl.1, hpl.2, ?_⟩
      intro i r hi hr
      obtain ⟨t, ht, e', he', he't, he'tile⟩ := forall₂_getElem? hinv.answered i r hi
      have hnd : ((a.allocs dir).map allocation_info_t.triple).Nodup := by
        rw [hinv.triples]; exact distinctTriples_nodup reqs
      have hee : e' = e :=
        List.inj_on_of_nodup_map hnd he' (List.getElem?_mem he) (by rw [he't, hr, hmap])
      rw [ht, ← he'tile, hee]

/-- Witness for C4 (amended): three requests with two distinct triples on a
target with two shim columns. -/
theorem getTile_round_robin_witness :
    ∃ tiles a dev',
      (DMAAllocator.new (exampleTarget 2)).getTiles (emptyDevice AIEArch.AIE1)
        [⟨copyL3toL1 5 none, 0, 0, 0⟩, ⟨copyL3toL1 6 none, 0, 0, 1⟩,
         ⟨copyL3toL1 5 none, 0, 0, 0⟩] = .ok (tiles, a, dev') ∧
      tiles.length = [(⟨copyL3toL1 5 none, 0, 0, 0⟩ : TileRequest),
        ⟨copyL3toL1 6 none, 0, 0, 1⟩, ⟨copyL3toL1 5 none, 0, 0, 0⟩].length ∧
      (a.allocs true).map allocation_info_t.triple
        = distinctTriples [⟨copyL3toL1 5 none, 0, 0, 0⟩, ⟨copyL3toL1 6 none, 0, 0, 1⟩,
            ⟨copyL3toL1 5 none, 0, 0, 0⟩] ∧
      ∀ (N : Nat) (τ : Int × Int × Int),
        (distinctTriples [⟨copyL3toL1 5 none, 0, 0, 0⟩, ⟨copyL3toL1 6 none, 0, 0, 1⟩,
            ⟨copyL3toL1 5 none, 0, 0, 0⟩])[N]? = some τ →
        ∃ e c, (a.allocs true)[N]? = some e ∧ e.triple = τ ∧
          e.dma_channel = ((N % 2 : Nat) : Int) ∧
          (shimNOCColumns (exampleTarget 2))[N / 2]? = some c ∧
          e.dma_tile.col = c ∧ e.dma_tile.row = 0 ∧
          ∀ (i : Nat) (r : TileRequest),
            [(⟨copyL3toL1 5 none, 0, 0, 0⟩ : TileRequest), ⟨copyL3toL1 6 none, 0, 0, 1⟩,
              ⟨copyL3toL1 5 none, 0, 0, 0⟩][i]? = some r → r.triple = τ →
            tiles[i]? = some e.dma_tile :=
  getTile_round_robin (exampleTarget 2) (emptyDevice AIEArch.AIE1)
    [⟨copyL3toL1 5 none, 0, 0, 0⟩, ⟨copyL3toL1 6 none, 0, 0, 1⟩, ⟨copyL3toL1 5 none, 0, 0, 0⟩]
    true (by decide) (by unfold IdsConsistent; decide) (by decide)

/-- C4, as stated, fails. Id 5 is requested at tile `(0, 0)` first with tile
channel 0 and later with tile channel 1. The later request brings the third
distinct triple, `N = 2`, yet it is answered by the id match with the tile of
entry 0 in shim column 0, while `dma_columns[2 / 2]` is column 1; no third
entry is made. -/
theorem getTile_reused_id_not_round_robin :
    ∃ tiles a dev',
      (DMAAllocator.new (exampleTarget 2)).getTiles (emptyDevice AIEArch.AIE1)
        [⟨copyL3toL1 5 none, 0, 0, 0⟩, ⟨copyL3toL1 6 none, 0, 0, 1⟩,
         ⟨copyL3toL1 5 none, 1, 0, 0⟩] = .ok (tiles, a, dev') ∧
      (distinctTriples [⟨copyL3toL1 5 none, 0, 0, 0⟩, ⟨copyL3toL1 6 none, 0, 0, 1⟩,
         ⟨copyL3toL1 5 none, 1, 0, 0⟩])[2]?
        = some (TileRequest.triple ⟨copyL3toL1 5 none, 1, 0, 0⟩) ∧
      tiles[2]? = some ⟨0, 0, 0⟩ ∧
      (shimNOCColumns (exampleTarget 2))[2 / 2]? = some 1 ∧
      (a.allocs true).length = 2 :=
  ⟨_, _, _, rfl, rfl, rfl, rfl, rfl⟩

/-! ## Theorems: scenario B -/

theorem toInt32_zero : toInt32 0 = 0 := by decide

theorem toInt32_one : toInt32 1 = 1 := by decide

theorem toUInt32_zero : toUInt32 0 = 0 := by decide

theorem toUInt32_one : toUInt32 1 = 1 := by decide

theorem toSizeT_zero : toSizeT 0 = 0 := by decide

theorem toSizeT_one : toSizeT 1 = 1 := by decide

/-- C5, as stated, fails. Three copies from L3 to L1 with ids 1, 2, 3 go to
the same tile `(0, 1)`. The tile has two DMA channels per direction, so the
third copy shares tile channel 0 with the first, and with it the shim
allocation: it lands on shim column 0, channel 0, not on shim column 1. -/
theorem routeDmaCopies_same_tile_shares_shim :
    ∃ R1 R2 R3 p a d,
      (AIRToAIEPass.mk [] []).routeDmaCopies (DMAAllocator.new (exampleTarget 2))
        (emptyDevice AIEArch.AIE1)
        [(⟨0, 0, 1⟩, copyL3toL1 1 none), (⟨0, 0, 1⟩, copyL3toL1 2 none),
         (⟨0, 0, 1⟩, copyL3toL1 3 none)] = .ok ([some R1, some R2, some R3], p, a, d) ∧
      shimNOCColumns (exampleTarget 2) = [0, 1] ∧
      R3.shim_tile.col = 0 ∧ R3.shim_channel = (DMAChannelDir.MM2S, 0) ∧
      R3.shim_tile = R1.shim_tile :=
  ⟨_, _, _, _, _, _, rfl, rfl, rfl, rfl, rfl⟩

/-- C5, amended. End-to-end scenario B. Three copies from L3 to L1 with
distinct ids go to tiles of one column that are not all three the same tile.
Starting from fresh allocators over a target whose first two shim-capable
columns are `c0` and `c1`, the loop of `getDmaSchedules` (`getTileDMAChannel`,
then `getTile` and `getChannel` of the `DMAAllocator`) puts the first two on
the shim tile of column `c0` with channels 0 and 1, and the third on the shim
tile of column `c1` with channel 0. -/
theorem routeDmaCopies_scenario_B (target : AIETargetModel) (dev : DeviceOp) (c0 c1 : Int)
    (rest : List Int) (hcols : shimNOCColumns target = c0 :: c1 :: rest)
    (u1 u2 u3 : Nat) (c r1 r2 r3 : Int) (i1 i2 i3 : Int) (b1 b2 b3 s1 s2 s3 : Option BufferOp)
    (h12 : i1 ≠ i2) (h13 : i1 ≠ i3) (h23 : i2 ≠ i3)
    (hnot : ¬ (r1 = r2 ∧ r2 = r3)) :
    ∃ R1 R2 R3 p a d,
      (AIRToAIEPass.mk [] []).routeDmaCopies (DMAAllocator.new target) dev
        [(⟨u1, c, r1⟩, ⟨i1, MemorySpace.L3, MemorySpace.L1, s1, b1⟩),
         (⟨u2, c, r2⟩, ⟨i2, MemorySpace.L3, MemorySpace.L1, s2, b2⟩),
         (⟨u3, c, r3⟩, ⟨i3, MemorySpace.L3, MemorySpace.L1, s3, b3⟩)]
        = .ok ([some R1, some R2, some R3], p, a, d) ∧
      R1.shim_tile.col = c0 ∧ R1.shim_tile.row = 0 ∧ R1.shim_channel = (DMAChannelDir.MM2S, 0) ∧
      R2.shim_tile.col = c0 ∧ R2.shim_tile.row = 0 ∧ R2.shim_channel = (DMAChannelDir.MM2S, 1) ∧
      R3.shim_tile.col = c1 ∧ R3.shim_tile.row = 0 ∧ R3.shim_channel = (DMAChannelDir.MM2S, 0) := by
  have e12 := Ne.symm h12
  have e13 := Ne.symm h13
  have e23 := Ne.symm h23
  have hcase : (r1 = r2 ∧ r1 ≠ r3 ∧ r3 ≠ r1) ∨ (r1 = r3 ∧ r1 ≠ r2 ∧ r2 ≠ r1) ∨
      (r2 = r3 ∧ r1 ≠ r2 ∧ r2 ≠ r1) ∨
      (r1 ≠ r2 ∧ r1 ≠ r3 ∧ r2 ≠ r3 ∧ r2 ≠ r1 ∧ r3 ≠ r1 ∧ r3 ≠ r2) := by omega
  rcases hcase with ⟨rfl, g1, g2⟩ | ⟨rfl, g1, g2⟩ | ⟨rfl, g1, g2⟩ | ⟨g1, g2, g3, g4, g5, g6⟩
  all_goals
    simp [AIRToAIEPass.routeDmaCopies, AIRToAIEPass.routeDmaCopy, getTileDMAChannel_eq,
         tileChannelOn, tileChannelStep, MemorySpace.L1, MemorySpace.L2, MemorySpace.L3,
         DMAAllocator.getTile, DMAAllocator.getChannel, DMAAllocator.new, hcols,
         DMAAllocator.allocs, DMAAllocator.setAllocs, findDmaTile, channelStep, toSizeT_two,
         toUInt32_two, tile_dma_channels, toInt32_zero, toInt32_one, toUInt32_zero,
         toUInt32_one, toSizeT_zero, toSizeT_one, getPhysTileOp_coords, *]
  all_goals
    refine ⟨_, _, _, ⟨rfl, rfl, rfl⟩, ?_⟩
    simp [getPhysTileOp_coords]

/-- Witness for C5 (amended): two copies to tile `(3, 1)` and one to tile
`(3, 2)`, on a target with two shim columns. -/
theorem routeDmaCopies_scenario_B_witness :
    ∃ R1 R2 R3 p a d,
      (AIRToAIEPass.mk [] []).routeDmaCopies (DMAAllocator.new (exampleTarget 2))
        (emptyDevice AIEArch.AIE1)
        [(⟨0, 3, 1⟩, ⟨1, MemorySpace.L3, MemorySpace.L1, none, none⟩),
         (⟨0, 3, 1⟩, ⟨2, MemorySpace.L3, MemorySpace.L1, none, none⟩),
         (⟨1, 3, 2⟩, ⟨3, MemorySpace.L3, MemorySpace.L1, none, none⟩)]
        = .ok ([some R1, some R2, some R3], p, a, d) ∧
      R1.shim_tile.col = 0 ∧ R1.shim_tile.row = 0 ∧ R1.shim_channel = (DMAChannelDir.MM2S, 0) ∧
      R2.shim_tile.col = 0 ∧ R2.shim_tile.row = 0 ∧ R2.shim_channel = (DMAChannelDir.MM2S, 1) ∧
      R3.shim_tile.col = 1 ∧ R3.shim_tile.row = 0 ∧ R3.shim_channel = (DMAChannelDir.MM2S, 0) :=
  routeDmaCopies_scenario_B (exampleTarget 2) (emptyDevice AIEArch.AIE1) 0 1 [] rfl
    0 0 1 3 1 1 2 1 2 3 none none none none none none
    (by decide) (by decide) (by decide) (by decide)

/-! ## Lemmas: tile deduplication -/

theorem tiles_insertAfterTiles (t : TileOp) (body : List Op) :
    (List.filterMap (fun o => match o with
        | Op.tile t => some t
        | _ => none) (insertAfterTiles (Op.tile t) body)).Perm
      (t :: List.filterMap (fun o => match o with
        | Op.tile t => some t
        | _ => none) body) := by
  have := (insertAfterTiles_perm (Op.tile t) body).filterMap (fun o => match o with
        | Op.tile t => some t
        | _ => none)
  simpa using this

/-- The two outcomes of `getPhysTileOp`: a tile of the device at the
coordinates is returned and nothing changes, or the device has none and gets
one new tile operation with these coordinates. -/
theorem getPhysTileOp_cases (d : DeviceOp) (c r : Int) :
    (∃ t, t ∈ d.tiles ∧ t.col = c ∧ t.row = r ∧ getPhysTileOp d c r = (t, d)) ∨
    ((∀ t ∈ d.tiles, ¬ (t.col = c ∧ t.row = r)) ∧
      getPhysTileOp d c r =
        ({ uid := d.nextUid, col := c, row := r },
         { d with
             body := insertAfterTiles (Op.tile { uid := d.nextUid, col := c, row := r }) d.body
             nextUid := d.nextUid + 1 })) := by
  unfold getPhysTileOp
  cases h : getPhysTileOpOrNull d c r with
  | some t =>
    left
    have h1 := List.find?_some h
    have h2 := List.mem_of_find?_eq_some h
    simp only [decide_eq_true_eq] at h1
    exact ⟨t, h2, h1.1, h1.2, rfl⟩
  | none =>
    right
    refine ⟨?_, rfl⟩
    intro t ht
    have := List.find?_eq_none.mp h t ht
    simpa using this

theorem find?_of_perm_unique {α : Type} (p : α → Bool) (l l0 : List α) (t : α)
    (hperm : l.Perm (t :: l0)) (hl0 : ∀ x ∈ l0, p x = false) (ht : p t = true) :
    l.find? p = some t := by
  cases h : l.find? p with
  | none =>
    have := List.find?_eq_none.mp h t (hperm.symm.subset (List.mem_cons_self _ _))
    simp [ht] at this
  | some x =>
    have hx := List.find?_some h
    have hmem := hperm.subset (List.mem_of_find?_eq_some h)
    rcases List.mem_cons.mp hmem with rfl | hx0
    · rfl
    · rw [hl0 x hx0] at hx
      cases hx

theorem getPhysTileOp_again (d : DeviceOp) (c r : Int) :
    getPhysTileOp (getPhysTileOp d c r).2 c r = getPhysTileOp d c r := by
  rcases getPhysTileOp_cases d c r with ⟨t, ht, hc, hr, heq⟩ | ⟨hnone, heq⟩
  · rw [heq]
    exact heq
  · rw [heq]
    have hfind : getPhysTileOpOrNull
        { d with
            body := insertAfterTiles (Op.tile { uid := d.nextUid, col := c, row := r }) d.body
            nextUid := d.nextUid + 1 } c r
        = some { uid := d.nextUid, col := c, row := r } := by
      unfold getPhysTileOpOrNull DeviceOp.tiles
      refine find?_of_perm_unique _ _ d.tiles _ (tiles_insertAfterTiles _ _) ?_ ?_
      · intro x hx
        simpa using hnone x hx
      · simp
    unfold getPhysTileOp
    simp only [hfind]

theorem getPhysTileOp_unique (d : DeviceOp) (c r : Int) (h : TileCoordsUnique d) :
    TileCoordsUnique (getPhysTileOp d c r).2 := by
  rcases getPhysTileOp_cases d c r with ⟨t, _, _, _, heq⟩ | ⟨hnone, heq⟩
  · rw [heq]; exact h
  · rw [heq]
    have hsymm : ∀ {a b : TileOp}, ¬ (a.col = b.col ∧ a.row = b.row) →
        ¬ (b.col = a.col ∧ b.row = a.row) :=
      fun hab hba => hab ⟨hba.1.symm, hba.2.symm⟩
    unfold TileCoordsUnique DeviceOp.tiles
    rw [List.Perm.pairwise_iff hsymm (tiles_insertAfterTiles _ _)]
    refine List.pairwise_cons.mpr ⟨fun x hx hxe => ?_, h⟩
    exact hnone x hx ⟨hxe.1.symm, hxe.2.symm⟩

theorem getPhysTileOps_unique (coords : List (Int × Int)) :
    ∀ d : DeviceOp, TileCoordsUnique d → TileCoordsUnique (getPhysTileOps d coords) := by
  induction coords with
  | nil => intro d h; exact h
  | cons x rest ih =>
    intro d h
    obtain ⟨c, r⟩ := x
    exact ih _ (getPhysTileOp_unique d c r h)

/-! ## Theorems: tile deduplication -/

/-- C12. Physical tiles are deduplicated by coordinate. When the device has a
tile at `(col, row)`, `getPhysTileOp` returns a tile of the device with these
coordinates and leaves the device unchanged. Otherwise it returns a new tile
with these coordinates, and the device afterwards holds exactly that tile in
addition to its former operations. Hence a device without two tiles at the
same coordinates stays so under any sequence of calls; and a second call with
the same coordinates returns the tile of the first and changes nothing. -/
theorem getPhysTileOp_dedup (d : DeviceOp) (col row : Int) (coords : List (Int × Int)) :
    ((∃ t ∈ d.tiles, t.col = col ∧ t.row = row) →
      (getPhysTileOp d col row).2 = d ∧ (getPhysTileOp d col row).1 ∈ d.tiles) ∧
    ((∀ t ∈ d.tiles, ¬ (t.col = col ∧ t.row = row)) →
      (getPhysTileOp d col row).2.body.Perm (Op.tile (getPhysTileOp d col row).1 :: d.body) ∧
      (getPhysTileOp d col row).2.tiles.Perm ((getPhysTileOp d col row).1 :: d.tiles)) ∧
    ((getPhysTileOp d col row).1.col = col ∧ (getPhysTileOp d col row).1.row = row) ∧
    (TileCoordsUnique d → TileCoordsUnique (getPhysTileOps d coords)) ∧
    getPhysTileOp (getPhysTileOp d col row).2 col row = getPhysTileOp d col row := by
  refine ⟨?_, ?_, getPhysTileOp_coords d col row, getPhysTileOps_unique coords d,
    getPhysTileOp_again d col row⟩
  · rintro ⟨t, ht, hc, hr⟩
    rcases getPhysTileOp_cases d col row with ⟨t', ht', _, _, heq⟩ | ⟨hnone, _⟩
    · rw [heq]; exact ⟨rfl, ht'⟩
    · exact absurd ⟨hc, hr⟩ (hnone t ht)
  · intro hnone
    rcases getPhysTileOp_cases d col row with ⟨t', ht', hc, hr, _⟩ | ⟨_, heq⟩
    · exact absurd ⟨hc, hr⟩ (hnone t' ht')
    · rw [heq]
      exact ⟨insertAfterTiles_perm _ _, tiles_insertAfterTiles _ _⟩

/-- Witness for C12: a device with one tile at `(1, 1)`: a request for
`(1, 1)`, one for `(2, 0)`, and a sequence of requests. -/
theorem getPhysTileOp_dedup_witness :
    ((getPhysTileOp (DeviceOp.mk AIEArch.AIE1 [Op.tile ⟨0, 1, 1⟩] 1) 1 1).2
        = DeviceOp.mk AIEArch.AIE1 [Op.tile ⟨0, 1, 1⟩] 1 ∧
      (getPhysTileOp (DeviceOp.mk AIEArch.AIE1 [Op.tile ⟨0, 1, 1⟩] 1) 1 1).1
        ∈ (DeviceOp.mk AIEArch.AIE1 [Op.tile ⟨0, 1, 1⟩] 1).tiles) ∧
    ((getPhysTileOp (DeviceOp.mk AIEArch.AIE1 [Op.tile ⟨0, 1, 1⟩] 1) 2 0).2.body.Perm
        (Op.tile (getPhysTileOp (DeviceOp.mk AIEArch.AIE1 [Op.tile ⟨0, 1, 1⟩] 1) 2 0).1
          :: (DeviceOp.mk AIEArch.AIE1 [Op.tile ⟨0, 1, 1⟩] 1).body) ∧
      (getPhysTileOp (DeviceOp.mk AIEArch.AIE1 [Op.tile ⟨0, 1, 1⟩] 1) 2 0).2.tiles.Perm
        ((getPhysTileOp (DeviceOp.mk AIEArch.AIE1 [Op.tile ⟨0, 1, 1⟩] 1) 2 0).1
          :: (DeviceOp.mk AIEArch.AIE1 [Op.tile ⟨0, 1, 1⟩] 1).tiles)) ∧
    TileCoordsUnique
      (getPhysTileOps (DeviceOp.mk AIEArch.AIE1 [Op.tile ⟨0, 1, 1⟩] 1)
        [(1, 1), (2, 0), (1, 1), (2, 0), (0, 0)]) :=
  ⟨(getPhysTileOp_dedup (DeviceOp.mk AIEArch.AIE1 [Op.tile ⟨0, 1, 1⟩] 1) 1 1 []).1
      ⟨⟨0, 1, 1⟩, by decide, rfl, rfl⟩,
   (getPhysTileOp_dedup (DeviceOp.mk AIEArch.AIE1 [Op.tile ⟨0, 1, 1⟩] 1) 2 0 []).2.1
      (by decide),
   (getPhysTileOp_dedup (DeviceOp.mk AIEArch.AIE1 [Op.tile ⟨0, 1, 1⟩] 1) 1 1
      [(1, 1), (2, 0), (1, 1), (2, 0), (0, 0)]).2.2.2.1
      (List.pairwise_singleton _ _)⟩

/-! ## Lemmas: metadata table -/

theorem allocs_setAllocs_same (a : DMAAllocator) (d : Bool) (l : List allocation_info_t) :
    (a.setAllocs d l).allocs d = l := by
  cases d <;> simp [DMAAllocator.setAllocs, DMAAllocator.allocs]

theorem allocs_setAllocs_other (a : DMAAllocator) (d : Bool) (l : List allocation_info_t) :
    (a.setAllocs d l).allocs (!d) = a.allocs (!d) := by
  cases d <;> simp [DMAAllocator.setAllocs, DMAAllocator.allocs]

theorem setAllocs_keeps_dma_channels (a : DMAAllocator) (d : Bool) (l : List allocation_info_t) :
    (a.setAllocs d l).dma_channels = a.dma_channels := by
  cases d <;> simp [DMAAllocator.setAllocs]

theorem getTile_frame (a : DMAAllocator) (dev : DeviceOp) (op : DmaMemcpy)
    (tc col row : Int) (t : TileOp) (a1 : DMAAllocator) (dev1 : DeviceOp)
    (h : a.getTile dev op tc col row = .ok (t, a1, dev1)) :
    a1.dma_channels = a.dma_channels ∧ a1.dma_columns = a.dma_columns ∧
    a1.allocs (!decide (op.srcMemorySpace < op.dstMemorySpace))
      = a.allocs (!decide (op.srcMemorySpace < op.dstMemorySpace)) := by
  rw [getTile_ok_iff] at h
  obtain ⟨-, h | h⟩ := h
  · obtain ⟨l', -, rfl, -⟩ := h
    refine ⟨setAllocs_keeps_dma_channels _ _ _, ?_, allocs_setAllocs_other _ _ _⟩
    cases decide (op.srcMemorySpace < op.dstMemorySpace) <;> simp [DMAAllocator.setAllocs]
  · obtain ⟨-, -, c, -, -, rfl, -⟩ := h
    refine ⟨setAllocs_keeps_dma_channels _ _ _, ?_, allocs_setAllocs_other _ _ _⟩
    cases decide (op.srcMemorySpace < op.dstMemorySpace) <;> simp [DMAAllocator.setAllocs]

theorem shimChannelsInRange_iff (a : DMAAllocator) :
    ShimChannelsInRange a ↔ a.dma_channels = 2 ∧
      ∀ d : Bool, ∀ e ∈ a.allocs d, e.dma_channel = 0 ∨ e.dma_channel = 1 := by
  unfold ShimChannelsInRange
  constructor
  · rintro ⟨h2, hs, hm⟩
    refine ⟨h2, fun d => ?_⟩
    cases d
    · simpa [DMAAllocator.allocs] using hs
    · simpa [DMAAllocator.allocs] using hm
  · rintro ⟨h2, h⟩
    refine ⟨h2, ?_, ?_⟩
    · simpa [DMAAllocator.allocs] using h false
    · simpa [DMAAllocator.allocs] using h true

theorem getTile_channelsInRange (a : DMAAllocator) (dev : DeviceOp) (op : DmaMemcpy)
    (tc col row : Int) (t : TileOp) (a1 : DMAAllocator) (dev1 : DeviceOp)
    (h : a.getTile dev op tc col row = .ok (t, a1, dev1)) (hinv : ShimChannelsInRange a) :
    ShimChannelsInRange a1 := by
  rw [shimChannelsInRange_iff] at hinv ⊢
  obtain ⟨h2, hr⟩ := hinv
  obtain ⟨hc, -, hother⟩ := getTile_frame a dev op tc col row t a1 dev1 h
  obtain ⟨-, hent⟩ := getTile_ok_entry a dev op tc col row t a1 dev1 h
  refine ⟨hc.trans h2, fun d e he => ?_⟩
  by_cases hd : d = decide (op.srcMemorySpace < op.dstMemorySpace)
  · subst hd
    rcases hent e he with ⟨e0, he0, heq⟩ | heq
    · rw [heq]; exact hr _ e0 he0
    · rw [heq, h2, toSizeT_two]
      have := Nat.mod_two_eq_zero_or_one
        (a.allocs (decide (op.srcMemorySpace < op.dstMemorySpace))).length
      rcases this with h0 | h1
      · left; rw [h0]; rfl
      · right; rw [h1]; rfl
  · have hd' : d = !decide (op.srcMemorySpace < op.dstMemorySpace) := by
      cases d <;> cases hx : decide (op.srcMemorySpace < op.dstMemorySpace) <;> simp_all
    subst hd'
    rw [hother] at he
    exact hr _ e he

theorem getTiles_channelsInRange (reqs : List TileRequest) :
    ∀ (a : DMAAllocator) (dev : DeviceOp) (tiles : List TileOp) (a1 : DMAAllocator)
      (dev1 : DeviceOp), a.getTiles dev reqs = .ok (tiles, a1, dev1) →
      ShimChannelsInRange a → ShimChannelsInRange a1 := by
  induction reqs with
  | nil =>
    intro a dev tiles a1 dev1 h hinv
    simp only [DMAAllocator.getTiles, Except.ok.injEq, Prod.mk.injEq] at h
    obtain ⟨-, rfl, -⟩ := h
    exact hinv
  | cons r rest ih =>
    intro a dev tiles a1 dev1 h hinv
    simp only [DMAAllocator.getTiles] at h
    cases h1 : a.getTile dev r.dmaOp r.tile_channel r.col r.row with
    | error e => rw [h1] at h; cases h
    | ok res =>
      obtain ⟨t, a', dev'⟩ := res
      rw [h1] at h
      simp only at h
      cases h2 : DMAAllocator.getTiles a' dev' rest with
      | error e => rw [h2] at h; cases h
      | ok res2 =>
        obtain ⟨ts, a'', dev''⟩ := res2
        rw [h2] at h
        simp only [Except.ok.injEq, Prod.mk.injEq] at h
        obtain ⟨-, rfl, -⟩ := h
        exact ih a' dev' ts a'' dev'' h2 (getTile_channelsInRange _ _ _ _ _ _ _ _ _ h1 hinv)

theorem new_channelsInRange (target : AIETargetModel) :
    ShimChannelsInRange (DMAAllocator.new target) := by
  simp [ShimChannelsInRange, DMAAllocator.new]

theorem mem_s2mmRecords {dma_ids : List Int} {co ro : Int} {a : DMAAllocator}
    {r : DmaAllocationRecord} :
    r ∈ s2mmRecords dma_ids co ro a ↔
      ∃ t ∈ a.s2mm_allocs, ∃ id ∈ t.dma_id, id ∈ dma_ids ∧
        r = { id := id, row := t.row - ro, col := t.col - co, channel := t.dma_channel
              location := t.dma_tile.col } := by
  simp only [s2mmRecords, List.mem_flatMap, List.mem_map, List.mem_filter, decide_eq_true_eq]
  constructor
  · rintro ⟨t, ht, id, ⟨hid, hin⟩, rfl⟩
    exact ⟨t, ht, id, hid, hin, rfl⟩
  · rintro ⟨t, ht, id, hid, hin, rfl⟩
    exact ⟨t, ht, id, ⟨hid, hin⟩, rfl⟩

theorem mem_mm2sRecords {dma_ids : List Int} {co ro : Int} {a : DMAAllocator}
    {r : DmaAllocationRecord} :
    r ∈ mm2sRecords dma_ids co ro a ↔
      ∃ t ∈ a.mm2s_allocs, ∃ id ∈ t.dma_id, id ∈ dma_ids ∧
        r = { id := id, row := t.row - ro, col := t.col - co, channel := t.dma_channel + 2
              location := t.dma_tile.col } := by
  simp only [mm2sRecords, List.mem_flatMap, List.mem_map, List.mem_filter, decide_eq_true_eq]
  constructor
  · rintro ⟨t, ht, id, ⟨hid, hin⟩, rfl⟩
    exact ⟨t, ht, id, hid, hin, rfl⟩
  · rintro ⟨t, ht, id, hid, hin, rfl⟩
    exact ⟨t, ht, id, ⟨hid, hin⟩, rfl⟩

/-! ## Theorems: metadata table -/

/-- Claim C22. In the metadata table built from an allocator state that
`DMAAllocator.getTile` requests reach from a new allocator, every record of an
S2MM allocation has channel 0 or 1, every record of an MM2S allocation has the
channel of its entry plus 2, which is 2 or 3, and so no S2MM record has the
channel of an MM2S record. -/
theorem metadata_channels_disjoint (target : AIETargetModel) (dev : DeviceOp)
    (reqs : List TileRequest) (tiles : List TileOp) (a : DMAAllocator) (dev1 : DeviceOp)
    (h : (DMAAllocator.new target).getTiles dev reqs = .ok (tiles, a, dev1))
    (dma_ids : List Int) (col_offset row_offset : Int) :
    (∀ r ∈ s2mmRecords dma_ids col_offset row_offset a, r.channel = 0 ∨ r.channel = 1) ∧
    (∀ r ∈ mm2sRecords dma_ids col_offset row_offset a,
      (r.channel = 2 ∨ r.channel = 3) ∧
      ∃ e ∈ a.mm2s_allocs, r.id ∈ e.dma_id ∧ r.channel = e.dma_channel + 2) ∧
    (∀ r1 ∈ s2mmRecords dma_ids col_offset row_offset a,
      ∀ r2 ∈ mm2sRecords dma_ids col_offset row_offset a, r1.channel ≠ r2.channel) := by
  obtain ⟨-, hs, hm⟩ := getTiles_channelsInRange reqs _ dev tiles a dev1 h
    (new_channelsInRange target)
  have h1 : ∀ r ∈ s2mmRecords dma_ids col_offset row_offset a,
      r.channel = 0 ∨ r.channel = 1 := by
    intro r hr
    obtain ⟨t, ht, id, -, -, rfl⟩ := mem_s2mmRecords.1 hr
    exact hs t ht
  have h2 : ∀ r ∈ mm2sRecords dma_ids col_offset row_offset a,
      (r.channel = 2 ∨ r.channel = 3) ∧
      ∃ e ∈ a.mm2s_allocs, r.id ∈ e.dma_id ∧ r.channel = e.dma_channel + 2 := by
    intro r hr
    obtain ⟨t, ht, id, hid, -, rfl⟩ := mem_mm2sRecords.1 hr
    refine ⟨?_, t, ht, hid, rfl⟩
    rcases hm t ht with h0 | h0
    · left; show t.dma_channel + 2 = 2; omega
    · right; show t.dma_channel + 2 = 3; omega
  refine ⟨h1, h2, fun r1 hr1 r2 hr2 => ?_⟩
  have a1 := h1 r1 hr1
  have a2 := (h2 r2 hr2).1
  omega

theorem metadata_channels_disjoint_witness :
    (∀ r ∈ s2mmRecords [1, 2] 0 0
        { dma_columns := [0, 1, 2, 3], dma_channels := 2
          mm2s_allocs := [{ dma_tile := { uid := 0, col := 0, row := 0 }, col := 0, row := 1
                            dma_channel := 0, tile_channel := 0, dma_id := [1] }]
          s2mm_allocs := [] }, r.channel = 0 ∨ r.channel = 1) ∧
    (∀ r ∈ mm2sRecords [1, 2] 0 0
        { dma_columns := [0, 1, 2, 3], dma_channels := 2
          mm2s_allocs := [{ dma_tile := { uid := 0, col := 0, row := 0 }, col := 0, row := 1
                            dma_channel := 0, tile_channel := 0, dma_id := [1] }]
          s2mm_allocs := [] },
      (r.channel = 2 ∨ r.channel = 3) ∧
      ∃ e ∈ ([{ dma_tile := { uid := 0, col := 0, row := 0 }, col := 0, row := 1
                dma_channel := 0, tile_channel := 0, dma_id := [1] }] : List allocation_info_t),
        r.id ∈ e.dma_id ∧ r.channel = e.dma_channel + 2) ∧
    (∀ r1 ∈ s2mmRecords [1, 2] 0 0
        { dma_columns := [0, 1, 2, 3], dma_channels := 2
          mm2s_allocs := [{ dma_tile := { uid := 0, col := 0, row := 0 }, col := 0, row := 1
                            dma_channel := 0, tile_channel := 0, dma_id := [1] }]
          s2mm_allocs := [] },
      ∀ r2 ∈ mm2sRecords [1, 2] 0 0
        { dma_columns := [0, 1, 2, 3], dma_channels := 2
          mm2s_allocs := [{ dma_tile := { uid := 0, col := 0, row := 0 }, col := 0, row := 1
                            dma_channel := 0, tile_channel := 0, dma_id := [1] }]
          s2mm_allocs := [] }, r1.channel ≠ r2.channel) :=
  metadata_channels_disjoint (exampleTarget 4) (emptyDevice AIEArch.AIE1)
    [{ dmaOp := copyL3toL1 1 none, tile_channel := 0, col := 0, row := 1 }]
    [{ uid := 0, col := 0, row := 0 }] _ _ rfl [1, 2] 0 0

/-! ## Theorems: pools of the shim tile allocator -/

theorem shim_setAllocs_allocs (a : ShimTileAllocator) (d : Bool)
    (l : List shim_allocation_info_t) :
    (a.setAllocs d l).allocs d = l ∧ (a.setAllocs d l).allocs (!d) = a.allocs (!d) ∧
    (a.setAllocs d l).shim_columns = a.shim_columns ∧
    (a.setAllocs d l).shim_dma_channels = a.shim_dma_channels := by
  cases d <;> simp [ShimTileAllocator.setAllocs, ShimTileAllocator.allocs]

/-- Claim C25. A `getShimTile` request with `src < dst` reads and updates only
the MM2S pool, any other request only the S2MM pool: the allocator afterwards
is the one before with the selected pool replaced, so the other pool is
unchanged, and an allocator that agrees on the selected pool (and on the column
table) answers with the same tile, the same new pool and the same device,
whatever its other pool holds. -/
theorem getShimTile_pools_independent (a b : ShimTileAllocator) (dev : DeviceOp)
    (src dst : Int) (t : TileOp) (a1 : ShimTileAllocator) (dev1 : DeviceOp)
    (h : a.getShimTile dev src dst = .ok (t, a1, dev1))
    (hcols : b.shim_columns = a.shim_columns)
    (hchans : b.shim_dma_channels = a.shim_dma_channels)
    (hpool : b.allocs (decide (src < dst)) = a.allocs (decide (src < dst))) :
    a1 = a.setAllocs (decide (src < dst)) (a1.allocs (decide (src < dst))) ∧
    (src < dst → a1.s2mm_allocs = a.s2mm_allocs) ∧
    (¬ src < dst → a1.mm2s_allocs = a.mm2s_allocs) ∧
    b.getShimTile dev src dst
      = .ok (t, b.setAllocs (decide (src < dst)) (a1.allocs (decide (src < dst))), dev1) ∧
    (src < dst → (b.setAllocs (decide (src < dst)) (a1.allocs (decide (src < dst)))).s2mm_allocs
      = b.s2mm_allocs) ∧
    (¬ src < dst → (b.setAllocs (decide (src < dst)) (a1.allocs (decide (src < dst)))).mm2s_allocs
      = b.mm2s_allocs) := by
  have key : ∃ l, a1 = a.setAllocs (decide (src < dst)) l ∧
      b.getShimTile dev src dst = .ok (t, b.setAllocs (decide (src < dst)) l, dev1) := by
    unfold ShimTileAllocator.getShimTile at h ⊢
    simp only [hpool, hcols, hchans]
    dsimp only at h
    cases htake : takeFirstAvailable (a.allocs (decide (src < dst))) with
    | some r =>
      obtain ⟨tile, l⟩ := r
      rw [htake] at h
      simp only [Except.ok.injEq, Prod.mk.injEq] at h
      obtain ⟨rfl, rfl, rfl⟩ := h
      exact ⟨l, rfl, rfl⟩
    | none =>
      rw [htake] at h
      simp only at h
      cases hcol : a.shim_columns[(a.allocs (decide (src < dst))).length]? with
      | none => rw [hcol] at h; cases h
      | some c =>
        rw [hcol] at h
        simp only [Except.ok.injEq, Prod.mk.injEq] at h
        obtain ⟨rfl, rfl, rfl⟩ := h
        exact ⟨_, rfl, rfl⟩
  obtain ⟨l, rfl, hb⟩ := key
  have hl : (a.setAllocs (decide (src < dst)) l).allocs (decide (src < dst)) = l :=
    (shim_setAllocs_allocs a _ l).1
  rw [hl]
  refine ⟨rfl, ?_, ?_, hb, ?_, ?_⟩
  · intro hlt
    simp [ShimTileAllocator.setAllocs, hlt]
  · intro hlt
    simp [ShimTileAllocator.setAllocs, hlt]
  · intro hlt
    simp [ShimTileAllocator.setAllocs, hlt]
  · intro hlt
    simp [ShimTileAllocator.setAllocs, hlt]

theorem getShimTile_pools_independent_witness :
    (ShimTileAllocator.new (exampleTarget 4)).s2mm_allocs
      = (ShimTileAllocator.new (exampleTarget 4)).s2mm_allocs ∧
    ({ shim_columns := [0, 1, 2, 3], shim_dma_channels := 2, mm2s_allocs := []
       s2mm_allocs := [{ shim_tile := { uid := 7, col := 3, row := 0 }
                         available_channels := 1 }] } : ShimTileAllocator).getShimTile
        (emptyDevice AIEArch.AIE1) 0 2
      = .ok ({ uid := 0, col := 0, row := 0 },
          { shim_columns := [0, 1, 2, 3], shim_dma_channels := 2
            mm2s_allocs := [{ shim_tile := { uid := 0, col := 0, row := 0 }
                              available_channels := 1 }]
            s2mm_allocs := [{ shim_tile := { uid := 7, col := 3, row := 0 }
                              available_channels := 1 }] },
          { arch := AIEArch.AIE1, body := [Op.tile { uid := 0, col := 0, row := 0 }]
            nextUid := 1 }) :=
  have h := getShimTile_pools_independent (ShimTileAllocator.new (exampleTarget 4))
    { shim_columns := [0, 1, 2, 3], shim_dma_channels := 2, mm2s_allocs := []
      s2mm_allocs := [{ shim_tile := { uid := 7, col := 3, row := 0 }
                        available_channels := 1 }] }
    (emptyDevice AIEArch.AIE1) 0 2 { uid := 0, col := 0, row := 0 }
    { shim_columns := [0, 1, 2, 3], shim_dma_channels := 2
      mm2s_allocs := [{ shim_tile := { uid := 0, col := 0, row := 0 }
                        available_channels := 1 }]
      s2mm_allocs := [] }
    { arch := AIEArch.AIE1, body := [Op.tile { uid := 0, col := 0, row := 0 }], nextUid := 1 }
    rfl rfl rfl rfl
  ⟨rfl, h.2.2.2.1⟩

/-! ## Lemmas: tile and channel of one entry -/

theorem bool_eq_or_not (d e : Bool) : d = e ∨ d = !e := by
  cases d <;> cases e <;> simp

theorem entriesTrack_step (reqs : List TileRequest) (a : DMAAllocator) (dev : DeviceOp)
    (r : TileRequest) (t : TileOp) (a1 : DMAAllocator) (dev1 : DeviceOp)
    (h : EntriesTrack reqs a)
    (hget : a.getTile dev r.dmaOp r.tile_channel r.col r.row = .ok (t, a1, dev1)) :
    EntriesTrack (reqs ++ [r]) a1 := by
  have hother := (getTile_frame a dev r.dmaOp r.tile_channel r.col r.row t a1 dev1 hget).2.2
  rw [getTile_ok_iff] at hget
  obtain ⟨-, hget⟩ := hget
  have old_ids : ∀ d : Bool, ∀ e ∈ a.allocs d, ∀ id ∈ e.dma_id,
      ∃ r' ∈ reqs ++ [r], r'.isMM2S = d ∧ r'.dmaOp.id = id ∧ r'.triple = e.triple := by
    intro d e he id hid
    obtain ⟨r', hr', h1, h2, h3⟩ := h.ids d e he id hid
    exact ⟨r', List.mem_append_left _ hr', h1, h2, h3⟩
  have hsame : ((a1.allocs r.isMM2S).map allocation_info_t.triple).Nodup ∧
      ∀ e ∈ a1.allocs r.isMM2S, ∀ id ∈ e.dma_id,
        ∃ r' ∈ reqs ++ [r], r'.isMM2S = r.isMM2S ∧ r'.dmaOp.id = id ∧ r'.triple = e.triple := by
    rcases hget with ⟨l', hf, rfl, -⟩ | ⟨hf, -, c, -, -, rfl, -⟩
    · obtain ⟨pre, e, post, hl, -, he, -, rfl⟩ := findDmaTile_some _ _ _ _ _ _ _ hf
      have hal : (a.setAllocs (decide (r.dmaOp.srcMemorySpace < r.dmaOp.dstMemorySpace))
          (pre ++ absorb r.dmaOp.id e :: post)).allocs r.isMM2S
          = pre ++ absorb r.dmaOp.id e :: post := allocs_setAllocs_same _ _ _
      rw [hal]
      have hnd := h.nodup r.isMM2S
      have hl' : a.allocs r.isMM2S = pre ++ e :: post := hl
      rw [hl'] at hnd
      constructor
      · simpa [absorb_triple] using hnd
      · intro e' he' id hid
        have hmem : ∀ x ∈ pre ++ e :: post, x ∈ a.allocs r.isMM2S := by
          intro x hx; rw [hl']; exact hx
        simp only [List.mem_append, List.mem_cons] at he'
        rcases he' with he' | rfl | he'
        · exact old_ids _ e' (hmem _ (by simp [he'])) id hid
        · by_cases hin : r.dmaOp.id ∈ e.dma_id
          · rw [absorb_of_mem hin] at hid ⊢
            exact old_ids _ e (hmem _ (by simp)) id hid
          · rcases mem_absorb_dma_id hid with hid' | rfl
            · obtain ⟨r', hr', h1, h2, h3⟩ := old_ids _ e (hmem _ (by simp)) id hid'
              exact ⟨r', hr', h1, h2, by rw [absorb_triple]; exact h3⟩
            · obtain ⟨hc, hr, hor⟩ := he
              rcases hor with hor | hor
              · exact absurd hor hin
              · refine ⟨r, by simp, rfl, rfl, ?_⟩
                rw [absorb_triple]
                simp [allocation_info_t.triple, TileRequest.triple, hc, hr, hor]
        · exact old_ids _ e' (hmem _ (by simp [he'])) id hid
    · have hal : (a.setAllocs (decide (r.dmaOp.srcMemorySpace < r.dmaOp.dstMemorySpace))
          (a.allocs (decide (r.dmaOp.srcMemorySpace < r.dmaOp.dstMemorySpace)) ++
            [newAllocation a dev r.dmaOp r.tile_channel r.col r.row
              (a.allocs (decide (r.dmaOp.srcMemorySpace < r.dmaOp.dstMemorySpace))).length
              c])).allocs r.isMM2S
          = a.allocs r.isMM2S ++ [newAllocation a dev r.dmaOp r.tile_channel r.col r.row
              (a.allocs r.isMM2S).length c] := allocs_setAllocs_same _ _ _
      rw [hal]
      have hnone := (findDmaTile_none_iff _ _ _ _ _).1 hf
      have htr : (newAllocation a dev r.dmaOp r.tile_channel r.col r.row
          (a.allocs r.isMM2S).length c).triple = r.triple := rfl
      constructor
      · rw [List.map_append, List.map_singleton, htr]
        refine List.Nodup.append (h.nodup _) (List.nodup_singleton _) ?_
        rw [List.disjoint_singleton]
        intro hmem
        obtain ⟨e0, he0, he0t⟩ := List.mem_map.1 hmem
        exact hnone e0 he0 (answers_of_triple he0t)
      · intro e' he' id hid
        simp only [List.mem_append, List.mem_singleton] at he'
        rcases he' with he' | rfl
        · exact old_ids _ e' he' id hid
        · have : id = r.dmaOp.id := by simpa [newAllocation] using hid
          subst this
          exact ⟨r, by simp, rfl, rfl, htr.symm⟩
  constructor
  · intro d
    rcases bool_eq_or_not d r.isMM2S with rfl | rfl
    · exact hsame.1
    · have : a1.allocs (!r.isMM2S) = a.allocs (!r.isMM2S) := hother
      rw [this]; exact h.nodup _
  · intro d
    rcases bool_eq_or_not d r.isMM2S with rfl | rfl
    · exact hsame.2
    · have : a1.allocs (!r.isMM2S) = a.allocs (!r.isMM2S) := hother
      rw [this]; exact old_ids _

theorem entriesTrack_new (target : AIETargetModel) :
    EntriesTrack [] (DMAAllocator.new target) := by
  constructor
  · intro d; cases d <;> simp [DMAAllocator.new, DMAAllocator.allocs]
  · intro d e he
    cases d <;> simp [DMAAllocator.new, DMAAllocator.allocs] at he

theorem entriesTrack_run (reqs : List TileRequest) :
    ∀ (a0 : DMAAllocator) (dev : DeviceOp) (pre : List TileRequest) (tiles : List TileOp)
      (a : DMAAllocator) (dev1 : DeviceOp),
      EntriesTrack pre a0 → a0.getTiles dev reqs = .ok (tiles, a, dev1) →
      EntriesTrack (pre ++ reqs) a := by
  induction reqs with
  | nil =>
    intro a0 dev pre tiles a dev1 h0 h
    simp only [DMAAllocator.getTiles, Except.ok.injEq, Prod.mk.injEq] at h
    obtain ⟨-, rfl, -⟩ := h
    simpa using h0
  | cons r rest ih =>
    intro a0 dev pre tiles a dev1 h0 h
    simp only [DMAAllocator.getTiles] at h
    cases h1 : a0.getTile dev r.dmaOp r.tile_channel r.col r.row with
    | error e => rw [h1] at h; cases h
    | ok res =>
      obtain ⟨t, a', dev'⟩ := res
      rw [h1] at h
      simp only at h
      cases h2 : DMAAllocator.getTiles a' dev' rest with
      | error e => rw [h2] at h; cases h
      | ok res2 =>
        obtain ⟨ts, a'', dev''⟩ := res2
        rw [h2] at h
        simp only [Except.ok.injEq, Prod.mk.injEq] at h
        obtain ⟨-, rfl, -⟩ := h
        have := ih a' dev' (pre ++ [r]) ts a'' dev''
          (entriesTrack_step pre a0 dev r t a' dev' h0 h1) h2
        simpa using this

theorem answers_triple_of_track {reqs : List TileRequest} {a : DMAAllocator}
    (h : EntriesTrack reqs a) {r : TileRequest} (hr : r ∈ reqs)
    (hcons : IdsConsistentPerDirection reqs) {e : allocation_info_t}
    (he : e ∈ a.allocs r.isMM2S) (hans : Answers r.dmaOp.id r.tile_channel r.col r.row e) :
    e.triple = r.triple := by
  obtain ⟨hc, hrow, hor⟩ := hans
  have htc : r.tile_channel = e.tile_channel := by
    rcases hor with hid | htc
    · obtain ⟨r', hr', hd', hid', htr'⟩ := h.ids _ e he _ hid
      simp only [allocation_info_t.triple, TileRequest.triple, Prod.mk.injEq] at htr'
      have := hcons r' hr' r hr hd' hid' (by rw [htr'.1, hc]) (by rw [htr'.2.1, hrow])
      rw [← this, htr'.2.2]
    · exact htc
  simp only [allocation_info_t.triple, TileRequest.triple, Prod.mk.injEq]
  exact ⟨hc.symm, hrow.symm, htc.symm⟩

/-! ## Theorems: tile and channel of one entry -/

/-- Claim C27. After any sequence of `getTile` requests to a new allocator in
which every transfer id comes with one tile channel at given coordinates and
direction, the allocator holds at most one entry per `(col, row,
tile_channel)` in each direction; and when `getTile` has answered a request,
`getChannel` for the same id, tile channel and coordinates returns the shim
channel of the one entry for that triple, which is the entry whose tile
`getTile` returned. -/
theorem getTile_getChannel_same_entry (target : AIETargetModel) (dev : DeviceOp)
    (reqs : List TileRequest) (r : TileRequest) (tiles : List TileOp) (a : DMAAllocator)
    (dev1 : DeviceOp) (t : TileOp) (a1 : DMAAllocator) (dev2 : DeviceOp)
    (cdir : DMAChannelDir)
    (hcons : IdsConsistentPerDirection (reqs ++ [r]))
    (hrun : (DMAAllocator.new target).getTiles dev reqs = .ok (tiles, a, dev1))
    (hget : a.getTile dev1 r.dmaOp r.tile_channel r.col r.row = .ok (t, a1, dev2)) :
    (∀ d : Bool, ((a1.allocs d).map allocation_info_t.triple).Nodup) ∧
    ∃ e ∈ a1.allocs r.isMM2S,
      e.triple = r.triple ∧ e.dma_tile = t ∧ r.dmaOp.id ∈ e.dma_id ∧
      (∀ e' ∈ a1.allocs r.isMM2S, e'.triple = r.triple → e' = e) ∧
      a1.getChannel r.dmaOp (cdir, r.tile_channel) r.col r.row
        = .ok (if r.isMM2S then DMAChannelDir.MM2S else DMAChannelDir.S2MM, e.dma_channel) := by
  have htrack0 : EntriesTrack ([] ++ reqs) a :=
    entriesTrack_run reqs _ dev [] tiles a dev1 (entriesTrack_new target) hrun
  rw [List.nil_append] at htrack0
  have htrack : EntriesTrack (reqs ++ [r]) a1 :=
    entriesTrack_step reqs a dev1 r t a1 dev2 htrack0 hget
  have hrange : ShimChannelsInRange a1 :=
    getTile_channelsInRange _ _ _ _ _ _ _ _ _ hget
      (getTiles_channelsInRange reqs _ dev tiles a dev1 hrun (new_channelsInRange target))
  have hsd : r.dmaOp.srcMemorySpace ≠ r.dmaOp.dstMemorySpace :=
    ((getTile_ok_iff _ _ _ _ _ _ _ _ _).1 hget).1
  obtain ⟨⟨e, he, hans, hid, htile⟩, -⟩ := getTile_ok_entry _ _ _ _ _ _ _ _ _ hget
  have he' : e ∈ a1.allocs r.isMM2S := he
  have hrm : r ∈ reqs ++ [r] := by simp
  have htr : e.triple = r.triple := answers_triple_of_track htrack hrm hcons he' hans
  have huniq : ∀ e' ∈ a1.allocs r.isMM2S, e'.triple = r.triple → e' = e := by
    intro e' hin ht
    exact List.inj_on_of_nodup_map (htrack.nodup _) hin he' (by rw [ht, htr])
  refine ⟨htrack.nodup, e, he', htr, htile, hid, huniq, ?_⟩
  obtain ⟨t', ht', hans', hfold⟩ :=
    channel_foldl_mem r.dmaOp.id r.tile_channel r.col r.row (a1.allocs r.isMM2S) (-1)
      ⟨e, he', hans⟩
  have hte : t' = e := huniq t' ht' (answers_triple_of_track htrack hrm hcons ht' hans')
  subst hte
  have hch : t'.dma_channel = 0 ∨ t'.dma_channel = 1 :=
    ((shimChannelsInRange_iff a1).1 hrange).2 _ t' he'
  unfold DMAAllocator.getChannel
  rw [if_neg hsd]
  have hfold' : List.foldl (channelStep r.dmaOp.id r.tile_channel r.col r.row) (-1)
      (a1.allocs (decide (r.dmaOp.srcMemorySpace < r.dmaOp.dstMemorySpace)))
      = t'.dma_channel := hfold
  simp only [hfold']
  have hne : t'.dma_channel ≠ -1 := by omega
  rw [if_neg hne]
  have h32 : toInt32 t'.dma_channel = t'.dma_channel := by
    rcases hch with h0 | h0 <;> rw [h0] <;> decide
  rw [h32]
  unfold TileRequest.isMM2S
  cases decide (r.dmaOp.srcMemorySpace < r.dmaOp.dstMemorySpace) <;> rfl

theorem getTile_getChannel_same_entry_witness :
    ∃ (a1 : DMAAllocator) (e : allocation_info_t),
      (∀ d : Bool, ((a1.allocs d).map allocation_info_t.triple).Nodup) ∧
      e.dma_tile = { uid := 0, col := 0, row := 0 } ∧
      a1.getChannel (copyL3toL1 6 none) (DMAChannelDir.MM2S, 1) 0 1
        = .ok (DMAChannelDir.MM2S, e.dma_channel) :=
  have h := getTile_getChannel_same_entry (exampleTarget 2) (emptyDevice AIEArch.AIE1)
    [⟨copyL3toL1 5 none, 0, 0, 1⟩] ⟨copyL3toL1 6 none, 1, 0, 1⟩ _ _ _ _ _ _
    DMAChannelDir.MM2S (by unfold IdsConsistentPerDirection; decide) rfl rfl
  Exists.elim h.2 (fun e he => ⟨_, e, h.1, he.2.2.1, he.2.2.2.2.2⟩)

/-! ## Lemmas: round-robin tile channels -/

theorem nodup_getElem?_inj {α : Type} {l : List α} (h : l.Nodup) :
    ∀ {i j : Nat} {a : α}, l[i]? = some a → l[j]? = some a → i = j := by
  induction l with
  | nil => intro i j a hi; simp at hi
  | cons x xs ih =>
    intro i j a hi hj
    rw [List.nodup_cons] at h
    cases i with
    | zero =>
      cases j with
      | zero => rfl
      | succ j =>
        simp only [List.getElem?_cons_zero, Option.some.injEq] at hi
        simp only [List.getElem?_cons_succ] at hj
        exact absurd (hi ▸ List.getElem?_mem hj) h.1
    | succ i =>
      cases j with
      | zero =>
        simp only [List.getElem?_cons_zero, Option.some.injEq] at hj
        simp only [List.getElem?_cons_succ] at hi
        exact absurd (hj ▸ List.getElem?_mem hi) h.1
      | succ j =>
        simp only [List.getElem?_cons_succ] at hi hj
        rw [ih h.2 hi hj]

theorem entriesAt_cons (x : Int × Int × Int × Int) (l : List (Int × Int × Int × Int))
    (col row : Int) :
    entriesAt (x :: l) col row
      = if col = x.2.1 ∧ row = x.2.2.1 then x :: entriesAt l col row else entriesAt l col row := by
  unfold entriesAt
  by_cases h : col = x.2.1 ∧ row = x.2.2.1
  · rw [if_pos h, List.filter_cons_of_pos (by simpa using h)]
  · rw [if_neg h, List.filter_cons_of_neg (by simpa using h)]

theorem entriesAt_append (l1 l2 : List (Int × Int × Int × Int)) (col row : Int) :
    entriesAt (l1 ++ l2) col row = entriesAt l1 col row ++ entriesAt l2 col row := by
  unfold entriesAt
  exact List.filter_append _ _

theorem tileFold_count (id col row : Int) (l : List (Int × Int × Int × Int)) :
    ∀ acc : Int × Nat, (l.foldl (tileChannelStep id col row) acc).2
      = acc.2 + (entriesAt l col row).length := by
  induction l with
  | nil => intro acc; simp [entriesAt]
  | cons x xs ih =>
    intro acc
    rw [List.foldl_cons, ih, entriesAt_cons]
    by_cases h : col = x.2.1 ∧ row = x.2.2.1
    · rw [if_pos h]
      simp only [tileChannelStep, if_pos h, List.length_cons]
      omega
    · rw [if_neg h]
      simp only [tileChannelStep, if_neg h]

theorem tileFold_chan (id col row c : Int) (l : List (Int × Int × Int × Int)) :
    (∀ e ∈ entriesAt l col row, e.1 = id → e.2.2.2 = c) → ∀ acc : Int × Nat,
    ((l.foldl (tileChannelStep id col row) acc).1 = c ∧ ∃ e ∈ entriesAt l col row, e.1 = id) ∨
    ((l.foldl (tileChannelStep id col row) acc).1 = acc.1 ∧
      ∀ e ∈ entriesAt l col row, e.1 ≠ id) := by
  induction l with
  | nil => intro _ acc; right; simp [entriesAt]
  | cons x xs ih =>
    intro hc acc
    rw [List.foldl_cons]
    rw [entriesAt_cons] at hc ⊢
    by_cases h : col = x.2.1 ∧ row = x.2.2.1
    · rw [if_pos h] at hc ⊢
      have hc' : ∀ e ∈ entriesAt xs col row, e.1 = id → e.2.2.2 = c :=
        fun e he => hc e (List.mem_cons_of_mem _ he)
      by_cases hid : id = x.1
      · have hx : (tileChannelStep id col row acc x).1 = c := by
          simp only [tileChannelStep, if_pos h, if_pos hid]
          exact hc x (List.mem_cons_self _ _) hid.symm
        left
        rcases ih hc' (tileChannelStep id col row acc x) with ⟨h1, -⟩ | ⟨h1, -⟩
        · exact ⟨h1, x, List.mem_cons_self _ _, hid.symm⟩
        · exact ⟨h1.trans hx, x, List.mem_cons_self _ _, hid.symm⟩
      · have hx : (tileChannelStep id col row acc x).1 = acc.1 := by
          simp only [tileChannelStep, if_pos h, if_neg hid]
        rcases ih hc' (tileChannelStep id col row acc x) with ⟨h1, e, he, hee⟩ | ⟨h1, hno⟩
        · left; exact ⟨h1, e, List.mem_cons_of_mem _ he, hee⟩
        · right
          refine ⟨h1.trans hx, ?_⟩
          intro e he
          rcases List.mem_cons.1 he with rfl | he
          · exact fun hh => hid hh.symm
          · exact hno e he
    · rw [if_neg h] at hc ⊢
      have hx : tileChannelStep id col row acc x = acc := by
        simp only [tileChannelStep, if_neg h]
      rw [hx]
      exact ih hc acc

theorem toUInt32_tile_dma_channels : toUInt32 tile_dma_channels = 2 := by decide

theorem alternate_chan {l : List (Int × Int × Int × Int)} (h : TileChannelsAlternate l)
    {col row id : Int} {k : Nat}
    (hk : ((entriesAt l col row).map (fun t => t.1))[k]? = some id) :
    ∀ e ∈ entriesAt l col row, e.1 = id → e.2.2.2 = ((k % 2 : Nat) : Int) := by
  intro e he hid
  obtain ⟨hnd, hch⟩ := h col row
  obtain ⟨j, hj⟩ := List.getElem?_of_mem he
  have hidj : ((entriesAt l col row).map (fun t => t.1))[j]? = some id := by
    rw [List.getElem?_map, hj]; simp [hid]
  have hjk : j = k := nodup_getElem?_inj hnd hidj hk
  subst hjk
  have hlt : j < (entriesAt l col row).length := by
    by_contra hge
    rw [List.getElem?_eq_none (by omega)] at hj
    cases hj
  have := congrArg (fun x => x[j]?) hch
  simp only [List.getElem?_map, hj, Option.map_some', List.getElem?_range hlt,
    Option.some.injEq] at this
  exact this

/-- The channel search on a list in which channels alternate: an id that has
an entry at the tile, the `k`-th, gets channel `k % 2` and the list stays; an
id without one gets `n % 2`, for `n` the number of entries at the tile, and an
entry at the end. -/
theorem tileChannelOn_spec (l : List (Int × Int × Int × Int)) (h : TileChannelsAlternate l)
    (id col row : Int) :
    (∀ k, ((entriesAt l col row).map (fun t => t.1))[k]? = some id →
      tileChannelOn l id col row = (((k % 2 : Nat) : Int), l)) ∧
    (id ∉ (entriesAt l col row).map (fun t => t.1) →
      tileChannelOn l id col row
        = ((((entriesAt l col row).length % 2 : Nat) : Int),
           l ++ [(id, col, row, (((entriesAt l col row).length % 2 : Nat) : Int))])) := by
  constructor
  · intro k hk
    have hmem : ∃ e ∈ entriesAt l col row, e.1 = id := by
      have := List.getElem?_mem hk
      obtain ⟨e, he, hee⟩ := List.mem_map.1 this
      exact ⟨e, he, hee⟩
    rcases tileFold_chan id col row _ l (alternate_chan h hk) (-1, 0) with ⟨h1, -⟩ | ⟨-, hno⟩
    · unfold tileChannelOn
      have hne : ¬ (((k % 2 : Nat) : Int) = -1) := by omega
      simp only [h1, if_neg hne]
    · obtain ⟨e, he, hee⟩ := hmem
      exact absurd hee (hno e he)
  · intro hnot
    have hno : ∀ e ∈ entriesAt l col row, e.1 = id → e.2.2.2 = 0 := by
      intro e he hee
      exact absurd (List.mem_map.2 ⟨e, he, hee⟩) hnot
    rcases tileFold_chan id col row 0 l hno (-1, 0) with ⟨-, e, he, hee⟩ | ⟨h1, -⟩
    · exact absurd (List.mem_map.2 ⟨e, he, hee⟩) hnot
    · unfold tileChannelOn
      have hcount := tileFold_count id col row l (-1, 0)
      simp only [Nat.zero_add] at hcount
      have h1' : (l.foldl (tileChannelStep id col row) (-1, 0)).1 = -1 := h1
      simp only [h1', if_true, hcount, toUInt32_tile_dma_channels]

theorem alternate_append (l : List (Int × Int × Int × Int)) (h : TileChannelsAlternate l)
    (id col row : Int) (hnot : id ∉ (entriesAt l col row).map (fun t => t.1)) :
    TileChannelsAlternate
      (l ++ [(id, col, row, (((entriesAt l col row).length % 2 : Nat) : Int))]) := by
  intro c r
  obtain ⟨hnd, hch⟩ := h c r
  rw [entriesAt_append]
  by_cases hcr : c = col ∧ r = row
  · obtain ⟨rfl, rfl⟩ := hcr
    have hx : entriesAt [(id, c, r, (((entriesAt l c r).length % 2 : Nat) : Int))] c r
        = [(id, c, r, (((entriesAt l c r).length % 2 : Nat) : Int))] := by
      simp [entriesAt]
    rw [hx]
    constructor
    · rw [List.map_append, List.map_singleton]
      refine List.Nodup.append hnd (List.nodup_singleton _) ?_
      rw [List.disjoint_singleton]
      exact hnot
    · rw [List.map_append, List.map_singleton, hch, List.length_append, List.length_singleton,
        List.range_succ, List.map_append, List.map_singleton]
  · have hx : entriesAt [(id, col, row, (((entriesAt l col row).length % 2 : Nat) : Int))] c r
        = [] := by
      simp [entriesAt, hcr]
    rw [hx, List.append_nil]
    exact ⟨hnd, hch⟩

theorem alternate_tileChannelOn (l : List (Int × Int × Int × Int))
    (h : TileChannelsAlternate l) (id col row : Int) :
    TileChannelsAlternate (tileChannelOn l id col row).2 ∧
    ((tileChannelOn l id col row).1 = 0 ∨ (tileChannelOn l id col row).1 = 1) ∧
    (id, col, row, (tileChannelOn l id col row).1) ∈ (tileChannelOn l id col row).2 ∧
    (∀ x ∈ l, x ∈ (tileChannelOn l id col row).2) := by
  obtain ⟨h1, h2⟩ := tileChannelOn_spec l h id col row
  by_cases hmem : id ∈ (entriesAt l col row).map (fun t => t.1)
  · obtain ⟨k, hk⟩ := List.getElem?_of_mem hmem
    rw [h1 k hk]
    refine ⟨h, by dsimp only; omega, ?_, fun x hx => hx⟩
    obtain ⟨e, he, hee⟩ := List.mem_map.1 hmem
    have hch := alternate_chan h hk e he hee
    have hel : e ∈ l := (List.mem_filter.1 he).1
    have hat := (List.mem_filter.1 he).2
    simp only [decide_eq_true_eq] at hat
    have : e = (id, col, row, ((k % 2 : Nat) : Int)) := by
      obtain ⟨a, b, c, d⟩ := e
      simp only at hee hch hat
      simp [hee, hch, hat.1, hat.2]
    rw [← this]; exact hel
  · rw [h2 hmem]
    refine ⟨alternate_append l h id col row hmem, by dsimp only; omega, by simp, ?_⟩
    intro x hx
    exact List.mem_append_left _ hx

theorem getTileDMAChannel_dir (p : AIRToAIEPass) (op : DmaMemcpy) (col row : Int) :
    (p.getTileDMAChannel op col row).1
      = (tileChannelDir (tileIsMM2S op),
          toInt32 (tileChannelOn (p.tileAllocs (tileIsMM2S op)) op.id col row).1) ∧
    (p.getTileDMAChannel op col row).2.tileAllocs (tileIsMM2S op)
      = (tileChannelOn (p.tileAllocs (tileIsMM2S op)) op.id col row).2 ∧
    (p.getTileDMAChannel op col row).2.tileAllocs (!tileIsMM2S op)
      = p.tileAllocs (!tileIsMM2S op) := by
  rw [getTileDMAChannel_eq]
  by_cases hd : op.srcMemorySpace > op.dstMemorySpace
  · simp [hd, tileIsMM2S, AIRToAIEPass.tileAllocs, tileChannelDir]
  · simp [hd, tileIsMM2S, AIRToAIEPass.tileAllocs, tileChannelDir]

theorem pass_ext (p q : AIRToAIEPass) (h : ∀ d : Bool, p.tileAllocs d = q.tileAllocs d) :
    p = q := by
  obtain ⟨ps, pm⟩ := p
  obtain ⟨qs, qm⟩ := q
  have h1 := h false
  have h2 := h true
  simp only [AIRToAIEPass.tileAllocs, if_true, Bool.false_eq_true, if_false] at h1 h2
  rw [h1, h2]

theorem distinctIdsAt_snoc (reqs : List (DmaMemcpy × Int × Int)) (q : DmaMemcpy × Int × Int)
    (d : Bool) (col row : Int) :
    distinctIdsAt (reqs ++ [q]) d col row
      = if tileIsMM2S q.1 = d ∧ col = q.2.1 ∧ row = q.2.2 ∧
            q.1.id ∉ distinctIdsAt reqs d col row
        then distinctIdsAt reqs d col row ++ [q.1.id] else distinctIdsAt reqs d col row := by
  unfold distinctIdsAt
  rw [List.foldl_append]
  rfl

theorem toInt32_bit {c : Int} (h : c = 0 ∨ c = 1) : toInt32 c = c := by
  rcases h with rfl | rfl <;> decide

theorem tileChannelsTrack_step (reqs : List (DmaMemcpy × Int × Int))
    (results : List DMAChannel) (p : AIRToAIEPass) (op : DmaMemcpy) (col row : Int)
    (h : TileChannelsTrack reqs results p) :
    TileChannelsTrack (reqs ++ [(op, col, row)])
      (results ++ [(p.getTileDMAChannel op col row).1]) (p.getTileDMAChannel op col row).2 := by
  obtain ⟨hdir, hsame, hother⟩ := getTileDMAChannel_dir p op col row
  obtain ⟨halt, hbit, hin, hmono⟩ :=
    alternate_tileChannelOn (p.tileAllocs (tileIsMM2S op)) (h.alternate _) op.id col row
  obtain ⟨hs1, hs2⟩ := tileChannelOn_spec (p.tileAllocs (tileIsMM2S op)) (h.alternate _)
    op.id col row
  have hmono' : ∀ d : Bool, ∀ x ∈ p.tileAllocs d,
      x ∈ (p.getTileDMAChannel op col row).2.tileAllocs d := by
    intro d x hx
    rcases bool_eq_or_not d (tileIsMM2S op) with rfl | rfl
    · rw [hsame]; exact hmono x hx
    · rw [hother]; exact hx
  constructor
  · intro d
    rcases bool_eq_or_not d (tileIsMM2S op) with rfl | rfl
    · rw [hsame]; exact halt
    · rw [hother]; exact h.alternate _
  · intro d c r
    rw [distinctIdsAt_snoc]
    rcases bool_eq_or_not d (tileIsMM2S op) with rfl | rfl
    · rw [hsame]
      by_cases hmem : op.id ∈ (entriesAt (p.tileAllocs (tileIsMM2S op)) col row).map
          (fun t => t.1)
      · obtain ⟨k, hk⟩ := List.getElem?_of_mem hmem
        rw [hs1 k hk]
        dsimp only
        rw [h.ids]
        by_cases hcr : c = col ∧ r = row
        · obtain ⟨rfl, rfl⟩ := hcr
          rw [h.ids] at hmem
          rw [if_neg]
          simp [hmem]
        · rw [if_neg]
          intro hh
          exact hcr ⟨hh.2.1, hh.2.2.1⟩
      · rw [hs2 hmem]
        dsimp only
        rw [entriesAt_append, List.map_append, h.ids]
        by_cases hcr : c = col ∧ r = row
        · obtain ⟨rfl, rfl⟩ := hcr
          rw [h.ids] at hmem
          rw [if_pos ⟨rfl, rfl, rfl, hmem⟩]
          simp [entriesAt]
        · rw [if_neg (fun hh => hcr ⟨hh.2.1, hh.2.2.1⟩)]
          have : entriesAt [(op.id, col, row,
              (((entriesAt (p.tileAllocs (tileIsMM2S op)) col row).length % 2 : Nat) : Int))]
              c r = [] := by
            simp [entriesAt, hcr]
          rw [this]; simp
    · rw [hother, h.ids, if_neg]
      intro hh
      have := hh.1
      dsimp only at this
      cases hx : tileIsMM2S op <;> rw [hx] at this <;> simp at this
  · refine List.rel_append (h.served.imp ?_) (List.Forall₂.cons ?_ List.Forall₂.nil)
    · intro res q hq
      exact ⟨hq.1, hq.2.1, hmono' _ _ hq.2.2⟩
    · rw [hdir]
      dsimp only
      rw [toInt32_bit hbit]
      refine ⟨rfl, hbit, ?_⟩
      rw [hsame]; exact hin

theorem getTileDMAChannels_snoc (l : List (DmaMemcpy × Int × Int)) (q : DmaMemcpy × Int × Int) :
    ∀ p : AIRToAIEPass, p.getTileDMAChannels (l ++ [q])
      = ((p.getTileDMAChannels l).1 ++
            [((p.getTileDMAChannels l).2.getTileDMAChannel q.1 q.2.1 q.2.2).1],
         ((p.getTileDMAChannels l).2.getTileDMAChannel q.1 q.2.1 q.2.2).2) := by
  induction l with
  | nil =>
    intro p
    obtain ⟨op, c, r⟩ := q
    simp [AIRToAIEPass.getTileDMAChannels]
  | cons x xs ih =>
    intro p
    obtain ⟨op, c, r⟩ := x
    have := ih (p.getTileDMAChannel op c r).2
    simp only [List.cons_append, AIRToAIEPass.getTileDMAChannels, List.append_eq, this]

theorem tileChannelsTrack_run (reqs : List (DmaMemcpy × Int × Int)) :
    TileChannelsTrack reqs
      ((AIRToAIEPass.mk [] []).getTileDMAChannels reqs).1
      ((AIRToAIEPass.mk [] []).getTileDMAChannels reqs).2 := by
  induction reqs using List.reverseRecOn with
  | nil =>
    constructor
    · intro d col row
      cases d <;> simp [AIRToAIEPass.getTileDMAChannels, AIRToAIEPass.tileAllocs, entriesAt]
    · intro d col row
      cases d <;>
        simp [AIRToAIEPass.getTileDMAChannels, AIRToAIEPass.tileAllocs, entriesAt,
          distinctIdsAt]
    · exact List.Forall₂.nil
  | append_singleton l q ih =>
    obtain ⟨op, c, r⟩ := q
    rw [getTileDMAChannels_snoc]
    exact tileChannelsTrack_step l _ _ op c r ih

/-! ## Theorems: round-robin tile channels -/

/-- Claim C30. After any sequence of `getTileDMAChannel` requests to a pass
without allocations, a further request for a transfer at `(col, row)` returns
a channel of the direction of the transfer with index 0 or 1. With `ids` the
distinct transfer ids requested so far at that tile in that direction, in
order of first request (requests for other tiles or the other direction do not
count): an id that is the `k`-th of them gets channel `k % 2` and the pass
state is unchanged; an id that is not among them, which makes it the next
distinct id, gets channel `ids.length % 2` and one entry is added for it in
that direction only; and every earlier request for that id at that tile in
that direction was answered with the same channel. -/
theorem getTileDMAChannel_round_robin (reqs : List (DmaMemcpy × Int × Int))
    (dmaOp : DmaMemcpy) (col row : Int) :
    ((((AIRToAIEPass.mk [] []).getTileDMAChannels reqs).2.getTileDMAChannel dmaOp col row).1.1
      = tileChannelDir (tileIsMM2S dmaOp)) ∧
    ((((AIRToAIEPass.mk [] []).getTileDMAChannels reqs).2.getTileDMAChannel dmaOp col row).1.2 = 0
      ∨ (((AIRToAIEPass.mk [] []).getTileDMAChannels reqs).2.getTileDMAChannel
          dmaOp col row).1.2 = 1) ∧
    (∀ k : Nat, (distinctIdsAt reqs (tileIsMM2S dmaOp) col row)[k]? = some dmaOp.id →
      (((AIRToAIEPass.mk [] []).getTileDMAChannels reqs).2.getTileDMAChannel dmaOp col row).1.2
        = ((k % 2 : Nat) : Int) ∧
      (((AIRToAIEPass.mk [] []).getTileDMAChannels reqs).2.getTileDMAChannel dmaOp col row).2
        = ((AIRToAIEPass.mk [] []).getTileDMAChannels reqs).2) ∧
    (dmaOp.id ∉ distinctIdsAt reqs (tileIsMM2S dmaOp) col row →
      (((AIRToAIEPass.mk [] []).getTileDMAChannels reqs).2.getTileDMAChannel dmaOp col row).1.2
        = (((distinctIdsAt reqs (tileIsMM2S dmaOp) col row).length % 2 : Nat) : Int) ∧
      (((AIRToAIEPass.mk [] []).getTileDMAChannels reqs).2.getTileDMAChannel
          dmaOp col row).2.tileAllocs (tileIsMM2S dmaOp)
        = ((AIRToAIEPass.mk [] []).getTileDMAChannels reqs).2.tileAllocs (tileIsMM2S dmaOp) ++
            [(dmaOp.id, col, row,
              (((distinctIdsAt reqs (tileIsMM2S dmaOp) col row).length % 2 : Nat) : Int))] ∧
      (((AIRToAIEPass.mk [] []).getTileDMAChannels reqs).2.getTileDMAChannel
          dmaOp col row).2.tileAllocs (!tileIsMM2S dmaOp)
        = ((AIRToAIEPass.mk [] []).getTileDMAChannels reqs).2.tileAllocs (!tileIsMM2S dmaOp)) ∧
    (∀ (i : Nat) (q : DmaMemcpy × Int × Int), reqs[i]? = some q → q.1.id = dmaOp.id →
      tileIsMM2S q.1 = tileIsMM2S dmaOp → q.2 = (col, row) →
      ((AIRToAIEPass.mk [] []).getTileDMAChannels reqs).1[i]?
        = some (((AIRToAIEPass.mk [] []).getTileDMAChannels reqs).2.getTileDMAChannel
            dmaOp col row).1) := by
  have htrack := tileChannelsTrack_run reqs
  generalize ((AIRToAIEPass.mk [] []).getTileDMAChannels reqs).1 = results at htrack ⊢
  generalize ((AIRToAIEPass.mk [] []).getTileDMAChannels reqs).2 = p at htrack ⊢
  obtain ⟨hdir, hsame, hother⟩ := getTileDMAChannel_dir p dmaOp col row
  obtain ⟨-, hbit, -, -⟩ :=
    alternate_tileChannelOn (p.tileAllocs (tileIsMM2S dmaOp)) (htrack.alternate _)
      dmaOp.id col row
  obtain ⟨hs1, hs2⟩ := tileChannelOn_spec (p.tileAllocs (tileIsMM2S dmaOp))
    (htrack.alternate _) dmaOp.id col row
  rw [htrack.ids] at hs1 hs2
  have hval : (p.getTileDMAChannel dmaOp col row).1.2
      = (tileChannelOn (p.tileAllocs (tileIsMM2S dmaOp)) dmaOp.id col row).1 := by
    rw [hdir]; exact toInt32_bit hbit
  have hk : ∀ k : Nat, (distinctIdsAt reqs (tileIsMM2S dmaOp) col row)[k]? = some dmaOp.id →
      (p.getTileDMAChannel dmaOp col row).1.2 = ((k % 2 : Nat) : Int) ∧
      (p.getTileDMAChannel dmaOp col row).2 = p := by
    intro k hk
    refine ⟨by rw [hval, hs1 k hk], pass_ext _ _ (fun d => ?_)⟩
    rcases bool_eq_or_not d (tileIsMM2S dmaOp) with rfl | rfl
    · rw [hsame, hs1 k hk]
    · rw [hother]
  refine ⟨by rw [hdir], by rw [hval]; exact hbit, hk, ?_, ?_⟩
  · intro hnot
    have hlen : (entriesAt (p.tileAllocs (tileIsMM2S dmaOp)) col row).length
        = (distinctIdsAt reqs (tileIsMM2S dmaOp) col row).length := by
      rw [← htrack.ids, List.length_map]
    refine ⟨by rw [hval, hs2 hnot, hlen], by rw [hsame, hs2 hnot, hlen], hother⟩
  · intro i q hi hid hd hcr
    obtain ⟨res, hres, hq1, hq2, hq3⟩ := forall₂_getElem? htrack.served i q hi
    rw [hres]
    have hcr1 : q.2.1 = col := by rw [hcr]
    have hcr2 : q.2.2 = row := by rw [hcr]
    rw [hid, hd, hcr1, hcr2] at hq3
    have hent : (dmaOp.id, col, row, res.2)
        ∈ entriesAt (p.tileAllocs (tileIsMM2S dmaOp)) col row := by
      unfold entriesAt
      rw [List.mem_filter]
      exact ⟨hq3, by simp⟩
    have hidmem : dmaOp.id ∈ distinctIdsAt reqs (tileIsMM2S dmaOp) col row := by
      rw [← htrack.ids]
      exact List.mem_map.2 ⟨_, hent, rfl⟩
    obtain ⟨k, hkk⟩ := List.getElem?_of_mem hidmem
    have hkk' : ((entriesAt (p.tileAllocs (tileIsMM2S dmaOp)) col row).map
        (fun t => t.1))[k]? = some dmaOp.id := by rw [htrack.ids]; exact hkk
    have hch := alternate_chan (htrack.alternate _) hkk' _ hent rfl
    dsimp only at hch
    congr 1
    apply Prod.ext
    · rw [hq1, hd, hdir]
    · rw [hch, (hk k hkk).1]

/-! ## Lemmas: records of the metadata table -/

theorem getTiles_invariant (P : DMAAllocator → Prop)
    (hstep : ∀ (a : DMAAllocator) (dev : DeviceOp) (r : TileRequest) (t : TileOp)
      (a1 : DMAAllocator) (dev1 : DeviceOp),
      a.getTile dev r.dmaOp r.tile_channel r.col r.row = .ok (t, a1, dev1) → P a → P a1)
    (reqs : List TileRequest) :
    ∀ (a : DMAAllocator) (dev : DeviceOp) (tiles : List TileOp) (a1 : DMAAllocator)
      (dev1 : DeviceOp), a.getTiles dev reqs = .ok (tiles, a1, dev1) → P a → P a1 := by
  induction reqs with
  | nil =>
    intro a dev tiles a1 dev1 h hinv
    simp only [DMAAllocator.getTiles, Except.ok.injEq, Prod.mk.injEq] at h
    obtain ⟨-, rfl, -⟩ := h
    exact hinv
  | cons r rest ih =>
    intro a dev tiles a1 dev1 h hinv
    simp only [DMAAllocator.getTiles] at h
    cases h1 : a.getTile dev r.dmaOp r.tile_channel r.col r.row with
    | error e => rw [h1] at h; cases h
    | ok res =>
      obtain ⟨t, a', dev'⟩ := res
      rw [h1] at h
      simp only at h
      cases h2 : DMAAllocator.getTiles a' dev' rest with
      | error e => rw [h2] at h; cases h
      | ok res2 =>
        obtain ⟨ts, a'', dev''⟩ := res2
        rw [h2] at h
        simp only [Except.ok.injEq, Prod.mk.injEq] at h
        obtain ⟨-, rfl, -⟩ := h
        exact ih a' dev' ts a'' dev'' h2 (hstep _ _ _ _ _ _ h1 hinv)

theorem absorb_nodup (id : Int) (e : allocation_info_t) (h : e.dma_id.Nodup) :
    (absorb id e).dma_id.Nodup := by
  unfold absorb
  split
  · exact h
  · rename_i hnot
    show (e.dma_id ++ [id]).Nodup
    refine List.Nodup.append h (List.nodup_singleton _) ?_
    rw [List.disjoint_singleton]
    exact hnot

theorem getTile_idsNodup (a : DMAAllocator) (dev : DeviceOp) (r : TileRequest) (t : TileOp)
    (a1 : DMAAllocator) (dev1 : DeviceOp)
    (hget : a.getTile dev r.dmaOp r.tile_channel r.col r.row = .ok (t, a1, dev1))
    (h : IdsNodup a) : IdsNodup a1 := by
  have hother := (getTile_frame a dev r.dmaOp r.tile_channel r.col r.row t a1 dev1 hget).2.2
  rw [getTile_ok_iff] at hget
  obtain ⟨-, hget⟩ := hget
  intro d
  rcases bool_eq_or_not d r.isMM2S with rfl | rfl
  · rcases hget with ⟨l', hf, rfl, -⟩ | ⟨hf, -, c, -, -, rfl, -⟩
    · obtain ⟨pre, e, post, hl, -, he, -, rfl⟩ := findDmaTile_some _ _ _ _ _ _ _ hf
      have hal : (a.setAllocs (decide (r.dmaOp.srcMemorySpace < r.dmaOp.dstMemorySpace))
          (pre ++ absorb r.dmaOp.id e :: post)).allocs r.isMM2S
          = pre ++ absorb r.dmaOp.id e :: post := allocs_setAllocs_same _ _ _
      rw [hal]
      have hl' : a.allocs r.isMM2S = pre ++ e :: post := hl
      have hold := h r.isMM2S
      rw [hl'] at hold
      intro e' he'
      simp only [List.mem_append, List.mem_cons] at he'
      rcases he' with he' | rfl | he'
      · exact hold e' (by simp [he'])
      · exact absorb_nodup _ _ (hold e (by simp))
      · exact hold e' (by simp [he'])
    · have hal : (a.setAllocs (decide (r.dmaOp.srcMemorySpace < r.dmaOp.dstMemorySpace))
          (a.allocs (decide (r.dmaOp.srcMemorySpace < r.dmaOp.dstMemorySpace)) ++
            [newAllocation a dev r.dmaOp r.tile_channel r.col r.row
              (a.allocs (decide (r.dmaOp.srcMemorySpace < r.dmaOp.dstMemorySpace))).length
              c])).allocs r.isMM2S
          = a.allocs r.isMM2S ++ [newAllocation a dev r.dmaOp r.tile_channel r.col r.row
              (a.allocs r.isMM2S).length c] := allocs_setAllocs_same _ _ _
      rw [hal]
      intro e' he'
      simp only [List.mem_append, List.mem_singleton] at he'
      rcases he' with he' | rfl
      · exact h _ e' he'
      · simp [newAllocation]
  · have : a1.allocs (!r.isMM2S) = a.allocs (!r.isMM2S) := hother
    rw [this]; exact h _

theorem new_idsNodup (target : AIETargetModel) : IdsNodup (DMAAllocator.new target) := by
  intro d e he
  cases d <;> simp [DMAAllocator.new, DMAAllocator.allocs] at he

theorem mem_recordPairs {dma_ids : List Int} {a : DMAAllocator}
    {x : Bool × allocation_info_t × Int} :
    x ∈ recordPairs dma_ids a ↔
      x.2.1 ∈ a.allocs x.1 ∧ x.2.2 ∈ x.2.1.dma_id ∧ x.2.2 ∈ dma_ids := by
  obtain ⟨d, e, id⟩ := x
  simp only [recordPairs, List.mem_append, List.mem_flatMap, List.mem_map, List.mem_filter,
    decide_eq_true_eq, Prod.mk.injEq, DMAAllocator.allocs]
  cases d
  · constructor
    · rintro (⟨t, ht, i, ⟨hi, hin⟩, -, rfl, rfl⟩ | ⟨t, ht, i, ⟨hi, hin⟩, hf, -, -⟩)
      · exact ⟨by simpa using ht, hi, hin⟩
      · cases hf
    · rintro ⟨ht, hi, hin⟩
      exact Or.inl ⟨e, by simpa using ht, id, ⟨hi, hin⟩, rfl, rfl, rfl⟩
  · constructor
    · rintro (⟨t, ht, i, ⟨hi, hin⟩, hf, -, -⟩ | ⟨t, ht, i, ⟨hi, hin⟩, -, rfl, rfl⟩)
      · cases hf
      · exact ⟨by simpa using ht, hi, hin⟩
    · rintro ⟨ht, hi, hin⟩
      exact Or.inr ⟨e, by simpa using ht, id, ⟨hi, hin⟩, rfl, rfl, rfl⟩

theorem nodup_pairs_of (flag : Bool) (dma_ids : List Int) (l : List allocation_info_t)
    (hl : l.Nodup) (hids : ∀ e ∈ l, e.dma_id.Nodup) :
    (l.flatMap (fun t =>
      (t.dma_id.filter (fun id => decide (id ∈ dma_ids))).map
        (fun id => (flag, t, id)))).Nodup := by
  rw [List.nodup_flatMap]
  constructor
  · intro e he
    refine List.Nodup.map ?_ ((hids e he).filter _)
    intro x y hxy
    simp only [Prod.mk.injEq, true_and] at hxy
    exact hxy
  · refine hl.imp ?_
    intro e1 e2 hne x h1 h2
    simp only [List.mem_map, List.mem_filter] at h1 h2
    obtain ⟨i, -, rfl⟩ := h1
    obtain ⟨j, -, hj⟩ := h2
    simp only [Prod.mk.injEq, true_and] at hj
    exact hne hj.1.symm

theorem dmaAllocations_eq (dma_ids : List Int) (hc hr : Option Int) (a : DMAAllocator) :
    dmaAllocations dma_ids hc hr a
      = (recordPairs dma_ids a).map (recordOf (hc.getD 0) (hr.getD 0)) := by
  simp only [dmaAllocations, recordPairs, s2mmRecords, mm2sRecords, List.map_append,
    List.map_flatMap, List.map_map]
  rfl

/-! ## Theorems: records of the metadata table -/

/-- Claim C23, as stated, fails. A transfer with id 1 that runs on the tiles
`(0, 1)` and `(0, 2)` of a herd has an allocation entry for each tile, and the
table of the herd gets two records with id 1, not one. -/
theorem dmaAllocations_two_records_for_one_id :
    ∃ tiles a dev1,
      (DMAAllocator.new (exampleTarget 2)).getTiles (emptyDevice AIEArch.AIE1)
        [⟨copyL3toL1 1 none, 0, 0, 1⟩, ⟨copyL3toL1 1 none, 0, 0, 2⟩] = .ok (tiles, a, dev1) ∧
      dmaAllocations [1] none none a
        = [{ id := 1, row := 1, col := 0, channel := 2, location := 0 },
           { id := 1, row := 2, col := 0, channel := 3, location := 0 }] :=
  ⟨_, _, _, rfl, rfl⟩

/-- Claim C23, amended. For every herd (its transfer ids `dma_ids` and its
offsets) and every allocator state that `getTile` requests reach from a new
allocator, the table of the herd has exactly one record for each pair of an
allocation entry (S2MM entries first, then MM2S entries) and a transfer id held
by that entry that is an id of the herd, and no other record: the list of
these pairs has no repetition, a pair is in it exactly when the entry is in
the allocator, holds the id and the id is in the herd, and the table is the
list of the records of the pairs, each with the coordinates of the entry minus
the offsets of the herd and the column of the shim tile of the entry. -/
theorem dmaAllocations_one_record_per_entry_id (target : AIETargetModel) (dev : DeviceOp)
    (reqs : List TileRequest) (tiles : List TileOp) (a : DMAAllocator) (dev1 : DeviceOp)
    (h : (DMAAllocator.new target).getTiles dev reqs = .ok (tiles, a, dev1))
    (dma_ids : List Int) (herdColOffset herdRowOffset : Option Int) :
    dmaAllocations dma_ids herdColOffset herdRowOffset a
      = (recordPairs dma_ids a).map
          (recordOf (herdColOffset.getD 0) (herdRowOffset.getD 0)) ∧
    (recordPairs dma_ids a).Nodup ∧
    (∀ x : Bool × allocation_info_t × Int, x ∈ recordPairs dma_ids a ↔
      x.2.1 ∈ a.allocs x.1 ∧ x.2.2 ∈ x.2.1.dma_id ∧ x.2.2 ∈ dma_ids) ∧
    (∀ x ∈ recordPairs dma_ids a,
      (recordOf (herdColOffset.getD 0) (herdRowOffset.getD 0) x).id = x.2.2 ∧
      (recordOf (herdColOffset.getD 0) (herdRowOffset.getD 0) x).row
        = x.2.1.row - herdRowOffset.getD 0 ∧
      (recordOf (herdColOffset.getD 0) (herdRowOffset.getD 0) x).col
        = x.2.1.col - herdColOffset.getD 0 ∧
      (recordOf (herdColOffset.getD 0) (herdRowOffset.getD 0) x).location
        = x.2.1.dma_tile.col) ∧
    (∀ r ∈ dmaAllocations dma_ids herdColOffset herdRowOffset a, r.id ∈ dma_ids) := by
  have htrack : EntriesTrack ([] ++ reqs) a :=
    entriesTrack_run reqs _ dev [] tiles a dev1 (entriesTrack_new target) h
  have hids : IdsNodup a :=
    getTiles_invariant IdsNodup getTile_idsNodup reqs _ dev tiles a dev1 h
      (new_idsNodup target)
  have hnd : (recordPairs dma_ids a).Nodup := by
    unfold recordPairs
    refine List.Nodup.append ?_ ?_ ?_
    · exact nodup_pairs_of false dma_ids _ (List.Nodup.of_map _ (htrack.nodup false))
        (hids false)
    · exact nodup_pairs_of true dma_ids _ (List.Nodup.of_map _ (htrack.nodup true))
        (hids true)
    · intro x h1 h2
      simp only [List.mem_flatMap, List.mem_map] at h1 h2
      obtain ⟨_, -, _, -, rfl⟩ := h1
      obtain ⟨_, -, _, -, h2⟩ := h2
      simp at h2
  refine ⟨dmaAllocations_eq _ _ _ _, hnd, fun x => mem_recordPairs, ?_, ?_⟩
  · intro x _
    exact ⟨rfl, rfl, rfl, rfl⟩
  · intro r hr
    rw [dmaAllocations_eq, List.mem_map] at hr
    obtain ⟨x, hx, rfl⟩ := hr
    exact (mem_recordPairs.1 hx).2.2

theorem dmaAllocations_one_record_per_entry_id_witness :
    ∃ a : DMAAllocator,
      dmaAllocations [1] (some 0) (some 1) a
        = (recordPairs [1] a).map (recordOf 0 1) ∧ (recordPairs [1] a).Nodup :=
  have h := dmaAllocations_one_record_per_entry_id (exampleTarget 2)
    (emptyDevice AIEArch.AIE1)
    [⟨copyL3toL1 1 none, 0, 0, 1⟩, ⟨copyL3toL1 1 none, 0, 0, 2⟩] _ _ _ rfl [1]
    (some 0) (some 1)
  ⟨_, h.1, h.2.1⟩

/-! ## Lemmas: lock handshakes -/

theorem getBufferForTileDMA_eq (q : AIRToAIEPass) (op : DmaMemcpy) (x y : Int) :
    q.getBufferForTileDMA op x y
      = (if tileIsMM2S op then op.srcBuffer else op.dstBuffer,
         (q.getTileDMAChannel op x y).2) := by
  unfold AIRToAIEPass.getBufferForTileDMA
  have h := (getTileDMAChannel_dir q op x y).1
  simp only [h, isMM2S, tileChannelDir]
  cases tileIsMM2S op <;> simp

theorem findLockPair_mono (b : BufferOp) (c : DMAChannel) (info more : List LockAllocation)
    (locks : LockOp × LockOp) (h : findLockPair b c info = some locks) :
    findLockPair b c (info ++ more) = some locks := by
  induction info with
  | nil => simp [findLockPair] at h
  | cons e es ih =>
    unfold findLockPair at h
    rw [List.cons_append, findLockPair]
    by_cases he : e.1 = b ∧ e.2.1 = c
    · rw [if_pos he] at h ⊢; exact h
    · rw [if_neg he] at h ⊢; exact ih h

theorem allocateLockOp_arch (d : DeviceOp) (tile : TileOp) (init id : Int) :
    (allocateLockOp d tile init id).2.arch = d.arch := by
  unfold allocateLockOp
  dsimp only
  split <;> rfl

/-- A lookup of the lock pair returns, and afterwards the memo list holds the
returned pair for the buffer and the tile channel of the copy. -/
theorem getLockForTileDMA_found (q : AIRToAIEPass) (d : DeviceOp) (op : DmaMemcpy)
    (info : List LockAllocation) (x y : Int) (b : BufferOp)
    (hb : (if tileIsMM2S op then op.srcBuffer else op.dstBuffer) = some b) :
    ∃ locks d1 info1,
      q.getLockForTileDMA d op info x y
        = .ok (locks, (q.getTileDMAChannel op x y).2, d1, info1) ∧
      d1.arch = d.arch ∧
      findLockPair b (q.getTileDMAChannel op x y).1 info1 = some locks := by
  have hbuf : (q.getBufferForTileDMA op x y).1 = some b := by
    rw [getBufferForTileDMA_eq]; exact hb
  have hst : (q.getBufferForTileDMA op x y).2.getTileDMAChannel op x y
      = q.getTileDMAChannel op x y := by
    rw [getBufferForTileDMA_eq]; exact getTileDMAChannel_idem q op x y
  rw [getLockForTileDMA_eq q d op info x y b hbuf, hst]
  cases hf : findLockPair b (q.getTileDMAChannel op x y).1 info with
  | some locks => exact ⟨locks, d, info, rfl, rfl, hf⟩
  | none =>
    refine ⟨_, _, _, rfl, ?_, findLockPair_append _ _ _ _ _ hf⟩
    by_cases ha : d.arch = AIEArch.AIE2
    · rw [if_pos ha, allocateLockOp_arch, allocateLockOp_arch]
    · rw [if_neg ha, allocateLockOp_arch]

/-! ## Theorems: lock handshakes -/

/-- Claim C29. For every target and tile channel direction, the handshake of
the core side of `lowerAirDmaMemcpy` for a copy and the handshake of the DMA
side for the same copy are complementary. The core side returns for every
copy whose buffer on the tile is known; and in every later state in which the
copy still has its tile channel and the memo list has only grown, the DMA side
returns the same buffer with: its acquire on the lock the core releases, its
release on the lock the core acquires, its acquire value the release value of
the core and its release value the acquire value of the core. Off AIE2 the
values are: S2MM, DMA acquires 0 and releases 1, core acquires 1 and releases
0; MM2S, DMA acquires 1 and releases 0, core acquires 0 and releases 1. -/
theorem lock_handshakes_complementary (p : AIRToAIEPass) (device : DeviceOp)
    (dmaOp : DmaMemcpy) (lock_allocs : List LockAllocation) (x y : Int) (b : BufferOp)
    (hb : (if tileIsMM2S dmaOp then dmaOp.srcBuffer else dmaOp.dstBuffer) = some b) :
    ∃ ch hc p1 d1 la1,
      p.coreLockHandshake device dmaOp lock_allocs x y = .ok ((ch, hc), p1, d1, la1) ∧
      ch.1 = tileChannelDir (tileIsMM2S dmaOp) ∧
      ∀ (p2 : AIRToAIEPass) (more : List LockAllocation),
        p2.getTileDMAChannel dmaOp x y = (ch, p2) →
        ∃ hd, p2.bdLockHandshake d1 dmaOp (la1 ++ more) x y ch
            = .ok ((some b, hd), p2, d1, la1 ++ more) ∧
          hd.acqLockOp = hc.relLockOp ∧ hd.relLockOp = hc.acqLockOp ∧
          hd.lockAqValue = hc.lockRelValue ∧ hd.lockRelValue = hc.lockAqValue ∧
          hd.acqAction = hc.acqAction ∧
          (device.arch ≠ AIEArch.AIE2 → ch.1 = DMAChannelDir.S2MM →
            hd.lockAqValue = 0 ∧ hd.lockRelValue = 1 ∧
            hc.lockAqValue = 1 ∧ hc.lockRelValue = 0) ∧
          (device.arch ≠ AIEArch.AIE2 → ch.1 = DMAChannelDir.MM2S →
            hd.lockAqValue = 1 ∧ hd.lockRelValue = 0 ∧
            hc.lockAqValue = 0 ∧ hc.lockRelValue = 1) := by
  obtain ⟨locks, d1, la1, hlock, harch, hfound⟩ :=
    getLockForTileDMA_found (p.getTileDMAChannel dmaOp x y).2 device dmaOp lock_allocs x y b hb
  have hidem := getTileDMAChannel_idem p dmaOp x y
  rw [hidem] at hlock hfound
  have hcore : p.coreLockHandshake device dmaOp lock_allocs x y
      = .ok (((p.getTileDMAChannel dmaOp x y).1,
          { acqLockOp := if isMM2S (p.getTileDMAChannel dmaOp x y).1 then locks.2 else locks.1
            lockAqValue :=
              if !isMM2S (p.getTileDMAChannel dmaOp x y).1 then
                (if decide (device.arch = AIEArch.AIE2) then 1 else 1)
              else (if decide (device.arch = AIEArch.AIE2) then 1 else 0)
            acqAction := acquireAction (decide (device.arch = AIEArch.AIE2))
            relLockOp := if isMM2S (p.getTileDMAChannel dmaOp x y).1 then locks.1 else locks.2
            lockRelValue :=
              if !isMM2S (p.getTileDMAChannel dmaOp x y).1 then
                (if decide (device.arch = AIEArch.AIE2) then 1 else 0)
              else (if decide (device.arch = AIEArch.AIE2) then 1 else 1) }),
          (p.getTileDMAChannel dmaOp x y).2, d1, la1) := by
    unfold AIRToAIEPass.coreLockHandshake
    simp only [hlock]
  refine ⟨_, _, _, _, _, hcore, ?_, ?_⟩
  · rw [(getTileDMAChannel_dir p dmaOp x y).1]
  · intro p2 more hp2
    obtain ⟨locks2, d2, la2, hlock2, -, -⟩ :=
      getLockForTileDMA_found p2 d1 dmaOp (la1 ++ more) x y b hb
    have hbuf2 : p2.getBufferForTileDMA dmaOp x y = (some b, p2) := by
      rw [getBufferForTileDMA_eq, hb, hp2]
    have hlk : p2.getLockForTileDMA d1 dmaOp (la1 ++ more) x y
        = .ok (locks, p2, d1, la1 ++ more) := by
      rw [getLockForTileDMA_eq p2 d1 dmaOp (la1 ++ more) x y b (by rw [hbuf2]), hbuf2]
      simp only [hp2, findLockPair_mono _ _ _ more _ hfound]
    have hbd : p2.bdLockHandshake d1 dmaOp (la1 ++ more) x y (p.getTileDMAChannel dmaOp x y).1
        = .ok ((some b,
            { acqLockOp := if isMM2S (p.getTileDMAChannel dmaOp x y).1 then locks.1 else locks.2
              lockAqValue :=
                if !isMM2S (p.getTileDMAChannel dmaOp x y).1 then
                  (if decide (d1.arch = AIEArch.AIE2) then 1 else 0)
                else (if decide (d1.arch = AIEArch.AIE2) then 1 else 1)
              acqAction := acquireAction (decide (d1.arch = AIEArch.AIE2))
              relLockOp := if isMM2S (p.getTileDMAChannel dmaOp x y).1 then locks.2 else locks.1
              lockRelValue :=
                if !isMM2S (p.getTileDMAChannel dmaOp x y).1 then
                  (if decide (d1.arch = AIEArch.AIE2) then 1 else 1)
                else (if decide (d1.arch = AIEArch.AIE2) then 1 else 0) }),
            p2, d1, la1 ++ more) := by
      unfold AIRToAIEPass.bdLockHandshake
      simp only [hbuf2, hlk]
    refine ⟨_, hbd, ?_⟩
    · have hdir : (p.getTileDMAChannel dmaOp x y).1.1 = DMAChannelDir.S2MM ∨
          (p.getTileDMAChannel dmaOp x y).1.1 = DMAChannelDir.MM2S := by
        cases (p.getTileDMAChannel dmaOp x y).1.1
        · exact Or.inl rfl
        · exact Or.inr rfl
      rw [harch]
      by_cases ha : device.arch = AIEArch.AIE2
      · rcases hdir with hdir | hdir <;> simp [isMM2S, hdir, ha]
      · rcases hdir with hdir | hdir <;> simp [isMM2S, hdir, ha]

theorem lock_handshakes_complementary_witness :
    ∃ ch hc p1 d1 la1,
      (AIRToAIEPass.mk [] []).coreLockHandshake (emptyDevice AIEArch.AIE1)
        (copyL3toL1 1 (some { uid := 9, tile := { uid := 8, col := 1, row := 1 } })) [] 1 1
          = .ok ((ch, hc), p1, d1, la1) ∧
      ch.1 = DMAChannelDir.S2MM := by
  obtain ⟨ch, hc, p1, d1, la1, h1, h2, -⟩ :=
    lock_handshakes_complementary (AIRToAIEPass.mk [] []) (emptyDevice AIEArch.AIE1)
      (copyL3toL1 1 (some { uid := 9, tile := { uid := 8, col := 1, row := 1 } })) [] 1 1
      { uid := 9, tile := { uid := 8, col := 1, row := 1 } } rfl
  exact ⟨ch, hc, p1, d1, la1, h1, h2⟩

/-! ## Lemmas: length of a descriptor -/

theorem toInt64_modEq (a : Int) : toInt64 a ≡ a [ZMOD 2 ^ 64] := by
  unfold toInt64 Int.ModEq
  have h : (a + 2 ^ 63) % 2 ^ 64 = (a + 2 ^ 63) - 2 ^ 64 * ((a + 2 ^ 63) / 2 ^ 64) := by
    have := Int.emod_add_ediv (a + 2 ^ 63) (2 ^ 64)
    omega
  rw [h]
  have : a + 2 ^ 63 - 2 ^ 64 * ((a + 2 ^ 63) / 2 ^ 64) - 2 ^ 63
      = a + 2 ^ 64 * (-((a + 2 ^ 63) / 2 ^ 64)) := by ring
  rw [this, Int.add_mul_emod_self_left]

theorem toInt64_congr {a b : Int} (h : a ≡ b [ZMOD 2 ^ 64]) : toInt64 a = toInt64 b := by
  unfold toInt64
  have : (a + 2 ^ 63) % 2 ^ 64 = (b + 2 ^ 63) % 2 ^ 64 := Int.ModEq.add_right _ h
  rw [this]

theorem toInt64_mul_left (a b : Int) : toInt64 (toInt64 a * b) = toInt64 (a * b) :=
  toInt64_congr (Int.ModEq.mul_right _ (toInt64_modEq a))

theorem toInt64_of_range {a : Int} (h1 : -2 ^ 63 ≤ a) (h2 : a < 2 ^ 63) : toInt64 a = a := by
  unfold toInt64
  rw [Int.emod_eq_of_lt (by omega) (by omega)]
  omega

/-- The loop over sizes that are all constants ends with their product,
wrapped to 64 bits. -/
theorem ndSize_constants (vs : List Int) :
    ∀ (sizes : List Value) (size : Int),
      sizes.map (fun s => s.definer) = vs.map Definer.constantIndex →
      toInt64 size = size →
      ndSize sizes size = .ok (toInt64 (size * vs.prod)) := by
  induction vs with
  | nil =>
    intro sizes size h hs
    simp only [List.map_nil, List.map_eq_nil_iff] at h
    subst h
    simp [ndSize, hs]
  | cons v vs ih =>
    intro sizes size h hs
    cases sizes with
    | nil => simp at h
    | cons s rest =>
      simp only [List.map_cons, List.cons.injEq] at h
      obtain ⟨hd, hrest⟩ := h
      unfold ndSize
      rw [hd]
      simp only
      rw [ih rest _ hrest (toInt64_congr (toInt64_modEq _)), toInt64_mul_left, List.prod_cons,
        mul_assoc]

/-- The first half of claim C21: for a copy without length whose sizes on the
side with the smaller memory space number are all constants, the length of the
descriptor is the product of these constants (when the product is in the
range of `int64_t`), held by a created constant. -/
theorem bdLength_constants (dmaOp : DmaMemcpyNdOp) (vs : List Int)
    (hlen : dmaOp.length = none)
    (hsizes : (if dmaOp.dma.srcMemorySpace > dmaOp.dma.dstMemorySpace
        then dmaOp.dst_sizes else dmaOp.src_sizes).map (fun s => s.definer)
      = vs.map Definer.constantIndex)
    (h1 : -2 ^ 63 ≤ vs.prod) (h2 : vs.prod < 2 ^ 63) :
    bdLength dmaOp = .ok (vs.prod, true) := by
  unfold bdLength
  rw [hlen]
  simp only
  rw [ndSize_constants vs _ 1 hsizes (by decide), one_mul, toInt64_of_range h1 h2]

/-! ## Theorems: length of a descriptor -/

/-- Claim C21: the second half fails. A copy from L3 to L1 without length has
the source sizes `4` and `n`, where `n` is the result of an operation that is
not a constant. The loop over the sizes ends with `-1`, no error is raised,
and the descriptor block is built with an `AIE::DMABDOp` of length `-1`. -/
theorem bdBlock_length_of_non_constant_size :
    bdLength
      { dma := copyL3toL1 1 (some { uid := 9, tile := { uid := 8, col := 1, row := 1 } })
        length := none
        src_sizes := [{ id := 20, ty := Ty.index, definer := Definer.constantIndex 4 },
                      { id := 21, ty := Ty.index, definer := Definer.operation 17 }]
        dst_sizes := [] } = .ok (-1, true) ∧
    ∃ b st,
      (AIRToAIEPass.mk [] []).bdBlock
        { arch := AIEArch.AIE1, body := [Op.tile { uid := 8, col := 1, row := 1 }]
          nextUid := 30 } [] 1 1
        (DMAChannelDir.S2MM, 0) 100 100
        { dma := copyL3toL1 1 (some { uid := 9, tile := { uid := 8, col := 1, row := 1 } })
          length := none
          src_sizes := [{ id := 20, ty := Ty.index, definer := Definer.constantIndex 4 },
                        { id := 21, ty := Ty.index, definer := Definer.operation 17 }]
          dst_sizes := [] } = .ok (b, st) ∧
      b.ops.map (fun o => o.kind)
        = [OpKind.constantIndex (-1),
           OpKind.useLock { uid := 31, tile := { uid := 8, col := 1, row := 1 }, lockID := 0
                            init := 0 } 0 LockAction.Acquire,
           OpKind.dmaBd { uid := 9, tile := { uid := 8, col := 1, row := 1 } } 0 (-1) 0,
           OpKind.useLock { uid := 31, tile := { uid := 8, col := 1, row := 1 }, lockID := 0
                            init := 0 } 1 LockAction.Release,
           OpKind.nextBd 100] :=
  ⟨rfl, _, _, rfl, rfl⟩

/-! ## Lemmas: descriptor blocks -/

theorem allocateLockOp_nextUid (d : DeviceOp) (tile : TileOp) (init id : Int) :
    d.nextUid ≤ (allocateLockOp d tile init id).2.nextUid := by
  unfold allocateLockOp
  dsimp only
  split
  · exact Nat.le_refl _
  · exact Nat.le_succ _

theorem getLockForTileDMA_nextUid (q : AIRToAIEPass) (d : DeviceOp) (op : DmaMemcpy)
    (info : List LockAllocation) (x y : Int) (locks : LockOp × LockOp) (q1 : AIRToAIEPass)
    (d1 : DeviceOp) (info1 : List LockAllocation)
    (h : q.getLockForTileDMA d op info x y = .ok (locks, q1, d1, info1)) :
    d.nextUid ≤ d1.nextUid := by
  unfold AIRToAIEPass.getLockForTileDMA at h
  dsimp only at h
  split at h
  · cases h
  · split at h
    · simp only [Except.ok.injEq, Prod.mk.injEq] at h
      obtain ⟨-, -, rfl, -⟩ := h
      exact Nat.le_refl _
    · simp only [Except.ok.injEq, Prod.mk.injEq] at h
      obtain ⟨-, -, rfl, -⟩ := h
      split
      · exact Nat.le_trans (allocateLockOp_nextUid _ _ _ _) (allocateLockOp_nextUid _ _ _ _)
      · exact allocateLockOp_nextUid _ _ _ _

/-- A pair the search finds is that of an entry of the list for the buffer
and the channel. -/
theorem findLockPair_mem (b : BufferOp) (c : DMAChannel) (info : List LockAllocation)
    (locks : LockOp × LockOp) (h : findLockPair b c info = some locks) :
    (b, c, locks.1, locks.2) ∈ info := by
  induction info with
  | nil => simp [findLockPair] at h
  | cons e es ih =>
    unfold findLockPair at h
    by_cases he : e.1 = b ∧ e.2.1 = c
    · rw [if_pos he] at h
      simp only [Option.some.injEq] at h
      rw [← h, ← he.1, ← he.2]
      exact List.mem_cons_self _ _
    · rw [if_neg he] at h
      exact List.mem_cons_of_mem _ (ih h)

/-- A lookup of the lock pair only appends to the memo list. -/
theorem getLockForTileDMA_grows (q : AIRToAIEPass) (d : DeviceOp) (op : DmaMemcpy)
    (info : List LockAllocation) (x y : Int) (locks : LockOp × LockOp) (q1 : AIRToAIEPass)
    (d1 : DeviceOp) (info1 : List LockAllocation)
    (h : q.getLockForTileDMA d op info x y = .ok (locks, q1, d1, info1)) :
    ∃ more, info1 = info ++ more := by
  unfold AIRToAIEPass.getLockForTileDMA at h
  dsimp only at h
  split at h
  · cases h
  · split at h
    · simp only [Except.ok.injEq, Prod.mk.injEq] at h
      obtain ⟨-, -, -, rfl⟩ := h
      exact ⟨[], (List.append_nil _).symm⟩
    · simp only [Except.ok.injEq, Prod.mk.injEq] at h
      obtain ⟨-, -, -, rfl⟩ := h
      exact ⟨_, rfl⟩

/-- The handshake of a descriptor block stays one when the memo list grows. -/
theorem isBdHandshake_mono (arch : AIEArch) (channel : DMAChannel)
    (la more : List LockAllocation) (b : BufferOp) (hs : LockHandshake)
    (h : IsBdHandshake arch channel la b hs) : IsBdHandshake arch channel (la ++ more) b hs := by
  obtain ⟨c, r, w, hm, hrest⟩ := h
  exact ⟨c, r, w, List.mem_append_left _ hm, hrest⟩

/-- The DMA side of the handshake returns for a copy whose buffer is known,
with a handshake as `IsBdHandshake` tells. -/
theorem bdLockHandshake_spec (p : AIRToAIEPass) (device : DeviceOp) (op : DmaMemcpy)
    (la : List LockAllocation) (x y : Int) (channel : DMAChannel) (b : BufferOp)
    (hb : (if tileIsMM2S op then op.srcBuffer else op.dstBuffer) = some b) :
    ∃ hs p1 d1 la1,
      p.bdLockHandshake device op la x y channel = .ok ((some b, hs), p1, d1, la1) ∧
      device.nextUid ≤ d1.nextUid ∧ d1.arch = device.arch ∧
      IsBdHandshake device.arch channel la1 b hs ∧ ∃ more, la1 = la ++ more := by
  obtain ⟨locks, d1, la1, hlock, harch, hfind⟩ :=
    getLockForTileDMA_found (p.getBufferForTileDMA op x y).2 device op la x y b hb
  have hmono := getLockForTileDMA_nextUid _ _ _ _ _ _ _ _ _ _ hlock
  have hgrow := getLockForTileDMA_grows _ _ _ _ _ _ _ _ _ _ hlock
  have hbuf : (p.getBufferForTileDMA op x y).1 = some b := by
    rw [getBufferForTileDMA_eq]; exact hb
  unfold AIRToAIEPass.bdLockHandshake
  simp only [hlock, hbuf]
  refine ⟨_, _, _, _, rfl, hmono, harch, ?_, hgrow⟩
  refine ⟨_, locks.1, locks.2, findLockPair_mem _ _ _ _ hfind, ?_, ?_, ?_, ?_, ?_⟩
  · by_cases hc : channel.1 = DMAChannelDir.MM2S <;> simp [isMM2S, hc]
  · by_cases hc : channel.1 = DMAChannelDir.MM2S <;> simp [isMM2S, hc]
  · by_cases hc : channel.1 = DMAChannelDir.MM2S <;>
      by_cases ha : device.arch = AIEArch.AIE2 <;> simp [isMM2S, hc, ha]
  · by_cases hc : channel.1 = DMAChannelDir.MM2S <;>
      by_cases ha : device.arch = AIEArch.AIE2 <;> simp [isMM2S, hc, ha]
  · by_cases ha : device.arch = AIEArch.AIE2 <;> simp [acquireAction, ha]

/-- The kinds of the operations of a descriptor block: the constant of the
length when one is created, the acquire, the descriptor, the release, and the
branch to `next`, with a handshake as `IsBdHandshake` tells. -/
theorem bdBlock_spec (p : AIRToAIEPass) (device : DeviceOp) (la : List LockAllocation)
    (x y : Int) (channel : DMAChannel) (bd next : Nat) (op : DmaMemcpyNdOp) (b : BufferOp)
    (len : Int) (created : Bool)
    (hb : (if tileIsMM2S op.dma then op.dma.srcBuffer else op.dma.dstBuffer) = some b)
    (hl : bdLength op = .ok (len, created)) :
    ∃ (blk : Block) (p1 : AIRToAIEPass) (d1 : DeviceOp) (la1 : List LockAllocation)
      (hs : LockHandshake),
      p.bdBlock device la x y channel bd next op = .ok (blk, p1, d1, la1) ∧
      blk.uid = bd ∧
      blk.ops.map (fun o => o.kind)
        = (if created then [OpKind.constantIndex len] else []) ++
          [OpKind.useLock hs.acqLockOp hs.lockAqValue hs.acqAction,
           OpKind.dmaBd b 0 len 0,
           OpKind.useLock hs.relLockOp hs.lockRelValue LockAction.Release,
           OpKind.nextBd next] ∧
      device.nextUid ≤ d1.nextUid ∧ d1.arch = device.arch ∧
      IsBdHandshake device.arch channel la1 b hs ∧ ∃ more, la1 = la ++ more := by
  obtain ⟨hs, p1, d1, la1, hhs, hmono, harch, hP, hgrow⟩ :=
    bdLockHandshake_spec p device.fresh.2 op.dma la x y channel b hb
  have hf : device.nextUid ≤ device.fresh.2.nextUid := Nat.le_succ _
  have harch' : d1.arch = device.arch := harch
  unfold AIRToAIEPass.bdBlock
  simp only [hhs, hl]
  refine ⟨_, _, _, _, hs, rfl, rfl, ?_, ?_, ?_, hP, hgrow⟩
  · cases created <;> simp
  · cases created <;> simp [DeviceOp.fresh] <;> omega
  · cases created <;> simp [DeviceOp.fresh, harch']

/-- The chain of descriptor blocks of a channel: one block per copy, in
order, each with the acquire, the descriptor of its copy, the release and the
branch to the block behind it, the last one to `first`. -/
theorem bdChain_spec (x y : Int) (channel : DMAChannel) (first : Nat) :
    ∀ (ops : List DmaMemcpyNdOp) (p : AIRToAIEPass) (device : DeviceOp)
      (la : List LockAllocation) (bd : Nat),
      (∀ op ∈ ops, ∃ b, (if tileIsMM2S op.dma then op.dma.srcBuffer else op.dma.dstBuffer)
        = some b) →
      (∀ op ∈ ops, ∃ r, bdLength op = .ok r) →
      ∃ (bs : List Block) (p1 : AIRToAIEPass) (d1 : DeviceOp) (la1 : List LockAllocation),
        AIRToAIEPass.bdChain x y channel first p device la bd ops = .ok (bs, p1, d1, la1) ∧
        bs.length = ops.length ∧
        (∀ b0 ∈ bs.head?, b0.uid = bd) ∧
        device.nextUid ≤ d1.nextUid ∧
        (∀ b ∈ bs.tail, device.nextUid ≤ b.uid ∧ b.uid < d1.nextUid) ∧
        (bs.tail.map (fun b => b.uid)).Nodup ∧
        d1.arch = device.arch ∧ (∃ more, la1 = la ++ more) ∧
        ∀ (i : Nat) (op : DmaMemcpyNdOp), ops[i]? = some op →
          ∃ (blk : Block) (b : BufferOp) (len : Int) (created : Bool) (hs : LockHandshake),
            bs[i]? = some blk ∧
            (if tileIsMM2S op.dma then op.dma.srcBuffer else op.dma.dstBuffer) = some b ∧
            bdLength op = .ok (len, created) ∧
            IsBdHandshake device.arch channel la1 b hs ∧
            blk.ops.map (fun o => o.kind)
              = (if created then [OpKind.constantIndex len] else []) ++
                [OpKind.useLock hs.acqLockOp hs.lockAqValue hs.acqAction,
                 OpKind.dmaBd b 0 len 0,
                 OpKind.useLock hs.relLockOp hs.lockRelValue LockAction.Release,
                 OpKind.nextBd (match bs[i + 1]? with
                   | some n => n.uid
                   | none => first)] := by
  intro ops
  induction ops with
  | nil =>
    intro p device la bd _ _
    refine ⟨[], p, device, la, rfl, rfl, ?_, Nat.le_refl _, ?_, ?_, rfl,
      ⟨[], (List.append_nil _).symm⟩, ?_⟩
    · intro b0 hb0; simp at hb0
    · intro b hb; simp at hb
    · simp
    · intro i op hi; simp at hi
  | cons op rest ih =>
    intro p device la bd hbuf hlen
    obtain ⟨b, hb⟩ := hbuf op (List.mem_cons_self _ _)
    obtain ⟨⟨len, created⟩, hl⟩ := hlen op (List.mem_cons_self _ _)
    have hbuf' : ∀ o ∈ rest, ∃ b, (if tileIsMM2S o.dma then o.dma.srcBuffer
        else o.dma.dstBuffer) = some b := fun o ho => hbuf o (List.mem_cons_of_mem _ ho)
    have hlen' : ∀ o ∈ rest, ∃ r, bdLength o = .ok r :=
      fun o ho => hlen o (List.mem_cons_of_mem _ ho)
    cases rest with
    | nil =>
      obtain ⟨blk, p1, d1, la1, hs, hblk, huid, hkinds, hmono, harch, hP, hgrow⟩ :=
        bdBlock_spec p device la x y channel bd first op b len created hb hl
      refine ⟨[blk], p1, d1, la1, ?_, rfl, ?_, hmono, ?_, ?_, harch, hgrow, ?_⟩
      · simp only [AIRToAIEPass.bdChain, List.isEmpty_nil, if_true, hblk]
      · intro b0 hb0
        simp only [List.head?_cons, Option.mem_def, Option.some.injEq] at hb0
        rw [← hb0]; exact huid
      · intro b' hb'; simp at hb'
      · simp
      · intro i o hi
        cases i with
        | zero =>
          simp only [List.getElem?_cons_zero, Option.some.injEq] at hi
          subst hi
          exact ⟨blk, b, len, created, hs, rfl, hb, hl, hP, by simpa using hkinds⟩
        | succ i => simp at hi
    | cons op2 rest2 =>
      obtain ⟨blk, p1, d1, la1, hs, hblk, huid, hkinds, hmono, harch, hP, hgrow⟩ :=
        bdBlock_spec p device.fresh.2 la x y channel bd device.fresh.1 op b len created hb hl
      obtain ⟨bs, p2, d2, la2, hchain, hlength, hhead, hmono2, htail, hnd, harch2, hgrow2,
          hidx⟩ := ih p1 d1 la1 device.fresh.1 hbuf' hlen'
      have hf : device.fresh.2.nextUid = device.nextUid + 1 := rfl
      have hf1 : device.fresh.1 = device.nextUid := rfl
      have harch1 : d1.arch = device.arch := harch
      obtain ⟨more1, hm1⟩ := hgrow
      obtain ⟨more2, hm2⟩ := hgrow2
      cases bs with
      | nil => simp at hlength
      | cons h t =>
        have hh : h.uid = device.nextUid := by
          rw [← hf1]; exact hhead h (by simp)
        refine ⟨blk :: h :: t, p2, d2, la2, ?_, ?_, ?_, ?_, ?_, ?_, harch2.trans harch1,
          ⟨more1 ++ more2, by rw [hm2, hm1, List.append_assoc]⟩, ?_⟩
        · rw [AIRToAIEPass.bdChain]
          simp only [List.isEmpty_cons, Bool.false_eq_true, if_false, hblk, hchain]
        · simp only [List.length_cons] at hlength ⊢
          omega
        · intro b0 hb0
          simp only [List.head?_cons, Option.mem_def, Option.some.injEq] at hb0
          rw [← hb0]; exact huid
        · omega
        · intro b' hb'
          simp only [List.tail_cons, List.mem_cons] at hb'
          rcases hb' with rfl | hb'
          · rw [hh]; omega
          · have := htail b' (by simpa using hb')
            omega
        · simp only [List.tail_cons, List.map_cons, List.nodup_cons]
          refine ⟨?_, by simpa using hnd⟩
          intro hmem
          obtain ⟨b', hb', hbu⟩ := List.mem_map.1 hmem
          have := htail b' (by simpa using hb')
          rw [hh] at hbu
          omega
        · intro i o hi
          cases i with
          | zero =>
            simp only [List.getElem?_cons_zero, Option.some.injEq] at hi
            subst hi
            refine ⟨blk, b, len, created, hs, rfl, hb, hl, ?_, ?_⟩
            · rw [hm2]
              exact isBdHandshake_mono _ _ _ _ _ _ hP
            · rw [hkinds]
              simp [hh, hf1]
          | succ i =>
            simp only [List.getElem?_cons_succ] at hi
            obtain ⟨blk', b', len', created', hs', h1, h2, h3, hP', h4⟩ := hidx i o hi
            rw [harch1] at hP'
            exact ⟨blk', b', len', created', hs', by simpa using h1, h2, h3, hP',
              by simpa using h4⟩

/-! ## Theorems: descriptor blocks of a channel -/

/-- Claim C26. For every tile and every channel group with `n ≥ 1` copies,
each with a known buffer on the tile and a length that resolves, the schedule
builder returns exactly `n` descriptor blocks, pairwise distinct and distinct
from the start block, in the order of the copies. Block `i` holds, after the
constant of the length when one is created, exactly: an acquire
(`AcquireGreaterEqual` on AIE2, `Acquire` otherwise) of a lock of the pair
`(r, w)` that the lock allocations hold for the buffer of the `i`-th copy, the
descriptor of that buffer with the length of the copy, a release of the other
lock of the pair, and the branch to block `(i + 1) % n`, so the last block
branches back to the first. A group that sends (MM2S) acquires `r` with the
value 1 and releases `w`; one that receives acquires `w` and releases `r` with
the value 1; the other value is 1 on AIE2 and 0 otherwise. -/
theorem channelBdBlocks_circular (p : AIRToAIEPass) (device : DeviceOp)
    (la : List LockAllocation) (x y : Int) (channel : DMAChannel)
    (dmaOps : List DmaMemcpyNdOp) (hne : dmaOps ≠ [])
    (hbuf : ∀ op ∈ dmaOps, ∃ b,
      (if tileIsMM2S op.dma then op.dma.srcBuffer else op.dma.dstBuffer) = some b)
    (hlen : ∀ op ∈ dmaOps, ∃ r, bdLength op = .ok r) :
    ∃ (start_bb : Nat) (bs : List Block) (p1 : AIRToAIEPass) (d1 : DeviceOp)
      (la1 : List LockAllocation),
      p.channelBdBlocks device la x y channel dmaOps = .ok ((start_bb, bs), p1, d1, la1) ∧
      bs.length = dmaOps.length ∧
      (bs.map (fun b => b.uid)).Nodup ∧
      start_bb ∉ bs.map (fun b => b.uid) ∧
      ∀ (i : Nat) (op : DmaMemcpyNdOp), dmaOps[i]? = some op →
        ∃ (blk next : Block) (b : BufferOp) (len : Int) (created : Bool) (c : DMAChannel)
          (r w : LockOp),
          bs[i]? = some blk ∧ bs[(i + 1) % dmaOps.length]? = some next ∧
          (if tileIsMM2S op.dma then op.dma.srcBuffer else op.dma.dstBuffer) = some b ∧
          bdLength op = .ok (len, created) ∧
          (b, c, r, w) ∈ la1 ∧
          blk.ops.map (fun o => o.kind)
            = (if created then [OpKind.constantIndex len] else []) ++
              [OpKind.useLock (if channel.1 = DMAChannelDir.MM2S then r else w)
                 (if channel.1 = DMAChannelDir.MM2S then 1
                  else if device.arch = AIEArch.AIE2 then 1 else 0)
                 (if device.arch = AIEArch.AIE2 then LockAction.AcquireGreaterEqual
                  else LockAction.Acquire),
               OpKind.dmaBd b 0 len 0,
               OpKind.useLock (if channel.1 = DMAChannelDir.MM2S then w else r)
                 (if channel.1 = DMAChannelDir.MM2S then
                    (if device.arch = AIEArch.AIE2 then 1 else 0)
                  else 1)
                 LockAction.Release,
               OpKind.nextBd next.uid] := by
  obtain ⟨bs, p1, d1, la1, hchain, hlength, hhead, hmono, htail, hnd, -, -, hidx⟩ :=
    bdChain_spec x y channel device.fresh.2.fresh.1 dmaOps p device.fresh.2.fresh.2 la
      device.fresh.2.fresh.1 hbuf hlen
  have hU1 : device.fresh.1 = device.nextUid := rfl
  have hU2 : device.fresh.2.fresh.1 = device.nextUid + 1 := rfl
  have hU3 : device.fresh.2.fresh.2.nextUid = device.nextUid + 2 := rfl
  have hA : device.fresh.2.fresh.2.arch = device.arch := rfl
  cases dmaOps with
  | nil => exact absurd rfl hne
  | cons op0 rest =>
    cases bs with
    | nil => simp at hlength
    | cons h t =>
      have hh : h.uid = device.nextUid + 1 := by
        rw [← hU2]; exact hhead h (by simp)
      have htl : ∀ b ∈ t, device.nextUid + 2 ≤ b.uid := by
        intro b hb
        have := (htail b (by simpa using hb)).1
        omega
      refine ⟨device.fresh.1, h :: t, p1, d1, la1, ?_, hlength, ?_, ?_, ?_⟩
      · unfold AIRToAIEPass.channelBdBlocks
        simp only [hchain]
      · simp only [List.map_cons, List.nodup_cons]
        refine ⟨?_, by simpa using hnd⟩
        intro hmem
        obtain ⟨b', hb', hbu⟩ := List.mem_map.1 hmem
        have := htl b' hb'
        omega
      · rw [hU1]
        simp only [List.map_cons, List.mem_cons, not_or]
        refine ⟨by omega, ?_⟩
        intro hmem
        obtain ⟨b', hb', hbu⟩ := List.mem_map.1 hmem
        have := htl b' hb'
        omega
      · intro i op hi
        obtain ⟨blk, b, len, created, hs, h1, h2, h3, hP, h4⟩ := hidx i op hi
        rw [hA] at hP
        obtain ⟨c, r, w, hmem, hq1, hq2, hq3, hq4, hq5⟩ := hP
        rw [hq1, hq2, hq3, hq4, hq5] at h4
        have hlt : i < (op0 :: rest).length := by
          by_contra hcon
          rw [List.getElem?_eq_none (by omega)] at hi
          cases hi
        by_cases hlast : i + 1 < (op0 :: rest).length
        · have hlt' : i + 1 < (h :: t).length := by rw [hlength]; exact hlast
          refine ⟨blk, (h :: t)[i + 1], b, len, created, c, r, w, h1, ?_, h2, h3, hmem, ?_⟩
          · rw [Nat.mod_eq_of_lt hlast]
            exact List.getElem?_eq_getElem hlt'
          · rw [h4, List.getElem?_eq_getElem hlt']
        · have heq : i + 1 = (op0 :: rest).length := by omega
          refine ⟨blk, h, b, len, created, c, r, w, h1, ?_, h2, h3, hmem, ?_⟩
          · rw [heq, Nat.mod_self]; exact List.getElem?_cons_zero
          · have hnone : (h :: t)[i + 1]? = none := by
              rw [List.getElem?_eq_none]
              rw [hlength]; omega
            rw [h4, hnone, hh, hU2]

/-- Claim C26 at a group of two copies that receives on an AIE1 tile: the
theorem at this input, and the two blocks. The first block acquires its lock
with the value 0, holds the descriptor of the first buffer with the length 4,
releases the lock with the value 1 and branches to the second block; the
second block does the same for the second buffer with the length 16 and
branches back to the first. -/
theorem channelBdBlocks_circular_witness :
    (∃ (start_bb : Nat) (bs : List Block) (p1 : AIRToAIEPass) (d1 : DeviceOp)
      (la1 : List LockAllocation),
      (AIRToAIEPass.mk [] []).channelBdBlocks
        { arch := AIEArch.AIE1, body := [Op.tile { uid := 8, col := 1, row := 1 }]
          nextUid := 30 } [] 1 1 (DMAChannelDir.S2MM, 0)
        [{ dma := copyL3toL1 1 (some { uid := 9, tile := { uid := 8, col := 1, row := 1 } })
           length := none
           src_sizes := [{ id := 20, ty := Ty.index, definer := Definer.constantIndex 4 }]
           dst_sizes := [] },
         { dma := copyL3toL1 2 (some { uid := 10, tile := { uid := 8, col := 1, row := 1 } })
           length := some { id := 22, ty := Ty.index, definer := Definer.constantIndex 16 }
           src_sizes := [], dst_sizes := [] }] = .ok ((start_bb, bs), p1, d1, la1) ∧
      bs.length = 2 ∧ (bs.map (fun b => b.uid)).Nodup ∧ start_bb ∉ bs.map (fun b => b.uid)) ∧
    bdBlockKinds ((AIRToAIEPass.mk [] []).channelBdBlocks
        { arch := AIEArch.AIE1, body := [Op.tile { uid := 8, col := 1, row := 1 }]
          nextUid := 30 } [] 1 1 (DMAChannelDir.S2MM, 0)
        [{ dma := copyL3toL1 1 (some { uid := 9, tile := { uid := 8, col := 1, row := 1 } })
           length := none
           src_sizes := [{ id := 20, ty := Ty.index, definer := Definer.constantIndex 4 }]
           dst_sizes := [] },
         { dma := copyL3toL1 2 (some { uid := 10, tile := { uid := 8, col := 1, row := 1 } })
           length := some { id := 22, ty := Ty.index, definer := Definer.constantIndex 16 }
           src_sizes := [], dst_sizes := [] }]) =
      [(31,
        [OpKind.constantIndex 4,
         OpKind.useLock { uid := 34, tile := { uid := 8, col := 1, row := 1 }, lockID := 0
                          init := 0 } 0 LockAction.Acquire,
         OpKind.dmaBd { uid := 9, tile := { uid := 8, col := 1, row := 1 } } 0 4 0,
         OpKind.useLock { uid := 34, tile := { uid := 8, col := 1, row := 1 }, lockID := 0
                          init := 0 } 1 LockAction.Release,
         OpKind.nextBd 32]),
       (32,
        [OpKind.useLock { uid := 40, tile := { uid := 8, col := 1, row := 1 }, lockID := 1
                          init := 0 } 0 LockAction.Acquire,
         OpKind.dmaBd { uid := 10, tile := { uid := 8, col := 1, row := 1 } } 0 16 0,
         OpKind.useLock { uid := 40, tile := { uid := 8, col := 1, row := 1 }, lockID := 1
                          init := 0 } 1 LockAction.Release,
         OpKind.nextBd 31])] := by
  obtain ⟨start_bb, bs, p1, d1, la1, h1, h2, h3, h4, -⟩ :=
    channelBdBlocks_circular (AIRToAIEPass.mk [] [])
      { arch := AIEArch.AIE1, body := [Op.tile { uid := 8, col := 1, row := 1 }]
        nextUid := 30 } [] 1 1 (DMAChannelDir.S2MM, 0)
      [{ dma := copyL3toL1 1 (some { uid := 9, tile := { uid := 8, col := 1, row := 1 } })
         length := none
         src_sizes := [{ id := 20, ty := Ty.index, definer := Definer.constantIndex 4 }]
         dst_sizes := [] },
       { dma := copyL3toL1 2 (some { uid := 10, tile := { uid := 8, col := 1, row := 1 } })
         length := some { id := 22, ty := Ty.index, definer := Definer.constantIndex 16 }
         src_sizes := [], dst_sizes := [] }]
      (by simp)
      (by
        intro op hop
        simp only [List.mem_cons, List.mem_singleton, List.not_mem_nil, or_false] at hop
        rcases hop with rfl | rfl
        · exact ⟨_, rfl⟩
        · exact ⟨_, rfl⟩)
      (by
        intro op hop
        simp only [List.mem_cons, List.mem_singleton, List.not_mem_nil, or_false] at hop
        rcases hop with rfl | rfl
        · exact ⟨_, rfl⟩
        · exact ⟨_, rfl⟩)
  exact ⟨⟨start_bb, bs, p1, d1, la1, h1, h2, h3, h4⟩, by decide⟩

/-! ## Theorems: specialization of `affine.if` -/

/-- Claim C13 fails in the code. The `affine.if` of a core has the constant
operands `(0, 0)` and the guard `()[s0, s1] : (s0 == 0)`, which is true at
`(0, 0)`: evaluated there, its one equality constraint is 0. Because the guard
has one constraint and not two, `isInSet(x, y, aif)` answers `false`, and the
pattern replaces the conditional by the body of the else block and the result
by the value the else block yields. -/
theorem affine_if_true_guard_takes_else :
    isInSet
      (IntegerSet.replaceDimsAndSymbols
        { numDims := 0, numSymbols := 2, constraints := [(AffineExpr.symbol 0, true)] }
        [] [AffineExpr.const 0, AffineExpr.const 0] 0 2) = true ∧
    isInSetXY 0 0
      { numDims := 0, numSymbols := 2, constraints := [(AffineExpr.symbol 0, true)] } = false ∧
    SpecializeAffineIfPattern.matchAndRewrite true []
      { uid := 10
        integerSet :=
          { numDims := 0, numSymbols := 2, constraints := [(AffineExpr.symbol 0, true)] }
        operands := [{ id := 1, ty := Ty.index, definer := Definer.constantIndex 0 },
                     { id := 2, ty := Ty.index, definer := Definer.constantIndex 0 }]
        thenOps := [{ uid := 11, kind := OpKind.other "then" []
                      results := [{ id := 3, ty := Ty.other, definer := Definer.operation 11 }] }]
        thenYield := [{ id := 3, ty := Ty.other, definer := Definer.operation 11 }]
        elseBlock := some
          ([{ uid := 12, kind := OpKind.other "else" []
              results := [{ id := 4, ty := Ty.other, definer := Definer.operation 12 }] }],
           [{ id := 4, ty := Ty.other, definer := Definer.operation 12 }])
        results := [{ id := 5, ty := Ty.other, definer := Definer.operation 10 }] }
      [{ uid := 13
         kind := OpKind.other "use" [{ id := 5, ty := Ty.other, definer := Definer.operation 10 }]
         results := [] }]
      = .ok (some
          [{ uid := 12, kind := OpKind.other "else" []
             results := [{ id := 4, ty := Ty.other, definer := Definer.operation 12 }] },
           { uid := 13
             kind := OpKind.other "use"
               [{ id := 4, ty := Ty.other, definer := Definer.operation 12 }]
             results := [] }]) :=
  ⟨by decide, by decide, rfl⟩

/-- Claim C14 fails in the code. The `affine.if` of a core has one operand,
which is not a constant, and the guard `()[s0] : (s0 >= 0)`. With an operand
count other than two the pattern evaluates the guard without looking at the
operands; the constraint does not fold to a constant, `in_set` is `false`, and
the pattern succeeds: the conditional is replaced by the body of its else
block, and a conditional without else block is erased. -/
theorem affine_if_unresolved_guard_takes_else :
    SpecializeAffineIfPattern.matchAndRewrite true []
      { uid := 10
        integerSet :=
          { numDims := 0, numSymbols := 1, constraints := [(AffineExpr.symbol 0, false)] }
        operands := [{ id := 1, ty := Ty.index, definer := Definer.operation 7 }]
        thenOps := [{ uid := 11, kind := OpKind.other "then" [], results := [] }]
        thenYield := []
        elseBlock := some ([{ uid := 12, kind := OpKind.other "else" [], results := [] }], [])
        results := [] }
      [{ uid := 13, kind := OpKind.other "next" [], results := [] }]
      = .ok (some
          [{ uid := 12, kind := OpKind.other "else" [], results := [] },
           { uid := 13, kind := OpKind.other "next" [], results := [] }]) ∧
    SpecializeAffineIfPattern.matchAndRewrite true []
      { uid := 10
        integerSet :=
          { numDims := 0, numSymbols := 1, constraints := [(AffineExpr.symbol 0, false)] }
        operands := [{ id := 1, ty := Ty.index, definer := Definer.operation 7 }]
        thenOps := [{ uid := 11, kind := OpKind.other "then" [], results := [] }]
        thenYield := []
        elseBlock := none
        results := [] }
      [{ uid := 13, kind := OpKind.other "next" [], results := [] }]
      = .ok (some [{ uid := 13, kind := OpKind.other "next" [], results := [] }]) :=
  ⟨rfl, rfl⟩

/-! ## Lemmas: dependency tokens carried by loops -/

theorem freshValues_length (f : Definer → Definer) (vs : List Value) :
    ∀ next : Nat, (freshValues f vs next).length = vs.length := by
  induction vs with
  | nil => intro next; rfl
  | cons v vs ih => intro next; simp [freshValues, ih]

theorem nonTiles_insertAfterTiles (t : TileOp) (body : List Op) :
    (insertAfterTiles (Op.tile t) body).filter (fun o => match o with
        | Op.tile _ => false
        | _ => true)
      = body.filter (fun o => match o with
        | Op.tile _ => false
        | _ => true) := by
  induction body with
  | nil => simp [insertAfterTiles]
  | cons o rest ih =>
    by_cases ht : ∃ t', o = Op.tile t'
    · obtain ⟨t', rfl⟩ := ht
      simp only [insertAfterTiles]
      rw [List.filter_cons, List.filter_cons, ih]
    · have h : insertAfterTiles (Op.tile t) (o :: rest) = Op.tile t :: o :: rest := by
        cases o <;> first | rfl | exact absurd ⟨_, rfl⟩ ht
      rw [h, List.filter_cons]
      simp

theorem getPhysTileOp_nonTiles (d : DeviceOp) (c r : Int) :
    (getPhysTileOp d c r).2.nonTiles = d.nonTiles := by
  rcases getPhysTileOp_cases d c r with ⟨t, -, -, -, h⟩ | ⟨-, h⟩
  · rw [h]
  · rw [h]
    exact nonTiles_insertAfterTiles _ _

theorem getShimTile_nonTiles (a : ShimTileAllocator) (dev : DeviceOp) (src dst : Int)
    (t : TileOp) (a1 : ShimTileAllocator) (d1 : DeviceOp)
    (h : a.getShimTile dev src dst = .ok (t, a1, d1)) : d1.nonTiles = dev.nonTiles := by
  unfold ShimTileAllocator.getShimTile at h
  dsimp only at h
  split at h
  · simp only [Except.ok.injEq, Prod.mk.injEq] at h
    obtain ⟨-, -, rfl⟩ := h
    rfl
  · split at h
    · cases h
    · simp only [Except.ok.injEq, Prod.mk.injEq] at h
      obtain ⟨-, -, rfl⟩ := h
      exact getPhysTileOp_nonTiles _ _ _

theorem cores_eq_of_nonTiles (d : DeviceOp) :
    d.cores = d.nonTiles.filterMap (fun o => match o with
      | Op.core c => some c
      | _ => none) := by
  unfold DeviceOp.cores DeviceOp.nonTiles
  induction d.body with
  | nil => rfl
  | cons o rest ih =>
    cases o <;> simp [List.filter_cons, List.filterMap_cons, ih]

theorem objectFifos_eq_of_nonTiles (d : DeviceOp) :
    d.objectFifos = d.nonTiles.filterMap (fun o => match o with
      | Op.objectFifo f => some f
      | _ => none) := by
  unfold DeviceOp.objectFifos DeviceOp.nonTiles
  induction d.body with
  | nil => rfl
  | cons o rest ih =>
    cases o <;> simp [List.filter_cons, List.filterMap_cons, ih]

theorem channels_eq_of_nonTiles (d : DeviceOp) :
    d.channels = d.nonTiles.filterMap (fun o => match o with
      | Op.channel f => some f
      | _ => none) := by
  unfold DeviceOp.channels DeviceOp.nonTiles
  induction d.body with
  | nil => rfl
  | cons o rest ih =>
    cases o <;> simp [List.filter_cons, List.filterMap_cons, ih]

theorem same_of_nonTiles {d d1 : DeviceOp} (h : d1.nonTiles = d.nonTiles) :
    d1.cores = d.cores ∧ d1.objectFifos = d.objectFifos ∧ d1.channels = d.channels := by
  rw [cores_eq_of_nonTiles d1, cores_eq_of_nonTiles d, objectFifos_eq_of_nonTiles d1,
    objectFifos_eq_of_nonTiles d, channels_eq_of_nonTiles d1, channels_eq_of_nonTiles d, h]
  exact ⟨rfl, rfl, rfl⟩

theorem walkOps_of_cores {d d1 : DeviceOp} (h : d1.cores = d.cores) :
    d1.walkOps = d.walkOps := by
  unfold DeviceOp.walkOps
  rw [h]

theorem skeleton_mapBlocks (d : DeviceOp) (f : Block → Block) :
    (d.mapBlocks f).body.map Op.skeleton = d.body.map Op.skeleton := by
  unfold DeviceOp.mapBlocks
  simp only [List.map_map]
  apply List.map_congr_left
  intro o _
  cases o <;> rfl

theorem nextUid_skeleton (d : DeviceOp) (n : Nat) :
    ({ d with nextUid := n } : DeviceOp).body.map Op.skeleton = d.body.map Op.skeleton := rfl

theorem getMemref_mapValues (o : Operation) (f : Value → Value) :
    Operation.getMemref { o with kind := o.kind.mapValues f } = o.getMemref.map f := by
  unfold Operation.getMemref
  cases o.kind <;> rfl

theorem rewriteChannelAllocs_ok (device : DeviceOp) (op : Operation)
    (objFifo : ObjectFifoCreateOp) (port : ObjectFifoPort) (m : Value)
    (hm : op.getMemref = some m) (hd : m.definer ≠ Definer.blockArgument) :
    ∃ d1 op1 m1, rewriteChannelAllocs device op objFifo port = .ok (d1, op1) ∧
      d1.body.map Op.skeleton = device.body.map Op.skeleton ∧
      op1.getMemref = some m1 ∧ m1.definer ≠ Definer.blockArgument := by
  unfold rewriteChannelAllocs
  rw [hm]
  dsimp only
  cases hdef : m.definer with
  | blockArgument => exact absurd hdef hd
  | alloc a =>
    dsimp only
    refine ⟨_, _, { id := device.nextUid + 3, ty := objFifo.datatype
                    definer := Definer.operation (device.nextUid + 2) }, rfl, ?_, ?_, ?_⟩
    · rw [skeleton_mapBlocks]
      exact skeleton_mapBlocks _ _
    · rw [getMemref_mapValues, hm]
      simp [Value.replace]
    · simp
  | constantIndex v =>
    dsimp only
    exact ⟨_, _, m, rfl, skeleton_mapBlocks _ _, hm, hd⟩
  | operation u =>
    dsimp only
    exact ⟨_, _, m, rfl, skeleton_mapBlocks _ _, hm, hd⟩

theorem foldl_skeleton {α β : Type} (g : DeviceOp × β → α → DeviceOp × β)
    (hg : ∀ acc x, (g acc x).1.body.map Op.skeleton = acc.1.body.map Op.skeleton)
    (l : List α) :
    ∀ acc : DeviceOp × β, (l.foldl g acc).1.body.map Op.skeleton
      = acc.1.body.map Op.skeleton := by
  induction l with
  | nil => intro acc; rfl
  | cons x rest ih =>
    intro acc
    rw [List.foldl_cons, ih, hg]

theorem rewriteChannelDeallocs_ok (device : DeviceOp) (op : Operation)
    (objFifo : ObjectFifoCreateOp) (port : ObjectFifoPort) (erased : List Nat) (m : Value)
    (hm : op.getMemref = some m) (hd : m.definer ≠ Definer.blockArgument) :
    ∃ d1 erased1, rewriteChannelDeallocs device op objFifo port erased = .ok (d1, erased1) ∧
      d1.body.map Op.skeleton = device.body.map Op.skeleton := by
  unfold rewriteChannelDeallocs
  rw [hm]
  dsimp only
  split
  · rename_i h; exact absurd h hd
  · exact ⟨_, _, rfl, foldl_skeleton _ (fun acc x => skeleton_mapBlocks _ _) _ _⟩

theorem clearAsyncDependence_skeleton (device : DeviceOp) (op : Operation) :
    (clearAsyncDependence device op).body.map Op.skeleton = device.body.map Op.skeleton := by
  unfold clearAsyncDependence
  split
  · rfl
  · exact skeleton_mapBlocks _ _

theorem rewriteChannelEndpoints_ok (objFifo : ObjectFifoCreateOp) (port : ObjectFifoPort)
    (l : List (CoreOp × Operation)) :
    ∀ (device : DeviceOp) (erased : List Nat),
      (∀ x ∈ l, ∃ m, x.2.getMemref = some m ∧ m.definer ≠ Definer.blockArgument) →
      ∃ d1 erased1, rewriteChannelEndpoints objFifo port device erased l = .ok (d1, erased1) ∧
        d1.body.map Op.skeleton = device.body.map Op.skeleton := by
  induction l with
  | nil => intro device erased _; exact ⟨device, erased, rfl, rfl⟩
  | cons x rest ih =>
    intro device erased h
    obtain ⟨core, op⟩ := x
    obtain ⟨m, hm, hd⟩ := h (core, op) (List.mem_cons_self _ _)
    obtain ⟨d1, op1, m1, h1, hs1, hm1, hd1⟩ :=
      rewriteChannelAllocs_ok device op objFifo port m hm hd
    obtain ⟨d2, er2, h2, hs2⟩ := rewriteChannelDeallocs_ok d1 op1 objFifo port erased m1 hm1 hd1
    obtain ⟨d3, er3, h3, hs3⟩ := ih (clearAsyncDependence d2 op1) er2
      (fun y hy => h y (List.mem_cons_of_mem _ hy))
    refine ⟨d3, er3, ?_, ?_⟩
    · simp only [rewriteChannelEndpoints, h1, h2, h3]
    · rw [hs3, clearAsyncDependence_skeleton, hs2, hs1]

theorem insertBeforeFirstCore_perm (new : Op) (body : List Op) :
    ∀ body1, insertBeforeFirstCore new body = some body1 → body1.Perm (new :: body) := by
  induction body with
  | nil => intro body1 h; simp [insertBeforeFirstCore] at h
  | cons o rest ih =>
    intro body1 h
    by_cases hc : ∃ c, o = Op.core c
    · obtain ⟨c, rfl⟩ := hc
      simp only [insertBeforeFirstCore, Option.some.injEq] at h
      rw [← h]
    · have hstep : insertBeforeFirstCore new (o :: rest)
          = match insertBeforeFirstCore new rest with
            | some r => some (o :: r)
            | none => none := by
        cases o <;> first | rfl | exact absurd ⟨_, rfl⟩ hc
      rw [hstep] at h
      cases hr : insertBeforeFirstCore new rest with
      | none => rw [hr] at h; cases h
      | some r =>
        rw [hr] at h
        simp only [Option.some.injEq] at h
        rw [← h]
        exact (List.Perm.cons _ (ih r hr)).trans (List.Perm.swap _ _ _)

theorem insertBeforeFirstCore_some (new : Op) (body : List Op) (c : CoreOp)
    (h : Op.core c ∈ body) : ∃ body1, insertBeforeFirstCore new body = some body1 := by
  induction body with
  | nil => cases h
  | cons o rest ih =>
    by_cases hc : ∃ c', o = Op.core c'
    · obtain ⟨c', rfl⟩ := hc
      exact ⟨_, rfl⟩
    · have hstep : insertBeforeFirstCore new (o :: rest)
          = match insertBeforeFirstCore new rest with
            | some r => some (o :: r)
            | none => none := by
        cases o <;> first | rfl | exact absurd ⟨_, rfl⟩ hc
      have hin : Op.core c ∈ rest := by
        rcases List.mem_cons.1 h with h | h
        · exact absurd ⟨c, h.symm⟩ hc
        · exact h
      obtain ⟨r, hr⟩ := ih hin
      exact ⟨o :: r, by rw [hstep, hr]⟩

theorem objectFifos_of_skeleton (d : DeviceOp) :
    d.objectFifos = (d.body.map Op.skeleton).filterMap (fun o => match o with
      | Op.objectFifo f => some f
      | _ => none) := by
  unfold DeviceOp.objectFifos
  rw [List.filterMap_map]
  apply List.filterMap_congr
  intro o _
  cases o <;> rfl

theorem mem_cores_of_walkOps {d : DeviceOp} {c : CoreOp} {o : Operation}
    (h : (c, o) ∈ d.walkOps) : Op.core c ∈ d.body := by
  unfold DeviceOp.walkOps at h
  simp only [List.mem_flatMap, List.mem_map, Prod.mk.injEq] at h
  obtain ⟨c', hc', b, -, o', -, rfl, -⟩ := h
  unfold DeviceOp.cores at hc'
  rw [List.mem_filterMap] at hc'
  obtain ⟨x, hx, hxc⟩ := hc'
  cases x <;> simp at hxc
  subst hxc
  exact hx

/-! ## Theorems: lowering of channels -/

/-- Claim C16. For every channel that is not a bundle and that carries a
broadcast attribute, or has more than one put, or has more than one get,
`LowerAIRChannelsPattern` returns `failure()`: no object fifo is created, and
the channel declarations and the cores with all their puts and gets are as
before, as is every operation of the device other than tiles. With a broadcast
attribute or with a put, the allocator and the device are unchanged
altogether. Without a put, the pattern has asked the shim tile allocator for a
tile before it fails; that request is assumed to return. -/
theorem LowerAIRChannelsPattern_unsupported_fails (shimTileAlloc : ShimTileAllocator)
    (channel : ChannelOp) (device : DeviceOp)
    (hcase : channel.broadcast_pattern = true ∨ channel.broadcast_shape = true ∨
      1 < (getChannelPutOpThroughSymbol channel device).length ∨
      1 < (getChannelGetOpThroughSymbol channel device).length)
    (hbundle : channel.getBundleSize ≤ 1)
    (hputty : ∀ x ∈ getChannelPutOpThroughSymbol channel device,
      ∃ src space, x.2.getMemref = some src ∧ src.ty = Ty.memref space)
    (hshim : getChannelPutOpThroughSymbol channel device = [] →
      ∃ r, shimTileAlloc.getShimTile device MemorySpace.L3 MemorySpace.L1 = .ok r) :
    ∃ a1 d1,
      LowerAIRChannelsPattern.matchAndRewrite shimTileAlloc channel device
        = .ok (false, a1, d1) ∧
      d1.nonTiles = device.nonTiles ∧ d1.objectFifos = device.objectFifos ∧
      d1.channels = device.channels ∧ d1.cores = device.cores ∧
      (channel.broadcast_pattern = true ∨ channel.broadcast_shape = true ∨
        getChannelPutOpThroughSymbol channel device ≠ [] → a1 = shimTileAlloc ∧ d1 = device) := by
  have hsame : ∀ d1 : DeviceOp, d1.nonTiles = device.nonTiles →
      d1.nonTiles = device.nonTiles ∧ d1.objectFifos = device.objectFifos ∧
      d1.channels = device.channels ∧ d1.cores = device.cores := by
    intro d1 h
    obtain ⟨h1, h2, h3⟩ := same_of_nonTiles h
    exact ⟨h, h2, h3, h1⟩
  unfold LowerAIRChannelsPattern.matchAndRewrite
  by_cases hb : (channel.broadcast_pattern || channel.broadcast_shape) = true
  · rw [if_pos hb]
    exact ⟨_, _, rfl, (hsame device rfl).1, (hsame device rfl).2.1, (hsame device rfl).2.2.1,
      (hsame device rfl).2.2.2, fun _ => ⟨rfl, rfl⟩⟩
  · rw [if_neg hb, if_neg (by omega)]
    have hb1 : channel.broadcast_pattern = false := by
      cases h : channel.broadcast_pattern <;> simp_all
    have hb2 : channel.broadcast_shape = false := by
      cases h : channel.broadcast_shape <;> simp_all
    have hcase' : 1 < (getChannelPutOpThroughSymbol channel device).length ∨
        1 < (getChannelGetOpThroughSymbol channel device).length := by
      rcases hcase with h | h | h | h
      · rw [hb1] at h; cases h
      · rw [hb2] at h; cases h
      · exact Or.inl h
      · exact Or.inr h
    cases hputs : getChannelPutOpThroughSymbol channel device with
    | nil =>
      obtain ⟨⟨t, a1, d1⟩, hr⟩ := hshim hputs
      rw [hputs] at hcase'
      have hg : 1 < (getChannelGetOpThroughSymbol channel device).length := by
        rcases hcase' with h | h
        · simp at h
        · exact h
      cases hgets : getChannelGetOpThroughSymbol channel device with
      | nil => rw [hgets] at hg; simp at hg
      | cons g1 rest =>
        cases rest with
        | nil => rw [hgets] at hg; simp at hg
        | cons g2 rest2 =>
          simp only [hr]
          have hnt := getShimTile_nonTiles _ _ _ _ _ _ _ hr
          exact ⟨a1, d1, rfl, (hsame d1 hnt).1, (hsame d1 hnt).2.1, (hsame d1 hnt).2.2.1,
            (hsame d1 hnt).2.2.2, fun h => by simp [hb1, hb2] at h⟩
    | cons x rest =>
      cases rest with
      | cons y rest2 =>
        simp only
        exact ⟨_, _, rfl, (hsame device rfl).1, (hsame device rfl).2.1,
          (hsame device rfl).2.2.1, (hsame device rfl).2.2.2, fun _ => ⟨rfl, rfl⟩⟩
      | nil =>
        obtain ⟨core, put⟩ := x
        obtain ⟨src, space, hsrc, hty⟩ := hputty (core, put) (by rw [hputs]; simp)
        rw [hputs] at hcase'
        have hg : 1 < (getChannelGetOpThroughSymbol channel device).length := by
          rcases hcase' with h | h
          · simp at h
          · exact h
        simp only at hsrc
        simp only [hsrc, channelEndpointTile, hty]
        by_cases hsp : space = MemorySpace.L1
        · rw [if_pos hsp]
          cases hgets : getChannelGetOpThroughSymbol channel device with
          | nil => rw [hgets] at hg; simp at hg
          | cons g1 rest =>
            cases rest with
            | nil => rw [hgets] at hg; simp at hg
            | cons g2 rest2 =>
              simp only
              exact ⟨_, _, rfl, (hsame device rfl).1, (hsame device rfl).2.1,
                (hsame device rfl).2.2.1, (hsame device rfl).2.2.2, fun _ => ⟨rfl, rfl⟩⟩
        · rw [if_neg hsp]
          simp only
          exact ⟨_, _, rfl, (hsame device rfl).1, (hsame device rfl).2.1,
            (hsame device rfl).2.2.1, (hsame device rfl).2.2.2, fun _ => ⟨rfl, rfl⟩⟩

theorem LowerAIRChannelsPattern_unsupported_fails_witness :
    ∃ a1 d1,
      LowerAIRChannelsPattern.matchAndRewrite (ShimTileAllocator.new (exampleTarget 2))
        (plainChannel "c" 4)
        (channelDevice (plainChannel "c" 4)
          [allocL1 10, getIntoL1 12 "c" 10, allocL1 20, getIntoL1 22 "c" 20])
        = .ok (false, a1, d1) ∧
      d1.objectFifos = [] ∧ d1.channels = [plainChannel "c" 4] := by
  obtain ⟨a1, d1, h1, -, h2, h3, -, -⟩ :=
    LowerAIRChannelsPattern_unsupported_fails (ShimTileAllocator.new (exampleTarget 2))
      (plainChannel "c" 4)
      (channelDevice (plainChannel "c" 4)
        [allocL1 10, getIntoL1 12 "c" 10, allocL1 20, getIntoL1 22 "c" 20])
      (Or.inr (Or.inr (Or.inr (by decide)))) (by decide)
      (by
        intro x hx
        have h0 : getChannelPutOpThroughSymbol (plainChannel "c" 4)
            (channelDevice (plainChannel "c" 4)
              [allocL1 10, getIntoL1 12 "c" 10, allocL1 20, getIntoL1 22 "c" 20]) = [] := rfl
        rw [h0] at hx
        cases hx)
      (fun _ => ⟨_, rfl⟩)
  exact ⟨a1, d1, h1, h2, h3⟩

/-- Claim C28 fails in the code. The channel `c` has no put and two gets in a
core, so `LowerAIRChannelsPattern` returns `failure()`; but before it counts
the gets it has asked the shim tile allocator for the producer tile. After the
failed attempt the MM2S pool, empty before, holds an entry with one of its two
channels used, and the device has gained the shim tile `(0, 0)`. -/
theorem failed_channel_rewrite_consumes_shim_channel :
    (ShimTileAllocator.new (exampleTarget 2)).mm2s_allocs = [] ∧
    ∃ a1 d1,
      LowerAIRChannelsPattern.matchAndRewrite (ShimTileAllocator.new (exampleTarget 2))
        (plainChannel "c" 4)
        (channelDevice (plainChannel "c" 4)
          [allocL1 10, getIntoL1 12 "c" 10, allocL1 20, getIntoL1 22 "c" 20])
        = .ok (false, a1, d1) ∧
      a1.mm2s_allocs
        = [{ shim_tile := { uid := 50, col := 0, row := 0 }, available_channels := 1 }] ∧
      d1.tiles = [{ uid := 0, col := 1, row := 1 }, { uid := 50, col := 0, row := 0 }] :=
  ⟨rfl, _, _, rfl, rfl, rfl⟩

theorem filterMap_filter_of_imp {α β : Type} (g : α → Option β) (p : α → Bool) (l : List α)
    (h : ∀ a ∈ l, (g a).isSome → p a = true) :
    (l.filter p).filterMap g = l.filterMap g := by
  induction l with
  | nil => rfl
  | cons a rest ih =>
    have ih' := ih (fun x hx => h x (List.mem_cons_of_mem _ hx))
    by_cases hp : p a = true
    · rw [List.filter_cons_of_pos hp, List.filterMap_cons, List.filterMap_cons, ih']
    · rw [List.filter_cons_of_neg hp, ih', List.filterMap_cons]
      cases hg : g a with
      | none => rfl
      | some b => exact absurd (h a (List.mem_cons_self _ _) (by rw [hg]; rfl)) hp

theorem skeleton_eraseChannel (d : DeviceOp) (channel : ChannelOp) :
    (d.eraseChannel channel).body.map Op.skeleton
      = (d.body.map Op.skeleton).filter (fun o => decide (o ≠ Op.channel channel)) := by
  unfold DeviceOp.eraseChannel
  dsimp only
  induction d.body with
  | nil => rfl
  | cons o rest ih =>
    have hp : decide (Op.skeleton o ≠ Op.channel channel) = decide (o ≠ Op.channel channel) := by
      cases o <;> simp [Op.skeleton]
    rw [List.map_cons, List.filter_cons, List.filter_cons, hp]
    split
    · rw [List.map_cons, ih]
    · exact ih

theorem skeleton_eraseOps (d : DeviceOp) (uids : List Nat) :
    (d.eraseOps uids).body.map Op.skeleton = d.body.map Op.skeleton :=
  skeleton_mapBlocks _ _

/-- Claim C17. A channel that is not a bundle and has no broadcast attribute,
no put in the device and exactly one get, into a memref in L1 inside the core
`core`, is lowered by `LowerAIRChannelsPattern`, when the shim tile allocator
answers the request for the direction L3 to L1 with the tile `t`: the pattern
returns `success()`, the object fifos of the device afterwards are those of
before and exactly one new one, whose depth is the buffer resource count of
the channel, whose producer is `t` and whose consumers are the tile of `core`
alone, and the channel declaration is erased. -/
theorem LowerAIRChannelsPattern_scenario_C (shimTileAlloc : ShimTileAllocator)
    (channel : ChannelOp) (device : DeviceOp) (core : CoreOp) (get : Operation) (dst : Value)
    (t : TileOp) (a1 : ShimTileAllocator) (d1 : DeviceOp)
    (hbp : channel.broadcast_pattern = false) (hbs : channel.broadcast_shape = false)
    (hbundle : channel.getBundleSize ≤ 1)
    (hputs : getChannelPutOpThroughSymbol channel device = [])
    (hgets : getChannelGetOpThroughSymbol channel device = [(core, get)])
    (hdst : get.getMemref = some dst) (hty : dst.ty = Ty.memref MemorySpace.L1)
    (hdef : dst.definer ≠ Definer.blockArgument)
    (hshim : shimTileAlloc.getShimTile device MemorySpace.L3 MemorySpace.L1
      = .ok (t, a1, d1)) :
    ∃ (d2 : DeviceOp) (fifo : ObjectFifoCreateOp),
      LowerAIRChannelsPattern.matchAndRewrite shimTileAlloc channel device
        = .ok (true, a1, d2) ∧
      d2.objectFifos.Perm (fifo :: device.objectFifos) ∧
      fifo.depth = channel.buffer_resources ∧ fifo.producerTile = t ∧
      fifo.consumerTiles = [core.tile] ∧ fifo.datatype = dst.ty ∧
      fifo.sym_name = "air_" ++ channel.sym_name ∧
      Op.channel channel ∉ d2.body := by
  have hnt := getShimTile_nonTiles _ _ _ _ _ _ _ hshim
  obtain ⟨hcores, hfifos, -⟩ := same_of_nonTiles hnt
  have hwalk : (core, get) ∈ device.walkOps := by
    have : (core, get) ∈ getChannelGetOpThroughSymbol channel device := by rw [hgets]; simp
    exact (List.mem_filter.1 this).1
  have hcore1 : Op.core core ∈ d1.body :=
    mem_cores_of_walkOps (by rw [walkOps_of_cores hcores]; exact hwalk)
  have hcne : d1.cores ≠ [] := by
    intro h
    have : core ∈ d1.cores := by
      unfold DeviceOp.cores
      exact List.mem_filterMap.2 ⟨_, hcore1, rfl⟩
    rw [h] at this
    cases this
  obtain ⟨body1, hbody1⟩ := insertBeforeFirstCore_some
    (Op.objectFifo { uid := d1.nextUid, sym_name := "air_" ++ channel.sym_name
                     datatype := dst.ty, producerTile := t, consumerTiles := [core.tile]
                     depth := channel.buffer_resources }) d1.body core hcore1
  obtain ⟨d5, er5, h5, hs5⟩ := rewriteChannelEndpoints_ok
    { uid := d1.nextUid, sym_name := "air_" ++ channel.sym_name
      datatype := dst.ty, producerTile := t, consumerTiles := [core.tile]
      depth := channel.buffer_resources } ObjectFifoPort.Consume [(core, get)]
    { d1 with body := body1, nextUid := d1.nextUid + 1 } []
    (by
      intro x hx
      simp only [List.mem_singleton] at hx
      subst hx
      exact ⟨dst, hdst, hdef⟩)
  refine ⟨(((d5.eraseOps er5).eraseOps [get.uid]).eraseOps []).eraseChannel channel,
    { uid := d1.nextUid, sym_name := "air_" ++ channel.sym_name
      datatype := dst.ty, producerTile := t, consumerTiles := [core.tile]
      depth := channel.buffer_resources }, ?_, ?_, rfl, rfl, rfl, rfl, rfl, ?_⟩
  · unfold LowerAIRChannelsPattern.matchAndRewrite
    rw [if_neg (by simp [hbp, hbs]), if_neg (by omega)]
    simp only [hputs, hgets, hshim, hdst, channelEndpointTile, hty, if_true]
    cases hc : d1.cores with
    | nil => exact absurd hc hcne
    | cons c0 crest =>
      have hprod : ∀ (f : ObjectFifoCreateOp) (d : DeviceOp),
          rewriteChannelEndpoints f ObjectFifoPort.Produce d [] [] = .ok (d, []) :=
        fun _ _ => rfl
      simp only [Option.map_some', hbody1, hprod, h5]
      rfl
  · rw [objectFifos_of_skeleton, skeleton_eraseChannel, skeleton_eraseOps, skeleton_eraseOps,
      skeleton_eraseOps, hs5]
    rw [filterMap_filter_of_imp]
    · have hperm := insertBeforeFirstCore_perm _ _ _ hbody1
      have h1 := (hperm.map Op.skeleton).filterMap (fun o => match o with
        | Op.objectFifo f => some f
        | _ => none)
      refine h1.trans ?_
      rw [List.map_cons, List.filterMap_cons]
      simp only [Op.skeleton]
      rw [← hfifos, objectFifos_of_skeleton d1]
    · intro o _ ho
      cases o <;> simp at ho ⊢
  · simp only [DeviceOp.eraseChannel]
    intro hmem
    have := (List.mem_filter.1 hmem).2
    simp at this

theorem LowerAIRChannelsPattern_scenario_C_witness :
    ∃ (d2 : DeviceOp) (fifo : ObjectFifoCreateOp) (a1 : ShimTileAllocator),
      LowerAIRChannelsPattern.matchAndRewrite (ShimTileAllocator.new (exampleTarget 2))
        (plainChannel "c" 4)
        (channelDevice (plainChannel "c" 4) [allocL1 10, getIntoL1 12 "c" 10])
        = .ok (true, a1, d2) ∧
      d2.objectFifos.Perm [fifo] ∧ fifo.depth = 4 ∧
      fifo.producerTile = { uid := 50, col := 0, row := 0 } ∧
      fifo.consumerTiles = [{ uid := 0, col := 1, row := 1 }] := by
  obtain ⟨d2, fifo, h1, h2, h3, h4, h5, -⟩ :=
    LowerAIRChannelsPattern_scenario_C (ShimTileAllocator.new (exampleTarget 2))
      (plainChannel "c" 4)
      (channelDevice (plainChannel "c" 4) [allocL1 10, getIntoL1 12 "c" 10])
      { uid := 2, tile := { uid := 0, col := 1, row := 1 }, elf_file := "core.elf"
        link_with := none
        body := [{ uid := 3
                   ops := [allocL1 10, getIntoL1 12 "c" 10] ++
                     [{ uid := 4, kind := OpKind.aieEnd, results := [] }] }] }
      (getIntoL1 12 "c" 10)
      { id := 11, ty := Ty.memref MemorySpace.L1, definer := Definer.alloc 10 }
      { uid := 50, col := 0, row := 0 } _ _
      rfl rfl (by decide) rfl rfl rfl rfl (by simp) rfl
  exact ⟨d2, fifo, _, h1, h2, h3, h4, h5⟩

/-! ## Theorems: specialization of channel bundles -/

/-- Claim C18 fails in the code. A bundle of shape `[2]` has two puts in a
core, one at the constant index 0 and one at an index that is not a constant
(second input: at the constant index 5, outside the shape). The pattern
creates the two channels `channel_0` and `channel_1` and a put on `channel_0`
for the first put; the indices of the second put are no multi-index of the
bundle, so it gets no copy, but it is erased with the others: of the two puts
one is left. -/
theorem bundle_put_without_matching_index_is_dropped :
    (channelDevice (bundleChannel "b" [2])
      [putAt 10 "b" [{ id := 30, ty := Ty.index, definer := Definer.constantIndex 0 }],
       putAt 11 "b" [{ id := 31, ty := Ty.index, definer := Definer.operation 29 }]]).numPuts
      = 2 ∧
    (SpecializeChannelBundlePattern.matchAndRewrite (bundleChannel "b" [2])
      (channelDevice (bundleChannel "b" [2])
        [putAt 10 "b" [{ id := 30, ty := Ty.index, definer := Definer.constantIndex 0 }],
         putAt 11 "b" [{ id := 31, ty := Ty.index, definer := Definer.operation 29 }]])).map
      (fun d => (d.numPuts, d.channels.map (fun c => c.sym_name)))
      = some (1, ["channel_0", "channel_1"]) ∧
    (SpecializeChannelBundlePattern.matchAndRewrite (bundleChannel "b" [2])
      (channelDevice (bundleChannel "b" [2])
        [putAt 10 "b" [{ id := 30, ty := Ty.index, definer := Definer.constantIndex 0 }],
         putAt 11 "b" [{ id := 31, ty := Ty.index, definer := Definer.constantIndex 5 }]])).map
      (fun d => (d.numPuts, d.channels.map (fun c => c.sym_name)))
      = some (1, ["channel_0", "channel_1"]) :=
  ⟨by decide, by decide, by decide⟩

/-! ## Theorems: pipeline handoffs -/

/-- Claim C20 fails in the code. The handoff of `mixedPipelineDevice` carries
a ranked tensor and a value of type `index`. Without assertions the pattern
returns `failure()` at the second payload, after the first one is lowered:
the device then has a buffer and a lock on the tile of the put and four
`AIE.useLock` operations, and the put is still there. `lowerPipelineGetPut`
gives this device and no failure. With assertions the pattern stops at
`assert(0)`. -/
theorem pipeline_failure_leaves_partial_handoff :
    mixedPipelineDevice.buffers = [] ∧ mixedPipelineDevice.locks = [] ∧
    mixedPipelineDevice.numUseLocks = 0 ∧
    (∃ d : DeviceOp,
      LowerPipeGetPutPattern.matchAndRewrite true pipelineHerds
        (putCore [tensorValue 15 14, indexValue 16 14])
        (examplePut [tensorValue 15 14, indexValue 16 14]) mixedPipelineDevice = .ok (false, d) ∧
      lowerPipelineGetPut true mixedPipelineDevice pipelineHerds = .ok d ∧
      d.buffers = [{ uid := 50, tile := { uid := 0, col := 1, row := 1 } }] ∧
      d.locks = [{ uid := 51, tile := { uid := 0, col := 1, row := 1 }, lockID := 0, init := 0 }] ∧
      d.numUseLocks = 4 ∧ d.numPipelinePuts = 1) ∧
    LowerPipeGetPutPattern.matchAndRewrite false pipelineHerds
      (putCore [tensorValue 15 14, indexValue 16 14])
      (examplePut [tensorValue 15 14, indexValue 16 14]) mixedPipelineDevice
      = .error Fault.assertionFailed := by
  refine ⟨by decide, by decide, by decide, ⟨_, rfl, rfl, by decide, by decide, by decide, by decide⟩, rfl⟩

/-! ## Lemmas: pipeline handoffs -/

/-- Inserting in front of a uid that no operation has changes nothing. -/
theorem insertAllBeforeUid_absent (news : List Operation) (u : Nat) (ops : List Operation)
    (h : ∀ o ∈ ops, o.uid ≠ u) : insertAllBeforeUid news u ops = ops := by
  induction ops with
  | nil => rfl
  | cons o rest ih =>
    unfold insertAllBeforeUid
    rw [if_neg (h o (List.mem_cons_self _ _)),
      ih (fun x hx => h x (List.mem_cons_of_mem _ hx))]

/-- Inserting skips a prefix without the uid. -/
theorem insertAllBeforeUid_append (news : List Operation) (u : Nat) (pre ops : List Operation)
    (h : ∀ o ∈ pre, o.uid ≠ u) :
    insertAllBeforeUid news u (pre ++ ops) = pre ++ insertAllBeforeUid news u ops := by
  induction pre with
  | nil => rfl
  | cons o rest ih =>
    rw [List.cons_append, insertAllBeforeUid, if_neg (h o (List.mem_cons_self _ _)),
      ih (fun x hx => h x (List.mem_cons_of_mem _ hx)), List.cons_append]

/-- An operation of a block after an insertion is a new one or one of the
block. -/
theorem mem_insertAllBeforeUid (news : List Operation) (u : Nat) (ops : List Operation)
    (x : Operation) (h : x ∈ insertAllBeforeUid news u ops) : x ∈ news ∨ x ∈ ops := by
  induction ops with
  | nil => simp [insertAllBeforeUid] at h
  | cons o rest ih =>
    unfold insertAllBeforeUid at h
    by_cases ho : o.uid = u
    · rw [if_pos ho, List.mem_append] at h
      exact h
    · rw [if_neg ho, List.mem_cons] at h
      rcases h with h | h
      · exact Or.inr (h ▸ List.mem_cons_self _ _)
      · rcases ih h with h | h
        · exact Or.inl h
        · exact Or.inr (List.mem_cons_of_mem _ h)

/-- The operations of a block after the two insertions and the erasure of the
put and the get, when the uids of the block are distinct. -/
theorem handoff_block (news1 news2 : List Operation) (p g : Nat) (ops : List Operation)
    (hne : p ≠ g) (h1 : ∀ o ∈ news1, o.uid ≠ p ∧ o.uid ≠ g)
    (h2 : ∀ o ∈ news2, o.uid ≠ p ∧ o.uid ≠ g)
    (hnd : (ops.map (fun o => o.uid)).Nodup) :
    (insertAllBeforeUid news2 g (insertAllBeforeUid news1 p ops)).filter
        (fun o => decide (o.uid ∉ [g, p])) =
      ops.flatMap (fun o => if o.uid = p then news1 else if o.uid = g then news2 else [o]) := by
  have hkeep : ∀ news : List Operation, (∀ o ∈ news, o.uid ≠ p ∧ o.uid ≠ g) →
      news.filter (fun o => decide (o.uid ∉ [g, p])) = news := by
    intro news hn
    apply List.filter_eq_self.2
    intro o ho
    have := hn o ho
    simp [this.1, this.2]
  have hid : ∀ l : List Operation, (∀ o ∈ l, o.uid ≠ p ∧ o.uid ≠ g) →
      l.flatMap (fun o => if o.uid = p then news1 else if o.uid = g then news2 else [o]) = l := by
    intro l
    induction l with
    | nil => intro _; rfl
    | cons o rest ih =>
      intro hl
      have ho := hl o (List.mem_cons_self _ _)
      rw [List.flatMap_cons, if_neg ho.1, if_neg ho.2,
        ih (fun x hx => hl x (List.mem_cons_of_mem _ hx))]
      rfl
  induction ops with
  | nil => rfl
  | cons o rest ih =>
    rw [List.map_cons, List.nodup_cons] at hnd
    have hrest : ∀ x ∈ rest, x.uid ≠ o.uid := by
      intro x hx he
      exact hnd.1 (List.mem_map.2 ⟨x, hx, he⟩)
    rw [List.flatMap_cons, ← ih hnd.2]
    by_cases hp : o.uid = p
    · have hrp : ∀ x ∈ rest, x.uid ≠ p := fun x hx => hp ▸ hrest x hx
      have hog : o.uid ≠ g := fun h => hne (hp.symm.trans h)
      rw [if_pos hp, insertAllBeforeUid, if_pos hp, insertAllBeforeUid_absent news1 p rest hrp,
        insertAllBeforeUid_append news2 g news1 _ (fun x hx => (h1 x hx).2),
        insertAllBeforeUid, if_neg hog, List.filter_append, hkeep news1 h1,
        List.filter_cons]
      simp [hp]
    · by_cases hg : o.uid = g
      · have hrg : ∀ x ∈ rest, x.uid ≠ g := fun x hx => hg ▸ hrest x hx
        rw [if_neg hp, if_pos hg, insertAllBeforeUid, if_neg hp, insertAllBeforeUid,
          if_pos hg, List.filter_append, hkeep news2 h2, List.filter_cons]
        have hX : ∀ x ∈ insertAllBeforeUid news1 p rest, x.uid ≠ g := by
          intro x hx
          rcases mem_insertAllBeforeUid _ _ _ _ hx with h | h
          · exact (h1 x h).2
          · exact hrg x h
        rw [insertAllBeforeUid_absent news2 g _ hX]
        simp [hg]
      · rw [if_neg hp, if_neg hg, insertAllBeforeUid, if_neg hp, insertAllBeforeUid,
          if_neg hg, List.filter_cons]
        simp [hp, hg]

/-- The cores of a device after `mapBlocks`. -/
theorem cores_mapBlocks (d : DeviceOp) (f : Block → Block) :
    (d.mapBlocks f).cores = d.cores.map (fun c => { c with body := c.body.map f }) := by
  unfold DeviceOp.mapBlocks DeviceOp.cores
  generalize d.body = body
  induction body with
  | nil => rfl
  | cons o rest ih =>
    simp only [List.map_cons, List.filterMap_cons]
    cases o <;> simp only [List.map_cons] <;> rw [ih]

/-- An operation that `g` ignores does not show among the operations `g`
selects, wherever it is inserted behind tiles. -/
theorem filterMap_insertAfterTiles {β : Type} (g : Op → Option β) (new : Op)
    (hnew : g new = none) (body : List Op) :
    (insertAfterTiles new body).filterMap g = body.filterMap g := by
  induction body with
  | nil => simp [insertAfterTiles, hnew]
  | cons o rest ih =>
    cases o with
    | tile t => simp only [insertAfterTiles, List.filterMap_cons]; rw [ih]
    | _ => simp [insertAfterTiles, hnew]

/-- An operation that `g` ignores does not show among the operations `g`
selects, wherever it is inserted behind a run of tiles. -/
theorem filterMap_insertAfterTileRun {β : Type} (g : Op → Option β) (new : Op)
    (hnew : g new = none) (tile : TileOp) (body : List Op) :
    (insertAfterTileRun new tile body).filterMap g = body.filterMap g := by
  induction body with
  | nil => rfl
  | cons o rest ih =>
    unfold insertAfterTileRun
    by_cases ho : o = Op.tile tile
    · rw [if_pos ho, List.filterMap_cons, List.filterMap_cons,
        filterMap_insertAfterTiles g new hnew]
    · rw [if_neg ho, List.filterMap_cons, List.filterMap_cons, ih]

/-- Rewriting the blocks of the cores leaves what `g` selects, when `g`
ignores cores. -/
theorem filterMap_mapBlocks {β : Type} (g : Op → Option β) (hg : ∀ c, g (Op.core c) = none)
    (d : DeviceOp) (f : Block → Block) :
    (d.mapBlocks f).body.filterMap g = d.body.filterMap g := by
  unfold DeviceOp.mapBlocks
  generalize d.body = body
  induction body with
  | nil => rfl
  | cons o rest ih =>
    simp only [List.map_cons, List.filterMap_cons]
    cases o <;> simp only [hg] <;> rw [ih]

/-- The device after the body of the loop of `LowerPipeGetPutPattern`, when
the lock `lk` is the one `allocateLockOp` creates. -/
theorem lowerPipePayload_device (put get : Operation) (tile : TileOp) (o r : Value)
    (dev : DeviceOp) (lk : LockOp)
    (hlock : allocateLockOp (allocateBufferOp dev tile).2 tile 0 (-1) =
      (lk, ⟨dev.arch, insertAfterTileRun (Op.lock lk) tile
              (insertAfterTileRun (Op.buffer ⟨dev.nextUid, tile⟩) tile dev.body),
            dev.nextUid + 1 + 1⟩)) :
    (lowerPipePayload put get tile o r dev).1 =
      ⟨dev.arch,
       (DeviceOp.mapBlocks
          ⟨dev.arch, insertAfterTileRun (Op.lock lk) tile
              (insertAfterTileRun (Op.buffer ⟨dev.nextUid, tile⟩) tile dev.body),
            dev.nextUid + 1 + 1⟩
          (fun blk => ⟨blk.uid, replaceAllUsesWith r (pipeLoadValue (dev.nextUid + 1 + 1))
            (insertAllBeforeUid (pipeGetOps (dev.nextUid + 1 + 1) lk ⟨dev.nextUid, tile⟩) get.uid
              (insertAllBeforeUid (pipePutOps (dev.nextUid + 1 + 1) lk ⟨dev.nextUid, tile⟩ o)
                put.uid blk.ops))⟩)).body,
       dev.nextUid + 1 + 1 + 7⟩ := by
  unfold lowerPipePayload
  simp only [hlock]
  rfl

/-- The new operations of a handoff have uids from `n`. -/
theorem pipePutOps_uid (n : Nat) (l : LockOp) (b : BufferOp) (o : Value) :
    ∀ x ∈ pipePutOps n l b o, n ≤ x.uid := by
  intro x hx
  simp only [pipePutOps, List.mem_cons, List.mem_singleton, List.not_mem_nil, or_false] at hx
  rcases hx with h | h | h <;> rw [h] <;> simp

/-- The new operations of a handoff have uids from `n`. -/
theorem pipeGetOps_uid (n : Nat) (l : LockOp) (b : BufferOp) :
    ∀ x ∈ pipeGetOps n l b, n ≤ x.uid := by
  intro x hx
  simp only [pipeGetOps, List.mem_cons, List.mem_singleton, List.not_mem_nil, or_false] at hx
  rcases hx with h | h | h <;> rw [h] <;> simp

/-- The cores after the pattern has lowered a put with one ranked tensor `o`
as payload: the pattern succeeds, the device gains one buffer and one lock on
the tile of the core of the put, and every core is rewritten as
`CoreOp.handoffLowered` tells. -/
theorem matchAndRewrite_handoff_cores (ndebug : Bool)
    (tileToHerdMap : TileToHerdMap) (core other_core : CoreOp) (put get : Operation)
    (dev : DeviceOp) (herd : HerdOp) (dst0 dst1 o r : Value) (x y : Int) (tile2 : TileOp)
    (hput : put.kind = OpKind.pipelinePut dst0 dst1 [o])
    (ho : o.ty = Ty.rankedTensor)
    (hherd : tileToHerdMap.lookup core.tile = some herd)
    (hx : dst0.definer = Definer.constantIndex x)
    (hy : dst1.definer = Definer.constantIndex y)
    (htile : getPhysTileOpOrNull dev (toInt32 (x + herd.colOffset.getD 0))
      (toInt32 (y + herd.rowOffset.getD 0)) = some tile2)
    (hcore : tile2.getCoreOp dev = some other_core)
    (hget : lastPipelineGet other_core = some get)
    (hr : get.results = [r])
    (hmem : Op.tile core.tile ∈ dev.body)
    (hne : put.uid ≠ get.uid) (hpu : put.uid < dev.nextUid) (hgu : get.uid < dev.nextUid)
    (huniq : ∀ c ∈ dev.cores, ∀ b ∈ c.body, (b.ops.map (fun op => op.uid)).Nodup) :
    ∃ (buf : BufferOp) (lockOp : LockOp) (d : DeviceOp),
      LowerPipeGetPutPattern.matchAndRewrite ndebug tileToHerdMap core put dev = .ok (true, d) ∧
      buf.tile = core.tile ∧ lockOp.tile = core.tile ∧
      d.buffers.Perm (buf :: dev.buffers) ∧ d.locks.Perm (lockOp :: dev.locks) ∧
      d.cores = dev.cores.map
        (CoreOp.handoffLowered (dev.nextUid + 2) lockOp buf o r put get) := by
  obtain ⟨n, -, hlock⟩ := allocateLockOp_auto (allocateBufferOp dev core.tile).2 core.tile 0
  have hphys : getPhysTileOp dev (toInt32 (x + herd.colOffset.getD 0))
      (toInt32 (y + herd.rowOffset.getD 0)) = (tile2, dev) := by
    unfold getPhysTileOp
    rw [htile]
  have hrun : LowerPipeGetPutPattern.matchAndRewrite ndebug tileToHerdMap core put dev =
      .ok (true, (lowerPipePayload put get core.tile o r dev).1.eraseOps [get.uid, put.uid]) := by
    unfold LowerPipeGetPutPattern.matchAndRewrite
    rw [hput]
    simp only [hherd, constantIndexValue, hx, hy, hphys, hcore, hget, hr, List.length_singleton,
      ne_eq, not_true_eq_false, and_false, if_false, lowerPipePayloads, ho, if_true,
      List.map_nil]
  refine ⟨{ uid := dev.nextUid, tile := core.tile },
    { uid := dev.nextUid + 1, tile := core.tile, lockID := n, init := 0 }, _, hrun, rfl, rfl,
    ?_, ?_, ?_⟩
  · rw [lowerPipePayload_device put get core.tile o r dev _ hlock]
    unfold DeviceOp.eraseOps DeviceOp.buffers
    rw [filterMap_mapBlocks _ (fun _ => rfl)]
    show (List.filterMap _ (DeviceOp.mapBlocks _ _).body).Perm _
    rw [filterMap_mapBlocks _ (fun _ => rfl)]
    show (List.filterMap _ (insertAfterTileRun _ _ _)).Perm _
    rw [filterMap_insertAfterTileRun _ _ rfl]
    exact (insertAfterTileRun_perm _ _ _ hmem).filterMap _
  · rw [lowerPipePayload_device put get core.tile o r dev _ hlock]
    unfold DeviceOp.eraseOps DeviceOp.locks
    rw [filterMap_mapBlocks _ (fun _ => rfl)]
    show (List.filterMap _ (DeviceOp.mapBlocks _ _).body).Perm _
    rw [filterMap_mapBlocks _ (fun _ => rfl)]
    show (List.filterMap _ (insertAfterTileRun _ _ _)).Perm _
    have hmem2 : Op.tile core.tile ∈
        insertAfterTileRun (Op.buffer { uid := dev.nextUid, tile := core.tile }) core.tile
          dev.body :=
      (insertAfterTileRun_perm _ _ _ hmem).symm.subset (List.mem_cons_of_mem _ hmem)
    refine ((insertAfterTileRun_perm _ _ _ hmem2).filterMap _).trans ?_
    rw [List.filterMap_cons]
    show (_ :: List.filterMap _ _).Perm _
    rw [filterMap_insertAfterTileRun _ _ rfl]
    exact List.Perm.refl _
  · rw [lowerPipePayload_device put get core.tile o r dev _ hlock]
    unfold DeviceOp.eraseOps
    rw [cores_mapBlocks]
    show List.map _ (DeviceOp.mapBlocks _ _).cores = _
    rw [cores_mapBlocks]
    have hc : (DeviceOp.mk dev.arch (insertAfterTileRun
        (Op.lock { uid := (allocateBufferOp dev core.tile).2.nextUid, tile := core.tile
                   lockID := n, init := 0 }) core.tile
        (insertAfterTileRun (Op.buffer ⟨dev.nextUid, core.tile⟩) core.tile dev.body))
        (dev.nextUid + 1 + 1)).cores = dev.cores := by
      unfold DeviceOp.cores
      show List.filterMap _ (insertAfterTileRun _ _ _) = _
      rw [filterMap_insertAfterTileRun _ _ rfl, filterMap_insertAfterTileRun _ _ rfl]
    rw [hc, List.map_map]
    apply List.map_congr_left
    intro c hcm
    unfold CoreOp.handoffLowered
    simp only [Function.comp, List.map_map]
    congr 1
    apply List.map_congr_left
    intro b hb
    simp only [Function.comp]
    congr 1
    unfold replaceAllUsesWith
    rw [List.filter_map]
    congr 1
    have hblock := handoff_block
      (pipePutOps (dev.nextUid + 1 + 1)
        { uid := dev.nextUid + 1, tile := core.tile, lockID := n, init := 0 }
        ⟨dev.nextUid, core.tile⟩ o)
      (pipeGetOps (dev.nextUid + 1 + 1)
        { uid := dev.nextUid + 1, tile := core.tile, lockID := n, init := 0 }
        ⟨dev.nextUid, core.tile⟩) put.uid get.uid b.ops hne
      (fun x hx => by have := pipePutOps_uid _ _ _ _ x hx; omega)
      (fun x hx => by have := pipeGetOps_uid _ _ _ x hx; omega)
      (huniq c hcm b hb)
    exact hblock

/-! ## Theorems: the loop over the devices -/

/-- Claim C24, as stated, fails. The herd `mixedStyleHerd`, whose body holds a
copy and a put, is outlined into the empty device of its segment with a herd
lock asked for (`emit_herd_lock`). The outlined device holds a copy and a
channel operation, and the lock that outlining made on the tile of its core.
The stages in front of the test find nothing to rewrite in this device (it
holds no `affine.if`, `air.execute`, `scf.for` or `memref.alloc`) and are
taken as leaving it as it is. The pass signals failure, and the device it
leaves for the segment holds that lock. -/
theorem runOnDevices_mixed_styles_keeps_herd_lock :
    ∃ d m h,
      outlineAIECores "segment_0" [plainChannel "c" 1] (emptyDevice AIEArch.AIE1)
        mixedStyleHerd []
        { col_offset := 0, row_offset := 0, emit_while := false, emit_herd_lock := true } =
        .ok (d, m, h) ∧
      hasDma d = true ∧
      hasChan d = true ∧
      (runOnDevices idleStages (exampleTarget 4) m
        [{ device := 0, herd := h, segmentHerds := none }] []
        (firstRun d)).signalledFailure = true ∧
      (runOnDevices idleStages (exampleTarget 4) m
        [{ device := 0, herd := h, segmentHerds := none }] []
        (firstRun d)).devices.map (fun x => (x.1, x.2.locks)) =
        [("segment_0",
          [{ uid := 3, tile := { uid := 1, col := 1, row := 1 }, lockID := 0, init := 0 }])] :=
  ⟨_, _, _, rfl, by decide, by decide, by decide, by decide⟩

/-- Claim C24, amended. When the loop of `runOnOperation` comes to a device not
seen before that holds a copy and a channel operation at the test, which is
made on the device as the stages `specializeHerdAffineIf`, `lowerAirExecute`,
`lowerScfAirTokens` and `allocL1Buffers` leave it, the pass signals failure
and returns at once, whatever the stages do: the device of the segment is
left exactly as these four stages made it, so what outlining put there stays
(its cores and tiles, and its herd locks) and none of the later stages
(`lowerAirDmaMemcpy`, `lowerPipelineGetPut`, `specializeChannelBundle`,
`LowerAIRPingPong`, `lowerAIRChannels`, `canonicalizeWaitAll`) has run on it;
the other devices are as before, no herd entry is added to the metadata, the
allocation state of the pass is as before, and the entries behind this one
are not visited. -/
theorem runOnDevices_rejects_mixed_styles (stages : LoweringStages) (target : AIETargetModel)
    (tileToHerdMap : TileToHerdMap) (p : DeviceEntry) (rest : List DeviceEntry)
    (seen : List Nat) (run : PassRun) (segment_name : String) (device : DeviceOp)
    (hseen : p.device ∉ seen)
    (hdev : run.devices[p.device]? = some (segment_name, device))
    (hdma : hasDma (stages.allocL1Buffers
        (stages.lowerScfAirTokens (stages.lowerAirExecute (stages.specializeHerdAffineIf device)))
        tileToHerdMap) = true)
    (hchan : hasChan (stages.allocL1Buffers
        (stages.lowerScfAirTokens (stages.lowerAirExecute (stages.specializeHerdAffineIf device)))
        tileToHerdMap) = true) :
    (runOnDevices stages target tileToHerdMap (p :: rest) seen run).signalledFailure = true ∧
    (runOnDevices stages target tileToHerdMap (p :: rest) seen run).devices =
      run.devices.set p.device (segment_name, (stages.allocL1Buffers
        (stages.lowerScfAirTokens (stages.lowerAirExecute (stages.specializeHerdAffineIf device)))
        tileToHerdMap)) ∧
    (runOnDevices stages target tileToHerdMap (p :: rest) seen run).metadata = run.metadata ∧
    (runOnDevices stages target tileToHerdMap (p :: rest) seen run).pass = run.pass ∧
    runOnDevices stages target tileToHerdMap (p :: rest) seen run =
      runOnDevices stages target tileToHerdMap [p] seen run := by
  have h : ∀ rest1, runOnDevices stages target tileToHerdMap (p :: rest1) seen run =
      { run with
          devices := run.devices.set p.device
            (segment_name, stages.beforeCheck tileToHerdMap device)
          signalledFailure := true } := by
    intro rest1
    rw [runOnDevices, if_neg hseen]
    have hdma1 : hasDma (stages.beforeCheck tileToHerdMap device) = true := hdma
    have hchan1 : hasChan (stages.beforeCheck tileToHerdMap device) = true := hchan
    simp only [hdev, hdma1, hchan1, Bool.and_self, if_true]
  rw [h rest, h []]
  exact ⟨rfl, rfl, rfl, rfl, rfl⟩

/-- Claim C24, amended, at the device `mixedStyleDevice`, with one core that
holds a copy and a put, and stages that leave the device as it is: the run
fails, the device is as before, there is no metadata, the allocation state of
the pass is as before, and a further entry is not visited. -/
theorem runOnDevices_rejects_mixed_styles_witness :
    (runOnDevices idleStages (exampleTarget 4) []
      [{ device := 0, herd := plainHerd 1 1 none none [], segmentHerds := none },
       { device := 1, herd := plainHerd 1 1 none none [], segmentHerds := none }] []
      (firstRun mixedStyleDevice)).signalledFailure = true ∧
    (runOnDevices idleStages (exampleTarget 4) []
      [{ device := 0, herd := plainHerd 1 1 none none [], segmentHerds := none },
       { device := 1, herd := plainHerd 1 1 none none [], segmentHerds := none }] []
      (firstRun mixedStyleDevice)).devices = [("segment_0", mixedStyleDevice)] ∧
    (runOnDevices idleStages (exampleTarget 4) []
      [{ device := 0, herd := plainHerd 1 1 none none [], segmentHerds := none },
       { device := 1, herd := plainHerd 1 1 none none [], segmentHerds := none }] []
      (firstRun mixedStyleDevice)).metadata = [] ∧
    (runOnDevices idleStages (exampleTarget 4) []
      [{ device := 0, herd := plainHerd 1 1 none none [], segmentHerds := none },
       { device := 1, herd := plainHerd 1 1 none none [], segmentHerds := none }] []
      (firstRun mixedStyleDevice)).pass =
      { tile_dma_S2MM_allocs := [], tile_dma_MM2S_allocs := [] } ∧
    runOnDevices idleStages (exampleTarget 4) []
      [{ device := 0, herd := plainHerd 1 1 none none [], segmentHerds := none },
       { device := 1, herd := plainHerd 1 1 none none [], segmentHerds := none }] []
      (firstRun mixedStyleDevice) =
      runOnDevices idleStages (exampleTarget 4) []
        [{ device := 0, herd := plainHerd 1 1 none none [], segmentHerds := none }] []
        (firstRun mixedStyleDevice) :=
  runOnDevices_rejects_mixed_styles idleStages (exampleTarget 4) []
    { device := 0, herd := plainHerd 1 1 none none [], segmentHerds := none }
    [{ device := 1, herd := plainHerd 1 1 none none [], segmentHerds := none }] []
    (firstRun mixedStyleDevice)
    "segment_0" mixedStyleDevice (by decide) rfl (by decide) (by decide)

/-! ## Lemmas: uses of values -/

/-- The operands of an operation after `mapValues`. -/
theorem operands_mapValues (f : Value → Value) (k : OpKind) :
    (k.mapValues f).operands = k.operands.map f := by
  cases k <;> simp [OpKind.mapValues, OpKind.operands]

/-- A list is kept by a map that keeps its members. -/
theorem map_eq_self_of_forall {α : Type} (f : α → α) (l : List α) (h : ∀ v ∈ l, f v = v) :
    l.map f = l := by
  induction l with
  | nil => rfl
  | cons a rest ih =>
    rw [List.map_cons, h a (List.mem_cons_self _ _),
      ih (fun v hv => h v (List.mem_cons_of_mem _ hv))]

/-- An operation is kept by `mapValues` with a function that keeps its
operands. -/
theorem mapValues_eq_self (f : Value → Value) (k : OpKind)
    (h : ∀ v ∈ k.operands, f v = v) : k.mapValues f = k := by
  cases k <;> simp only [OpKind.mapValues, OpKind.operands] at h ⊢
  all_goals first
    | rfl
    | (try simp only [List.mem_append, List.mem_cons, List.mem_singleton, List.not_mem_nil,
        or_false] at h
       congr 1 <;>
        first
          | exact map_eq_self_of_forall f _ (fun v hv => h v (by simp [hv]))
          | exact h _ (by simp))

/-- The operations after `replaceAllUsesWith` are the operations of before
with the uses replaced. -/
theorem useReplaced_replaceAllUsesWith (old new : Value) (ops : List Operation) :
    List.Forall₂ (UseReplaced old new) ops (replaceAllUsesWith old new ops) := by
  unfold replaceAllUsesWith
  rw [List.forall₂_map_right_iff]
  refine List.forall₂_same.2 ?_
  intro o _
  refine ⟨rfl, rfl, ?_, ?_⟩
  · exact operands_mapValues _ _
  · intro h
    refine mapValues_eq_self _ _ ?_
    intro v hv
    unfold Value.replace
    rw [if_neg (h v hv)]

/-! ## Theorems: lowering of a pipeline handoff -/

/-- Claim C19. A put with one ranked tensor `o` as payload, to the stage whose
core is `other_core`, with `get` the get of that core and `r` its result: the
pattern succeeds; the device gains exactly one buffer `buf` and one lock
`lockOp`, both on the tile of the core of the put; and every core is the core
of before in which the put is replaced by the acquire of `lockOp` with the
value 0, the store of `o` to `buf` and the release of `lockOp` with the value
1, the get is replaced by the acquire of `lockOp` with the value 1, the load
from `buf` and the release of `lockOp` with the value 0, and every use of `r`
is replaced by the result `load` of the load (`HandoffLowered`). The new
operations have uids that were not in use. -/
theorem LowerPipeGetPutPattern_single_buffer_handoff (ndebug : Bool)
    (tileToHerdMap : TileToHerdMap) (core other_core : CoreOp) (put get : Operation)
    (dev : DeviceOp) (herd : HerdOp) (dst0 dst1 o r : Value) (x y : Int) (tile2 : TileOp)
    (hput : put.kind = OpKind.pipelinePut dst0 dst1 [o])
    (ho : o.ty = Ty.rankedTensor)
    (hherd : tileToHerdMap.lookup core.tile = some herd)
    (hx : dst0.definer = Definer.constantIndex x)
    (hy : dst1.definer = Definer.constantIndex y)
    (htile : getPhysTileOpOrNull dev (toInt32 (x + herd.colOffset.getD 0))
      (toInt32 (y + herd.rowOffset.getD 0)) = some tile2)
    (hcore : tile2.getCoreOp dev = some other_core)
    (hget : lastPipelineGet other_core = some get)
    (hr : get.results = [r])
    (hmem : Op.tile core.tile ∈ dev.body)
    (hne : put.uid ≠ get.uid) (hpu : put.uid < dev.nextUid) (hgu : get.uid < dev.nextUid)
    (huniq : ∀ c ∈ dev.cores, ∀ b ∈ c.body, (b.ops.map (fun op => op.uid)).Nodup) :
    ∃ (buf : BufferOp) (lockOp : LockOp) (load : Value) (uids : Nat → Nat) (d : DeviceOp),
      LowerPipeGetPutPattern.matchAndRewrite ndebug tileToHerdMap core put dev = .ok (true, d) ∧
      buf.tile = core.tile ∧ lockOp.tile = core.tile ∧
      d.buffers.Perm (buf :: dev.buffers) ∧ d.locks.Perm (lockOp :: dev.locks) ∧
      load.ty = Ty.rankedTensor ∧ (∀ k, dev.nextUid ≤ uids k) ∧
      List.Forall₂ (HandoffLowered uids lockOp buf o r load put get) dev.cores d.cores := by
  obtain ⟨buf, lockOp, d, hrun, hb, hl, hpb, hpl, hcores⟩ :=
    matchAndRewrite_handoff_cores ndebug tileToHerdMap core other_core put get dev herd dst0
      dst1 o r x y tile2 hput ho hherd hx hy htile hcore hget hr hmem hne hpu hgu huniq
  refine ⟨buf, lockOp, pipeLoadValue (dev.nextUid + 2),
    fun k => match k with
      | 0 => dev.nextUid + 2
      | 1 => dev.nextUid + 2 + 1
      | 2 => dev.nextUid + 2 + 2
      | 3 => dev.nextUid + 2 + 3
      | 4 => dev.nextUid + 2 + 4
      | _ => dev.nextUid + 2 + 6,
    d, hrun, hb, hl, hpb, hpl, rfl, ?_, ?_⟩
  · intro k
    rcases k with _ | _ | _ | _ | _ | k <;> simp only <;> omega
  · rw [hcores, List.forall₂_map_right_iff]
    refine List.forall₂_same.2 ?_
    intro c _
    refine ⟨rfl, rfl, rfl, rfl, ?_⟩
    unfold CoreOp.handoffLowered
    simp only
    rw [List.forall₂_map_right_iff]
    refine List.forall₂_same.2 ?_
    intro b _
    refine ⟨rfl, ?_⟩
    exact useReplaced_replaceAllUsesWith r (pipeLoadValue (dev.nextUid + 2)) _

/-- Claim C19 at `pipelineDevice` with one ranked tensor as payload: the
theorem at this input, and the operations of the two cores afterwards. The
core of the put holds acquire with 0, store, release with 1 in place of the
put; the core of the get holds acquire with 1, load, release with 0 in place
of the get, and the user of the result of the get uses the loaded value. -/
theorem LowerPipeGetPutPattern_single_buffer_handoff_witness :
    (∃ (buf : BufferOp) (lockOp : LockOp) (load : Value) (uids : Nat → Nat) (d : DeviceOp),
      LowerPipeGetPutPattern.matchAndRewrite false pipelineHerds (putCore [tensorValue 15 14])
        (examplePut [tensorValue 15 14])
        (pipelineDevice [tensorValue 15 14] [tensorValue 33 30]) = .ok (true, d) ∧
      buf.tile = (putCore [tensorValue 15 14]).tile ∧
      lockOp.tile = (putCore [tensorValue 15 14]).tile ∧
      d.buffers.Perm (buf :: (pipelineDevice [tensorValue 15 14] [tensorValue 33 30]).buffers) ∧
      d.locks.Perm (lockOp :: (pipelineDevice [tensorValue 15 14] [tensorValue 33 30]).locks) ∧
      load.ty = Ty.rankedTensor ∧
      (∀ k, (pipelineDevice [tensorValue 15 14] [tensorValue 33 30]).nextUid ≤ uids k) ∧
      List.Forall₂
        (HandoffLowered uids lockOp buf (tensorValue 15 14) (tensorValue 33 30) load
          (examplePut [tensorValue 15 14])
          { uid := 30, kind := OpKind.pipelineGet, results := [tensorValue 33 30] })
        (pipelineDevice [tensorValue 15 14] [tensorValue 33 30]).cores d.cores) ∧
    coreOpKinds (LowerPipeGetPutPattern.matchAndRewrite false pipelineHerds
        (putCore [tensorValue 15 14]) (examplePut [tensorValue 15 14])
        (pipelineDevice [tensorValue 15 14] [tensorValue 33 30])) =
      [[[OpKind.other "produce" [],
         OpKind.useLock { uid := 51, tile := { uid := 0, col := 1, row := 1 }, lockID := 0
                          init := 0 } 0 LockAction.Acquire,
         OpKind.tensorStore (tensorValue 15 14) { uid := 50, tile := { uid := 0, col := 1, row := 1 } },
         OpKind.useLock { uid := 51, tile := { uid := 0, col := 1, row := 1 }, lockID := 0
                          init := 0 } 1 LockAction.Release,
         OpKind.aieEnd]],
       [[OpKind.useLock { uid := 51, tile := { uid := 0, col := 1, row := 1 }, lockID := 0
                          init := 0 } 1 LockAction.Acquire,
         OpKind.toTensor { uid := 50, tile := { uid := 0, col := 1, row := 1 } },
         OpKind.useLock { uid := 51, tile := { uid := 0, col := 1, row := 1 }, lockID := 0
                          init := 0 } 0 LockAction.Release,
         OpKind.other "consume" [tensorValue 57 56],
         OpKind.aieEnd]]] :=
  ⟨LowerPipeGetPutPattern_single_buffer_handoff false pipelineHerds
    (putCore [tensorValue 15 14])
    (getCore [tensorValue 33 30]) (examplePut [tensorValue 15 14])
    { uid := 30, kind := OpKind.pipelineGet, results := [tensorValue 33 30] }
    (pipelineDevice [tensorValue 15 14] [tensorValue 33 30])
    (plainHerd 2 1 (some 1) (some 1) [])
    { id := 11, ty := Ty.index, definer := Definer.constantIndex 1 }
    { id := 13, ty := Ty.index, definer := Definer.constantIndex 0 }
    (tensorValue 15 14) (tensorValue 33 30) 1 0 { uid := 1, col := 2, row := 1 }
    rfl rfl (by decide) rfl rfl (by decide) (by decide) (by decide) rfl (by decide)
    (by decide) (by decide) (by decide) (by decide),
   by decide⟩

/-- The image of a value whose id is none of the mapped ones is kept when
values are mapped. -/
theorem lookupOrDefault_foldl_map (v : Value) (pairs : List (Value × Value)) :
    ∀ remap : IRMapping, (∀ pr ∈ pairs, pr.1.id ≠ v.id) →
      (pairs.foldl (fun m pr => IRMapping.map m pr.1 pr.2) remap).lookupOrDefault v =
        remap.lookupOrDefault v := by
  induction pairs with
  | nil => intro remap _; rfl
  | cons pr rest ih =>
    intro remap h
    rw [List.foldl_cons, ih _ (fun q hq => h q (List.mem_cons_of_mem _ hq))]
    have hne : pr.1.id ≠ v.id := h pr (List.mem_cons_self _ _)
    unfold IRMapping.lookupOrDefault IRMapping.map
    rw [List.find?_cons_of_neg]
    simpa using hne

/-- The image of a value that is none of `olds` is kept by `mapAll`. -/
theorem lookupOrDefault_mapAll (v : Value) (remap : IRMapping) (olds news : List Value)
    (h : ∀ r ∈ olds, r.id ≠ v.id) :
    (remap.mapAll olds news).lookupOrDefault v = remap.lookupOrDefault v := by
  unfold IRMapping.mapAll
  exact lookupOrDefault_foldl_map v _ remap (fun pr hpr => h pr.1 (List.of_mem_zip hpr).1)

/-- The clones of operations: every clone has as many results as its
original, and is the original with its values mapped by a mapping that agrees
with the given one on every value whose id is no id of a result of the
operations. -/
theorem cloneOps_forall₂ (P : Nat → Prop) (ops : List Operation) :
    ∀ (remap : IRMapping) (next : Nat), (∀ o ∈ ops, ∀ r ∈ o.results, ¬ P r.id) →
      List.Forall₂ (fun (o c : Operation) =>
        c.results.length = o.results.length ∧
        ∃ m : IRMapping, (∀ v : Value, P v.id → m.lookupOrDefault v = remap.lookupOrDefault v) ∧
          c.kind = o.kind.mapValues m.lookupOrDefault) ops (cloneOps remap next ops).1 := by
  induction ops with
  | nil => intro remap next _; exact List.Forall₂.nil
  | cons o rest ih =>
    intro remap next h
    unfold cloneOps
    refine List.Forall₂.cons ?_ ?_
    · refine ⟨?_, remap, fun _ _ => rfl, rfl⟩
      simp only [cloneOp, freshValues_length]
    · refine (ih _ _ (fun o' ho' => h o' (List.mem_cons_of_mem _ ho'))).imp ?_
      rintro a b ⟨hlen, m, hm, hk⟩
      refine ⟨hlen, m, ?_, hk⟩
      intro v hv
      rw [hm v hv]
      refine lookupOrDefault_mapAll v remap _ _ ?_
      intro r hr heq
      exact h o (List.mem_cons_self _ _) r hr (heq ▸ hv)

/-- The clones of a list of operations followed by further ones. -/
theorem cloneOps_append (l1 l2 : List Operation) :
    ∀ (remap : IRMapping) (next : Nat),
      (cloneOps remap next (l1 ++ l2)).1 =
        (cloneOps remap next l1).1 ++
          (cloneOps (cloneOps remap next l1).2.1 (cloneOps remap next l1).2.2 l2).1 := by
  induction l1 with
  | nil => intro remap next; rfl
  | cons o rest ih =>
    intro remap next
    rw [List.cons_append, cloneOps, cloneOps]
    simp only [List.cons_append]
    rw [ih]

/-- Mapping the values of an operation gives an `air.herd_terminator` only
from one. -/
theorem mapValues_ne_herdTerminator (f : Value → Value) (k : OpKind)
    (h : k ≠ OpKind.herdTerminator) : k.mapValues f ≠ OpKind.herdTerminator := by
  cases k <;> simp [OpKind.mapValues] at h ⊢

/-- Inserting in front of the last operation of a block that ends with `t`. -/
theorem insertBeforeLast_concat (new t : Operation) (l : List Operation) :
    insertBeforeLast new (l ++ [t]) = l ++ [new, t] := by
  induction l with
  | nil => rfl
  | cons o rest ih =>
    cases rest with
    | nil => rfl
    | cons o2 rest2 =>
      have ih' : insertBeforeLast new (o2 :: (rest2 ++ [t])) = o2 :: (rest2 ++ [new, t]) := ih
      show insertBeforeLast new (o :: o2 :: (rest2 ++ [t])) = o :: o2 :: (rest2 ++ [new, t])
      rw [insertBeforeLast, ih']
      intro h
      cases h

/-- The end of the block `launch_bb` when the cloned body is `clones` followed
by an `air.herd_terminator`: the clones, the release of the herd lock when
there is one, and the branch or the `AIE.end`. -/
theorem finishLaunch_concat (emit_while : Bool) (herd_lock : Option LockOp) (core_bb n : Nat)
    (clones : List Operation) (t : Operation) (ht : t.kind = OpKind.herdTerminator)
    (hc : ∀ c ∈ clones, c.kind ≠ OpKind.herdTerminator) :
    finishLaunch emit_while herd_lock core_bb n (clones ++ [t]) =
      clones ++
        (match herd_lock with
         | some l =>
           [{ uid := n, kind := OpKind.useLock l 0 LockAction.Release, results := [] }]
         | none => []) ++
        [{ uid := n + 1, kind := if emit_while = true then OpKind.br core_bb else OpKind.aieEnd
           results := [] }] := by
  have hkeep : clones.filter (fun o => decide (o.kind ≠ OpKind.herdTerminator)) = clones := by
    apply List.filter_eq_self.2
    intro c hcm
    simp [hc c hcm]
  unfold finishLaunch
  cases herd_lock with
  | none =>
    simp only [insertBeforeLast_concat, List.filter_append, hkeep, List.append_nil]
    cases emit_while <;> simp [ht]
  | some l =>
    simp only [insertBeforeLast_concat]
    have h2 : ∀ r : Operation, clones ++ [r, t] = (clones ++ [r]) ++ [t] := fun r => by simp
    rw [h2, insertBeforeLast_concat]
    simp only [List.filter_append, hkeep]
    cases emit_while <;> simp [ht]

/-- Two maps of the values of an operation are one map. -/
theorem mapValues_mapValues (f g : Value → Value) (k : OpKind) :
    (k.mapValues f).mapValues g = k.mapValues (fun v => g (f v)) := by
  cases k <;> simp [OpKind.mapValues, List.map_map, Function.comp_def]

/-- Every member of the second of two related lists has a related member of
the first. -/
theorem forall₂_mem_right {α β : Type} {R : α → β → Prop} {l1 : List α} {l2 : List β}
    (h : List.Forall₂ R l1 l2) : ∀ b ∈ l2, ∃ a ∈ l1, R a b := by
  induction h with
  | nil => intro b hb; cases hb
  | cons hab _ ih =>
    intro b hb
    rcases List.mem_cons.1 hb with hb | hb
    · exact ⟨_, List.mem_cons_self _ _, hb ▸ hab⟩
    · obtain ⟨a, ha, hr⟩ := ih b hb
      exact ⟨a, List.mem_cons_of_mem _ ha, hr⟩

/-! ## Lemmas: outlining of herds -/

/-- An operation that `g` ignores does not show among the operations `g`
selects when it is inserted in front of a core. -/
theorem filterMap_insertBeforeCore {β : Type} (g : Op → Option β) (new : Op)
    (hnew : g new = none) (u : Nat) (body : List Op) :
    (insertBeforeCore new u body).filterMap g = body.filterMap g := by
  induction body with
  | nil => rfl
  | cons o rest ih =>
    cases o with
    | core c =>
      unfold insertBeforeCore
      by_cases hc : c.uid = u
      · rw [if_pos hc, List.filterMap_cons, hnew]
      · rw [if_neg hc, List.filterMap_cons, List.filterMap_cons, ih]
    | _ => simp only [insertBeforeCore, List.filterMap_cons]; rw [ih]

/-- The loop over the kernel arguments leaves what `g` selects, when `g`
ignores globals; it does not lower the counter, keeps the operations it was
given in front, and keeps the image of a value that is no kernel argument. -/
theorem outlineKernelArguments_spec {β : Type} (g : Op → Option β)
    (hg : ∀ x, g (Op.global x) = none) (core : Nat) (args : List Value) :
    ∀ (d : DeviceOp) (ops : List Operation) (remap : IRMapping),
      (outlineKernelArguments core args (d, ops, remap)).1.body.filterMap g =
        d.body.filterMap g ∧
      d.nextUid ≤ (outlineKernelArguments core args (d, ops, remap)).1.nextUid ∧
      (∃ more, (outlineKernelArguments core args (d, ops, remap)).2.1 = ops ++ more) ∧
      ∀ v : Value, (∀ a ∈ args, a.id ≠ v.id) →
        (outlineKernelArguments core args (d, ops, remap)).2.2.lookupOrDefault v =
          remap.lookupOrDefault v := by
  induction args with
  | nil => intro d ops remap; exact ⟨rfl, le_refl _, ⟨[], (List.append_nil _).symm⟩, fun _ _ => rfl⟩
  | cons a rest ih =>
    intro d ops remap
    unfold outlineKernelArguments
    by_cases ha : a.ty.isMemRef = true
    · rw [if_pos ha]
      obtain ⟨h1, h2, ⟨more, h3⟩, h4⟩ := ih
        { d with
            body := insertBeforeCore (Op.global
              { uid := d.nextUid, sym_name := herdArgNameFrom d.symbols d.symbols.length 0
                ty := a.ty }) core d.body
            nextUid := d.nextUid + 3 }
        (ops ++ [{ uid := d.nextUid + 1
                   kind := OpKind.getGlobal (herdArgNameFrom d.symbols d.symbols.length 0)
                   results := [{ id := d.nextUid + 2, ty := a.ty
                                 definer := Definer.operation (d.nextUid + 1) }] }])
        (remap.map a { id := d.nextUid + 2, ty := a.ty
                       definer := Definer.operation (d.nextUid + 1) })
      refine ⟨?_, ?_, ?_, ?_⟩
      · rw [h1]
        exact filterMap_insertBeforeCore g _ (hg _) _ _
      · exact le_trans (Nat.le_add_right _ 3) h2
      · exact ⟨_, h3.trans (List.append_assoc _ _ _)⟩
      · intro v hv
        rw [h4 v (fun b hb => hv b (List.mem_cons_of_mem _ hb))]
        have hne : a.id ≠ v.id := hv a (List.mem_cons_self _ _)
        unfold IRMapping.lookupOrDefault IRMapping.map
        rw [List.find?_cons_of_neg]
        simpa using hne
    · rw [if_neg ha]
      obtain ⟨h1, h2, h3, h4⟩ := ih d ops remap
      exact ⟨h1, h2, h3, fun v hv => h4 v (fun b hb => hv b (List.mem_cons_of_mem _ hb))⟩

/-- The declaration of callees leaves what `g` selects, when `g` ignores
functions, and does not lower the counter. -/
theorem declareCallees_spec {β : Type} (g : Op → Option β)
    (hg : ∀ x, g (Op.func x) = none) (ops : List Operation) :
    ∀ d : DeviceOp, (declareCallees ops d).body.filterMap g = d.body.filterMap g ∧
      d.nextUid ≤ (declareCallees ops d).nextUid := by
  induction ops with
  | nil => intro d; exact ⟨rfl, le_refl _⟩
  | cons o rest ih =>
    intro d
    unfold declareCallees
    split
    · split
      · exact ih d
      · obtain ⟨h1, h2⟩ := ih
          { d with
              body := d.body ++ [Op.func { uid := d.nextUid, sym_name := ‹String› }]
              nextUid := d.nextUid + 1 }
        refine ⟨h1.trans ?_, le_trans (Nat.le_add_right _ 1) h2⟩
        simp [List.filterMap_append, hg]
    · exact ih d

/-- The herd lock leaves what `g` selects, when `g` ignores locks, and does
not lower the counter. -/
theorem herdLock_spec {β : Type} (g : Op → Option β) (hg : ∀ x, g (Op.lock x) = none)
    (options : AIRToAIEOptions) (tile : TileOp) (d : DeviceOp) :
    (herdLock options tile d).2.body.filterMap g = d.body.filterMap g ∧
      d.nextUid ≤ (herdLock options tile d).2.nextUid := by
  unfold herdLock
  by_cases he : options.emit_herd_lock = true
  · rw [if_pos he]
    rcases allocateLockOp_cases d tile 0 0 with ⟨l, _, _, _, heq⟩ | ⟨_, n, _, _, _, heq⟩
    · rw [heq]
      exact ⟨rfl, le_refl _⟩
    · rw [heq]
      exact ⟨filterMap_insertAfterTileRun g _ (hg _) _ _, Nat.le_add_right _ 1⟩
  · rw [if_neg he]
    exact ⟨rfl, le_refl _⟩

/-- The cores of a device after `appendBlocks`. -/
theorem cores_appendBlocks (d : DeviceOp) (u : Nat) (blocks : List Block) :
    (d.appendBlocks u blocks).cores =
      d.cores.map (fun c => if c.uid = u then { c with body := c.body ++ blocks } else c) := by
  unfold DeviceOp.appendBlocks DeviceOp.cores
  generalize d.body = body
  induction body with
  | nil => rfl
  | cons o rest ih =>
    simp only [List.map_cons, List.filterMap_cons]
    cases o with
    | core c =>
      by_cases hc : c.uid = u
      · simp only [hc, if_true, List.map_cons]
        rw [ih]
      · simp only [hc, if_false, List.map_cons]
        rw [ih]
    | _ => simp only []; rw [ih]

/-- The tiles of a device after `appendBlocks`. -/
theorem tiles_appendBlocks (d : DeviceOp) (u : Nat) (blocks : List Block) :
    (d.appendBlocks u blocks).tiles = d.tiles := by
  unfold DeviceOp.appendBlocks DeviceOp.tiles
  generalize d.body = body
  induction body with
  | nil => rfl
  | cons o rest ih =>
    simp only [List.map_cons, List.filterMap_cons]
    cases o with
    | core c =>
      by_cases hc : c.uid = u
      · simp only [hc, if_true]
        rw [ih]
      · simp only [hc, if_false]
        rw [ih]
    | _ => simp only []; rw [ih]

/-- Cloning does not lower the counter. -/
theorem cloneOps_next_le (ops : List Operation) :
    ∀ (remap : IRMapping) (next : Nat), next ≤ (cloneOps remap next ops).2.2 := by
  induction ops with
  | nil => intro remap next; exact le_refl _
  | cons o rest ih =>
    intro remap next
    unfold cloneOps
    refine le_trans ?_ (ih _ _)
    unfold cloneOp
    simp only
    omega

/-- What the distinct ids of the block arguments of a herd give. -/
theorem argumentIds_nodup (h : HerdOp) (hids : h.argumentIds.Nodup) :
    h.ids.1.id ≠ h.ids.2.id ∧ h.ids.1.id ≠ h.size.1.id ∧ h.ids.1.id ≠ h.size.2.id ∧
    h.ids.2.id ≠ h.size.1.id ∧ h.ids.2.id ≠ h.size.2.id ∧ h.size.1.id ≠ h.size.2.id ∧
    ∀ a ∈ h.kernelArguments, a.id ≠ h.ids.1.id ∧ a.id ≠ h.ids.2.id ∧ a.id ≠ h.size.1.id ∧
      a.id ≠ h.size.2.id := by
  unfold HerdOp.argumentIds at hids
  simp only [List.map_append, List.map_cons, List.map_nil, List.cons_append, List.nil_append,
    List.nodup_cons, List.mem_cons, List.mem_map, not_or, not_exists, not_and] at hids
  obtain ⟨⟨h12, h13, h14, ha1⟩, ⟨h23, h24, ha2⟩, ⟨h34, ha3⟩, ha4, -⟩ := hids
  exact ⟨h12, h13, h14, h23, h24, h34,
    fun a ha => ⟨ha1 a ha, ha2 a ha, ha3 a ha, ha4 a ha⟩⟩

/-- The herd lock is there exactly when the option is set, and it is a lock
of the tile. -/
theorem herdLock_lock (options : AIRToAIEOptions) (tile : TileOp) (d : DeviceOp) :
    (herdLock options tile d).1.isSome = options.emit_herd_lock ∧
      ∀ l ∈ (herdLock options tile d).1, l.tile = tile := by
  unfold herdLock
  by_cases he : options.emit_herd_lock = true
  · rw [if_pos he, he]
    refine ⟨rfl, ?_⟩
    intro l hl
    simp only [Option.mem_def, Option.some.injEq] at hl
    rw [← hl]
    rcases allocateLockOp_cases d tile 0 0 with ⟨l0, _, ht, _, heq⟩ | ⟨_, n, _, _, _, heq⟩
    · rw [heq]; exact ht
    · rw [heq]
  · rw [if_neg he]
    simp only [Bool.not_eq_true] at he
    rw [he]
    refine ⟨rfl, ?_⟩
    intro l hl
    cases hl

/-- The body of a core: the tiles stay, the counter is not lowered, and the
core with the uid `core` gets blocks that are the outlined body of the herd at
its end. -/
theorem outlineCoreBlocks_spec (h : HerdOp) (options : AIRToAIEOptions) (x y : Int)
    (core : Nat) (l : Option LockOp × DeviceOp) (hids : h.argumentIds.Nodup)
    (hres : ∀ o ∈ h.body, ∀ r ∈ o.results, r.id ∉ h.argumentIds)
    (hterm : ∃ ops t, h.body = ops ++ [t] ∧ t.kind = OpKind.herdTerminator ∧
      ∀ o ∈ ops, o.kind ≠ OpKind.herdTerminator) :
    (outlineCoreBlocks h options x y core l).tiles = l.2.tiles ∧
    l.2.nextUid ≤ (outlineCoreBlocks h options x y core l).nextUid ∧
    ∃ blocks, OutlinedBlocks h options l.1 x y blocks ∧
      (outlineCoreBlocks h options x y core l).cores =
        l.2.cores.map (fun c =>
          if c.uid = core then { c with body := c.body ++ blocks } else c) := by
  obtain ⟨h12, h13, h14, h23, h24, h34, hk⟩ := argumentIds_nodup h hids
  unfold outlineCoreBlocks
  dsimp only
  obtain ⟨ht, hn, ⟨more, hops⟩, hlook⟩ := outlineKernelArguments_spec
    (fun o => match o with
      | Op.tile t => some t
      | _ => none) (fun _ => rfl) core h.kernelArguments
    { l.2 with nextUid := l.2.nextUid + 11 }
    [constantIndexOp (l.2.nextUid + 3) x, constantIndexOp (l.2.nextUid + 5) y,
     constantIndexOp (l.2.nextUid + 7) h.numCols, constantIndexOp (l.2.nextUid + 9) h.numRows]
    ((((IRMapping.map [] h.ids.1 (constantIndexResult (l.2.nextUid + 3) x)).map h.ids.2
      (constantIndexResult (l.2.nextUid + 5) y)).map h.size.1
      (constantIndexResult (l.2.nextUid + 7) h.numCols)).map h.size.2
      (constantIndexResult (l.2.nextUid + 9) h.numRows))
  obtain ⟨hc, -, -, -⟩ := outlineKernelArguments_spec
    (fun o => match o with
      | Op.core c => some c
      | _ => none) (fun _ => rfl) core h.kernelArguments
    { l.2 with nextUid := l.2.nextUid + 11 }
    [constantIndexOp (l.2.nextUid + 3) x, constantIndexOp (l.2.nextUid + 5) y,
     constantIndexOp (l.2.nextUid + 7) h.numCols, constantIndexOp (l.2.nextUid + 9) h.numRows]
    ((((IRMapping.map [] h.ids.1 (constantIndexResult (l.2.nextUid + 3) x)).map h.ids.2
      (constantIndexResult (l.2.nextUid + 5) y)).map h.size.1
      (constantIndexResult (l.2.nextUid + 7) h.numCols)).map h.size.2
      (constantIndexResult (l.2.nextUid + 9) h.numRows))
  generalize outlineKernelArguments core h.kernelArguments _ = a at ht hn hops hlook hc ⊢
  have hclone := cloneOps_next_le h.body a.2.2 (a.1.nextUid + 2)
  have hn' : l.2.nextUid + 11 ≤ a.1.nextUid := hn
  refine ⟨?_, ?_, ⟨?blocks, ?hb, ?hc⟩⟩
  case hc =>
    refine (declareCallees_spec _ (fun _ => rfl) _ _).1.trans ?_
    refine (cores_appendBlocks _ _ _).trans ?_
    have hc' : (DeviceOp.mk a.1.arch a.1.body
        ((cloneOps a.2.2 (a.1.nextUid + 2) h.body).2.2 + 3)).cores = l.2.cores := hc
    exact congrArg _ hc'
  case hb =>
    obtain ⟨ops, t, hbody, hkt, hnt⟩ := hterm
    have hx1 : a.2.2.lookupOrDefault h.ids.1 = constantIndexResult (l.2.nextUid + 3) x := by
      rw [hlook _ (fun a ha => (hk a ha).1)]
      simp [IRMapping.lookupOrDefault, IRMapping.map, List.find?, h12.symm, h13.symm, h14.symm]
    have hx2 : a.2.2.lookupOrDefault h.ids.2 = constantIndexResult (l.2.nextUid + 5) y := by
      rw [hlook _ (fun a ha => (hk a ha).2.1)]
      simp [IRMapping.lookupOrDefault, IRMapping.map, List.find?, h23.symm, h24.symm]
    have hx3 : a.2.2.lookupOrDefault h.size.1 =
        constantIndexResult (l.2.nextUid + 7) h.numCols := by
      rw [hlook _ (fun a ha => (hk a ha).2.2.1)]
      simp [IRMapping.lookupOrDefault, IRMapping.map, List.find?, h34.symm]
    have hx4 : a.2.2.lookupOrDefault h.size.2 =
        constantIndexResult (l.2.nextUid + 9) h.numRows := by
      rw [hlook _ (fun a ha => (hk a ha).2.2.2)]
      simp [IRMapping.lookupOrDefault, IRMapping.map, List.find?]
    have hF := cloneOps_forall₂ (fun i => i ∈ h.argumentIds) ops a.2.2 (a.1.nextUid + 2)
      (fun o ho r hr => hres o (by rw [hbody]; exact List.mem_append_left _ ho) r hr)
    have hcl : (cloneOps a.2.2 (a.1.nextUid + 2) h.body).1 =
        (cloneOps a.2.2 (a.1.nextUid + 2) ops).1 ++
          [(cloneOp (cloneOps a.2.2 (a.1.nextUid + 2) ops).2.1
            (cloneOps a.2.2 (a.1.nextUid + 2) ops).2.2 t).1] := by
      rw [hbody, cloneOps_append]
      rfl
    have hkinds : ∀ c ∈ (cloneOps a.2.2 (a.1.nextUid + 2) ops).1,
        c.kind ≠ OpKind.herdTerminator := by
      intro c hcm
      obtain ⟨o, ho, -, m, -, hkind⟩ := forall₂_mem_right hF c hcm
      rw [hkind]
      exact mapValues_ne_herdTerminator _ _ (hnt o ho)
    have hmem : ∀ v ∈ [h.ids.1, h.ids.2, h.size.1, h.size.2], v.id ∈ h.argumentIds := by
      intro v hv
      unfold HerdOp.argumentIds
      exact List.mem_map.2 ⟨v, List.mem_append_left _ hv, rfl⟩
    refine ⟨l.2.nextUid, a.1.nextUid, (cloneOps a.2.2 (a.1.nextUid + 2) h.body).2.2,
      constantIndexResult (l.2.nextUid + 3) x, constantIndexResult (l.2.nextUid + 5) y,
      constantIndexResult (l.2.nextUid + 7) h.numCols,
      constantIndexResult (l.2.nextUid + 9) h.numRows, more,
      (cloneOps a.2.2 (a.1.nextUid + 2) ops).1, rfl, rfl, rfl, rfl, ?_, ?_⟩
    · rw [hops, hcl, finishLaunch_concat _ _ _ _ _ _ (by
        show (OpKind.mapValues _ t.kind) = _
        rw [hkt]
        rfl) hkinds]
      simp only [List.cons_append, List.nil_append, List.append_assoc]
      rcases l with ⟨_ | lk, dl⟩ <;> rfl
    · have hdrop : h.body.dropLast = ops := by
        rw [hbody]
        simp
      rw [hdrop]
      refine hF.imp ?_
      rintro o c ⟨hlen, m, hm, hkind⟩
      refine ⟨hlen, ?_, m.lookupOrDefault, ?_, ?_, ?_, ?_, ?_⟩
      · rw [hkind, mapValues_mapValues]
      · rw [hm _ (hmem _ (by simp)), hx1]
      · rw [hm _ (hmem _ (by simp)), hx2]
      · rw [hm _ (hmem _ (by simp)), hx3]
      · rw [hm _ (hmem _ (by simp)), hx4]
      · rw [hkind, operands_mapValues]
  · exact (declareCallees_spec _ (fun _ => rfl) _ _).1.trans
      ((tiles_appendBlocks _ _ _).trans ht)
  · refine le_trans ?_ (declareCallees_spec (fun _ => (none : Option Unit)) (fun _ => rfl) _ _).2
    show l.2.nextUid ≤ (cloneOps a.2.2 (a.1.nextUid + 2) h.body).2.2 + 3
    omega

/-- One position of the loops, when the device has no tile at the physical
position and every core sits on a tile of the device: the device gains one
tile at the position and one core on it, whose body is the outlined body of
the herd. -/
theorem outlineCore_new (segment_name : String) (h : HerdOp) (options : AIRToAIEOptions)
    (col_offset row_offset x y : Int) (d : DeviceOp) (m : TileToHerdMap)
    (hids : h.argumentIds.Nodup)
    (hres : ∀ o ∈ h.body, ∀ r ∈ o.results, r.id ∉ h.argumentIds)
    (hterm : ∃ ops t, h.body = ops ++ [t] ∧ t.kind = OpKind.herdTerminator ∧
      ∀ o ∈ ops, o.kind ≠ OpKind.herdTerminator)
    (hfree : ∀ t ∈ d.tiles,
      ¬ (t.col = toInt32 (x + col_offset) ∧ t.row = toInt32 (y + row_offset)))
    (hon : ∀ c ∈ d.cores, c.tile ∈ d.tiles)
    (huid : ∀ c ∈ d.cores, c.uid < d.nextUid) :
    ∃ c_new : CoreOp,
      (outlineCore segment_name h options col_offset row_offset x y (d, m)).1.cores.Perm
        (c_new :: d.cores) ∧
      c_new.Outlines h options (toInt32 (x + col_offset)) (toInt32 (y + row_offset)) x y ∧
      (outlineCore segment_name h options col_offset row_offset x y (d, m)).1.tiles.Perm
        (c_new.tile :: d.tiles) ∧
      ∀ c ∈ (outlineCore segment_name h options col_offset row_offset x y (d, m)).1.cores,
        c.uid < (outlineCore segment_name h options col_offset row_offset x y (d, m)).1.nextUid := by
  rcases getPhysTileOp_cases d (toInt32 (x + col_offset)) (toInt32 (y + row_offset)) with
    ⟨t, ht, hc, hr, -⟩ | ⟨-, hphys⟩
  · exact absurd ⟨hc, hr⟩ (hfree t ht)
  have hcores1 : (DeviceOp.mk d.arch (insertAfterTiles (Op.tile
      { uid := d.nextUid, col := toInt32 (x + col_offset), row := toInt32 (y + row_offset) })
      d.body) (d.nextUid + 1)).cores = d.cores :=
    filterMap_insertAfterTiles _ _ rfl _
  have hnone : TileOp.getCoreOp
      { uid := d.nextUid, col := toInt32 (x + col_offset), row := toInt32 (y + row_offset) }
      (DeviceOp.mk d.arch (insertAfterTiles (Op.tile
        { uid := d.nextUid, col := toInt32 (x + col_offset), row := toInt32 (y + row_offset) })
        d.body) (d.nextUid + 1)) = none := by
    unfold TileOp.getCoreOp
    rw [hcores1, List.find?_eq_none]
    intro c hcm
    simp only [decide_eq_true_eq]
    intro hct
    exact hfree c.tile (hon c hcm) (by rw [hct]; exact ⟨rfl, rfl⟩)
  unfold outlineCore
  simp only [hphys, hnone]
  generalize segment_name ++ "_core_" ++ toString (x + col_offset) ++ "_" ++
    toString (y + row_offset) ++ ".elf" = elf
  generalize htile : ({ uid := d.nextUid, col := toInt32 (x + col_offset)
                        row := toInt32 (y + row_offset) } : TileOp) = tile at hcores1 ⊢
  have hmem : Op.tile tile ∈ insertAfterTiles (Op.tile tile) d.body :=
    (insertAfterTiles_perm _ _).symm.subset (List.mem_cons_self _ _)
  have hd2c : (DeviceOp.mk d.arch (insertAfterTileRun (Op.core
      { uid := d.nextUid + 1, tile := tile, elf_file := elf, link_with := h.link_with
        body := [] }) tile (insertAfterTiles (Op.tile tile) d.body)) (d.nextUid + 1 + 1)).cores.Perm
      ({ uid := d.nextUid + 1, tile := tile, elf_file := elf, link_with := h.link_with
         body := [] } :: d.cores) := by
    have hp := (insertAfterTileRun_perm (Op.core
      { uid := d.nextUid + 1, tile := tile, elf_file := elf, link_with := h.link_with
        body := [] }) tile _ hmem).filterMap (fun o => match o with
        | Op.core c => some c
        | _ => none)
    rw [List.filterMap_cons] at hp
    have hc1 : List.filterMap (fun o => match o with
        | Op.core c => some c
        | _ => none) (insertAfterTiles (Op.tile tile) d.body) = d.cores := hcores1
    rw [hc1] at hp
    exact hp
  have hd2t : (DeviceOp.mk d.arch (insertAfterTileRun (Op.core
      { uid := d.nextUid + 1, tile := tile, elf_file := elf, link_with := h.link_with
        body := [] }) tile (insertAfterTiles (Op.tile tile) d.body)) (d.nextUid + 1 + 1)).tiles.Perm
      (tile :: d.tiles) := by
    unfold DeviceOp.tiles
    show (List.filterMap _ (insertAfterTileRun _ _ _)).Perm _
    rw [filterMap_insertAfterTileRun _ _ rfl]
    exact tiles_insertAfterTiles tile d.body
  have hd2n : (DeviceOp.mk d.arch (insertAfterTileRun (Op.core
      { uid := d.nextUid + 1, tile := tile, elf_file := elf, link_with := h.link_with
        body := [] }) tile (insertAfterTiles (Op.tile tile) d.body)) (d.nextUid + 1 + 1)).nextUid =
      d.nextUid + 1 + 1 := rfl
  generalize DeviceOp.mk d.arch (insertAfterTileRun (Op.core
      { uid := d.nextUid + 1, tile := tile, elf_file := elf, link_with := h.link_with
        body := [] }) tile (insertAfterTiles (Op.tile tile) d.body)) (d.nextUid + 1 + 1) = d2
    at hd2c hd2t hd2n ⊢
  unfold outlineCoreBody
  obtain ⟨hlt, hln⟩ := herdLock_spec (fun o => match o with
    | Op.tile t => some t
    | _ => none) (fun _ => rfl) options tile d2
  obtain ⟨hlc, -⟩ := herdLock_spec (fun o => match o with
    | Op.core c => some c
    | _ => none) (fun _ => rfl) options tile d2
  obtain ⟨hbt, hbn, blocks, hblocks, hbc⟩ :=
    outlineCoreBlocks_spec h options x y (d.nextUid + 1) (herdLock options tile d2) hids hres
      hterm
  obtain ⟨hsome, hltile⟩ := herdLock_lock options tile d2
  generalize herdLock options tile d2 = l at hlt hln hlc hbt hbn hbc hblocks hsome hltile ⊢
  have hlc' : l.2.cores = d2.cores := hlc
  have hlt' : l.2.tiles = d2.tiles := hlt
  have hold : d.cores.map (fun c =>
      if c.uid = d.nextUid + 1 then { c with body := c.body ++ blocks } else c) = d.cores := by
    conv_rhs => rw [← List.map_id d.cores]
    apply List.map_congr_left
    intro c hc
    have := huid c hc
    rw [if_neg (by omega)]
    rfl
  have hperm : (outlineCoreBlocks h options x y (d.nextUid + 1) l).cores.Perm
      ({ uid := d.nextUid + 1, tile := tile, elf_file := elf, link_with := h.link_with
         body := blocks } :: d.cores) := by
    rw [hbc, hlc']
    have hp := hd2c.map (fun c =>
      if c.uid = d.nextUid + 1 then { c with body := c.body ++ blocks } else c)
    rw [List.map_cons, hold] at hp
    simpa using hp
  refine ⟨{ uid := d.nextUid + 1, tile := tile, elf_file := elf, link_with := h.link_with
            body := blocks }, hperm, ⟨?_, ?_, l.1, hsome, hltile, hblocks⟩, ?_, ?_⟩
  · rw [← htile]
  · rw [← htile]
  · rw [hbt, hlt']
    exact hd2t
  · intro c hc
    rcases List.mem_cons.1 (hperm.subset hc) with hc | hc
    · rw [hc]
      show d.nextUid + 1 < _
      omega
    · have := huid c hc
      omega

/-- The clones of the channel declarations leave the tiles and the cores, and
the walk ends without fault when every channel of the herd is declared in the
module. -/
theorem cloneChannelDeclarations_spec (moduleChannels : List ChannelOp)
    (ops : List Operation)
    (hchan : ∀ op ∈ ops, ∀ name, op.getChanName = some name →
      ∃ ch ∈ moduleChannels, ch.sym_name = name) :
    ∀ (k : Nat) (d : DeviceOp), ∃ d1,
      cloneChannelDeclarations moduleChannels ops k d = .ok d1 ∧
      d1.tiles = d.tiles ∧ d1.cores = d.cores := by
  induction ops with
  | nil => intro k d; exact ⟨d, rfl, rfl, rfl⟩
  | cons op rest ih =>
    intro k d
    have ih' := ih (fun o ho => hchan o (List.mem_cons_of_mem _ ho))
    unfold cloneChannelDeclarations
    cases hn : op.getChanName with
    | none => exact ih' k d
    | some name =>
      simp only
      by_cases hs : name ∈ d.symbols
      · rw [if_pos hs]
        exact ih' k d
      · rw [if_neg hs]
        obtain ⟨ch, hch, hname⟩ := hchan op (List.mem_cons_self _ _) name hn
        cases hf : moduleChannels.find? (fun ch => decide (ch.sym_name = name)) with
        | none =>
          have := List.find?_eq_none.1 hf ch hch
          simp [hname] at this
        | some ch1 =>
          simp only
          obtain ⟨d1, h1, h2, h3⟩ := ih' (k + 1)
            { d with
                body := d.body.take k ++ Op.channel { ch1 with uid := d.nextUid } :: d.body.drop k
                nextUid := d.nextUid + 1 }
          refine ⟨d1, h1, h2.trans ?_, h3.trans ?_⟩
          · unfold DeviceOp.tiles
            simp only [List.filterMap_append, List.filterMap_cons]
            rw [← List.filterMap_append, List.take_append_drop]
          · unfold DeviceOp.cores
            simp only [List.filterMap_append, List.filterMap_cons]
            rw [← List.filterMap_append, List.take_append_drop]

/-- The two loops of `outlineAIECores` visit the positions of
`herdPositions` in order. -/
theorem foldl_herdPositions {σ : Type} (f : Nat → Nat → σ → σ) (numCols : Nat)
    (rows : List Nat) :
    ∀ st : σ, rows.foldl (fun st y => (List.range numCols).foldl (fun st x => f x y st) st) st =
      (rows.flatMap (fun y => (List.range numCols).map (fun x => (x, y)))).foldl
        (fun st p => f p.1 p.2 st) st := by
  induction rows with
  | nil => intro st; rfl
  | cons y rest ih =>
    intro st
    rw [List.foldl_cons, List.flatMap_cons, List.foldl_append, ih, List.foldl_map]

/-- The number of positions of a herd. -/
theorem length_herdPositions (numCols numRows : Nat) :
    (herdPositions numCols numRows).length = numCols * numRows := by
  unfold herdPositions
  induction numRows with
  | zero => rfl
  | succ n ih =>
    rw [List.range_succ, List.flatMap_append, List.length_append, ih]
    simp [Nat.mul_succ]

/-- The positions of a herd are within its size. -/
theorem mem_herdPositions (numCols numRows : Nat) (p : Nat × Nat)
    (hp : p ∈ herdPositions numCols numRows) : p.1 < numCols ∧ p.2 < numRows := by
  unfold herdPositions at hp
  simp only [List.mem_flatMap, List.mem_range, List.mem_map] at hp
  obtain ⟨y, hy, x, hx, rfl⟩ := hp
  exact ⟨hx, hy⟩

/-- The positions of a herd are distinct. -/
theorem nodup_herdPositions (numCols numRows : Nat) :
    (herdPositions numCols numRows).Nodup := by
  unfold herdPositions
  rw [List.nodup_flatMap]
  constructor
  · intro y _
    exact (List.nodup_range numCols).map (fun a b hab => (Prod.mk.inj hab).1)
  · refine List.Pairwise.imp ?_ (List.nodup_range numRows)
    intro a b hab p hpa hpb
    simp only [List.mem_map, List.mem_range] at hpa hpb
    obtain ⟨_, _, rfl⟩ := hpa
    obtain ⟨_, _, hq⟩ := hpb
    exact hab (Prod.mk.inj hq).2.symm

/-- A value in the range of a 32-bit `int` is its own conversion. -/
theorem toInt32_of_range (v : Int) (h1 : -2 ^ 31 ≤ v) (h2 : v < 2 ^ 31) : toInt32 v = v := by
  unfold toInt32
  omega

/-- The loops of `outlineAIECores` over positions with distinct physical
positions, none of which has a tile yet: the cores of the device afterwards
are, in some order, the cores from before and one outlined core for every
position. -/
theorem outlineCore_run (segment_name : String) (h : HerdOp) (options : AIRToAIEOptions)
    (col_offset row_offset : Int) (hids : h.argumentIds.Nodup)
    (hres : ∀ o ∈ h.body, ∀ r ∈ o.results, r.id ∉ h.argumentIds)
    (hterm : ∃ ops t, h.body = ops ++ [t] ∧ t.kind = OpKind.herdTerminator ∧
      ∀ o ∈ ops, o.kind ≠ OpKind.herdTerminator) :
    ∀ (ps done : List (Nat × Nat)) (d : DeviceOp) (m : TileToHerdMap),
      (∀ t ∈ d.tiles, ∃ q ∈ done,
        t.col = toInt32 ((q.1 : Int) + col_offset) ∧
        t.row = toInt32 ((q.2 : Int) + row_offset)) →
      (∀ c ∈ d.cores, c.tile ∈ d.tiles) →
      (∀ c ∈ d.cores, c.uid < d.nextUid) →
      (∃ cs, d.cores.Perm cs ∧ List.Forall₂ (fun (c : CoreOp) (q : Nat × Nat) =>
        c.Outlines h options (toInt32 ((q.1 : Int) + col_offset))
          (toInt32 ((q.2 : Int) + row_offset)) q.1 q.2) cs done) →
      (∀ p ∈ ps, ∀ q ∈ done,
        ¬ (toInt32 ((p.1 : Int) + col_offset) = toInt32 ((q.1 : Int) + col_offset) ∧
           toInt32 ((p.2 : Int) + row_offset) = toInt32 ((q.2 : Int) + row_offset))) →
      ps.Pairwise (fun p q =>
        ¬ (toInt32 ((p.1 : Int) + col_offset) = toInt32 ((q.1 : Int) + col_offset) ∧
           toInt32 ((p.2 : Int) + row_offset) = toInt32 ((q.2 : Int) + row_offset))) →
      ∃ cs, (ps.foldl (fun st p =>
          outlineCore segment_name h options col_offset row_offset p.1 p.2 st) (d, m)).1.cores.Perm
          cs ∧
        List.Forall₂ (fun (c : CoreOp) (q : Nat × Nat) =>
          c.Outlines h options (toInt32 ((q.1 : Int) + col_offset))
            (toInt32 ((q.2 : Int) + row_offset)) q.1 q.2) cs (done ++ ps) := by
  intro ps
  induction ps with
  | nil =>
    intro done d m _ _ _ hcs _ _
    rw [List.append_nil]
    exact hcs
  | cons p ps ih =>
    intro done d m htiles hon huid hcs hdist hpair
    obtain ⟨cs, hperm, hall⟩ := hcs
    rw [List.pairwise_cons] at hpair
    have hfree : ∀ t ∈ d.tiles,
        ¬ (t.col = toInt32 ((p.1 : Int) + col_offset) ∧
           t.row = toInt32 ((p.2 : Int) + row_offset)) := by
      intro t ht hcr
      obtain ⟨q, hq, hc, hr⟩ := htiles t ht
      exact hdist p (List.mem_cons_self _ _) q hq ⟨hcr.1.symm.trans hc, hcr.2.symm.trans hr⟩
    obtain ⟨c_new, hc1, hc2, hc3, hc4⟩ := outlineCore_new segment_name h options col_offset
      row_offset p.1 p.2 d m hids hres hterm hfree hon huid
    rw [List.foldl_cons]
    have hstep : outlineCore segment_name h options col_offset row_offset p.1 p.2 (d, m) =
        ((outlineCore segment_name h options col_offset row_offset p.1 p.2 (d, m)).1,
         (outlineCore segment_name h options col_offset row_offset p.1 p.2 (d, m)).2) := rfl
    rw [hstep]
    have hres := ih (done ++ [p])
      (outlineCore segment_name h options col_offset row_offset p.1 p.2 (d, m)).1
      (outlineCore segment_name h options col_offset row_offset p.1 p.2 (d, m)).2
      (by
        intro t ht
        rcases List.mem_cons.1 (hc3.subset ht) with ht | ht
        · refine ⟨p, List.mem_append_right _ (List.mem_singleton_self _), ?_, ?_⟩
          · rw [ht]; exact hc2.1
          · rw [ht]; exact hc2.2.1
        · obtain ⟨q, hq, hcr⟩ := htiles t ht
          exact ⟨q, List.mem_append_left _ hq, hcr⟩)
      (by
        intro c hc
        rcases List.mem_cons.1 (hc1.subset hc) with hc | hc
        · rw [hc]
          exact hc3.symm.subset (List.mem_cons_self _ _)
        · exact hc3.symm.subset (List.mem_cons_of_mem _ (hon c hc)))
      hc4
      ⟨cs ++ [c_new],
        hc1.trans (((List.Perm.cons c_new hperm)).trans (List.perm_append_singleton _ _).symm),
        List.rel_append hall (List.Forall₂.cons hc2 List.Forall₂.nil)⟩
      (by
        intro p1 hp1 q hq
        rcases List.mem_append.1 hq with hq | hq
        · exact hdist p1 (List.mem_cons_of_mem _ hp1) q hq
        · rw [List.mem_singleton.1 hq]
          intro hsame
          exact hpair.1 p1 hp1 ⟨hsame.1.symm, hsame.2.symm⟩)
      hpair.2
    rw [List.append_assoc] at hres
    exact hres

/-- A relation between two lists can be weakened at the members of the second
list. -/
theorem forall₂_imp_of_mem {α β : Type} {R S : α → β → Prop} {l1 : List α} {l2 : List β}
    (h : List.Forall₂ R l1 l2) (himp : ∀ a b, b ∈ l2 → R a b → S a b) :
    List.Forall₂ S l1 l2 := by
  induction h with
  | nil => exact List.Forall₂.nil
  | cons hab _ ih =>
    exact List.Forall₂.cons (himp _ _ (List.mem_cons_self _ _) hab)
      (ih (fun a b hb => himp a b (List.mem_cons_of_mem _ hb)))

/-! ## Theorems: outlining of herds -/

/-- Claim C11. A herd of `numCols` by `numRows` positions whose offset is
`(col0, row0)` (that of its attributes, or else that of the options), whose
body ends with its one terminator and defines none of the block arguments of
the herd, outlined into a device with an empty body: `outlineAIECores`
returns, the device has exactly `numCols * numRows` cores, and these are, in
some order, one core for every position `(x, y)` of the herd, on the tile
`(col0 + x, row0 + y)`. The body of that core is three blocks: the second
starts with the constants `x`, `y`, `numCols` and `numRows`, and the third
holds, in order, one operation for every operation of the body of the herd
but its terminator, of the same kind, in which every use of the two ids of
the herd is the constant `x` or `y` and every use of its two sizes is the
constant `numCols` or `numRows` (`CoreOp.Outlines`). -/
theorem outlineAIECores_one_core_per_position (segment_name : String)
    (moduleChannels : List ChannelOp) (aie_device : DeviceOp) (h : HerdOp)
    (tileToHerdMap : TileToHerdMap) (options : AIRToAIEOptions)
    (hempty : aie_device.body = [])
    (hchan : ∀ op ∈ h.body, ∀ name, op.getChanName = some name →
      ∃ ch ∈ moduleChannels, ch.sym_name = name)
    (hids : h.argumentIds.Nodup)
    (hres : ∀ o ∈ h.body, ∀ r ∈ o.results, r.id ∉ h.argumentIds)
    (hterm : ∃ ops t, h.body = ops ++ [t] ∧ t.kind = OpKind.herdTerminator ∧
      ∀ o ∈ ops, o.kind ≠ OpKind.herdTerminator)
    (hcol : -2 ^ 31 ≤ h.colOffset.getD options.col_offset ∧
      h.colOffset.getD options.col_offset + h.numCols.toNat ≤ 2 ^ 31)
    (hrow : -2 ^ 31 ≤ h.rowOffset.getD options.row_offset ∧
      h.rowOffset.getD options.row_offset + h.numRows.toNat ≤ 2 ^ 31) :
    ∃ (d : DeviceOp) (m : TileToHerdMap) (h1 : HerdOp) (cs : List CoreOp),
      outlineAIECores segment_name moduleChannels aie_device h tileToHerdMap options =
        .ok (d, m, h1) ∧
      d.cores.length = h.numCols.toNat * h.numRows.toNat ∧
      d.cores.Perm cs ∧
      List.Forall₂ (fun (c : CoreOp) (p : Nat × Nat) =>
        c.Outlines h options ((p.1 : Int) + h.colOffset.getD options.col_offset)
          ((p.2 : Int) + h.rowOffset.getD options.row_offset) p.1 p.2)
        cs (herdPositions h.numCols.toNat h.numRows.toNat) := by
  obtain ⟨d1, hd1, ht1, hc1⟩ := cloneChannelDeclarations_spec moduleChannels h.body hchan 0
    aie_device
  have ht0 : aie_device.tiles = [] := by unfold DeviceOp.tiles; rw [hempty]; rfl
  have hc0 : aie_device.cores = [] := by unfold DeviceOp.cores; rw [hempty]; rfl
  rw [ht0] at ht1
  rw [hc0] at hc1
  have hin : ∀ p ∈ herdPositions h.numCols.toNat h.numRows.toNat,
      toInt32 ((p.1 : Int) + h.colOffset.getD options.col_offset) =
        (p.1 : Int) + h.colOffset.getD options.col_offset ∧
      toInt32 ((p.2 : Int) + h.rowOffset.getD options.row_offset) =
        (p.2 : Int) + h.rowOffset.getD options.row_offset := by
    intro p hp
    obtain ⟨hx, hy⟩ := mem_herdPositions _ _ p hp
    exact ⟨toInt32_of_range _ (by omega) (by omega), toInt32_of_range _ (by omega) (by omega)⟩
  obtain ⟨cs, hperm, hall⟩ := outlineCore_run segment_name
    { h with colOffset := some (h.colOffset.getD options.col_offset)
             rowOffset := some (h.rowOffset.getD options.row_offset) }
    options (h.colOffset.getD options.col_offset) (h.rowOffset.getD options.row_offset) hids hres hterm
    (herdPositions h.numCols.toNat h.numRows.toNat) [] d1 tileToHerdMap
    (by rw [ht1]; intro t ht; exact absurd ht (List.not_mem_nil _))
    (by rw [hc1]; intro c hc; exact absurd hc (List.not_mem_nil _))
    (by rw [hc1]; intro c hc; exact absurd hc (List.not_mem_nil _))
    ⟨[], by rw [hc1], List.Forall₂.nil⟩
    (fun _ _ q hq => absurd hq (List.not_mem_nil _))
    (by
      refine List.Pairwise.imp_of_mem ?_ (nodup_herdPositions _ _)
      intro p q hp hq hne hsame
      rw [(hin p hp).1, (hin p hp).2, (hin q hq).1, (hin q hq).2] at hsame
      apply hne
      have h1 : p.1 = q.1 := by have := hsame.1; omega
      have h2 : p.2 = q.2 := by have := hsame.2; omega
      exact Prod.ext h1 h2)
  rw [List.nil_append] at hall
  have hall' : List.Forall₂ (fun (c : CoreOp) (p : Nat × Nat) =>
      c.Outlines h options ((p.1 : Int) + h.colOffset.getD options.col_offset)
        ((p.2 : Int) + h.rowOffset.getD options.row_offset) p.1 p.2)
      cs (herdPositions h.numCols.toNat h.numRows.toNat) := by
    refine forall₂_imp_of_mem hall ?_
    intro c p hp hout
    rw [(hin p hp).1, (hin p hp).2] at hout
    exact hout
  have hrun : outlineAIECores segment_name moduleChannels aie_device h tileToHerdMap options =
      .ok (((herdPositions h.numCols.toNat h.numRows.toNat).foldl (fun st p =>
              outlineCore segment_name
                { h with colOffset := some (h.colOffset.getD options.col_offset)
                         rowOffset := some (h.rowOffset.getD options.row_offset) }
                options (h.colOffset.getD options.col_offset)
                (h.rowOffset.getD options.row_offset) p.1 p.2 st) (d1, tileToHerdMap)).1,
           ((herdPositions h.numCols.toNat h.numRows.toNat).foldl (fun st p =>
              outlineCore segment_name
                { h with colOffset := some (h.colOffset.getD options.col_offset)
                         rowOffset := some (h.rowOffset.getD options.row_offset) }
                options (h.colOffset.getD options.col_offset)
                (h.rowOffset.getD options.row_offset) p.1 p.2 st) (d1, tileToHerdMap)).2,
           { h with colOffset := some (h.colOffset.getD options.col_offset)
                    rowOffset := some (h.rowOffset.getD options.row_offset) }) := by
    unfold outlineAIECores
    rw [hd1]
    simp only
    rw [foldl_herdPositions]
    rfl
  refine ⟨_, _, _, cs, hrun, ?_, hperm, hall'⟩
  rw [hperm.length_eq, hall'.length_eq, length_herdPositions]

/-- Claim C11 at scenario A: a herd of 2 by 2 positions at the offset `(7, 2)`,
outlined into an empty device. The cores are, in the order of the positions
`(0, 0)`, `(1, 0)`, `(0, 1)`, `(1, 1)`, on the tiles `(7, 2)`, `(8, 2)`,
`(7, 3)`, `(8, 3)`; in the body of the device they stand in the reverse
order, each with its id constants, and in each the addition of the two ids
of the herd uses the constants `x` and `y` of the core, and the call uses the
result of that addition and the constant `2` for the first size. -/
theorem outlineAIECores_one_core_per_position_witness :
    (∃ (d : DeviceOp) (m : TileToHerdMap) (h1 : HerdOp) (cs : List CoreOp),
      outlineAIECores "segment_0" [] (emptyDevice AIEArch.AIE1)
        (plainHerd 2 2 (some 7) (some 2) exampleHerdBody) []
        { col_offset := 0, row_offset := 0, emit_while := false, emit_herd_lock := false } =
        .ok (d, m, h1) ∧
      d.cores.length = 2 * 2 ∧
      d.cores.Perm cs ∧
      List.Forall₂ (fun (c : CoreOp) (p : Nat × Nat) =>
        c.Outlines (plainHerd 2 2 (some 7) (some 2) exampleHerdBody)
          { col_offset := 0, row_offset := 0, emit_while := false, emit_herd_lock := false }
          ((p.1 : Int) + 7) ((p.2 : Int) + 2) p.1 p.2)
        cs [(0, 0), (1, 0), (0, 1), (1, 1)]) ∧
    outlinedCores (outlineAIECores "segment_0" [] (emptyDevice AIEArch.AIE1)
        (plainHerd 2 2 (some 7) (some 2) exampleHerdBody) []
        { col_offset := 0, row_offset := 0, emit_while := false, emit_herd_lock := false }) =
      [((8, 3), [1, 1],
        [[Definer.constantIndex 1, Definer.constantIndex 1],
         [Definer.operation 82, Definer.constantIndex 2], []]),
       ((7, 3), [0, 1],
        [[Definer.constantIndex 0, Definer.constantIndex 1],
         [Definer.operation 60, Definer.constantIndex 2], []]),
       ((8, 2), [1, 0],
        [[Definer.constantIndex 1, Definer.constantIndex 0],
         [Definer.operation 38, Definer.constantIndex 2], []]),
       ((7, 2), [0, 0],
        [[Definer.constantIndex 0, Definer.constantIndex 0],
         [Definer.operation 15, Definer.constantIndex 2], []])] :=
  ⟨outlineAIECores_one_core_per_position "segment_0" [] (emptyDevice AIEArch.AIE1)
    (plainHerd 2 2 (some 7) (some 2) exampleHerdBody) []
    { col_offset := 0, row_offset := 0, emit_while := false, emit_herd_lock := false }
    rfl
    (by
      intro op hop name hn
      simp only [plainHerd, exampleHerdBody, List.mem_cons, List.mem_singleton,
        List.not_mem_nil, or_false] at hop
      rcases hop with rfl | rfl | rfl <;> simp [Operation.getChanName] at hn)
    (by decide)
    (by decide)
    ⟨exampleHerdBody.dropLast, { uid := 113, kind := OpKind.herdTerminator, results := [] },
      rfl, rfl, by decide⟩
    (by simp [plainHerd])
    (by simp [plainHerd]),
   by decide⟩

/-! ## Lemmas: the body of a loop without its tokens -/

end AIRToAIE
